import Mathlib

/-!
# helloworld3d: ASCII ray-cast planet renderer (`hello_world.cpp`)

Shallow embedding of the renderer's geometry and compositing code.

Modelling conventions
* The renderer and the shading rules are embedded with `double` modelled by `ℝ`
  (exact arithmetic: no rounding, no NaN, no infinities); `std::sqrt`, `std::sin`,
  `std::cos`, `std::tan`, `std::asin` are `Real.sqrt`, `Real.sin`, `Real.cos`,
  `Real.tan`, `Real.arcsin`, and `std::atan2 y x` is the argument of the complex
  number `x + y i`. Statements proved of these definitions alone are marked
  "exact real arithmetic".
* The numeric kernels `Vec3::length`, `Vec3::normalize`, `rotate`, `Earth::isLand`,
  `Earth::rotate` and `Earth::intersectRay` are embedded a second time in double
  precision (`Dbl`, `Vec3D`, names ending in `D`): every `+`, `-`, `*`, `/` and
  `std::sqrt` returns the exact result rounded to the nearest binary64 value, ties
  to even, with subnormal numbers, overflow to an infinity, and NaN; the two zeros
  are not distinguished. The results of `std::sin`, `std::cos`, `std::asin` and
  `std::atan2` in double precision depend on the C library: the function `rotate`
  in double precision (`rotateD`) takes the values returned by `std::cos(angle)`
  and `std::sin(angle)` as arguments, and the statements about it hold for all
  values within `2^-50` of the exact cosine and sine; `std::asin` and `std::atan2`
  are not modelled in double precision.
* `constexpr double PI` keeps the decimal literal of the source.
* `std::numeric_limits<double>::max()` is the real number `(2^53 - 1) * 2^971`.
* `std::rand` is a stream of natural numbers that is threaded through the
  functions that draw from it.
* The three `std::vector<std::vector<_>>` buffers are functions of the row and
  the column; the code only ever indexes them inside `height × width`.
* Functions with reference out-parameters and a `bool` result return an `Option`.
-/

noncomputable section

/-- The source constant `PI`. -/
def PI : ℝ := 3.14159265358979323846

/-- The value of `std::numeric_limits<double>::max()`. -/
def DBL_MAX : ℝ := (2 ^ 53 - 1) * 2 ^ 971

/-- Model of `std::atan2 y x`: the angle of the point `(x, y)`, in `(-π, π]`, and `0` at the
origin. -/
def atan2 (y x : ℝ) : ℝ := Complex.arg ⟨x, y⟩

/-- Model of `static_cast<int>` on a `double`: truncation toward zero. -/
def truncToInt (x : ℝ) : ℤ := if 0 ≤ x then ⌊x⌋ else ⌈x⌉

namespace Color

def RESET : String := "\x1b[0m"
def BLACK : String := "\x1b[30m"
def RED : String := "\x1b[31m"
def GREEN : String := "\x1b[32m"
def YELLOW : String := "\x1b[33m"
def BLUE : String := "\x1b[34m"
def MAGENTA : String := "\x1b[35m"
def CYAN : String := "\x1b[36m"
def WHITE : String := "\x1b[37m"
def BRIGHT_BLUE : String := "\x1b[94m"
def BRIGHT_GREEN : String := "\x1b[92m"
def BRIGHT_RED : String := "\x1b[91m"
def BRIGHT_YELLOW : String := "\x1b[93m"
def BRIGHT_MAGENTA : String := "\x1b[95m"
def BRIGHT_CYAN : String := "\x1b[96m"
def BRIGHT_WHITE : String := "\x1b[97m"

end Color

/-- The source type `struct Vec3`. -/
@[ext]
structure Vec3 where
  x : ℝ
  y : ℝ
  z : ℝ

namespace Vec3

/-- The default constructor `Vec3()`. -/
def zero : Vec3 := ⟨0, 0, 0⟩

/-- The source operator `operator+`. -/
def add (u v : Vec3) : Vec3 := ⟨u.x + v.x, u.y + v.y, u.z + v.z⟩

/-- The source operator `operator-`. -/
def sub (u v : Vec3) : Vec3 := ⟨u.x - v.x, u.y - v.y, u.z - v.z⟩

/-- The source operator `operator*(double)`. -/
def scale (u : Vec3) (s : ℝ) : Vec3 := ⟨u.x * s, u.y * s, u.z * s⟩

def dot (u v : Vec3) : ℝ := u.x * v.x + u.y * v.y + u.z * v.z

def length (u : Vec3) : ℝ := Real.sqrt (u.x * u.x + u.y * u.y + u.z * u.z)

def normalize (u : Vec3) : Vec3 :=
  let len := u.length
  if len < 1e-10 then Vec3.zero
  else ⟨u.x / len, u.y / len, u.z / len⟩

def cross (u v : Vec3) : Vec3 :=
  ⟨u.y * v.z - u.z * v.y,
   u.z * v.x - u.x * v.z,
   u.x * v.y - u.y * v.x⟩

end Vec3

/-- The free function `rotate` (Rodrigues rotation matrix applied to `v`). -/
def rotate (v axis : Vec3) (angle : ℝ) : Vec3 :=
  let c := Real.cos angle
  let s := Real.sin angle
  let k := 1 - c
  let a := axis.normalize
  let ax := a.x
  let ay := a.y
  let az := a.z
  let m00 := c + k * ax * ax
  let m01 := k * ax * ay - s * az
  let m02 := k * ax * az + s * ay
  let m10 := k * ay * ax + s * az
  let m11 := c + k * ay * ay
  let m12 := k * ay * az - s * ax
  let m20 := k * az * ax - s * ay
  let m21 := k * az * ay + s * ax
  let m22 := c + k * az * az
  ⟨v.x * m00 + v.y * m01 + v.z * m02,
   v.x * m10 + v.y * m11 + v.z * m12,
   v.x * m20 + v.y * m21 + v.z * m22⟩

/-- The source class `Camera`. -/
structure Camera where
  position : Vec3
  lookAt : Vec3
  up : Vec3
  fov : ℝ
  aspectRatio : ℝ

namespace Camera

def rayDirection (cam : Camera) (screenX screenY : ℝ) : Vec3 :=
  let forward := (cam.lookAt.sub cam.position).normalize
  let right := (forward.cross cam.up).normalize
  let trueUp := right.cross forward
  let fovRadians := cam.fov * PI / 180
  let heightAtDist1 := 2 * Real.tan (fovRadians / 2)
  let widthAtDist1 := heightAtDist1 * cam.aspectRatio
  let dir := (forward.add (right.scale (screenX * widthAtDist1))).add
    (trueUp.scale (screenY * heightAtDist1))
  dir.normalize

end Camera

/-- The source class `Earth`; `texture` is the land/ocean grid, rows first. -/
structure Earth where
  radius : ℝ
  position : Vec3
  rotationY : ℝ
  texture : List (List Bool)

namespace Earth

/-- The lookup `Earth::isLand`; `texture[0]` and `texture[latIdx]` are read with the empty row
and `false` standing for an access outside the vector. -/
def isLand (e : Earth) (lat lon : ℝ) : Bool :=
  let latIdx := truncToInt ((lat + 90) / 180 * (e.texture.length : ℝ))
  let lonIdx := truncToInt ((lon + 180) / 360 * (((e.texture.getD 0 []).length : ℕ) : ℝ))
  let latIdx := max 0 (min ((e.texture.length : ℤ) - 1) latIdx)
  let lonIdx := max 0 (min (((e.texture.getD 0 []).length : ℤ) - 1) lonIdx)
  (e.texture.getD latIdx.toNat []).getD lonIdx.toNat false

/-- The method `Earth::intersectRay`: `none` for `return false`, and on `return true` the
values written to `depth`, `hitPoint` and `normal`. -/
def intersectRay (e : Earth) (rayOrigin rayDir : Vec3) : Option (ℝ × Vec3 × Vec3) :=
  let oc := rayOrigin.sub e.position
  let a := rayDir.dot rayDir
  let b := 2 * oc.dot rayDir
  let c := oc.dot oc - e.radius * e.radius
  let discriminant := b * b - 4 * a * c
  if discriminant < 0 then none
  else
    let sqrtDiscriminant := Real.sqrt discriminant
    let t1 := (-b - sqrtDiscriminant) / (2 * a)
    let t2 := (-b + sqrtDiscriminant) / (2 * a)
    let t : ℝ := -1
    let t := if t1 ≥ 0 then t1 else t
    let t := if t2 ≥ 0 ∧ (t < 0 ∨ t2 < t) then t2 else t
    if t < 0 then none
    else
      let hitPoint := rayOrigin.add (rayDir.scale t)
      some (t, hitPoint, (hitPoint.sub e.position).normalize)

/-- The method `Earth::getTextureChar`. -/
def getTextureChar (e : Earth) (hitPoint : Vec3) : Char :=
  let rotatedPoint := rotate (hitPoint.sub e.position) ⟨0, 1, 0⟩ (-e.rotationY)
  let dirFromCenter := rotatedPoint.normalize
  let lat := Real.arcsin dirFromCenter.y * 180 / PI
  let lon := atan2 dirFromCenter.z dirFromCenter.x * 180 / PI
  if e.isLand lat lon then '#' else '~'

end Earth

/-- The well-formed all-ocean surface map, used for concrete instances. -/
def oceanTexture : List (List Bool) := List.replicate 180 (List.replicate 360 false)

/-- Specification predicate: the point `O + t * D` of the ray lies on the sphere of the planet,
that is `|O + t * D - C|^2 = r^2`. -/
def onSphere (e : Earth) (O D : Vec3) (t : ℝ) : Prop :=
  ((O.add (D.scale t)).sub e.position).dot ((O.add (D.scale t)).sub e.position)
    = e.radius * e.radius

/-- The stream of values still to be returned by `std::rand`. -/
abbrev RandStream := ℕ → ℕ

/-- One call of `std::rand`: the value returned and the remaining stream. -/
def rand (g : RandStream) : ℕ × RandStream := (g 0, fun n => g (n + 1))

/-- A counting loop `for (int i = 0; i < n; i++) body`, as a state transformer. -/
def forRange {σ : Type} (n : ℕ) (body : ℕ → σ → σ) (s : σ) : σ :=
  (List.range n).foldl (fun s i => body i s) s

/-- The assignment `buf[y][x] = v` on a buffer. -/
def setCell {α : Type} (buf : ℕ → ℕ → α) (y x : ℕ) (v : α) : ℕ → ℕ → α :=
  fun y' x' => if y' = y ∧ x' = x then v else buf y' x'

/-- The source class `ASCIIRenderer`. -/
structure ASCIIRenderer where
  width : ℕ
  height : ℕ
  frameBuffer : ℕ → ℕ → Char
  colorBuffer : ℕ → ℕ → String
  depthBuffer : ℕ → ℕ → ℝ
  camera : Camera
  useColor : Bool

/-- The expression for `screenX` in the pixel loop of `render`. -/
def screenX (width x : ℕ) : ℝ := 2 * ((x : ℝ) / (width : ℝ)) - 1

/-- The expression for `screenY` in the pixel loop of `render`. -/
def screenY (height y : ℕ) : ℝ := 1 - 2 * ((y : ℝ) / (height : ℝ))

/-- The cloud value computed from the three noise terms in `render` (the same text in the
colour and in the no-colour branch). -/
def cloudValue (lat_rad lon_rad cloudPhase : ℝ) : ℝ :=
  let noise1 := Real.sin (lat_rad * 8 + cloudPhase * 0.5) * Real.cos (lon_rad * 6 + cloudPhase * 0.4)
  let noise2 := Real.sin (lat_rad * 18 - cloudPhase * 0.8) * Real.cos (lon_rad * 14 - cloudPhase * 0.6)
  let noise3 := Real.sin (lat_rad * 30 + cloudPhase * 1.2) * Real.cos (lon_rad * 25 + cloudPhase * 1.0)
  let cloudValue := 0.4 * noise1 + 0.3 * noise2 + 0.3 * noise3
  let cloudValue := cloudValue + 0.3
  max 0 (cloudValue - 0.6) * 2

/-- The `if (useColor)` branch of the pixel body of `render`: the colour tag and the glyph
left in the cell, and the stream after the draw for the city lights. -/
def shadeColor (texChar : Char) (diffuse lat_rad lon_rad cloudPhase : ℝ) (g : RandStream) :
    (String × Char) × RandStream :=
  let cell : String × Char :=
    if texChar = '#' then
      let polarFactor := |lat_rad / (PI / 2)|
      (if polarFactor > 0.7 then Color.BRIGHT_WHITE else Color.BRIGHT_GREEN,
       if diffuse > 0.8 then '%'
       else if diffuse > 0.6 then '&'
       else if diffuse > 0.3 then '$'
       else '#')
    else
      (if diffuse > 0.7 then Color.BRIGHT_BLUE else Color.BLUE,
       if diffuse > 0.8 then '~'
       else if diffuse > 0.6 then '^'
       else '.')
  let cell : String × Char :=
    if diffuse ≥ 0.2 then
      let cv := cloudValue lat_rad lon_rad cloudPhase
      if cv > 0.1 then
        (Color.BRIGHT_WHITE,
         if cv > 0.7 then '@'
         else if cv > 0.3 then '%'
         else '.')
      else cell
    else cell
  if diffuse < 0.2 then
    if texChar = '#' then
      let d := rand g
      ((if d.1 % 25 = 0 then Color.BRIGHT_YELLOW else Color.BLACK, '.'), d.2)
    else ((Color.BLUE, ' '), g)
  else (cell, g)

/-- The `else` (no colour) branch of the pixel body of `render`: the glyph left in the cell. -/
def shadeMono (texChar : Char) (diffuse lat_rad lon_rad cloudPhase : ℝ) : Char :=
  let ch : Char :=
    if texChar = '#' then
      if diffuse > 0.8 then '%'
      else if diffuse > 0.6 then '&'
      else if diffuse > 0.3 then '$'
      else if diffuse ≥ 0.2 then '#'
      else '.'
    else
      if diffuse > 0.8 then '~'
      else if diffuse > 0.6 then '^'
      else if diffuse ≥ 0.2 then '.'
      else ' '
  if diffuse ≥ 0.2 then
    let cv := cloudValue lat_rad lon_rad cloudPhase
    if cv > 0.1 then
      if cv > 0.7 then '@'
      else if cv > 0.3 then '%'
      else '.'
    else ch
  else ch

namespace ASCIIRenderer

/-- The constructor `ASCIIRenderer(w, h, color)`. -/
def create (w h : ℕ) (color : Bool) : ASCIIRenderer where
  width := w
  height := h
  frameBuffer := fun _ _ => ' '
  colorBuffer := fun _ _ => Color.RESET
  depthBuffer := fun _ _ => DBL_MAX
  camera := ⟨⟨0, 0, -8⟩, ⟨0, 0, 0⟩, ⟨0, 1, 0⟩, 45, (w : ℝ) / (h : ℝ) * 0.4⟩
  useColor := color

/-- The body of the two loops of `clearBuffers`. -/
def clearCell (y x : ℕ) (r : ASCIIRenderer) : ASCIIRenderer :=
  { r with
    frameBuffer := setCell r.frameBuffer y x ' '
    colorBuffer := setCell r.colorBuffer y x Color.RESET
    depthBuffer := setCell r.depthBuffer y x DBL_MAX }

def clearBuffers (r : ASCIIRenderer) : ASCIIRenderer :=
  forRange r.height (fun y r => forRange r.width (fun x r => clearCell y x r) r) r

/-- The body of the loop of `renderStars`. -/
def starStep (s : ASCIIRenderer × RandStream) : ASCIIRenderer × RandStream :=
  let r := s.1
  let dx := rand s.2
  let x := dx.1 % r.width
  let dy := rand dx.2
  let y := dy.1 % r.height
  if r.depthBuffer y x = DBL_MAX then
    let db := rand dy.2
    ({ r with
       frameBuffer := setCell r.frameBuffer y x (if db.1 % 10 = 0 then '+' else '.')
       colorBuffer := setCell r.colorBuffer y x Color.WHITE }, db.2)
  else (r, dy.2)

def renderStars (s : ASCIIRenderer × RandStream) : ASCIIRenderer × RandStream :=
  forRange (s.1.width * s.1.height / 100) (fun _ s => starStep s) s

/-- The body of the pixel loops of `render`. -/
def renderPixel (earth : Earth) (lightDir : Vec3) (cloudPhase : ℝ) (y x : ℕ)
    (s : ASCIIRenderer × RandStream) : ASCIIRenderer × RandStream :=
  let r := s.1
  let rayDir := r.camera.rayDirection (screenX r.width x) (screenY r.height y)
  match earth.intersectRay r.camera.position rayDir with
  | none => s
  | some (depth, hitPoint, normal) =>
    if depth < r.depthBuffer y x then
      let diffuse := max 0 (normal.dot lightDir)
      let texChar := earth.getTextureChar hitPoint
      let rotatedPoint := rotate (hitPoint.sub earth.position) ⟨0, 1, 0⟩ (-earth.rotationY)
      let dirFromCenter := rotatedPoint.normalize
      let lat_rad := Real.arcsin dirFromCenter.y
      let lon_rad := atan2 dirFromCenter.z dirFromCenter.x
      if r.useColor then
        let c := shadeColor texChar diffuse lat_rad lon_rad cloudPhase s.2
        ({ r with
           frameBuffer := setCell r.frameBuffer y x c.1.2
           colorBuffer := setCell r.colorBuffer y x c.1.1
           depthBuffer := setCell r.depthBuffer y x depth }, c.2)
      else
        ({ r with
           frameBuffer := setCell r.frameBuffer y x
             (shadeMono texChar diffuse lat_rad lon_rad cloudPhase)
           depthBuffer := setCell r.depthBuffer y x depth }, s.2)
    else s

/-- The method `ASCIIRenderer::render`, with the stream of `std::rand` passed in and out. -/
def render (r : ASCIIRenderer) (earth : Earth) (g : RandStream) : ASCIIRenderer × RandStream :=
  let r := r.clearBuffers
  let lightDir :=
    (Vec3.mk (Real.cos earth.rotationY) 0.5 (-Real.sin earth.rotationY)).normalize
  let cloudPhase := earth.rotationY * 0.7
  let s := renderStars (r, g)
  forRange s.1.height
    (fun y s => forRange s.1.width (fun x s => renderPixel earth lightDir cloudPhase y x s) s) s

end ASCIIRenderer

/-- A renderer constructed by `ASCIIRenderer(w, h, color)` whose three buffers hold arbitrary
contents, as left there by earlier frames. -/
def rendererWith (w h : ℕ) (color : Bool) (fb : ℕ → ℕ → Char) (cb : ℕ → ℕ → String)
    (db : ℕ → ℕ → ℝ) : ASCIIRenderer :=
  { ASCIIRenderer.create w h color with frameBuffer := fb, colorBuffer := cb, depthBuffer := db }

/-- The fields of the renderer that no method assigns after construction. -/
def rendererConfig (r : ASCIIRenderer) : ℕ × ℕ × Camera × Bool :=
  (r.width, r.height, r.camera, r.useColor)

/-- The camera ray of the pixel `(x, y)` intersected with the planet, as in the pixel loop of
`render`. -/
def pixelHit (earth : Earth) (cfg : ℕ × ℕ × Camera × Bool) (y x : ℕ) :
    Option (ℝ × Vec3 × Vec3) :=
  earth.intersectRay cfg.2.2.1.position
    (cfg.2.2.1.rayDirection (screenX cfg.1 x) (screenY cfg.2.1 y))

/-- The glyph that the pixel body of `render` writes for a hit with the given hit point and
normal (the glyph does not depend on the draw for the city lights). -/
def pixelGlyph (earth : Earth) (lightDir : Vec3) (cloudPhase : ℝ) (useColor : Bool)
    (hitPoint normal : Vec3) : Char :=
  let diffuse := max 0 (normal.dot lightDir)
  let texChar := earth.getTextureChar hitPoint
  let rotatedPoint := rotate (hitPoint.sub earth.position) ⟨0, 1, 0⟩ (-earth.rotationY)
  let dirFromCenter := rotatedPoint.normalize
  let lat_rad := Real.arcsin dirFromCenter.y
  let lon_rad := atan2 dirFromCenter.z dirFromCenter.x
  if useColor then (shadeColor texChar diffuse lat_rad lon_rad cloudPhase (fun _ => 0)).1.2
  else shadeMono texChar diffuse lat_rad lon_rad cloudPhase

/-- The glyph and the depth that the pixel body of `render` leaves in the cell `(x, y)` that
held the glyph and the depth `old`. -/
def pixelCell (earth : Earth) (lightDir : Vec3) (cloudPhase : ℝ)
    (cfg : ℕ × ℕ × Camera × Bool) (y x : ℕ) (old : Char × ℝ) : Char × ℝ :=
  match pixelHit earth cfg y x with
  | none => old
  | some (depth, hitPoint, normal) =>
    if depth < old.2 then
      (pixelGlyph earth lightDir cloudPhase cfg.2.2.2 hitPoint normal, depth)
    else old

/-- The light direction computed at the start of `render`. -/
def lightDirOf (earth : Earth) : Vec3 :=
  (Vec3.mk (Real.cos earth.rotationY) 0.5 (-Real.sin earth.rotationY)).normalize

/-- The diffuse term computed in the pixel body of `render` for a hit with the given normal. -/
def hitDiffuse (earth : Earth) (normal : Vec3) : ℝ :=
  max 0 (normal.dot (lightDirOf earth))

/-- The value `lat_rad` computed in the pixel body of `render` for a hit point. -/
def hitLat (earth : Earth) (hitPoint : Vec3) : ℝ :=
  Real.arcsin
    (rotate (hitPoint.sub earth.position) ⟨0, 1, 0⟩ (-earth.rotationY)).normalize.y

/-- The value `lon_rad` computed in the pixel body of `render` for a hit point. -/
def hitLon (earth : Earth) (hitPoint : Vec3) : ℝ :=
  atan2 (rotate (hitPoint.sub earth.position) ⟨0, 1, 0⟩ (-earth.rotationY)).normalize.z
    (rotate (hitPoint.sub earth.position) ⟨0, 1, 0⟩ (-earth.rotationY)).normalize.x

/-- The value `cloudValue` computed in the pixel body of `render` for a hit point. -/
def hitCloud (earth : Earth) (hitPoint : Vec3) : ℝ :=
  cloudValue (hitLat earth hitPoint) (hitLon earth hitPoint) (earth.rotationY * 0.7)

/-- Decision table, daylit base rule in colour mode: the colour tag and the glyph chosen from
the surface class, the diffuse term and the latitude. -/
def baseCell (texChar : Char) (diffuse lat_rad : ℝ) : String × Char :=
  if texChar = '#' then
    (if |lat_rad / (PI / 2)| > 0.7 then Color.BRIGHT_WHITE else Color.BRIGHT_GREEN,
     if diffuse > 0.8 then '%'
     else if diffuse > 0.6 then '&'
     else if diffuse > 0.3 then '$'
     else '#')
  else
    (if diffuse > 0.7 then Color.BRIGHT_BLUE else Color.BLUE,
     if diffuse > 0.8 then '~'
     else if diffuse > 0.6 then '^'
     else '.')

/-- Decision table, daylit base rule without colour: the glyph chosen from the surface class
and a diffuse term that is at least `0.2`. -/
def baseGlyphMono (texChar : Char) (diffuse : ℝ) : Char :=
  if texChar = '#' then
    if diffuse > 0.8 then '%'
    else if diffuse > 0.6 then '&'
    else if diffuse > 0.3 then '$'
    else '#'
  else
    if diffuse > 0.8 then '~'
    else if diffuse > 0.6 then '^'
    else '.'

/-- Decision table, cloud rule: the colour tag and the glyph of a cloud of the given value. -/
def cloudCell (cv : ℝ) : String × Char :=
  (Color.BRIGHT_WHITE,
   if cv > 0.7 then '@'
   else if cv > 0.3 then '%'
   else '.')

/-- Decision table, night rule: the colour tag and the glyph of an unlit hit, `draw` being the
value returned by `std::rand` for the city lights of a land hit. -/
def nightCell (texChar : Char) (draw : ℕ) : String × Char :=
  if texChar = '#' then (if draw % 25 = 0 then Color.BRIGHT_YELLOW else Color.BLACK, '.')
  else (Color.BLUE, ' ')

/-- The well-formed all-land surface map, used for concrete instances. -/
def landTexture : List (List Bool) := List.replicate 180 (List.replicate 360 true)

/-- A planet of radius 1 at rotation phase 0, placed so that the camera ray of the centre pixel
meets it at the origin with the surface normal `n` (for a unit `n` with `n.z ≤ 0`); used for
concrete instances. -/
def unitScene (n : Vec3) (texture : List (List Bool)) : Earth :=
  ⟨1, ⟨-n.x, -n.y, -n.z⟩, 0, texture⟩

/-- A unit normal whose dot product with the light direction of phase 0 is exactly `0.2`; used
for a concrete instance at the night threshold. -/
def twilightNormal : Vec3 :=
  ⟨0.2 * (lightDirOf ⟨1, ⟨0, 0, 0⟩, 0, []⟩).x, 0.2 * (lightDirOf ⟨1, ⟨0, 0, 0⟩, 0, []⟩).y,
   -Real.sqrt 0.96⟩

/-- Two renderers agree on everything but the colour mode and the colour tags. -/
def ASCIIRenderer.sameGlyphs (r r' : ASCIIRenderer) : Prop :=
  r.frameBuffer = r'.frameBuffer ∧ r.depthBuffer = r'.depthBuffer ∧ r.width = r'.width ∧
    r.height = r'.height

/-- A counting loop `for (int v = lo; v < hi; v++) body` over machine integers, as a state
transformer. -/
def forInt {σ : Type} (lo hi : ℤ) (body : ℤ → σ → σ) (s : σ) : σ :=
  forRange (hi - lo).toNat (fun i s => body (lo + (i : ℤ)) s) s

/-- The distance `std::sqrt(latDist * latDist + lonDist * lonDist)` of a cell from the centre of
a blob, in units of the blob size (`createSimplifiedTexture`). -/
def blobDistance (centerLat centerLon size lat lon : ℤ) : ℝ :=
  let latDist := ((lat - centerLat : ℤ) : ℝ) / ((size : ℤ) : ℝ)
  let lonDist := ((lon - centerLon : ℤ) : ℝ) / ((size : ℤ) : ℝ)
  Real.sqrt (latDist * latDist + lonDist * lonDist)

/-- The test `distance < 0.8 + noise` of the continent loop. -/
def continentTest (centerLat centerLon size lat lon : ℤ) : Prop :=
  let noise := 0.3 * Real.sin ((lat : ℝ) * 0.1) * Real.cos ((lon : ℝ) * 0.1)
  let noise := noise + 0.2 * Real.sin ((lat : ℝ) * 0.2 + 0.5) * Real.cos ((lon : ℝ) * 0.2 + 0.3)
  let noise := noise + 0.1 * Real.sin ((lat : ℝ) * 0.4 + 1.0) * Real.cos ((lon : ℝ) * 0.4 + 0.7)
  blobDistance centerLat centerLon size lat lon < 0.8 + noise

/-- The test `distance < 0.7 + noise` of the island loop. -/
def islandTest (centerLat centerLon size lat lon : ℤ) : Prop :=
  let noise := 0.2 * Real.sin ((lat : ℝ) * 0.3) * Real.cos ((lon : ℝ) * 0.3)
  blobDistance centerLat centerLon size lat lon < 0.7 + noise

/-- The test `distance < 0.8` of the lake loop. -/
def lakeTest (centerLat centerLon size lat lon : ℤ) : Prop :=
  blobDistance centerLat centerLon size lat lon < 0.8

open Classical in
/-- The two nested loops over the bounding box of a blob, common to the continent, island and
lake passes of `createSimplifiedTexture`: rows outside `[0, 180)` are skipped, the column is
wrapped by `(lon + 360) % 360` (the truncating `%` of C++), and the cells that pass `test` are
assigned `value`. -/
def stampBlob (test : ℤ → ℤ → ℤ → ℤ → ℤ → Prop) (value : Bool) (centerLat centerLon size : ℤ)
    (t : ℕ → ℕ → Bool) : ℕ → ℕ → Bool :=
  forInt (centerLat - size) (centerLat + size)
    (fun lat t =>
      if lat < 0 ∨ lat ≥ 180 then t
      else
        forInt (centerLon - size) (centerLon + size)
          (fun lon t =>
            let wrappedLon := (lon + 360).tmod 360
            if test centerLat centerLon size lat lon then
              setCell t lat.toNat wrappedLon.toNat value
            else t) t) t

/-- The body of the continent loop (5 blobs) of `createSimplifiedTexture`. -/
def continentStep (s : (ℕ → ℕ → Bool) × RandStream) : (ℕ → ℕ → Bool) × RandStream :=
  let d1 := rand s.2
  let centerLat : ℤ := 30 + ((d1.1 % 120 : ℕ) : ℤ)
  let d2 := rand d1.2
  let centerLon : ℤ := ((d2.1 % 360 : ℕ) : ℤ)
  let d3 := rand d2.2
  let size : ℤ := 15 + ((d3.1 % 20 : ℕ) : ℤ)
  (stampBlob continentTest true centerLat centerLon size s.1, d3.2)

/-- The body of the island loop (12 blobs) of `createSimplifiedTexture`. -/
def islandStep (s : (ℕ → ℕ → Bool) × RandStream) : (ℕ → ℕ → Bool) × RandStream :=
  let d1 := rand s.2
  let centerLat : ℤ := 20 + ((d1.1 % 140 : ℕ) : ℤ)
  let d2 := rand d1.2
  let centerLon : ℤ := ((d2.1 % 360 : ℕ) : ℤ)
  let d3 := rand d2.2
  let size : ℤ := 3 + ((d3.1 % 5 : ℕ) : ℤ)
  (stampBlob islandTest true centerLat centerLon size s.1, d3.2)

/-- The north polar cap loop of `createSimplifiedTexture` (rows 0 to 19). -/
def northCap (t : ℕ → ℕ → Bool) : ℕ → ℕ → Bool :=
  forRange 20 (fun lat t =>
    forRange 360 (fun lon t =>
      let noise := 0.2 * Real.sin ((lon : ℝ) * 0.1)
      if (lat : ℝ) < 15 + noise * 5 then setCell t lat lon true else t) t) t

/-- The south polar cap loop of `createSimplifiedTexture` (rows 160 to 179). -/
def southCap (t : ℕ → ℕ → Bool) : ℕ → ℕ → Bool :=
  forRange (180 - 160) (fun i t =>
    forRange 360 (fun lon t =>
      let noise := 0.2 * Real.sin ((lon : ℝ) * 0.1)
      if ((160 + i : ℕ) : ℝ) > 165 - noise * 5 then setCell t (160 + i) lon true else t) t) t

/-- The body of the lake loop (25 blobs) of `createSimplifiedTexture`; a blob whose anchor cell
is out of range or ocean is skipped. -/
def lakeStep (s : (ℕ → ℕ → Bool) × RandStream) : (ℕ → ℕ → Bool) × RandStream :=
  let d1 := rand s.2
  let centerLat : ℤ := 30 + ((d1.1 % 120 : ℕ) : ℤ)
  let d2 := rand d1.2
  let centerLon : ℤ := ((d2.1 % 360 : ℕ) : ℤ)
  let d3 := rand d2.2
  let size : ℤ := 2 + ((d3.1 % 8 : ℕ) : ℤ)
  if centerLat < 0 ∨ centerLat ≥ 180 ∨ centerLon < 0 ∨ centerLon ≥ 360
      ∨ s.1 centerLat.toNat centerLon.toNat = false then (s.1, d3.2)
  else (stampBlob lakeTest false centerLat centerLon size s.1, d3.2)

/-- The method `Earth::createSimplifiedTexture` on a freshly constructed planet: the map as a
function of the row and the column, and the stream of `std::rand` after the generation; `g` is
the stream that starts at `std::srand(42)`. -/
def createSimplifiedTexture (g : RandStream) : (ℕ → ℕ → Bool) × RandStream :=
  let s0 : (ℕ → ℕ → Bool) × RandStream := (fun _ _ => false, g)
  let s1 := forRange 5 (fun _ s => continentStep s) s0
  let s2 := forRange 12 (fun _ s => islandStep s) s1
  let t3 := northCap s2.1
  let t4 := southCap t3
  forRange 25 (fun _ s => lakeStep s) (t4, s2.2)

/-- The 180 rows of 360 cells of the vector `texture` holding a generated map. -/
def gridToTexture (t : ℕ → ℕ → Bool) : List (List Bool) :=
  (List.range 180).map (fun lat => (List.range 360).map (fun lon => t lat lon))

/-- The constructor `Earth(r, pos)`, with the stream of `std::rand` passed in and out. -/
def Earth.create (r : ℝ) (pos : Vec3) (g : RandStream) : Earth × RandStream :=
  (⟨r, pos, 0, gridToTexture (createSimplifiedTexture g).1⟩, (createSimplifiedTexture g).2)

/-- The column `int wrappedLon = (lon + 360) % 360` of the blob loops of
`createSimplifiedTexture`, with the truncating `%` of C++. -/
def wrappedLon (lon : ℤ) : ℤ := (lon + 360).tmod 360

/-- The renderer and the stream of `std::rand` with which `render` enters the body of the pixel
`(x, y)`: after `clearBuffers`, `renderStars`, the rows above `y` and the pixels of the row `y`
left of `x`. -/
def ASCIIRenderer.pixelEntry (r : ASCIIRenderer) (earth : Earth) (g : RandStream) (y x : ℕ) :
    ASCIIRenderer × RandStream :=
  let s := ASCIIRenderer.renderStars (r.clearBuffers, g)
  let s := forRange y
    (fun y s => forRange s.1.width
      (fun x s => ASCIIRenderer.renderPixel earth (lightDirOf earth) (earth.rotationY * 0.7) y x s)
      s) s
  forRange x
    (fun x s => ASCIIRenderer.renderPixel earth (lightDirOf earth) (earth.rotationY * 0.7) y x s) s

/-! ### Double precision

The definitions above compute in exact arithmetic. The definitions below model the IEEE 754
binary64 arithmetic of the type `double` for the operations `+`, `-`, `*`, `/` and `std::sqrt`,
which round the exact result to the nearest value of the format, ties to even; they are used
for the functions whose behaviour depends on the rounding. The two zeros of the format are
identified: no modelled function divides by zero or takes the sign of a zero. -/

/-- The integer nearest to `q`, the even one of the two when `q` is half-way between them. -/
def roundHalfEven (q : ℝ) : ℤ :=
  if q - ⌊q⌋ < 1 / 2 then ⌊q⌋
  else if 1 / 2 < q - ⌊q⌋ then ⌊q⌋ + 1
  else if Even ⌊q⌋ then ⌊q⌋ else ⌊q⌋ + 1

/-- The exponent of the unit in the last place of binary64 at `x`: 52 below the exponent of `x`,
and `-1074` in the subnormal range. -/
def ulpExp (x : ℝ) : ℤ := max (Int.log 2 |x|) (-1022) - 52

/-- Rounding to the nearest binary64 value, ties to even, for an unbounded exponent range
upwards (overflow is decided by `Dbl.round`). -/
def rnd (x : ℝ) : ℝ := (roundHalfEven (x / 2 ^ ulpExp x) : ℝ) * 2 ^ ulpExp x

/-- A value of the type `double`: a finite number, an infinity or a NaN. -/
inductive Dbl
  | fin (x : ℝ)
  | pinf
  | ninf
  | nan

namespace Dbl

/-- The `double` that an operation with the exact result `x` returns: the rounded value, or the
infinity of the sign of `x` when the rounded value does not fit the exponent range. -/
def round (x : ℝ) : Dbl :=
  if (2 : ℝ) ^ (1024 : ℤ) ≤ |rnd x| then (if 0 < x then pinf else ninf) else fin (rnd x)

/-- The source operator `+` on `double`. -/
def add : Dbl → Dbl → Dbl
  | fin a, fin b => round (a + b)
  | fin _, pinf => pinf
  | fin _, ninf => ninf
  | pinf, fin _ => pinf
  | pinf, pinf => pinf
  | ninf, fin _ => ninf
  | ninf, ninf => ninf
  | _, _ => nan

/-- The source operator `-` on `double`. -/
def sub : Dbl → Dbl → Dbl
  | fin a, fin b => round (a - b)
  | fin _, pinf => ninf
  | fin _, ninf => pinf
  | pinf, fin _ => pinf
  | pinf, ninf => pinf
  | ninf, fin _ => ninf
  | ninf, pinf => ninf
  | _, _ => nan

/-- The source operator `*` on `double`. -/
def mul : Dbl → Dbl → Dbl
  | fin a, fin b => round (a * b)
  | fin a, pinf => if a = 0 then nan else if 0 < a then pinf else ninf
  | fin a, ninf => if a = 0 then nan else if 0 < a then ninf else pinf
  | pinf, fin b => if b = 0 then nan else if 0 < b then pinf else ninf
  | ninf, fin b => if b = 0 then nan else if 0 < b then ninf else pinf
  | pinf, pinf => pinf
  | pinf, ninf => ninf
  | ninf, pinf => ninf
  | ninf, ninf => pinf
  | _, _ => nan

/-- The source operator `/` on `double`; for a zero divisor the zero is taken as positive. -/
def div : Dbl → Dbl → Dbl
  | fin a, fin b =>
    if b = 0 then (if a = 0 then nan else if 0 < a then pinf else ninf) else round (a / b)
  | fin _, pinf => fin 0
  | fin _, ninf => fin 0
  | pinf, fin b => if 0 ≤ b then pinf else ninf
  | ninf, fin b => if 0 ≤ b then ninf else pinf
  | _, _ => nan

/-- The function `std::sqrt` on `double`. -/
def sqrt : Dbl → Dbl
  | fin a => if a < 0 then nan else round (Real.sqrt a)
  | pinf => pinf
  | _ => nan

/-- The source comparison `<` on `double`. -/
def lt : Dbl → Dbl → Prop
  | fin a, fin b => a < b
  | fin _, pinf => True
  | ninf, fin _ => True
  | ninf, pinf => True
  | _, _ => False

/-- The source comparison `>=` on `double`. -/
def ge : Dbl → Dbl → Prop
  | fin a, fin b => a ≥ b
  | pinf, fin _ => True
  | fin _, ninf => True
  | pinf, pinf => True
  | pinf, ninf => True
  | ninf, ninf => True
  | _, _ => False

/-- The conversion `static_cast<int>` of a `double`: truncation toward zero, undefined (`none`)
when the truncated value is not a 32-bit `int`. -/
def toInt : Dbl → Option ℤ
  | fin x => if -(2 : ℝ) ^ 31 - 1 < x ∧ x < (2 : ℝ) ^ 31 then some (truncToInt x) else none
  | _ => none

end Dbl

/-- The source type `struct Vec3` with its components in double precision. -/
structure Vec3D where
  x : Dbl
  y : Dbl
  z : Dbl

namespace Vec3D

/-- The method `Vec3::length` in double precision. -/
def length (v : Vec3D) : Dbl :=
  Dbl.sqrt (Dbl.add (Dbl.add (Dbl.mul v.x v.x) (Dbl.mul v.y v.y)) (Dbl.mul v.z v.z))

open Classical in
/-- The method `Vec3::normalize` in double precision; `1e-10` is the `double` nearest to the
decimal literal. -/
def normalize (v : Vec3D) : Vec3D :=
  let len := v.length
  if Dbl.lt len (Dbl.round 1e-10) then ⟨Dbl.fin 0, Dbl.fin 0, Dbl.fin 0⟩
  else ⟨Dbl.div v.x len, Dbl.div v.y len, Dbl.div v.z len⟩

end Vec3D

/-- The lookup `Earth::isLand` in double precision: `none` when a conversion to `int` is
undefined; `texture.size()` is converted to `double` for the product. As in `Earth.isLand`,
`texture[0]` and `texture[latIdx]` are read with the empty row and `false` standing for an
access outside the vector. -/
def Earth.isLandD (e : Earth) (lat lon : Dbl) : Option Bool :=
  match Dbl.toInt (Dbl.mul (Dbl.div (Dbl.add lat (Dbl.round 90)) (Dbl.round 180))
      (Dbl.round (e.texture.length : ℝ))),
    Dbl.toInt (Dbl.mul (Dbl.div (Dbl.add lon (Dbl.round 180)) (Dbl.round 360))
      (Dbl.round (((e.texture.getD 0 []).length : ℕ) : ℝ))) with
  | some latIdx, some lonIdx =>
    let latIdx := max 0 (min ((e.texture.length : ℤ) - 1) latIdx)
    let lonIdx := max 0 (min (((e.texture.getD 0 []).length : ℤ) - 1) lonIdx)
    some ((e.texture.getD latIdx.toNat []).getD lonIdx.toNat false)
  | _, _ => none

/-- The value of `2.0 * PI` in double precision. -/
def twoPiD : Dbl := Dbl.mul (Dbl.round 2) (Dbl.round PI)

open Classical in
/-- The loop `while (rotationY >= 2.0 * PI) rotationY -= 2.0 * PI;` of `Earth::rotate` in
double precision: `none` when the loop has not ended after `fuel` runs of its body. -/
def subLoopD : ℕ → Dbl → Option Dbl
  | 0, r => if Dbl.ge r twoPiD then none else some r
  | fuel + 1, r => if Dbl.ge r twoPiD then subLoopD fuel (Dbl.sub r twoPiD) else some r

open Classical in
/-- The loop `while (rotationY < 0.0) rotationY += 2.0 * PI;` of `Earth::rotate` in double
precision: `none` when the loop has not ended after `fuel` runs of its body. -/
def addLoopD : ℕ → Dbl → Option Dbl
  | 0, r => if Dbl.lt r (Dbl.round 0) then none else some r
  | fuel + 1, r => if Dbl.lt r (Dbl.round 0) then addLoopD fuel (Dbl.add r twoPiD) else some r

/-- The method `Earth::rotate` in double precision, as a function of the stored phase
`rotationY` and of the argument: the new phase, or `none` when one of the two loops has not
ended after `fuel` runs of its body. -/
def Earth.rotateD (fuel : ℕ) (rotationY angleDegrees : Dbl) : Option Dbl :=
  let r := Dbl.add rotationY (Dbl.div (Dbl.mul angleDegrees (Dbl.round PI)) (Dbl.round 180))
  (subLoopD fuel r).bind (addLoopD fuel)

/-- A well-formed surface map whose only land is the column 63; used for a concrete instance. -/
def meridianTexture : List (List Bool) := gridToTexture (fun _ lon => decide (lon = 63))

namespace Dbl

/-- The source operator unary `-` on `double`. -/
def neg : Dbl → Dbl
  | fin a => fin (-a)
  | pinf => ninf
  | ninf => pinf
  | nan => nan

end Dbl

namespace Vec3D

/-- The source operator `operator+` in double precision. -/
def add (u v : Vec3D) : Vec3D := ⟨Dbl.add u.x v.x, Dbl.add u.y v.y, Dbl.add u.z v.z⟩

/-- The source operator `operator-` in double precision. -/
def sub (u v : Vec3D) : Vec3D := ⟨Dbl.sub u.x v.x, Dbl.sub u.y v.y, Dbl.sub u.z v.z⟩

/-- The source operator `operator*(double)` in double precision. -/
def scale (u : Vec3D) (s : Dbl) : Vec3D := ⟨Dbl.mul u.x s, Dbl.mul u.y s, Dbl.mul u.z s⟩

/-- The method `Vec3::dot` in double precision. -/
def dot (u v : Vec3D) : Dbl :=
  Dbl.add (Dbl.add (Dbl.mul u.x v.x) (Dbl.mul u.y v.y)) (Dbl.mul u.z v.z)

end Vec3D

/-- The discriminant `b * b - 4 * a * c` computed by `Earth::intersectRay` in double precision
for a planet of the given radius and position. -/
def discriminantD (radius : Dbl) (position rayOrigin rayDir : Vec3D) : Dbl :=
  let oc := rayOrigin.sub position
  let a := rayDir.dot rayDir
  let b := Dbl.mul (Dbl.round 2) (oc.dot rayDir)
  let c := Dbl.sub (oc.dot oc) (Dbl.mul radius radius)
  Dbl.sub (Dbl.mul b b) (Dbl.mul (Dbl.mul (Dbl.round 4) a) c)

/-- The root `t1 = (-b - sqrt(discriminant)) / (2 * a)` computed by `Earth::intersectRay` in
double precision. -/
def rootOneD (radius : Dbl) (position rayOrigin rayDir : Vec3D) : Dbl :=
  let oc := rayOrigin.sub position
  let a := rayDir.dot rayDir
  let b := Dbl.mul (Dbl.round 2) (oc.dot rayDir)
  Dbl.div (Dbl.sub (Dbl.neg b) (Dbl.sqrt (discriminantD radius position rayOrigin rayDir)))
    (Dbl.mul (Dbl.round 2) a)

/-- The root `t2 = (-b + sqrt(discriminant)) / (2 * a)` computed by `Earth::intersectRay` in
double precision. -/
def rootTwoD (radius : Dbl) (position rayOrigin rayDir : Vec3D) : Dbl :=
  let oc := rayOrigin.sub position
  let a := rayDir.dot rayDir
  let b := Dbl.mul (Dbl.round 2) (oc.dot rayDir)
  Dbl.div (Dbl.add (Dbl.neg b) (Dbl.sqrt (discriminantD radius position rayOrigin rayDir)))
    (Dbl.mul (Dbl.round 2) a)

open Classical in
/-- The method `Earth::intersectRay` in double precision, for a planet of the given radius and
position: `none` for `return false`, and on `return true` the values written to `depth`,
`hitPoint` and `normal`. -/
def Earth.intersectRayD (radius : Dbl) (position rayOrigin rayDir : Vec3D) :
    Option (Dbl × Vec3D × Vec3D) :=
  let discriminant := discriminantD radius position rayOrigin rayDir
  if Dbl.lt discriminant (Dbl.round 0) then none
  else
    let t1 := rootOneD radius position rayOrigin rayDir
    let t2 := rootTwoD radius position rayOrigin rayDir
    let t : Dbl := Dbl.neg (Dbl.round 1)
    let t := if Dbl.ge t1 (Dbl.round 0) then t1 else t
    let t := if Dbl.ge t2 (Dbl.round 0) ∧ (Dbl.lt t (Dbl.round 0) ∨ Dbl.lt t2 t) then t2 else t
    if Dbl.lt t (Dbl.round 0) then none
    else
      let hitPoint := rayOrigin.add (rayDir.scale t)
      some (t, hitPoint, (hitPoint.sub position).normalize)


open Classical in
/-- The phase update of the animation loop of `main` in double precision:
`earth.rotationY += rotationSpeed; if (earth.rotationY >= 2.0 * PI) earth.rotationY -= 2.0 * PI;`
with `rotationSpeed = 0.03`. -/
def animationStepD (rotationY : Dbl) : Dbl :=
  let r := Dbl.add rotationY (Dbl.round 0.03)
  if Dbl.ge r twoPiD then Dbl.sub r twoPiD else r


/-- The free function `rotate` in double precision. The arguments `c` and `s` stand for the
values that the library calls `std::cos(angle)` and `std::sin(angle)` return; every other
operation of the function is modelled. -/
def rotateD (v axis : Vec3D) (c s : Dbl) : Vec3D :=
  let k := Dbl.sub (Dbl.round 1) c
  let a := axis.normalize
  let ax := a.x
  let ay := a.y
  let az := a.z
  let m00 := Dbl.add c (Dbl.mul (Dbl.mul k ax) ax)
  let m01 := Dbl.sub (Dbl.mul (Dbl.mul k ax) ay) (Dbl.mul s az)
  let m02 := Dbl.add (Dbl.mul (Dbl.mul k ax) az) (Dbl.mul s ay)
  let m10 := Dbl.add (Dbl.mul (Dbl.mul k ay) ax) (Dbl.mul s az)
  let m11 := Dbl.add c (Dbl.mul (Dbl.mul k ay) ay)
  let m12 := Dbl.sub (Dbl.mul (Dbl.mul k ay) az) (Dbl.mul s ax)
  let m20 := Dbl.sub (Dbl.mul (Dbl.mul k az) ax) (Dbl.mul s ay)
  let m21 := Dbl.add (Dbl.mul (Dbl.mul k az) ay) (Dbl.mul s ax)
  let m22 := Dbl.add c (Dbl.mul (Dbl.mul k az) az)
  ⟨Dbl.add (Dbl.add (Dbl.mul v.x m00) (Dbl.mul v.y m01)) (Dbl.mul v.z m02),
   Dbl.add (Dbl.add (Dbl.mul v.x m10) (Dbl.mul v.y m11)) (Dbl.mul v.z m12),
   Dbl.add (Dbl.add (Dbl.mul v.x m20) (Dbl.mul v.y m21)) (Dbl.mul v.z m22)⟩


/-- The local `rotatedPoint` of `Earth::getTextureChar` in double precision,
`rotate(hitPoint - position, Vec3(0, 1, 0), -rotationY)`: the arguments `c` and `s` stand for
the values that `std::cos(-rotationY)` and `std::sin(-rotationY)` return. -/
def rotatedPointD (position hitPoint : Vec3D) (c s : Dbl) : Vec3D :=
  rotateD (hitPoint.sub position) ⟨Dbl.fin 0, Dbl.fin 1, Dbl.fin 0⟩ c s

end

/-! ## Vector arithmetic -/

namespace Vec3

lemma sumsq_nonneg (u : Vec3) : 0 ≤ u.x * u.x + u.y * u.y + u.z * u.z := by
  nlinarith [mul_self_nonneg u.x, mul_self_nonneg u.y, mul_self_nonneg u.z]

lemma length_nonneg (u : Vec3) : 0 ≤ u.length := Real.sqrt_nonneg _

lemma length_mul_self (u : Vec3) : u.length * u.length = u.x * u.x + u.y * u.y + u.z * u.z :=
  Real.mul_self_sqrt u.sumsq_nonneg

lemma length_eq_sqrt_dot (u : Vec3) : u.length = Real.sqrt (u.dot u) := rfl

lemma normalize_of_lt (u : Vec3) (h : u.length < 1e-10) : u.normalize = ⟨0, 0, 0⟩ := by
  simp only [normalize, if_pos h, zero]

lemma normalize_of_le (u : Vec3) (h : 1e-10 ≤ u.length) :
    u.normalize = ⟨u.x / u.length, u.y / u.length, u.z / u.length⟩ := by
  simp only [normalize, if_neg (not_lt.mpr h)]

/-- A vector that passes the guard of `normalize` is scaled to a vector whose dot product with
itself is one. -/
lemma normalize_sumsq (u : Vec3) (h : 1e-10 ≤ u.length) :
    u.normalize.x * u.normalize.x + u.normalize.y * u.normalize.y
      + u.normalize.z * u.normalize.z = 1 := by
  have hpos : 0 < u.length := lt_of_lt_of_le (by norm_num) h
  have hne : u.length ≠ 0 := ne_of_gt hpos
  rw [normalize_of_le u h]
  have hsq := u.length_mul_self
  field_simp
  linarith

lemma length_of_sumsq_eq {u v : Vec3}
    (h : u.x * u.x + u.y * u.y + u.z * u.z = v.x * v.x + v.y * v.y + v.z * v.z) :
    u.length = v.length := by
  simp only [length, h]

/-- The axis `(0, 1, 0)` used for the planet spin is returned unchanged by `normalize`. -/
lemma normalize_unitY : (Vec3.mk 0 1 0).normalize = ⟨0, 1, 0⟩ := by
  have hlen : (Vec3.mk 0 1 0).length = 1 := by
    simp [length]
  rw [normalize_of_le _ (by rw [hlen]; norm_num), hlen]
  norm_num

end Vec3

/-- The rotation about the spin axis `(0, 1, 0)`, written out. -/
lemma rotate_unitY (p : Vec3) (angle : ℝ) :
    rotate p ⟨0, 1, 0⟩ angle =
      ⟨p.x * Real.cos angle + p.z * Real.sin angle, p.y,
       -(p.x * Real.sin angle) + p.z * Real.cos angle⟩ := by
  simp only [rotate, Vec3.normalize_unitY]
  ext <;> simp

/-- Un-rotating by the same phase about `(0, 1, 0)` gives the point back. -/
lemma rotate_unitY_neg (p : Vec3) (phi : ℝ) :
    rotate (rotate p ⟨0, 1, 0⟩ phi) ⟨0, 1, 0⟩ (-phi) = p := by
  rw [rotate_unitY, rotate_unitY]
  have h := Real.sin_sq_add_cos_sq phi
  ext
  · simp only [Real.cos_neg, Real.sin_neg]
    linear_combination p.x * h
  · simp
  · simp only [Real.cos_neg, Real.sin_neg]
    linear_combination p.z * h

lemma rotate_zero_angle (v axis : Vec3) : rotate v axis 0 = v := by
  simp only [rotate, Real.cos_zero, Real.sin_zero]
  ext <;> simp

/-- The squared length is preserved by `rotate` as soon as the normalized axis is a unit
vector. -/
lemma rotate_sumsq (v axis : Vec3) (angle : ℝ) (h : 1e-10 ≤ axis.length) :
    (rotate v axis angle).x * (rotate v axis angle).x
      + (rotate v axis angle).y * (rotate v axis angle).y
      + (rotate v axis angle).z * (rotate v axis angle).z
      = v.x * v.x + v.y * v.y + v.z * v.z := by
  have hn := Vec3.normalize_sumsq axis h
  have hcs := Real.sin_sq_add_cos_sq angle
  simp only [rotate]
  generalize axis.normalize = a at hn
  generalize Real.cos angle = c at hcs
  generalize Real.sin angle = s at hcs
  obtain ⟨ax, ay, az⟩ := a
  obtain ⟨vx, vy, vz⟩ := v
  simp only at hn ⊢
  linear_combination
    ((vx * vx + vy * vy + vz * vz) - (ax * vx + ay * vy + az * vz) ^ 2) * hcs
    + (s ^ 2 * (vx * vx + vy * vy + vz * vz)
        + (1 - c) ^ 2 * (ax * vx + ay * vy + az * vz) ^ 2) * hn

/-- With the zero axis the matrix of `rotate` is `cos angle` times the identity. -/
lemma rotate_zero_axis (v : Vec3) (angle : ℝ) :
    rotate v ⟨0, 0, 0⟩ angle
      = ⟨v.x * Real.cos angle, v.y * Real.cos angle, v.z * Real.cos angle⟩ := by
  have h0 : (Vec3.mk 0 0 0).normalize = ⟨0, 0, 0⟩ :=
    Vec3.normalize_of_lt _ (by simp only [Vec3.length]; norm_num)
  simp only [rotate, h0]
  ext <;> simp

/-! ## Ray-sphere intersection -/

/-- The two assignments to `t` in `intersectRay`, when the roots are ordered. -/
lemma pickRoot_eq (t1 t2 : ℝ) (h : t1 ≤ t2) :
    (if t2 ≥ 0 ∧ ((if t1 ≥ 0 then t1 else (-1 : ℝ)) < 0 ∨ t2 < (if t1 ≥ 0 then t1 else (-1 : ℝ)))
      then t2 else (if t1 ≥ 0 then t1 else (-1 : ℝ)))
      = if 0 ≤ t1 then t1 else if 0 ≤ t2 then t2 else -1 := by
  by_cases h1 : 0 ≤ t1
  · have h1' : t1 ≥ 0 := h1
    rw [if_pos h1', if_pos h1, if_neg]
    rintro ⟨_, h3 | h3⟩ <;> linarith
  · have h1' : ¬ t1 ≥ 0 := h1
    rw [if_neg h1', if_neg h1]
    by_cases h2 : 0 ≤ t2
    · rw [if_pos h2, if_pos]
      exact ⟨h2, Or.inl (by norm_num)⟩
    · rw [if_neg h2, if_neg]
      rintro ⟨h3, _⟩
      exact h2 h3

namespace Earth

/-- The hit record written by `intersectRay` for the ray parameter `t`. -/
lemma intersectRay_unit (e : Earth) (O D : Vec3) (hD : D.dot D = 1) :
    e.intersectRay O D =
      if 2 * (O.sub e.position).dot D * (2 * (O.sub e.position).dot D)
          - 4 * ((O.sub e.position).dot (O.sub e.position) - e.radius * e.radius) < 0 then none
      else if 0 ≤ (-(2 * (O.sub e.position).dot D)
          - Real.sqrt (2 * (O.sub e.position).dot D * (2 * (O.sub e.position).dot D)
            - 4 * ((O.sub e.position).dot (O.sub e.position) - e.radius * e.radius))) / 2 then
        some ((-(2 * (O.sub e.position).dot D)
          - Real.sqrt (2 * (O.sub e.position).dot D * (2 * (O.sub e.position).dot D)
            - 4 * ((O.sub e.position).dot (O.sub e.position) - e.radius * e.radius))) / 2,
          O.add (D.scale ((-(2 * (O.sub e.position).dot D)
          - Real.sqrt (2 * (O.sub e.position).dot D * (2 * (O.sub e.position).dot D)
            - 4 * ((O.sub e.position).dot (O.sub e.position) - e.radius * e.radius))) / 2)),
          ((O.add (D.scale ((-(2 * (O.sub e.position).dot D)
          - Real.sqrt (2 * (O.sub e.position).dot D * (2 * (O.sub e.position).dot D)
            - 4 * ((O.sub e.position).dot (O.sub e.position) - e.radius * e.radius))) / 2))).sub
              e.position).normalize)
      else if 0 ≤ (-(2 * (O.sub e.position).dot D)
          + Real.sqrt (2 * (O.sub e.position).dot D * (2 * (O.sub e.position).dot D)
            - 4 * ((O.sub e.position).dot (O.sub e.position) - e.radius * e.radius))) / 2 then
        some ((-(2 * (O.sub e.position).dot D)
          + Real.sqrt (2 * (O.sub e.position).dot D * (2 * (O.sub e.position).dot D)
            - 4 * ((O.sub e.position).dot (O.sub e.position) - e.radius * e.radius))) / 2,
          O.add (D.scale ((-(2 * (O.sub e.position).dot D)
          + Real.sqrt (2 * (O.sub e.position).dot D * (2 * (O.sub e.position).dot D)
            - 4 * ((O.sub e.position).dot (O.sub e.position) - e.radius * e.radius))) / 2)),
          ((O.add (D.scale ((-(2 * (O.sub e.position).dot D)
          + Real.sqrt (2 * (O.sub e.position).dot D * (2 * (O.sub e.position).dot D)
            - 4 * ((O.sub e.position).dot (O.sub e.position) - e.radius * e.radius))) / 2))).sub
              e.position).normalize)
      else none := by
  simp only [intersectRay, hD, mul_one]
  generalize 2 * (O.sub e.position).dot D = b
  generalize (O.sub e.position).dot (O.sub e.position) - e.radius * e.radius = c
  by_cases hd : b * b - 4 * c < 0
  · rw [if_pos hd, if_pos hd]
  rw [if_neg hd, if_neg hd]
  have hs : 0 ≤ Real.sqrt (b * b - 4 * c) := Real.sqrt_nonneg _
  generalize Real.sqrt (b * b - 4 * c) = s at hs
  have hle : (-b - s) / 2 ≤ (-b + s) / 2 := by linarith
  rw [pickRoot_eq _ _ hle]
  by_cases h1 : 0 ≤ (-b - s) / 2
  · rw [if_pos h1, if_pos h1, if_neg (not_lt.mpr h1)]
  rw [if_neg h1, if_neg h1]
  by_cases h2 : 0 ≤ (-b + s) / 2
  · rw [if_pos h2, if_pos h2, if_neg (not_lt.mpr h2)]
  rw [if_neg h2, if_neg h2, if_pos (by norm_num)]

/-- On a ray with `D·D = 1` the sphere equation is the quadratic `t^2 + b t + c = 0` of
`intersectRay`. -/
lemma onSphere_iff (e : Earth) (O D : Vec3) (hD : D.dot D = 1) (t : ℝ) :
    onSphere e O D t ↔
      t * t + 2 * (O.sub e.position).dot D * t
        + ((O.sub e.position).dot (O.sub e.position) - e.radius * e.radius) = 0 := by
  simp only [onSphere, Vec3.dot, Vec3.sub, Vec3.add, Vec3.scale] at hD ⊢
  constructor <;> intro h
  · linear_combination h - t * t * hD
  · linear_combination h + t * t * hD

end Earth

namespace Earth

/-- A real solution of `t^2 + b t + c = 0` is one of the two roots computed by
`intersectRay`. -/
lemma root_cases (b c s t : ℝ) (hss : s * s = b * b - 4 * c) (h : t * t + b * t + c = 0) :
    t = (-b - s) / 2 ∨ t = (-b + s) / 2 := by
  have hprod : (t - (-b - s) / 2) * (t - (-b + s) / 2) = 0 := by
    linear_combination h - (1 / 4) * hss
  rcases mul_eq_zero.mp hprod with h1 | h1
  · left; linarith
  · right; linarith

/-- Functional specification of `intersectRay` on a ray with `D·D = 1`: either no point of the
ray with `t ≥ 0` lies on the sphere and the result is `none`, or the result is the hit record
of the smallest such `t`. -/
lemma intersectRay_spec (e : Earth) (O D : Vec3) (hD : D.dot D = 1) :
    ((∀ t, 0 ≤ t → ¬ onSphere e O D t) ∧ e.intersectRay O D = none) ∨
    ∃ d, 0 ≤ d ∧ onSphere e O D d ∧ (∀ t, 0 ≤ t → onSphere e O D t → d ≤ t) ∧
      e.intersectRay O D
        = some (d, O.add (D.scale d), ((O.add (D.scale d)).sub e.position).normalize) := by
  rw [intersectRay_unit e O D hD]
  simp only [onSphere_iff e O D hD]
  generalize 2 * (O.sub e.position).dot D = b
  generalize (O.sub e.position).dot (O.sub e.position) - e.radius * e.radius = c
  by_cases hd : b * b - 4 * c < 0
  · left
    refine ⟨fun t _ h => ?_, by rw [if_pos hd]⟩
    nlinarith [sq_nonneg (2 * t + b)]
  rw [if_neg hd]
  have hs : 0 ≤ Real.sqrt (b * b - 4 * c) := Real.sqrt_nonneg _
  have hss : Real.sqrt (b * b - 4 * c) * Real.sqrt (b * b - 4 * c) = b * b - 4 * c :=
    Real.mul_self_sqrt (not_lt.mp hd)
  generalize Real.sqrt (b * b - 4 * c) = s at hs hss
  by_cases h1 : 0 ≤ (-b - s) / 2
  · right
    refine ⟨(-b - s) / 2, h1, ?_, fun t _ h => ?_, by rw [if_pos h1]⟩
    · linear_combination (1 / 4) * hss
    · rcases root_cases b c s t hss h with h3 | h3 <;> linarith
  rw [if_neg h1]
  by_cases h2 : 0 ≤ (-b + s) / 2
  · right
    refine ⟨(-b + s) / 2, h2, ?_, fun t ht h => ?_, by rw [if_pos h2]⟩
    · linear_combination (1 / 4) * hss
    · rcases root_cases b c s t hss h with h3 | h3
      · exact absurd (h3 ▸ ht) h1
      · linarith
  left
  refine ⟨fun t ht h => ?_, by rw [if_neg h2]⟩
  rcases root_cases b c s t hss h with h3 | h3
  · exact h1 (h3 ▸ ht)
  · exact h2 (h3 ▸ ht)

end Earth

namespace Vec3

lemma dot_self_of_length_eq_one (u : Vec3) (h : u.length = 1) : u.dot u = 1 :=
  Real.sqrt_eq_one.mp h

lemma length_sub_comm (u v : Vec3) : (u.sub v).length = (v.sub u).length := by
  apply length_of_sumsq_eq
  simp only [sub]
  ring

end Vec3

/-- Exact real arithmetic only (the rounding of `double` is left out; for the computation in
double precision see `intersectRay_selects_root`). For a unit-length direction `D`, the exact
`intersectRay` reports a hit exactly when some `t ≥ 0` satisfies `|O + t D - C|^2 = r^2`; the
reported depth is the smallest such `t` and the reported hit point is `O + depth * D`; and no hit
is reported when the discriminant is negative or when both roots are negative. -/
lemma intersectRay_nearest_hit_exact (e : Earth) (O D : Vec3) (hD : D.length = 1) :
    ((e.intersectRay O D).isSome ↔ ∃ t, 0 ≤ t ∧ onSphere e O D t) ∧
    (∀ depth hitPoint normal, e.intersectRay O D = some (depth, hitPoint, normal) →
      0 ≤ depth ∧ onSphere e O D depth ∧ (∀ t, 0 ≤ t → onSphere e O D t → depth ≤ t) ∧
      hitPoint = O.add (D.scale depth)) ∧
    (let oc := O.sub e.position
     let a := D.dot D
     let b := 2 * oc.dot D
     let c := oc.dot oc - e.radius * e.radius
     let discriminant := b * b - 4 * a * c
     let t1 := (-b - Real.sqrt discriminant) / (2 * a)
     let t2 := (-b + Real.sqrt discriminant) / (2 * a)
     discriminant < 0 ∨ (t1 < 0 ∧ t2 < 0) → e.intersectRay O D = none) := by
  have hD1 : D.dot D = 1 := D.dot_self_of_length_eq_one hD
  refine ⟨?_, ?_, ?_⟩
  · rcases e.intersectRay_spec O D hD1 with ⟨hno, hnone⟩ | ⟨d, hd0, hon, _, hsome⟩
    · rw [hnone]
      simp only [Option.isSome_none, Bool.false_eq_true, false_iff, not_exists, not_and]
      exact hno
    · rw [hsome]
      simp only [Option.isSome_some, true_iff]
      exact ⟨d, hd0, hon⟩
  · intro depth hitPoint normal h
    rcases e.intersectRay_spec O D hD1 with ⟨_, hnone⟩ | ⟨d, hd0, hon, hmin, hsome⟩
    · rw [hnone] at h
      exact absurd h (by simp)
    · rw [hsome] at h
      simp only [Option.some.injEq, Prod.mk.injEq] at h
      obtain ⟨h1, h2, _⟩ := h
      subst h1
      exact ⟨hd0, hon, hmin, h2.symm⟩
  · intro oc a b c discriminant t1 t2 h
    rw [e.intersectRay_unit O D hD1]
    simp only [oc, a, b, c, discriminant, t1, t2, hD1, mul_one] at h
    rcases h with h | ⟨h1, h2⟩
    · rw [if_pos h]
    · split_ifs
      · rfl
      · linarith
      · linarith
      · rfl

/-- On the ray aimed at the centre, the point at parameter `t` is on the sphere exactly when
`(|O - C| - t)^2 = r^2`. -/
lemma onSphere_toward_centre (e : Earth) (O : Vec3) (hpos : 0 < (O.sub e.position).length)
    (t : ℝ) :
    onSphere e O ((e.position.sub O).scale (1 / (e.position.sub O).length)) t ↔
      ((O.sub e.position).length - t) * ((O.sub e.position).length - t)
        = e.radius * e.radius := by
  rw [Vec3.length_sub_comm e.position O]
  have hL2 := (O.sub e.position).length_mul_self
  generalize (O.sub e.position).length = L at hpos hL2
  have hne : L ≠ 0 := ne_of_gt hpos
  simp only [onSphere, Vec3.dot, Vec3.sub, Vec3.add, Vec3.scale] at hL2 ⊢
  have hx : O.x + (e.position.x - O.x) * (1 / L) * t - e.position.x
      = (O.x - e.position.x) * ((L - t) / L) := by field_simp; ring
  have hy : O.y + (e.position.y - O.y) * (1 / L) * t - e.position.y
      = (O.y - e.position.y) * ((L - t) / L) := by field_simp; ring
  have hz : O.z + (e.position.z - O.z) * (1 / L) * t - e.position.z
      = (O.z - e.position.z) * ((L - t) / L) := by field_simp; ring
  rw [hx, hy, hz]
  have key : (O.x - e.position.x) * ((L - t) / L) * ((O.x - e.position.x) * ((L - t) / L))
      + (O.y - e.position.y) * ((L - t) / L) * ((O.y - e.position.y) * ((L - t) / L))
      + (O.z - e.position.z) * ((L - t) / L) * ((O.z - e.position.z) * ((L - t) / L))
      = (L - t) * (L - t) := by
    have : (L - t) * (L - t) = ((L - t) / L) * ((L - t) / L) * (L * L) := by
      field_simp
    rw [this, hL2]
    ring
  rw [key]

/-- The direction `(C - O) / |C - O|` has dot product one with itself when `O ≠ C`. -/
lemma toward_centre_dot_self (C O : Vec3) (hpos : 0 < (C.sub O).length) :
    ((C.sub O).scale (1 / (C.sub O).length)).dot ((C.sub O).scale (1 / (C.sub O).length))
      = 1 := by
  have hL2 := (C.sub O).length_mul_self
  generalize (C.sub O).length = L at hpos hL2
  have hne : L ≠ 0 := ne_of_gt hpos
  simp only [Vec3.dot, Vec3.sub, Vec3.scale] at hL2 ⊢
  field_simp
  linarith

/-- Dividing a vector by its length, component by component as `normalize` does, is scaling it
by the inverse of the length. -/
lemma div_length_eq_scale (u : Vec3) :
    (Vec3.mk (u.x / u.length) (u.y / u.length) (u.z / u.length)) = u.scale (1 / u.length) := by
  simp only [Vec3.scale]
  ext <;> simp [div_eq_mul_inv]

/-- Exact real arithmetic only (the rounding of `double` is left out). For a planet of radius
`r > 0` and centre `C` and an origin `O` outside it, the ray with the unit direction
`D = (C - O) / |C - O|` hits, and the reported depth is `|O - C| - r`; whenever `|C - O|` passes
the guard of `normalize`, this `D` is `normalize (C - O)`. -/
lemma intersectRay_toward_centre_exact (e : Earth) (O : Vec3) (hr : 0 < e.radius)
    (hout : e.radius < (O.sub e.position).length) :
    (∃ hitPoint normal,
      e.intersectRay O
          ⟨(e.position.sub O).x / (e.position.sub O).length,
           (e.position.sub O).y / (e.position.sub O).length,
           (e.position.sub O).z / (e.position.sub O).length⟩
        = some ((O.sub e.position).length - e.radius, hitPoint, normal)) ∧
    (1e-10 ≤ (e.position.sub O).length →
      (e.position.sub O).normalize
        = ⟨(e.position.sub O).x / (e.position.sub O).length,
           (e.position.sub O).y / (e.position.sub O).length,
           (e.position.sub O).z / (e.position.sub O).length⟩) := by
  refine ⟨?_, fun h => Vec3.normalize_of_le _ h⟩
  rw [div_length_eq_scale]
  have hpos : 0 < (O.sub e.position).length := lt_trans hr hout
  have hpos' : 0 < (e.position.sub O).length := by
    rw [Vec3.length_sub_comm]; exact hpos
  have hD := toward_centre_dot_self e.position O hpos'
  have hon := onSphere_toward_centre e O hpos
  rcases e.intersectRay_spec O _ hD with ⟨hno, _⟩ | ⟨d, hd0, hd, hmin, hsome⟩
  · exact absurd ((hon ((O.sub e.position).length - e.radius)).mpr (by ring))
      (hno _ (by linarith))
  · have h1 : d ≤ (O.sub e.position).length - e.radius :=
      hmin _ (by linarith) ((hon ((O.sub e.position).length - e.radius)).mpr (by ring))
    have h2 := (hon d).mp hd
    have h3 : d = (O.sub e.position).length - e.radius := by
      have h4 : ((O.sub e.position).length - d - e.radius)
          * ((O.sub e.position).length - d + e.radius) = 0 := by
        linear_combination h2
      rcases mul_eq_zero.mp h4 with h5 | h5
      · linarith
      · linarith
    rw [hsome, h3]
    exact ⟨_, _, rfl⟩

/-! ## Claims on `normalize` and `rotate` -/

/-- C6. `normalize` is a total function, and on a vector whose length is below `1e-10`
(the zero vector included) it returns exactly `(0, 0, 0)`. -/
theorem normalize_near_zero (v : Vec3) (h : v.length < 1e-10) : v.normalize = ⟨0, 0, 0⟩ :=
  Vec3.normalize_of_lt v h

/-- An instance of C6: a non-zero vector of length `1e-11`. -/
theorem normalize_near_zero_witness :
    (Vec3.mk 1e-11 0 0).length < 1e-10 ∧ (Vec3.mk 1e-11 0 0).normalize = ⟨0, 0, 0⟩ :=
  have h : (Vec3.mk 1e-11 0 0).length < 1e-10 := by
    simp only [Vec3.length]
    rw [Real.sqrt_lt' (by norm_num)]
    norm_num
  ⟨h, normalize_near_zero ⟨1e-11, 0, 0⟩ h⟩

/-- C8. For every vector `v` and every axis, the zero and near-zero axes included,
`rotate v axis 0 = v`. -/
theorem rotate_angle_zero (v axis : Vec3) : rotate v axis 0 = v :=
  rotate_zero_angle v axis

/-- Exact real arithmetic only. With the zero axis and the angle `π / 2` the vector `(1, 0, 0)`
of length one is sent to the zero vector. -/
lemma rotate_zero_axis_length_exact :
    (rotate ⟨1, 0, 0⟩ ⟨0, 0, 0⟩ (Real.pi / 2)).length ≠ (Vec3.mk 1 0 0).length := by
  rw [rotate_zero_axis]
  simp [Vec3.length]

/-- Exact real arithmetic only (the rounding of `double` and of `std::sin`, `std::cos` is left
out). For every vector `v`, every angle and every axis whose length is at least `1e-10` (so that
the axis is normalized to a unit vector), the exact `rotate` preserves the length of `v`. -/
lemma rotate_preserves_length_exact (v axis : Vec3) (theta : ℝ) (h : 1e-10 ≤ axis.length) :
    (rotate v axis theta).length = v.length :=
  Vec3.length_of_sumsq_eq (rotate_sumsq v axis theta h)

/-- Exact real arithmetic only (the rounding of `double` and of `std::sin`, `std::cos` is left
out). Rotating a body-frame offset `p` by `phi` about `(0, 1, 0)` and un-rotating it by `-phi`
gives `p` back, and so the glyph class returned by the exact `getTextureChar` at phase `phi` for
the point `C + rotate p (0,1,0) phi` is the one returned at phase `0` for the point `C + p`. -/
lemma texture_fixed_to_body_exact (radius : ℝ) (C : Vec3) (texture : List (List Bool))
    (phi : ℝ) (p : Vec3) :
    rotate (rotate p ⟨0, 1, 0⟩ phi) ⟨0, 1, 0⟩ (-phi) = p ∧
    Earth.getTextureChar ⟨radius, C, phi, texture⟩ (C.add (rotate p ⟨0, 1, 0⟩ phi))
      = Earth.getTextureChar ⟨radius, C, 0, texture⟩ (C.add p) := by
  refine ⟨rotate_unitY_neg p phi, ?_⟩
  have h1 : ∀ q : Vec3, (C.add q).sub C = q := by
    intro q
    ext <;> simp [Vec3.add, Vec3.sub]
  simp only [Earth.getTextureChar, h1, rotate_unitY_neg, neg_zero, rotate_zero_angle,
    Earth.isLand]

/-! ## Loops and frame buffers -/

lemma forRange_zero {σ : Type} (body : ℕ → σ → σ) (s : σ) : forRange 0 body s = s := rfl

lemma forRange_succ {σ : Type} (n : ℕ) (body : ℕ → σ → σ) (s : σ) :
    forRange (n + 1) body s = body n (forRange n body s) := by
  simp only [forRange, List.range_succ, List.foldl_append, List.foldl_cons, List.foldl_nil]

/-- A property kept by every iteration holds after the loop. -/
lemma forRange_invariant {σ : Type} (P : σ → Prop) (body : ℕ → σ → σ)
    (hstep : ∀ i s, P s → P (body i s)) (n : ℕ) (s : σ) (h : P s) :
    P (forRange n body s) := by
  induction n with
  | zero => exact h
  | succ n ih => rw [forRange_succ]; exact hstep n _ ih

/-- One row of a loop whose body rewrites only its own cell: the cells `x < n` of the row `y`
are rewritten from their old contents, every other cell and the configuration are kept. -/
lemma forRange_row {σ γ β : Type} (cfg : σ → γ) (cell : σ → ℕ → ℕ → β)
    (step : ℕ → ℕ → σ → σ) (F : γ → ℕ → ℕ → β → β)
    (H1 : ∀ y x s, cfg (step y x s) = cfg s)
    (H2 : ∀ y x s y' x', ¬(y' = y ∧ x' = x) → cell (step y x s) y' x' = cell s y' x')
    (H3 : ∀ y x s, cell (step y x s) y x = F (cfg s) y x (cell s y x))
    (y n : ℕ) (s : σ) :
    cfg (forRange n (fun x s => step y x s) s) = cfg s ∧
    ∀ y' x', cell (forRange n (fun x s => step y x s) s) y' x'
      = if y' = y ∧ x' < n then F (cfg s) y x' (cell s y x') else cell s y' x' := by
  induction n with
  | zero =>
    refine ⟨rfl, fun y' x' => ?_⟩
    simp [forRange_zero]
  | succ n ih =>
    obtain ⟨ihc, ihcell⟩ := ih
    rw [forRange_succ]
    refine ⟨by rw [H1, ihc], fun y' x' => ?_⟩
    by_cases hyx : y' = y ∧ x' = n
    · obtain ⟨hy, hx⟩ := hyx
      subst hy hx
      rw [H3, ihc, ihcell]
      simp
    · rw [H2 _ _ _ _ _ hyx, ihcell]
      by_cases hy : y' = y
      · have hx : x' ≠ n := fun hx => hyx ⟨hy, hx⟩
        have hiff : x' < n + 1 ↔ x' < n := by omega
        simp only [hy, true_and, hiff]
      · simp [hy]

/-- The two nested loops over the rows `y < m` and the columns `x < wd`: every cell in that
range is rewritten once from its old contents, every other cell and the configuration are
kept. -/
lemma forRange_grid {σ γ β : Type} (cfg : σ → γ) (cell : σ → ℕ → ℕ → β)
    (step : ℕ → ℕ → σ → σ) (F : γ → ℕ → ℕ → β → β) (wd : γ → ℕ)
    (H1 : ∀ y x s, cfg (step y x s) = cfg s)
    (H2 : ∀ y x s y' x', ¬(y' = y ∧ x' = x) → cell (step y x s) y' x' = cell s y' x')
    (H3 : ∀ y x s, cell (step y x s) y x = F (cfg s) y x (cell s y x))
    (m : ℕ) (s : σ) :
    cfg (forRange m (fun y s => forRange (wd (cfg s)) (fun x s => step y x s) s) s) = cfg s ∧
    ∀ y' x',
      cell (forRange m (fun y s => forRange (wd (cfg s)) (fun x s => step y x s) s) s) y' x'
      = if y' < m ∧ x' < wd (cfg s) then F (cfg s) y' x' (cell s y' x') else cell s y' x' := by
  induction m with
  | zero =>
    refine ⟨rfl, fun y' x' => ?_⟩
    simp [forRange_zero]
  | succ m ih =>
    obtain ⟨ihc, ihcell⟩ := ih
    rw [forRange_succ]
    obtain ⟨hc, hcell⟩ := forRange_row cfg cell step F H1 H2 H3 m
      (wd (cfg (forRange m (fun y s => forRange (wd (cfg s)) (fun x s => step y x s) s) s)))
      (forRange m (fun y s => forRange (wd (cfg s)) (fun x s => step y x s) s) s)
    refine ⟨by rw [hc, ihc], fun y' x' => ?_⟩
    rw [hcell, ihc, ihcell, ihcell]
    by_cases hy : y' = m
    · subst hy
      simp
    · have hiff : y' < m + 1 ↔ y' < m := by omega
      simp only [hy, false_and, if_false, hiff]

/-- The glyph chosen in colour mode does not depend on the stream of `std::rand`. -/
lemma shadeColor_glyph (texChar : Char) (diffuse lat_rad lon_rad cloudPhase : ℝ)
    (g g' : RandStream) :
    (shadeColor texChar diffuse lat_rad lon_rad cloudPhase g).1.2
      = (shadeColor texChar diffuse lat_rad lon_rad cloudPhase g').1.2 := by
  unfold shadeColor
  split_ifs <;> rfl

namespace ASCIIRenderer

lemma renderPixel_none (earth : Earth) (lightDir : Vec3) (cloudPhase : ℝ) (y x : ℕ)
    (s : ASCIIRenderer × RandStream) (h : pixelHit earth (rendererConfig s.1) y x = none) :
    renderPixel earth lightDir cloudPhase y x s = s := by
  simp only [pixelHit, rendererConfig] at h
  simp only [renderPixel, h]

lemma renderPixel_far (earth : Earth) (lightDir : Vec3) (cloudPhase : ℝ) (y x : ℕ)
    (s : ASCIIRenderer × RandStream) (depth : ℝ) (hitPoint normal : Vec3)
    (h : pixelHit earth (rendererConfig s.1) y x = some (depth, hitPoint, normal))
    (hd : ¬ depth < s.1.depthBuffer y x) :
    renderPixel earth lightDir cloudPhase y x s = s := by
  simp only [pixelHit, rendererConfig] at h
  simp only [renderPixel, h, if_neg hd]

lemma renderPixel_near (earth : Earth) (lightDir : Vec3) (cloudPhase : ℝ) (y x : ℕ)
    (s : ASCIIRenderer × RandStream) (depth : ℝ) (hitPoint normal : Vec3)
    (h : pixelHit earth (rendererConfig s.1) y x = some (depth, hitPoint, normal))
    (hd : depth < s.1.depthBuffer y x) :
    rendererConfig (renderPixel earth lightDir cloudPhase y x s).1 = rendererConfig s.1 ∧
    (renderPixel earth lightDir cloudPhase y x s).1.frameBuffer
      = setCell s.1.frameBuffer y x
          (pixelGlyph earth lightDir cloudPhase s.1.useColor hitPoint normal) ∧
    (renderPixel earth lightDir cloudPhase y x s).1.depthBuffer
      = setCell s.1.depthBuffer y x depth := by
  simp only [pixelHit, rendererConfig] at h
  simp only [renderPixel, h, if_pos hd]
  by_cases hc : s.1.useColor = true
  · simp only [if_pos hc, pixelGlyph, hc, rendererConfig, if_true, true_and, and_true]
    rw [shadeColor_glyph _ _ _ _ _ s.2 (fun _ => 0)]
  · simp only [if_neg hc, pixelGlyph, hc, rendererConfig, true_and]
    simp

lemma renderPixel_config (earth : Earth) (lightDir : Vec3) (cloudPhase : ℝ) (y x : ℕ)
    (s : ASCIIRenderer × RandStream) :
    rendererConfig (renderPixel earth lightDir cloudPhase y x s).1 = rendererConfig s.1 := by
  rcases h : pixelHit earth (rendererConfig s.1) y x with _ | ⟨depth, hitPoint, normal⟩
  · rw [renderPixel_none _ _ _ _ _ _ h]
  · by_cases hd : depth < s.1.depthBuffer y x
    · exact (renderPixel_near _ _ _ _ _ _ _ _ _ h hd).1
    · rw [renderPixel_far _ _ _ _ _ _ _ _ _ h hd]

lemma renderPixel_other (earth : Earth) (lightDir : Vec3) (cloudPhase : ℝ) (y x : ℕ)
    (s : ASCIIRenderer × RandStream) (y' x' : ℕ) (hne : ¬(y' = y ∧ x' = x)) :
    ((renderPixel earth lightDir cloudPhase y x s).1.frameBuffer y' x',
      (renderPixel earth lightDir cloudPhase y x s).1.depthBuffer y' x')
      = (s.1.frameBuffer y' x', s.1.depthBuffer y' x') := by
  rcases h : pixelHit earth (rendererConfig s.1) y x with _ | ⟨depth, hitPoint, normal⟩
  · rw [renderPixel_none _ _ _ _ _ _ h]
  · by_cases hd : depth < s.1.depthBuffer y x
    · obtain ⟨_, hf, hz⟩ := renderPixel_near earth lightDir cloudPhase _ _ _ _ _ _ h hd
      rw [hf, hz]
      simp only [setCell, if_neg hne]
    · rw [renderPixel_far _ _ _ _ _ _ _ _ _ h hd]

lemma renderPixel_cell (earth : Earth) (lightDir : Vec3) (cloudPhase : ℝ) (y x : ℕ)
    (s : ASCIIRenderer × RandStream) :
    ((renderPixel earth lightDir cloudPhase y x s).1.frameBuffer y x,
      (renderPixel earth lightDir cloudPhase y x s).1.depthBuffer y x)
      = pixelCell earth lightDir cloudPhase (rendererConfig s.1) y x
          (s.1.frameBuffer y x, s.1.depthBuffer y x) := by
  rcases h : pixelHit earth (rendererConfig s.1) y x with _ | ⟨depth, hitPoint, normal⟩
  · rw [renderPixel_none _ _ _ _ _ _ h]
    simp only [pixelCell, h]
  · by_cases hd : depth < s.1.depthBuffer y x
    · obtain ⟨_, hf, hz⟩ := renderPixel_near earth lightDir cloudPhase _ _ _ _ _ _ h hd
      rw [hf, hz]
      simp only [pixelCell, h, if_pos hd, setCell, and_self, if_true]
      rfl
    · rw [renderPixel_far _ _ _ _ _ _ _ _ _ h hd]
      simp only [pixelCell, h, if_neg hd]

end ASCIIRenderer

namespace ASCIIRenderer

/-- The method `clearBuffers` keeps the configuration and resets every cell of the grid. -/
lemma clearBuffers_spec (r : ASCIIRenderer) :
    rendererConfig r.clearBuffers = rendererConfig r ∧
    ∀ y x, y < r.height → x < r.width →
      r.clearBuffers.frameBuffer y x = ' ' ∧ r.clearBuffers.colorBuffer y x = Color.RESET ∧
      r.clearBuffers.depthBuffer y x = DBL_MAX := by
  have h := forRange_grid rendererConfig
    (fun (r : ASCIIRenderer) y x => (r.frameBuffer y x, r.colorBuffer y x, r.depthBuffer y x))
    (fun y x r => clearCell y x r) (fun _ _ _ _ => (' ', Color.RESET, DBL_MAX))
    (fun c => c.1)
    (fun _ _ _ => rfl)
    (fun y x r y' x' hne => by simp only [clearCell, setCell, if_neg hne])
    (fun y x r => by simp only [clearCell, setCell, and_self, if_true])
    r.height r
  obtain ⟨hc, hcell⟩ := h
  refine ⟨hc, fun y x hy hx => ?_⟩
  have h2 := hcell y x
  have hx' : x < (rendererConfig r).1 := hx
  rw [if_pos ⟨hy, hx'⟩] at h2
  simp only [Prod.mk.injEq] at h2
  exact h2

lemma starStep_spec (s : ASCIIRenderer × RandStream) :
    rendererConfig (starStep s).1 = rendererConfig s.1 ∧
    (starStep s).1.depthBuffer = s.1.depthBuffer := by
  unfold starStep
  simp only
  split_ifs <;> exact ⟨rfl, rfl⟩

/-- The method `renderStars` keeps the configuration and the depth buffer. -/
lemma renderStars_spec (s : ASCIIRenderer × RandStream) :
    rendererConfig (renderStars s).1 = rendererConfig s.1 ∧
    (renderStars s).1.depthBuffer = s.1.depthBuffer := by
  unfold renderStars
  exact forRange_invariant
    (fun t => rendererConfig t.1 = rendererConfig s.1 ∧ t.1.depthBuffer = s.1.depthBuffer)
    (fun _ t => starStep t)
    (fun _ t ht => ⟨(starStep_spec t).1.trans ht.1, (starStep_spec t).2.trans ht.2⟩)
    (s.1.width * s.1.height / 100) s ⟨rfl, rfl⟩

/-- After `render`, the glyph and the depth of every cell of the grid are those left by the
pixel body run once on the cleared depth and on the glyph left by the star pass. -/
lemma render_cell (r : ASCIIRenderer) (earth : Earth) (g : RandStream) (y x : ℕ)
    (hy : y < r.height) (hx : x < r.width) :
    ((render r earth g).1.frameBuffer y x, (render r earth g).1.depthBuffer y x)
      = pixelCell earth (lightDirOf earth) (earth.rotationY * 0.7) (rendererConfig r) y x
          ((renderStars (r.clearBuffers, g)).1.frameBuffer y x, DBL_MAX) := by
  obtain ⟨hcc, hclear⟩ := clearBuffers_spec r
  obtain ⟨hsc, hsd⟩ := renderStars_spec (r.clearBuffers, g)
  have hcfg : rendererConfig (renderStars (r.clearBuffers, g)).1 = rendererConfig r :=
    hsc.trans hcc
  have hdepth : (renderStars (r.clearBuffers, g)).1.depthBuffer y x = DBL_MAX := by
    rw [hsd]; exact (hclear y x hy hx).2.2
  have h := forRange_grid (fun (s : ASCIIRenderer × RandStream) => rendererConfig s.1)
    (fun (s : ASCIIRenderer × RandStream) y x => (s.1.frameBuffer y x, s.1.depthBuffer y x))
    (fun y x s => renderPixel earth (lightDirOf earth) (earth.rotationY * 0.7) y x s)
    (fun c y x old => pixelCell earth (lightDirOf earth) (earth.rotationY * 0.7) c y x old)
    (fun c => c.1)
    (fun y x s => renderPixel_config _ _ _ y x s)
    (fun y x s y' x' hne => renderPixel_other _ _ _ y x s y' x' hne)
    (fun y x s => renderPixel_cell _ _ _ y x s)
    (renderStars (r.clearBuffers, g)).1.height (renderStars (r.clearBuffers, g))
  have h2 := h.2 y x
  have hy' : y < (renderStars (r.clearBuffers, g)).1.height := by
    have := congrArg (fun c => c.2.1) hcfg
    simp only [rendererConfig] at this
    rw [this]; exact hy
  have hx' : x < (rendererConfig (renderStars (r.clearBuffers, g)).1).1 := by
    rw [hcfg]; exact hx
  rw [if_pos ⟨hy', hx'⟩, hcfg, hdepth] at h2
  exact h2

/-- After `render`, the depth stored for a cell of the grid is the depth of the hit of its
camera ray when there is a hit below the sentinel, and the sentinel otherwise. -/
lemma render_depth (r : ASCIIRenderer) (earth : Earth) (g : RandStream) (y x : ℕ)
    (hy : y < r.height) (hx : x < r.width) :
    (render r earth g).1.depthBuffer y x =
      match pixelHit earth (rendererConfig r) y x with
      | none => DBL_MAX
      | some (depth, _, _) => if depth < DBL_MAX then depth else DBL_MAX := by
  have h := congrArg Prod.snd (render_cell r earth g y x hy hx)
  simp only at h
  rw [h]
  unfold pixelCell
  rcases pixelHit earth (rendererConfig r) y x with _ | ⟨depth, hitPoint, normal⟩
  · rfl
  · simp only
    split_ifs <;> rfl

/-- After `render`, the glyph stored for a cell whose camera ray hits below the sentinel is the
glyph shaded for that hit, whatever the star pass wrote there. -/
lemma render_glyph (r : ASCIIRenderer) (earth : Earth) (g : RandStream) (y x : ℕ)
    (hy : y < r.height) (hx : x < r.width) (depth : ℝ) (hitPoint normal : Vec3)
    (hhit : pixelHit earth (rendererConfig r) y x = some (depth, hitPoint, normal))
    (hd : depth < DBL_MAX) :
    (render r earth g).1.frameBuffer y x
      = pixelGlyph earth (lightDirOf earth) (earth.rotationY * 0.7) r.useColor
          hitPoint normal := by
  have h := congrArg Prod.fst (render_cell r earth g y x hy hx)
  simp only at h
  rw [h]
  simp only [pixelCell, hhit, if_pos hd]
  rfl

end ASCIIRenderer

/-! ## The scene of `main`: camera at `(0, 0, -8)`, planet at the origin -/

namespace Vec3

lemma normalize_of_length_one (u : Vec3) (h : u.length = 1) : u.normalize = u := by
  rw [normalize_of_le u (by rw [h]; norm_num), h]
  ext <;> simp

lemma length_le_of_z_one (a b : ℝ) : (1 : ℝ) ≤ (Vec3.mk a b 1).length := by
  simp only [length]
  rw [Real.one_le_sqrt]
  nlinarith [mul_self_nonneg a, mul_self_nonneg b]

lemma length_normalize (u : Vec3) (h : 1e-10 ≤ u.length) : u.normalize.length = 1 := by
  simp only [length, normalize_sumsq u h, Real.sqrt_one]

lemma normalize_z_zero (u : Vec3) (h : u.z = 0) : u.normalize.z = 0 := by
  by_cases hl : u.length < 1e-10
  · rw [normalize_of_lt u hl]
  · rw [normalize_of_le u (not_lt.mp hl)]
    simp [h]

end Vec3

lemma getD_replicate_false (n m i j : ℕ) :
    ((List.replicate n (List.replicate m false)).getD i []).getD j false = false := by
  simp only [List.getD_eq_getElem?_getD, List.getElem?_replicate]
  by_cases hi : i < n
  · simp only [if_pos hi, Option.getD_some, List.getElem?_replicate]
    by_cases hj : j < m
    · simp only [if_pos hj, Option.getD_some]
    · simp only [if_neg hj, Option.getD_none]
  · simp only [if_neg hi, Option.getD_none, List.getElem?_nil]

/-- On the all-ocean map every hit point is classified as ocean. -/
lemma getTextureChar_ocean (radius : ℝ) (C : Vec3) (rotationY : ℝ) (hitPoint : Vec3) :
    Earth.getTextureChar ⟨radius, C, rotationY, oceanTexture⟩ hitPoint = '~' := by
  simp only [Earth.getTextureChar, Earth.isLand, oceanTexture, getD_replicate_false]
  simp

namespace ASCIIRenderer

/-- The camera set up by the constructor sends every screen point to the normalization of a
vector whose `z` component is one. -/
lemma create_rayDirection (w h : ℕ) (color : Bool) (sx sy : ℝ) :
    (create w h color).camera.rayDirection sx sy
      = (Vec3.mk (-(sx * (2 * Real.tan (45 * PI / 180 / 2) * ((w : ℝ) / (h : ℝ) * 0.4))))
          (sy * (2 * Real.tan (45 * PI / 180 / 2))) 1).normalize := by
  have hf : ((Vec3.mk 0 0 0).sub ⟨0, 0, -8⟩).normalize = ⟨0, 0, 1⟩ := by
    have hlen : ((Vec3.mk 0 0 0).sub ⟨0, 0, -8⟩).length = 8 := by
      simp only [Vec3.length, Vec3.sub]
      rw [show (0 - 0) * (0 - 0) + (0 - 0) * (0 - 0) + (0 - -8) * (0 - -8) = (8 : ℝ) * 8 by
        norm_num]
      exact Real.sqrt_mul_self (by norm_num)
    rw [Vec3.normalize_of_le _ (by rw [hlen]; norm_num), hlen]
    simp only [Vec3.sub]
    ext <;> norm_num
  have hr : ((Vec3.mk 0 0 1).cross ⟨0, 1, 0⟩).normalize = ⟨-1, 0, 0⟩ := by
    have hc : (Vec3.mk 0 0 1).cross ⟨0, 1, 0⟩ = ⟨-1, 0, 0⟩ := by
      simp only [Vec3.cross]
      ext <;> norm_num
    rw [hc]
    exact Vec3.normalize_of_length_one _ (by simp [Vec3.length])
  simp only [Camera.rayDirection, create, hf, hr]
  congr 1
  simp only [Vec3.cross, Vec3.add, Vec3.scale]
  ext <;> simp

/-- Every camera ray of the constructed camera has length one. -/
lemma create_rayDirection_length (w h : ℕ) (color : Bool) (sx sy : ℝ) :
    ((create w h color).camera.rayDirection sx sy).length = 1 := by
  rw [create_rayDirection]
  exact Vec3.length_normalize _ (le_trans (by norm_num) (Vec3.length_le_of_z_one _ _))

/-- The ray through the centre of the screen points straight down the `z` axis. -/
lemma create_rayDirection_centre (w h : ℕ) (color : Bool) :
    (create w h color).camera.rayDirection 0 0 = ⟨0, 0, 1⟩ := by
  rw [create_rayDirection]
  simp only [zero_mul, neg_zero]
  exact Vec3.normalize_of_length_one _ (by simp [Vec3.length])

end ASCIIRenderer

lemma screenX_centre : screenX 10 5 = 0 := by
  simp only [screenX]; norm_num

lemma screenY_centre : screenY 10 5 = 0 := by
  simp only [screenY]; norm_num

/-- The ray from `(0, 0, -8)` along `(0, 0, 1)` against a planet of radius `0 ≤ r` at the
origin: the near root `8 - r` when the camera is not inside the planet, the far root `8 + r`
otherwise. -/
lemma intersectRay_centre (r rotationY : ℝ) (texture : List (List Bool)) (hr : 0 ≤ r) :
    Earth.intersectRay ⟨r, ⟨0, 0, 0⟩, rotationY, texture⟩ ⟨0, 0, -8⟩ ⟨0, 0, 1⟩
      = if r ≤ 8 then
          some (8 - r, ⟨0, 0, -8 + 1 * (8 - r)⟩,
            (Vec3.mk (0 - 0) (0 - 0) (-8 + 1 * (8 - r) - 0)).normalize)
        else
          some (8 + r, ⟨0, 0, -8 + 1 * (8 + r)⟩,
            (Vec3.mk (0 - 0) (0 - 0) (-8 + 1 * (8 + r) - 0)).normalize) := by
  rw [Earth.intersectRay_unit _ _ _ (by simp [Vec3.dot])]
  have hb : 2 * ((Vec3.mk 0 0 (-8)).sub ⟨0, 0, 0⟩).dot ⟨0, 0, 1⟩ = -16 := by
    simp only [Vec3.dot, Vec3.sub]; norm_num
  have hc : ((Vec3.mk 0 0 (-8)).sub ⟨0, 0, 0⟩).dot ((Vec3.mk 0 0 (-8)).sub ⟨0, 0, 0⟩) = 64 := by
    simp only [Vec3.dot, Vec3.sub]; norm_num
  simp only [hb, hc]
  have hdisc : (-16 : ℝ) * -16 - 4 * (64 - r * r) = (2 * r) * (2 * r) := by ring
  rw [hdisc, Real.sqrt_mul_self (by linarith)]
  have h1 : (-(-16 : ℝ) - 2 * r) / 2 = 8 - r := by ring
  have h2 : (-(-16 : ℝ) + 2 * r) / 2 = 8 + r := by ring
  rw [h1, h2, if_neg (not_lt.mpr (mul_self_nonneg (2 * r)))]
  by_cases h8 : r ≤ 8
  · rw [if_pos (by linarith : (0 : ℝ) ≤ 8 - r), if_pos h8]
    simp [Vec3.add, Vec3.scale, Vec3.sub]
  · rw [if_neg (by linarith : ¬ (0 : ℝ) ≤ 8 - r), if_pos (by linarith : (0 : ℝ) ≤ 8 + r),
      if_neg h8]
    simp [Vec3.add, Vec3.scale, Vec3.sub]

namespace Vec3

lemma normalize_x_zero (u : Vec3) (h : u.x = 0) : u.normalize.x = 0 := by
  by_cases hl : u.length < 1e-10
  · rw [normalize_of_lt u hl]
  · rw [normalize_of_le u (not_lt.mp hl)]
    simp [h]

lemma normalize_y_zero (u : Vec3) (h : u.y = 0) : u.normalize.y = 0 := by
  by_cases hl : u.length < 1e-10
  · rw [normalize_of_lt u hl]
  · rw [normalize_of_le u (not_lt.mp hl)]
    simp [h]

end Vec3

lemma five_lt_DBL_MAX : (5 : ℝ) < DBL_MAX := by
  unfold DBL_MAX; norm_num

lemma DBL_MAX_pos : (8 : ℝ) < DBL_MAX := by
  unfold DBL_MAX; norm_num

/-- In colour mode a hit with `diffuse < 0.2` ends with the night glyph: `.` on land, blank on
ocean. -/
lemma shadeColor_night_glyph (texChar : Char) (diffuse lat_rad lon_rad cloudPhase : ℝ)
    (g : RandStream) (h : diffuse < 0.2) :
    (shadeColor texChar diffuse lat_rad lon_rad cloudPhase g).1.2
      = if texChar = '#' then '.' else ' ' := by
  unfold shadeColor
  simp only [if_pos h]
  split_ifs <;> rfl

/-- Without colour a hit with `diffuse < 0.2` ends with the same night glyph. -/
lemma shadeMono_night_glyph (texChar : Char) (diffuse lat_rad lon_rad cloudPhase : ℝ)
    (h : diffuse < 0.2) :
    shadeMono texChar diffuse lat_rad lon_rad cloudPhase
      = if texChar = '#' then '.' else ' ' := by
  have h2 : ¬ diffuse ≥ 0.2 := not_le.mpr h
  have h3 : ¬ diffuse > 0.3 := by intro h'; norm_num at h h'; linarith
  have h6 : ¬ diffuse > 0.6 := by intro h'; norm_num at h h'; linarith
  have h8 : ¬ diffuse > 0.8 := by intro h'; norm_num at h h'; linarith
  unfold shadeMono
  simp only [if_neg h2, if_neg h3, if_neg h6, if_neg h8]

lemma pixelGlyph_night (earth : Earth) (lightDir : Vec3) (cloudPhase : ℝ) (useColor : Bool)
    (hitPoint normal : Vec3) (h : max 0 (normal.dot lightDir) < 0.2) :
    pixelGlyph earth lightDir cloudPhase useColor hitPoint normal
      = if earth.getTextureChar hitPoint = '#' then '.' else ' ' := by
  unfold pixelGlyph
  simp only
  split_ifs with hc h1
  · rw [shadeColor_night_glyph _ _ _ _ _ _ h, if_pos h1]
  · rw [shadeColor_night_glyph _ _ _ _ _ _ h, if_neg h1]
  · rw [shadeMono_night_glyph _ _ _ _ _ h, if_pos ‹_›]
  · rw [shadeMono_night_glyph _ _ _ _ _ h, if_neg ‹_›]

/-- The hit of the camera ray of the centre pixel of a 10x10 grid is the hit of the ray from
`(0, 0, -8)` along `(0, 0, 1)`. -/
lemma pixelHit_centre (earth : Earth) (color : Bool) (fb : ℕ → ℕ → Char)
    (cb : ℕ → ℕ → String) (db : ℕ → ℕ → ℝ) :
    pixelHit earth (rendererConfig (rendererWith 10 10 color fb cb db)) 5 5
      = earth.intersectRay ⟨0, 0, -8⟩ ⟨0, 0, 1⟩ := by
  have hcam : (rendererWith 10 10 color fb cb db).camera
      = (ASCIIRenderer.create 10 10 color).camera := rfl
  have hpos : (ASCIIRenderer.create 10 10 color).camera.position = ⟨0, 0, -8⟩ := rfl
  have hw : (rendererWith 10 10 color fb cb db).width = 10 := rfl
  have hh : (rendererWith 10 10 color fb cb db).height = 10 := rfl
  simp only [pixelHit, rendererConfig, hcam, hw, hh, screenX_centre, screenY_centre,
    ASCIIRenderer.create_rayDirection_centre, hpos]

/-- The centre pixel of the scene of `main` on a 10x10 grid: the hit is at depth 5, at the
point `(0, 0, -3)`, with a normal along the `z` axis. -/
lemma pixelHit_centre_three (rotationY : ℝ) (texture : List (List Bool)) (color : Bool)
    (fb : ℕ → ℕ → Char) (cb : ℕ → ℕ → String) (db : ℕ → ℕ → ℝ) :
    pixelHit ⟨3, ⟨0, 0, 0⟩, rotationY, texture⟩
        (rendererConfig (rendererWith 10 10 color fb cb db)) 5 5
      = some (5, ⟨0, 0, -3⟩, (Vec3.mk 0 0 (-3)).normalize) := by
  rw [pixelHit_centre, intersectRay_centre 3 rotationY texture (by norm_num),
    if_pos (by norm_num)]
  norm_num

/-! ## Claims on `render` -/

/-- C3 as stated fails. For a planet of radius `DBL_MAX` at the origin the camera ray of
the centre pixel of a 10x10 grid hits the planet (from the inside, at depth `8 + DBL_MAX`), and
yet the depth stored for that pixel after `render` is the sentinel, because the hit does not
pass the test `depth < depthBuffer[y][x]`. -/
theorem render_depth_sentinel_counterexample :
    (Earth.intersectRay ⟨DBL_MAX, ⟨0, 0, 0⟩, 0, oceanTexture⟩
        (ASCIIRenderer.create 10 10 true).camera.position
        ((ASCIIRenderer.create 10 10 true).camera.rayDirection
          (screenX 10 5) (screenY 10 5))).isSome = true ∧
    ((ASCIIRenderer.create 10 10 true).render ⟨DBL_MAX, ⟨0, 0, 0⟩, 0, oceanTexture⟩
        (fun _ => 0)).1.depthBuffer 5 5 = DBL_MAX := by
  have hhit := pixelHit_centre ⟨DBL_MAX, ⟨0, 0, 0⟩, 0, oceanTexture⟩ true
    (fun _ _ => ' ') (fun _ _ => Color.RESET) (fun _ _ => DBL_MAX)
  rw [intersectRay_centre DBL_MAX 0 oceanTexture (by linarith [DBL_MAX_pos]),
    if_neg (by linarith [DBL_MAX_pos])] at hhit
  constructor
  · have h2 : Earth.intersectRay ⟨DBL_MAX, ⟨0, 0, 0⟩, 0, oceanTexture⟩
        (ASCIIRenderer.create 10 10 true).camera.position
        ((ASCIIRenderer.create 10 10 true).camera.rayDirection (screenX 10 5) (screenY 10 5))
        = pixelHit ⟨DBL_MAX, ⟨0, 0, 0⟩, 0, oceanTexture⟩
            (rendererConfig (rendererWith 10 10 true (fun _ _ => ' ')
              (fun _ _ => Color.RESET) (fun _ _ => DBL_MAX))) 5 5 := rfl
    rw [h2, hhit]
    rfl
  · have h3 := ASCIIRenderer.render_depth (rendererWith 10 10 true (fun _ _ => ' ')
      (fun _ _ => Color.RESET) (fun _ _ => DBL_MAX)) ⟨DBL_MAX, ⟨0, 0, 0⟩, 0, oceanTexture⟩
      (fun _ => 0) 5 5 (by decide) (by decide)
    rw [hhit] at h3
    simp only at h3
    rw [if_neg (by linarith)] at h3
    exact h3

/-- C3 (amended). After one call of `render` on a constructed renderer (whatever its buffers
held before), for every pixel `(x, y)` of the grid: the stored depth is the sentinel when the
camera ray of the pixel does not hit the planet; it is the depth returned by `intersectRay` when
the ray hits at a depth below the sentinel; it is the sentinel when the ray hits at a depth not
below the sentinel; and it is never greater than the ray parameter of any point of the ray on
the planet, hence never a farther intersection. -/
theorem render_depth_nearest (w h : ℕ) (color : Bool) (fb : ℕ → ℕ → Char)
    (cb : ℕ → ℕ → String) (db : ℕ → ℕ → ℝ) (earth : Earth) (g : RandStream) (x y : ℕ)
    (hx : x < w) (hy : y < h) :
    let r := rendererWith w h color fb cb db
    let ray := r.camera.rayDirection (screenX w x) (screenY h y)
    let stored := (r.render earth g).1.depthBuffer y x
    (earth.intersectRay r.camera.position ray = none → stored = DBL_MAX) ∧
    (∀ depth hitPoint normal,
      earth.intersectRay r.camera.position ray = some (depth, hitPoint, normal) →
      depth < DBL_MAX → stored = depth) ∧
    (∀ depth hitPoint normal,
      earth.intersectRay r.camera.position ray = some (depth, hitPoint, normal) →
      DBL_MAX ≤ depth → stored = DBL_MAX) ∧
    (∀ t, 0 ≤ t → onSphere earth r.camera.position ray t → stored ≤ t) := by
  intro r ray stored
  have hd : stored = match earth.intersectRay r.camera.position ray with
      | none => DBL_MAX
      | some (depth, _, _) => if depth < DBL_MAX then depth else DBL_MAX :=
    ASCIIRenderer.render_depth r earth g y x hy hx
  have hunit : ray.dot ray = 1 :=
    Vec3.dot_self_of_length_eq_one _
      (ASCIIRenderer.create_rayDirection_length w h color (screenX w x) (screenY h y))
  refine ⟨?_, ?_, ?_, ?_⟩
  · intro hnone
    rw [hd, hnone]
  · intro depth hitPoint normal hsome hlt
    rw [hd, hsome]
    simp only [if_pos hlt]
  · intro depth hitPoint normal hsome hge
    rw [hd, hsome]
    simp only [if_neg (not_lt.mpr hge)]
  · intro t ht hon
    rcases earth.intersectRay_spec r.camera.position ray hunit with
      ⟨hno, _⟩ | ⟨d, _, _, hmin, hsome⟩
    · exact absurd hon (hno t ht)
    · rw [hd, hsome]
      simp only
      split_ifs with hlt
      · exact hmin t ht hon
      · exact le_trans (not_lt.mp hlt) (hmin t ht hon)

/-- An instance of the amended C3: the centre pixel of a 10x10 grid and the planet of radius 3
at the origin, where the stored depth is the depth 5 of the hit. -/
theorem render_depth_nearest_witness :
    5 < 10 ∧ 5 < 10 ∧
    ((rendererWith 10 10 true (fun _ _ => ' ') (fun _ _ => Color.RESET)
        (fun _ _ => DBL_MAX)).render ⟨3, ⟨0, 0, 0⟩, 0, oceanTexture⟩
        (fun _ => 0)).1.depthBuffer 5 5 = 5 :=
  ⟨by decide, by decide,
   (render_depth_nearest 10 10 true (fun _ _ => ' ') (fun _ _ => Color.RESET)
      (fun _ _ => DBL_MAX) ⟨3, ⟨0, 0, 0⟩, 0, oceanTexture⟩ (fun _ => 0) 5 5
      (by decide) (by decide)).2.1 5 ⟨0, 0, -3⟩ (Vec3.mk 0 0 (-3)).normalize
      (pixelHit_centre_three 0 oceanTexture true _ _ _) five_lt_DBL_MAX⟩

/-- C4. End-to-end scene: for a 10x10 renderer (camera at `(0, 0, -8)` looking at the
origin, up `(0, 1, 0)`, fov 45; any colour mode, any earlier buffer contents) and a planet of
radius 3 at the origin, for every rotation phase and surface map, the centre pixel `(5, 5)` has
screen coordinates `(0, 0)`, its camera ray is `(0, 0, 1)`, the ray registers a hit, and after
`render` the depth stored for the pixel is `5`. -/
theorem centre_pixel_depth (rotationY : ℝ) (texture : List (List Bool)) (color : Bool)
    (fb : ℕ → ℕ → Char) (cb : ℕ → ℕ → String) (db : ℕ → ℕ → ℝ) (g : RandStream) :
    let r := rendererWith 10 10 color fb cb db
    let earth : Earth := ⟨3, ⟨0, 0, 0⟩, rotationY, texture⟩
    screenX 10 5 = 0 ∧ screenY 10 5 = 0 ∧
    r.camera.rayDirection (screenX 10 5) (screenY 10 5) = ⟨0, 0, 1⟩ ∧
    (earth.intersectRay r.camera.position ⟨0, 0, 1⟩).isSome = true ∧
    (r.render earth g).1.depthBuffer 5 5 = 5 := by
  intro r earth
  have hhit := pixelHit_centre_three rotationY texture color fb cb db
  have hray : r.camera.rayDirection (screenX 10 5) (screenY 10 5) = ⟨0, 0, 1⟩ := by
    rw [screenX_centre, screenY_centre]
    exact ASCIIRenderer.create_rayDirection_centre 10 10 color
  refine ⟨screenX_centre, screenY_centre, hray, ?_, ?_⟩
  · have h2 : earth.intersectRay r.camera.position ⟨0, 0, 1⟩
        = pixelHit earth (rendererConfig r) 5 5 := by
      rw [pixelHit_centre]; rfl
    rw [h2, hhit]
    rfl
  · have h3 := ASCIIRenderer.render_depth r earth g 5 5
      (show (5 : ℕ) < 10 by decide) (show (5 : ℕ) < 10 by decide)
    rw [hhit] at h3
    simp only at h3
    rw [if_pos five_lt_DBL_MAX] at h3
    exact h3

/-- At rotation phase 0 the light direction has no `z` component, so the centre of the disc,
whose normal is along the `z` axis, gets the diffuse term `0`. -/
lemma centre_diffuse_zero (radius : ℝ) (C : Vec3) (texture : List (List Bool)) (c : ℝ) :
    max 0 ((Vec3.mk 0 0 c).normalize.dot (lightDirOf ⟨radius, C, 0, texture⟩)) = 0 := by
  have hx := Vec3.normalize_x_zero ⟨0, 0, c⟩ rfl
  have hy := Vec3.normalize_y_zero ⟨0, 0, c⟩ rfl
  have hz : (lightDirOf ⟨radius, C, 0, texture⟩).z = 0 := by
    unfold lightDirOf
    exact Vec3.normalize_z_zero _ (by simp)
  simp only [Vec3.dot, hx, hy, hz]
  simp

/-- C5 as stated fails. On the all-ocean surface map, with the planet as constructed
(radius 3 at the origin, rotation phase 0), the glyph stored by `render` for the centre pixel
of a 10x10 grid is the blank character: the centre of the disc is on the night side and the
night override writes a blank for ocean. -/
theorem centre_pixel_glyph_counterexample :
    ((ASCIIRenderer.create 10 10 true).render ⟨3, ⟨0, 0, 0⟩, 0, oceanTexture⟩
        (fun _ => 0)).1.frameBuffer 5 5 = ' ' := by
  have hg := ASCIIRenderer.render_glyph (rendererWith 10 10 true (fun _ _ => ' ')
    (fun _ _ => Color.RESET) (fun _ _ => DBL_MAX)) ⟨3, ⟨0, 0, 0⟩, 0, oceanTexture⟩
    (fun _ => 0) 5 5 (by decide) (by decide) 5 ⟨0, 0, -3⟩ (Vec3.mk 0 0 (-3)).normalize
    (pixelHit_centre_three 0 oceanTexture true _ _ _) five_lt_DBL_MAX
  rw [pixelGlyph_night _ _ _ _ _ _
    (by rw [centre_diffuse_zero]; norm_num), getTextureChar_ocean] at hg
  exact hg

/-- C5 (amended). End-to-end scene: for a 10x10 renderer (any colour mode, any earlier buffer
contents) and a planet of radius 3 at the origin at rotation phase 0 with any surface map, the
centre pixel is on the night side, and after `render` its glyph is the night glyph of the
surface under it, whatever the star pass drew there: `.` when the hit point `(0, 0, -3)` is
land and the blank character when it is ocean; it is never `+`. -/
theorem centre_pixel_glyph (texture : List (List Bool)) (color : Bool)
    (fb : ℕ → ℕ → Char) (cb : ℕ → ℕ → String) (db : ℕ → ℕ → ℝ) (g : RandStream) :
    let r := rendererWith 10 10 color fb cb db
    let earth : Earth := ⟨3, ⟨0, 0, 0⟩, 0, texture⟩
    (r.render earth g).1.frameBuffer 5 5
      = (if earth.getTextureChar ⟨0, 0, -3⟩ = '#' then '.' else ' ') ∧
    (r.render earth g).1.frameBuffer 5 5 ≠ '+' := by
  intro r earth
  have hg := ASCIIRenderer.render_glyph r earth g 5 5
    (show (5 : ℕ) < 10 by decide) (show (5 : ℕ) < 10 by decide)
    5 ⟨0, 0, -3⟩ (Vec3.mk 0 0 (-3)).normalize
    (pixelHit_centre_three 0 texture color fb cb db) five_lt_DBL_MAX
  rw [pixelGlyph_night _ _ _ _ _ _ (by rw [centre_diffuse_zero]; norm_num)] at hg
  refine ⟨hg, ?_⟩
  rw [hg]
  split_ifs <;> decide

/-! ## Rotation phase -/

lemma PI_pos : 0 < PI := by unfold PI; norm_num

/-! ## Texture lookup under a phase wrap -/

/-- The classification is periodic in the phase with the exact period `2 π`. -/
lemma getTextureChar_period (e : Earth) (hitPoint : Vec3) (theta : ℝ) :
    Earth.getTextureChar { e with rotationY := theta + 2 * Real.pi } hitPoint
      = Earth.getTextureChar { e with rotationY := theta } hitPoint := by
  have h : ∀ v : Vec3, rotate v ⟨0, 1, 0⟩ (-(theta + 2 * Real.pi)) = rotate v ⟨0, 1, 0⟩ (-theta) := by
    intro v
    rw [rotate_unitY, rotate_unitY]
    simp only [Real.cos_neg, Real.sin_neg, Real.cos_add_two_pi, Real.sin_add_two_pi]
  simp only [Earth.getTextureChar, h, Earth.isLand]

lemma truncToInt_of_mem (v : ℝ) (n : ℤ) (h0 : 0 ≤ v) (h1 : (n : ℝ) ≤ v) (h2 : v < n + 1) :
    truncToInt v = n := by
  unfold truncToInt
  rw [if_pos h0, Int.floor_eq_iff]
  exact ⟨h1, h2⟩

lemma atan2_neg_one : atan2 0 (-1) = Real.pi := by
  unfold atan2
  have : (⟨-1, 0⟩ : ℂ) = -1 := by
    apply Complex.ext <;> simp
  rw [this, Complex.arg_neg_one]

lemma atan2_sin_cos (t : ℝ) (h1 : -Real.pi < t) (h2 : t ≤ Real.pi) :
    atan2 (Real.sin t) (Real.cos t) = t := by
  unfold atan2
  have : (⟨Real.cos t, Real.sin t⟩ : ℂ) = Complex.cos t + Complex.sin t * Complex.I := by
    apply Complex.ext <;> simp [Complex.cos_ofReal_re, Complex.sin_ofReal_re]
  rw [this, Complex.arg_cos_add_sin_mul_I ⟨h1, h2⟩]

lemma clamp_truncToInt (N : ℤ) (v : ℝ) :
    max 0 (min N (truncToInt v)) = max 0 (min N ⌊v⌋) := by
  unfold truncToInt
  by_cases h : 0 ≤ v
  · rw [if_pos h]
  · rw [if_neg h]
    have hv : v < 0 := not_le.mp h
    have h1 : ⌈v⌉ ≤ 0 := by
      rw [Int.ceil_le]; simpa using hv.le
    have h2 : ⌊v⌋ < 0 := by
      rw [Int.floor_lt]; simpa using hv
    rw [max_eq_left (le_trans (min_le_right _ _) h1),
      max_eq_left (le_trans (min_le_right _ _) h2.le)]

lemma isLand_clamp (e : Earth) (h1 : e.texture.length = 180)
    (h2 : (e.texture.getD 0 []).length = 360) (lat lon : ℝ) :
    e.isLand lat lon
      = (e.texture.getD (max 0 (min 179 ⌊lat + 90⌋)).toNat []).getD
          (max 0 (min 359 ⌊lon + 180⌋)).toNat false := by
  unfold Earth.isLand
  simp only [h1, h2]
  have e1 : (lat + 90) / 180 * ((180 : ℕ) : ℝ) = lat + 90 := by
    push_cast; field_simp
  have e2 : (lon + 180) / 360 * ((360 : ℕ) : ℝ) = lon + 180 := by
    push_cast; field_simp
  have e3 : ((180 : ℕ) : ℤ) - 1 = 179 := by norm_num
  have e4 : ((360 : ℕ) : ℤ) - 1 = 359 := by norm_num
  rw [e1, e2, e3, e4, clamp_truncToInt, clamp_truncToInt]

lemma getD_replicate_const_false (n i : ℕ) : (List.replicate n false).getD i false = false := by
  rw [List.getD_eq_getElem?_getD, List.getElem?_replicate]
  split_ifs <;> rfl

lemma sub_zero_vec (v : Vec3) : v.sub ⟨0, 0, 0⟩ = v := by
  ext <;> simp [Vec3.sub]

/-! ## Surface map lookup -/

/-! ## Loops with the state at each visit -/

/-- One row of a loop whose body rewrites only its own cell, with the state in which each cell
of the row is visited. -/
lemma forRange_row_pre {σ γ β : Type} (cfg : σ → γ) (cell : σ → ℕ → ℕ → β)
    (step : ℕ → ℕ → σ → σ) (I : σ → Prop)
    (H1 : ∀ y x s, cfg (step y x s) = cfg s)
    (H2 : ∀ y x s y' x', ¬(y' = y ∧ x' = x) → cell (step y x s) y' x' = cell s y' x')
    (HI : ∀ y x s, I s → I (step y x s))
    (y n : ℕ) (s : σ) (hs : I s) :
    I (forRange n (fun x s => step y x s) s) ∧
    cfg (forRange n (fun x s => step y x s) s) = cfg s ∧
    (∀ y' x', ¬(y' = y ∧ x' < n) →
      cell (forRange n (fun x s => step y x s) s) y' x' = cell s y' x') ∧
    (∀ x', x' < n → ∃ s', I s' ∧ cfg s' = cfg s ∧ cell s' y x' = cell s y x' ∧
      cell (forRange n (fun x s => step y x s) s) y x' = cell (step y x' s') y x') := by
  induction n with
  | zero =>
    refine ⟨hs, rfl, fun _ _ _ => rfl, fun x' hx' => absurd hx' (Nat.not_lt_zero _)⟩
  | succ n ih =>
    obtain ⟨ihI, ihc, ihout, ihin⟩ := ih
    rw [forRange_succ]
    refine ⟨HI _ _ _ ihI, by rw [H1, ihc], fun y' x' hne => ?_, fun x' hx' => ?_⟩
    · rw [H2 _ _ _ _ _ (fun h => hne ⟨h.1, by omega⟩),
        ihout _ _ (fun h => hne ⟨h.1, by omega⟩)]
    · by_cases hx : x' = n
      · subst hx
        exact ⟨_, ihI, ihc, ihout _ _ (fun h => absurd h.2 (lt_irrefl _)), rfl⟩
      · obtain ⟨s', hI', hc', hcell', hfin⟩ := ihin x' (by omega)
        refine ⟨s', hI', hc', hcell', ?_⟩
        rw [H2 _ _ _ _ _ (fun h => hx h.2), hfin]

/-- The two nested loops over a grid, with the state in which each cell is visited. -/
lemma forRange_grid_pre {σ γ β : Type} (cfg : σ → γ) (cell : σ → ℕ → ℕ → β)
    (step : ℕ → ℕ → σ → σ) (I : σ → Prop) (wd : γ → ℕ)
    (H1 : ∀ y x s, cfg (step y x s) = cfg s)
    (H2 : ∀ y x s y' x', ¬(y' = y ∧ x' = x) → cell (step y x s) y' x' = cell s y' x')
    (HI : ∀ y x s, I s → I (step y x s))
    (m : ℕ) (s : σ) (hs : I s) :
    I (forRange m (fun y s => forRange (wd (cfg s)) (fun x s => step y x s) s) s) ∧
    cfg (forRange m (fun y s => forRange (wd (cfg s)) (fun x s => step y x s) s) s) = cfg s ∧
    (∀ y' x', y' < m → x' < wd (cfg s) → ∃ s', I s' ∧ cfg s' = cfg s ∧
      cell s' y' x' = cell s y' x' ∧
      cell (forRange m (fun y s => forRange (wd (cfg s)) (fun x s => step y x s) s) s) y' x'
        = cell (step y' x' s') y' x') ∧
    (∀ y' x', ¬ y' < m →
      cell (forRange m (fun y s => forRange (wd (cfg s)) (fun x s => step y x s) s) s) y' x'
        = cell s y' x') := by
  induction m with
  | zero =>
    exact ⟨hs, rfl, fun _ _ h => absurd h (Nat.not_lt_zero _), fun _ _ _ => rfl⟩
  | succ m ih =>
    obtain ⟨ihI, ihc, ihin, ihout⟩ := ih
    rw [forRange_succ]
    obtain ⟨rI, rc, rout, rin⟩ := forRange_row_pre cfg cell step I H1 H2 HI m
      (wd (cfg (forRange m (fun y s => forRange (wd (cfg s)) (fun x s => step y x s) s) s)))
      (forRange m (fun y s => forRange (wd (cfg s)) (fun x s => step y x s) s) s) ihI
    refine ⟨rI, by rw [rc, ihc], fun y' x' hy' hx' => ?_, fun y' x' hy' => ?_⟩
    · by_cases hy : y' = m
      · subst hy
        obtain ⟨s', hI', hc', hcell', hfin⟩ := rin x' (by rw [ihc]; exact hx')
        refine ⟨s', hI', hc'.trans ihc, ?_, hfin⟩
        rw [hcell', ihout _ _ (lt_irrefl _)]
      · obtain ⟨s', hI', hc', hcell', hfin⟩ := ihin y' x' (by omega) hx'
        refine ⟨s', hI', hc', hcell', ?_⟩
        rw [rout _ _ (fun h => hy h.1), hfin]
    · rw [rout _ _ (fun h => hy' (by omega)), ihout _ _ (fun h => hy' (by omega))]

/-! ## Shading rules -/

/-- The colour branch of the pixel body as a decision table: the night rule when
`diffuse < 0.2` (one draw of `std::rand` for a land hit), and otherwise the cloud rule over the
base rule, without any draw. -/
lemma shadeColor_table (texChar : Char) (diffuse lat_rad lon_rad cloudPhase : ℝ)
    (g : RandStream) :
    shadeColor texChar diffuse lat_rad lon_rad cloudPhase g =
      if diffuse < 0.2 then
        (nightCell texChar (g 0), if texChar = '#' then (rand g).2 else g)
      else
        (if cloudValue lat_rad lon_rad cloudPhase > 0.1 then
            cloudCell (cloudValue lat_rad lon_rad cloudPhase)
          else baseCell texChar diffuse lat_rad, g) := by
  unfold shadeColor nightCell cloudCell baseCell
  by_cases hn : diffuse < 0.2
  · simp only [if_pos hn]
    by_cases ht : texChar = '#'
    · simp only [if_pos ht]; rfl
    · simp only [if_neg ht]
  · have hd : diffuse ≥ 0.2 := not_lt.mp hn
    simp only [if_neg hn, if_pos hd]

/-- The no-colour branch of the pixel body as a decision table. -/
lemma shadeMono_table (texChar : Char) (diffuse lat_rad lon_rad cloudPhase : ℝ) :
    shadeMono texChar diffuse lat_rad lon_rad cloudPhase =
      if diffuse < 0.2 then (nightCell texChar 0).2
      else if cloudValue lat_rad lon_rad cloudPhase > 0.1 then
        (cloudCell (cloudValue lat_rad lon_rad cloudPhase)).2
      else baseGlyphMono texChar diffuse := by
  by_cases hn : diffuse < 0.2
  · rw [if_pos hn, shadeMono_night_glyph _ _ _ _ _ hn]
    unfold nightCell
    split_ifs <;> rfl
  · have hd : diffuse ≥ 0.2 := not_lt.mp hn
    unfold shadeMono cloudCell baseGlyphMono
    simp only [if_neg hn, if_pos hd]

/-- The glyph of the base rule is the same with and without colour. -/
lemma baseCell_glyph (texChar : Char) (diffuse lat_rad : ℝ) :
    (baseCell texChar diffuse lat_rad).2 = baseGlyphMono texChar diffuse := by
  unfold baseCell baseGlyphMono
  split_ifs <;> rfl

/-- The glyph chosen in colour mode is the glyph chosen without colour. -/
lemma shadeColor_glyph_eq_mono (texChar : Char) (diffuse lat_rad lon_rad cloudPhase : ℝ)
    (g : RandStream) :
    (shadeColor texChar diffuse lat_rad lon_rad cloudPhase g).1.2
      = shadeMono texChar diffuse lat_rad lon_rad cloudPhase := by
  rw [shadeColor_table, shadeMono_table]
  by_cases hn : diffuse < 0.2
  · simp only [if_pos hn]
    unfold nightCell
    split_ifs <;> rfl
  · simp only [if_neg hn]
    split_ifs
    · rfl
    · exact baseCell_glyph _ _ _

/-- The colour branch consumes at most one value of `std::rand`. -/
lemma shadeColor_stream (texChar : Char) (diffuse lat_rad lon_rad cloudPhase : ℝ)
    (g : RandStream) :
    (shadeColor texChar diffuse lat_rad lon_rad cloudPhase g).2 = g ∨
    (shadeColor texChar diffuse lat_rad lon_rad cloudPhase g).2 = (rand g).2 := by
  rw [shadeColor_table]
  split_ifs
  · right; rfl
  · left; rfl
  · left; rfl
  · left; rfl

namespace ASCIIRenderer

/-- The pixel body on a hit that passes the depth test, all three buffers and the stream. -/
lemma renderPixel_near_full (earth : Earth) (y x : ℕ)
    (s : ASCIIRenderer × RandStream) (depth : ℝ) (hitPoint normal : Vec3)
    (h : pixelHit earth (rendererConfig s.1) y x = some (depth, hitPoint, normal))
    (hd : depth < s.1.depthBuffer y x) :
    (renderPixel earth (lightDirOf earth) (earth.rotationY * 0.7) y x s).1.frameBuffer y x
      = (if s.1.useColor = true then
          (shadeColor (earth.getTextureChar hitPoint) (hitDiffuse earth normal)
            (hitLat earth hitPoint) (hitLon earth hitPoint) (earth.rotationY * 0.7) s.2).1.2
        else shadeMono (earth.getTextureChar hitPoint) (hitDiffuse earth normal)
            (hitLat earth hitPoint) (hitLon earth hitPoint) (earth.rotationY * 0.7)) ∧
    (renderPixel earth (lightDirOf earth) (earth.rotationY * 0.7) y x s).1.colorBuffer y x
      = (if s.1.useColor = true then
          (shadeColor (earth.getTextureChar hitPoint) (hitDiffuse earth normal)
            (hitLat earth hitPoint) (hitLon earth hitPoint) (earth.rotationY * 0.7) s.2).1.1
        else s.1.colorBuffer y x) := by
  simp only [pixelHit, rendererConfig] at h
  simp only [renderPixel, h, if_pos hd, hitDiffuse, hitLat, hitLon]
  by_cases hc : s.1.useColor = true
  · simp only [if_pos hc, setCell, and_self, if_true]
  · simp only [if_neg hc, setCell, and_self, if_true]

/-- The pixel body leaves the colour tags of the other cells, and without colour those of every
cell. -/
lemma renderPixel_colorBuffer (earth : Earth) (lightDir : Vec3) (cloudPhase : ℝ) (y x : ℕ)
    (s : ASCIIRenderer × RandStream) (y' x' : ℕ)
    (hne : ¬(y' = y ∧ x' = x) ∨ s.1.useColor = false) :
    (renderPixel earth lightDir cloudPhase y x s).1.colorBuffer y' x' = s.1.colorBuffer y' x' := by
  rcases h : pixelHit earth (rendererConfig s.1) y x with _ | ⟨depth, hitPoint, normal⟩
  · rw [renderPixel_none _ _ _ _ _ _ h]
  · by_cases hd : depth < s.1.depthBuffer y x
    · simp only [pixelHit, rendererConfig] at h
      simp only [renderPixel, h, if_pos hd]
      rcases hne with hne | hne
      · split_ifs <;> simp only [setCell, if_neg hne]
      · simp [hne]
    · rw [renderPixel_far _ _ _ _ _ _ _ _ _ h hd]

/-- The pixel body draws at most one value from the stream of `std::rand`. -/
lemma renderPixel_stream (earth : Earth) (lightDir : Vec3) (cloudPhase : ℝ) (y x : ℕ)
    (s : ASCIIRenderer × RandStream) :
    (renderPixel earth lightDir cloudPhase y x s).2 = s.2 ∨
    (renderPixel earth lightDir cloudPhase y x s).2 = (rand s.2).2 := by
  rcases h : pixelHit earth (rendererConfig s.1) y x with _ | ⟨depth, hitPoint, normal⟩
  · rw [renderPixel_none _ _ _ _ _ _ h]; left; rfl
  · by_cases hd : depth < s.1.depthBuffer y x
    · simp only [pixelHit, rendererConfig] at h
      simp only [renderPixel, h, if_pos hd]
      by_cases hc : s.1.useColor = true
      · simp only [if_pos hc]
        exact shadeColor_stream _ _ _ _ _ _
      · simp only [if_neg hc]; left; trivial
    · rw [renderPixel_far _ _ _ _ _ _ _ _ _ h hd]; left; rfl

end ASCIIRenderer

/-- A stream is a later part of the stream `g`. -/
lemma shift_rand (g : RandStream) (t : RandStream) (h : ∃ k, t = fun i => g (i + k)) :
    ∃ k, (rand t).2 = fun i => g (i + k) := by
  obtain ⟨k, hk⟩ := h
  refine ⟨k + 1, ?_⟩
  funext i
  simp only [rand, hk]
  congr 1
  omega

namespace ASCIIRenderer

lemma starStep_stream (g : RandStream) (s : ASCIIRenderer × RandStream)
    (h : ∃ k, s.2 = fun i => g (i + k)) : ∃ k, (starStep s).2 = fun i => g (i + k) := by
  have h1 := shift_rand g _ h
  have h2 := shift_rand g _ h1
  have h3 := shift_rand g _ h2
  unfold starStep
  simp only
  by_cases hc : s.1.depthBuffer ((rand (rand s.2).2).1 % s.1.height) ((rand s.2).1 % s.1.width)
      = DBL_MAX
  · rw [if_pos hc]; exact h3
  · rw [if_neg hc]; exact h2

lemma renderStars_stream (g : RandStream) (s : ASCIIRenderer × RandStream)
    (h : ∃ k, s.2 = fun i => g (i + k)) : ∃ k, (renderStars s).2 = fun i => g (i + k) := by
  unfold renderStars
  exact forRange_invariant (fun t => ∃ k, t.2 = fun i => g (i + k)) (fun _ t => starStep t)
    (fun _ t ht => starStep_stream g t ht) _ s h

/-- After `render` on a constructed renderer, a cell whose camera ray hits below the sentinel
holds the glyph of the shading branch of its colour mode, and in colour mode the colour tag of
that branch, computed on a later part of the stream of `std::rand`. -/
lemma render_hit_cell (w h : ℕ) (color : Bool) (fb : ℕ → ℕ → Char) (cb : ℕ → ℕ → String)
    (db : ℕ → ℕ → ℝ) (earth : Earth) (g : RandStream) (y x : ℕ) (hy : y < h) (hx : x < w)
    (depth : ℝ) (hitPoint normal : Vec3)
    (hhit : pixelHit earth (rendererConfig (rendererWith w h color fb cb db)) y x
      = some (depth, hitPoint, normal))
    (hd : depth < DBL_MAX) :
    ∃ k : ℕ,
      (((rendererWith w h color fb cb db).render earth g).1.frameBuffer y x
        = if color = true then
            (shadeColor (earth.getTextureChar hitPoint) (hitDiffuse earth normal)
              (hitLat earth hitPoint) (hitLon earth hitPoint) (earth.rotationY * 0.7)
              (fun i => g (i + k))).1.2
          else shadeMono (earth.getTextureChar hitPoint) (hitDiffuse earth normal)
              (hitLat earth hitPoint) (hitLon earth hitPoint) (earth.rotationY * 0.7)) ∧
      (color = true →
        ((rendererWith w h color fb cb db).render earth g).1.colorBuffer y x
          = (shadeColor (earth.getTextureChar hitPoint) (hitDiffuse earth normal)
              (hitLat earth hitPoint) (hitLon earth hitPoint) (earth.rotationY * 0.7)
              (fun i => g (i + k))).1.1) := by
  obtain ⟨hcc, hclear⟩ := clearBuffers_spec (rendererWith w h color fb cb db)
  obtain ⟨hsc, hsd⟩ := renderStars_spec ((rendererWith w h color fb cb db).clearBuffers, g)
  have hcfg : rendererConfig
      (renderStars ((rendererWith w h color fb cb db).clearBuffers, g)).1
      = rendererConfig (rendererWith w h color fb cb db) := hsc.trans hcc
  have hdepth : (renderStars ((rendererWith w h color fb cb db).clearBuffers, g)).1.depthBuffer
      y x = DBL_MAX := by
    rw [hsd]; exact (hclear y x hy hx).2.2
  have hI := renderStars_stream g ((rendererWith w h color fb cb db).clearBuffers, g)
    ⟨0, rfl⟩
  have hgrid := forRange_grid_pre
    (fun (s : ASCIIRenderer × RandStream) => rendererConfig s.1)
    (fun (s : ASCIIRenderer × RandStream) y x =>
      (s.1.frameBuffer y x, s.1.colorBuffer y x, s.1.depthBuffer y x))
    (fun y x s => renderPixel earth (lightDirOf earth) (earth.rotationY * 0.7) y x s)
    (fun s => ∃ k, s.2 = fun i => g (i + k))
    (fun c => c.1)
    (fun y x s => renderPixel_config _ _ _ y x s)
    (fun y x s y' x' hne => by
      have h1 := renderPixel_other earth (lightDirOf earth) (earth.rotationY * 0.7)
        y x s y' x' hne
      have h2 := renderPixel_colorBuffer earth (lightDirOf earth) (earth.rotationY * 0.7)
        y x s y' x' (Or.inl hne)
      simp only [Prod.mk.injEq] at h1 ⊢
      exact ⟨h1.1, h2, h1.2⟩)
    (fun y x s hs => by
      rcases renderPixel_stream earth (lightDirOf earth) (earth.rotationY * 0.7) y x s
        with h1 | h1
      · rw [h1]; exact hs
      · rw [h1]; exact shift_rand g _ hs)
    (renderStars ((rendererWith w h color fb cb db).clearBuffers, g)).1.height
    (renderStars ((rendererWith w h color fb cb db).clearBuffers, g)) hI
  have hy' : y < (renderStars ((rendererWith w h color fb cb db).clearBuffers, g)).1.height := by
    have := congrArg (fun c => c.2.1) hcfg
    simp only [rendererConfig] at this
    rw [this]; exact hy
  have hx' : x < (rendererConfig
      (renderStars ((rendererWith w h color fb cb db).clearBuffers, g)).1).1 := by
    rw [hcfg]; exact hx
  obtain ⟨s', ⟨k, hk⟩, hc', hcell', hfin⟩ := hgrid.2.2.1 y x hy' hx'
  simp only [Prod.mk.injEq] at hcell' hfin
  have hcfg' : rendererConfig s'.1 = rendererConfig (rendererWith w h color fb cb db) :=
    hc'.trans hcfg
  have hcol : s'.1.useColor = color := by
    have := congrArg (fun c => c.2.2.2) hcfg'
    simpa only [rendererConfig] using this
  have hhit' : pixelHit earth (rendererConfig s'.1) y x = some (depth, hitPoint, normal) := by
    rw [hcfg']; exact hhit
  have hd' : depth < s'.1.depthBuffer y x := by
    rw [hcell'.2.2, hdepth]; exact hd
  obtain ⟨hf, hcl⟩ := renderPixel_near_full earth y x s' depth hitPoint normal hhit' hd'
  refine ⟨k, ?_, ?_⟩
  · have : ((rendererWith w h color fb cb db).render earth g).1.frameBuffer y x
        = (renderPixel earth (lightDirOf earth) (earth.rotationY * 0.7) y x s').1.frameBuffer
            y x := hfin.1
    rw [this, hf, hcol, hk]
  · intro hcolor
    have : ((rendererWith w h color fb cb db).render earth g).1.colorBuffer y x
        = (renderPixel earth (lightDirOf earth) (earth.rotationY * 0.7) y x s').1.colorBuffer
            y x := hfin.2.1
    rw [this, hcl, hcol, if_pos hcolor, hk]

end ASCIIRenderer


/-! ## Concrete scenes for the shading rules -/

lemma getD_replicate_true (n m i j : ℕ) (hi : i < n) (hj : j < m) :
    ((List.replicate n (List.replicate m true)).getD i []).getD j false = true := by
  simp only [List.getD_eq_getElem?_getD, List.getElem?_replicate, if_pos hi, Option.getD_some,
    if_pos hj]

/-- On the all-land map every hit point is classified as land. -/
lemma getTextureChar_land (radius : ℝ) (C : Vec3) (rotationY : ℝ) (hitPoint : Vec3) :
    Earth.getTextureChar ⟨radius, C, rotationY, landTexture⟩ hitPoint = '#' := by
  have hlen : landTexture.length = 180 := by
    simp only [landTexture, List.length_replicate]
  have hrow : (landTexture.getD 0 []).length = 360 := by
    unfold landTexture
    rw [List.getD_eq_getElem?_getD, List.getElem?_replicate, if_pos (by norm_num),
      Option.getD_some, List.length_replicate]
  unfold Earth.getTextureChar
  simp only
  rw [isLand_clamp _ hlen hrow]
  have h1 : ∀ v : ℝ, (max 0 (min 179 ⌊v⌋)).toNat < 180 := by
    intro v
    have : max 0 (min 179 ⌊v⌋) ≤ 179 := max_le (by norm_num) (min_le_left _ _)
    omega
  have h2 : ∀ v : ℝ, (max 0 (min 359 ⌊v⌋)).toNat < 360 := by
    intro v
    have : max 0 (min 359 ⌊v⌋) ≤ 359 := max_le (by norm_num) (min_le_left _ _)
    omega
  simp only [landTexture]
  rw [if_pos (getD_replicate_true _ _ _ _ (h1 _) (h2 _))]

/-- The camera ray of the centre pixel of a 10x10 grid meets the planet `unitScene n` at depth
8, at the origin, with the normal `n`. -/
lemma pixelHit_unitScene (n : Vec3) (hn : n.length = 1) (hz : n.z ≤ 0)
    (texture : List (List Bool)) (color : Bool) (fb : ℕ → ℕ → Char) (cb : ℕ → ℕ → String)
    (db : ℕ → ℕ → ℝ) :
    pixelHit (unitScene n texture) (rendererConfig (rendererWith 10 10 color fb cb db)) 5 5
      = some (8, ⟨0, 0, 0⟩, n) := by
  have hnn : n.x * n.x + n.y * n.y + n.z * n.z = 1 := Vec3.dot_self_of_length_eq_one n hn
  rw [pixelHit_centre, Earth.intersectRay_unit _ _ _ (by simp [Vec3.dot])]
  have hb : 2 * ((Vec3.mk 0 0 (-8)).sub (unitScene n texture).position).dot ⟨0, 0, 1⟩
      = 2 * (n.z - 8) := by
    simp only [Vec3.dot, Vec3.sub, unitScene]; ring
  have hc : ((Vec3.mk 0 0 (-8)).sub (unitScene n texture).position).dot
      ((Vec3.mk 0 0 (-8)).sub (unitScene n texture).position)
      - (unitScene n texture).radius * (unitScene n texture).radius = 64 - 16 * n.z := by
    simp only [Vec3.dot, Vec3.sub, unitScene]; linear_combination hnn
  simp only [hb, hc]
  have hdisc : 2 * (n.z - 8) * (2 * (n.z - 8)) - 4 * (64 - 16 * n.z)
      = (-(2 * n.z)) * (-(2 * n.z)) := by ring
  rw [hdisc, Real.sqrt_mul_self (by linarith)]
  have h1 : (-(2 * (n.z - 8)) - -(2 * n.z)) / 2 = 8 := by ring
  rw [h1, if_neg (not_lt.mpr (mul_self_nonneg _)), if_pos (by norm_num)]
  have hp : (Vec3.mk 0 0 (-8)).add ((Vec3.mk 0 0 1).scale 8) = ⟨0, 0, 0⟩ := by
    simp only [Vec3.add, Vec3.scale]; ext <;> norm_num
  have hsub : (Vec3.mk 0 0 0).sub (unitScene n texture).position = n := by
    simp only [Vec3.sub, unitScene]; ext <;> simp
  rw [hp, hsub, Vec3.normalize_of_length_one n hn]

/-- At rotation phase 0 the un-rotated direction of the hit of `unitScene n` is `n` itself. -/
lemma unitScene_lat_lon (n : Vec3) (hn : n.length = 1) (texture : List (List Bool)) :
    hitLat (unitScene n texture) ⟨0, 0, 0⟩ = Real.arcsin n.y ∧
    hitLon (unitScene n texture) ⟨0, 0, 0⟩ = atan2 n.z n.x := by
  have hsub : (Vec3.mk 0 0 0).sub (unitScene n texture).position = n := by
    simp only [Vec3.sub, unitScene]; ext <;> simp
  have hrot : (unitScene n texture).rotationY = 0 := rfl
  simp only [hitLat, hitLon, hsub, hrot, neg_zero, rotate_zero_angle,
    Vec3.normalize_of_length_one n hn, and_self]

/-- The light direction at rotation phase 0. -/
lemma lightDir_phase_zero (e : Earth) (h : e.rotationY = 0) :
    (lightDirOf e).z = 0 ∧ 0 < (lightDirOf e).x ∧ (lightDirOf e).y = 0.5 * (lightDirOf e).x ∧
    (lightDirOf e).x * (lightDirOf e).x + (lightDirOf e).y * (lightDirOf e).y = 1 ∧
    (2 / 5 : ℝ) < (lightDirOf e).x := by
  have hlen : (Vec3.mk 1 0.5 0).length * (Vec3.mk 1 0.5 0).length = 1.25 := by
    rw [Vec3.length_mul_self]; norm_num
  have hpos : 0 ≤ (Vec3.mk 1 0.5 0).length := Vec3.length_nonneg _
  have hge : 1 ≤ (Vec3.mk 1 0.5 0).length := by nlinarith
  have hle : (Vec3.mk 1 0.5 0).length < 2 := by nlinarith
  have hL : lightDirOf e = ⟨1 / (Vec3.mk 1 0.5 0).length, 0.5 / (Vec3.mk 1 0.5 0).length,
      0 / (Vec3.mk 1 0.5 0).length⟩ := by
    unfold lightDirOf
    rw [h, Real.cos_zero, Real.sin_zero, neg_zero]
    exact Vec3.normalize_of_le _ (le_trans (by norm_num) hge)
  rw [hL]
  generalize (Vec3.mk 1 0.5 0).length = ℓ at *
  have hne : ℓ ≠ 0 := by linarith
  refine ⟨by simp, by positivity, by simp only; ring, ?_, ?_⟩
  · simp only; field_simp; nlinarith
  · simp only; rw [lt_div_iff₀ (by linarith)]; linarith

/-! ## Claims on the shading rules -/

namespace ASCIIRenderer

/-- After `render` in colour mode, the colour tag and the glyph of a cell whose camera ray hits
below the sentinel are given by the decision table, `g k` being the value drawn for the city
lights. -/
lemma render_colour_cell (w h : ℕ) (fb : ℕ → ℕ → Char) (cb : ℕ → ℕ → String)
    (db : ℕ → ℕ → ℝ) (earth : Earth) (g : RandStream) (y x : ℕ) (hy : y < h) (hx : x < w)
    (depth : ℝ) (hitPoint normal : Vec3)
    (hhit : pixelHit earth (rendererConfig (rendererWith w h true fb cb db)) y x
      = some (depth, hitPoint, normal))
    (hd : depth < DBL_MAX) :
    ∃ k : ℕ,
      (((rendererWith w h true fb cb db).render earth g).1.colorBuffer y x,
        ((rendererWith w h true fb cb db).render earth g).1.frameBuffer y x)
      = if hitDiffuse earth normal < 0.2 then nightCell (earth.getTextureChar hitPoint) (g k)
        else if hitCloud earth hitPoint > 0.1 then cloudCell (hitCloud earth hitPoint)
        else baseCell (earth.getTextureChar hitPoint) (hitDiffuse earth normal)
          (hitLat earth hitPoint) := by
  obtain ⟨k, hf, hc⟩ := render_hit_cell w h true fb cb db earth g y x hy hx depth hitPoint
    normal hhit hd
  refine ⟨k, ?_⟩
  rw [hc rfl, hf, if_pos rfl, Prod.mk.eta, shadeColor_table]
  simp only [hitCloud, zero_add]
  split_ifs <;> rfl

/-- After `render` without colour, the glyph of a cell whose camera ray hits below the sentinel
is given by the decision table. -/
lemma render_mono_glyph (w h : ℕ) (fb : ℕ → ℕ → Char) (cb : ℕ → ℕ → String)
    (db : ℕ → ℕ → ℝ) (earth : Earth) (g : RandStream) (y x : ℕ) (hy : y < h) (hx : x < w)
    (depth : ℝ) (hitPoint normal : Vec3)
    (hhit : pixelHit earth (rendererConfig (rendererWith w h false fb cb db)) y x
      = some (depth, hitPoint, normal))
    (hd : depth < DBL_MAX) :
    ((rendererWith w h false fb cb db).render earth g).1.frameBuffer y x
      = if hitDiffuse earth normal < 0.2 then (nightCell (earth.getTextureChar hitPoint) 0).2
        else if hitCloud earth hitPoint > 0.1 then (cloudCell (hitCloud earth hitPoint)).2
        else baseGlyphMono (earth.getTextureChar hitPoint) (hitDiffuse earth normal) := by
  obtain ⟨k, hf, _⟩ := render_hit_cell w h false fb cb db earth g y x hy hx depth hitPoint
    normal hhit hd
  rw [hf, if_neg (by simp), shadeMono_table]
  rfl

end ASCIIRenderer

/-- The hit of a camera ray does not depend on the colour mode nor on the buffers. -/
lemma pixelHit_mode (earth : Earth) (w h : ℕ) (color color' : Bool) (fb fb' : ℕ → ℕ → Char)
    (cb cb' : ℕ → ℕ → String) (db db' : ℕ → ℕ → ℝ) (y x : ℕ) :
    pixelHit earth (rendererConfig (rendererWith w h color fb cb db)) y x
      = pixelHit earth (rendererConfig (rendererWith w h color' fb' cb' db')) y x := rfl

/-! ## The state in which a pixel is visited -/

/-- One row of a loop whose body rewrites only its own cell: the final content of a cell of the
row is the one left by its own visit, made in the state reached after the cells before it. -/
lemma forRange_row_at {σ β : Type} (cell : σ → ℕ → ℕ → β) (step : ℕ → ℕ → σ → σ)
    (H2 : ∀ y x s y' x', ¬(y' = y ∧ x' = x) → cell (step y x s) y' x' = cell s y' x')
    (y n : ℕ) (s : σ) (x' : ℕ) (hx' : x' < n) :
    cell (forRange n (fun x s => step y x s) s) y x'
      = cell (step y x' (forRange x' (fun x s => step y x s) s)) y x' := by
  induction n with
  | zero => exact absurd hx' (Nat.not_lt_zero _)
  | succ n ih =>
    rw [forRange_succ]
    by_cases hx : x' = n
    · subst hx; rfl
    · rw [H2 _ _ _ _ _ (fun h => hx h.2), ih (by omega)]

/-- The two nested loops over a grid: the final content of a cell is the one left by its own
visit, made in the state reached after the rows above it and the cells before it in its row. -/
lemma forRange_grid_at {σ γ β : Type} (cfg : σ → γ) (cell : σ → ℕ → ℕ → β)
    (step : ℕ → ℕ → σ → σ) (wd : γ → ℕ)
    (H1 : ∀ y x s, cfg (step y x s) = cfg s)
    (H2 : ∀ y x s y' x', ¬(y' = y ∧ x' = x) → cell (step y x s) y' x' = cell s y' x')
    (m : ℕ) (s : σ) (y' x' : ℕ) (hy' : y' < m) (hx' : x' < wd (cfg s)) :
    cell (forRange m (fun y s => forRange (wd (cfg s)) (fun x s => step y x s) s) s) y' x'
      = cell (step y' x'
          (forRange x' (fun x s => step y' x s)
            (forRange y' (fun y s => forRange (wd (cfg s)) (fun x s => step y x s) s) s)))
          y' x' := by
  induction m with
  | zero => exact absurd hy' (Nat.not_lt_zero _)
  | succ m ih =>
    rw [forRange_succ]
    obtain ⟨_, hcm, _, _⟩ := forRange_grid_pre cfg cell step (fun _ => True) wd H1 H2
      (fun _ _ _ _ => trivial) m s trivial
    obtain ⟨_, _, rout, _⟩ := forRange_row_pre cfg cell step (fun _ => True) H1 H2
      (fun _ _ _ _ => trivial) m
      (wd (cfg (forRange m (fun y s => forRange (wd (cfg s)) (fun x s => step y x s) s) s)))
      (forRange m (fun y s => forRange (wd (cfg s)) (fun x s => step y x s) s) s) trivial
    by_cases hy : y' = m
    · subst hy
      exact forRange_row_at cell step H2 y' _ _ x' (by rw [hcm]; exact hx')
    · rw [rout _ _ (fun h => hy h.1), ih (by omega)]

namespace ASCIIRenderer

/-- The state in which `render` enters the body of a pixel of the grid: the configuration is
that of the renderer, the depth of the cell is the sentinel, the stream is a later part of the
stream given to `render`, and the glyph, the colour tag and the depth that `render` leaves in
the cell are those left by the body of the pixel run in that state. -/
lemma render_at_entry (r : ASCIIRenderer) (earth : Earth) (g : RandStream) (y x : ℕ)
    (hy : y < r.height) (hx : x < r.width) :
    rendererConfig (r.pixelEntry earth g y x).1 = rendererConfig r ∧
    (r.pixelEntry earth g y x).1.depthBuffer y x = DBL_MAX ∧
    (∃ k, (r.pixelEntry earth g y x).2 = fun i => g (i + k)) ∧
    ((r.render earth g).1.frameBuffer y x, (r.render earth g).1.colorBuffer y x,
      (r.render earth g).1.depthBuffer y x)
      = ((renderPixel earth (lightDirOf earth) (earth.rotationY * 0.7) y x
            (r.pixelEntry earth g y x)).1.frameBuffer y x,
         (renderPixel earth (lightDirOf earth) (earth.rotationY * 0.7) y x
            (r.pixelEntry earth g y x)).1.colorBuffer y x,
         (renderPixel earth (lightDirOf earth) (earth.rotationY * 0.7) y x
            (r.pixelEntry earth g y x)).1.depthBuffer y x) := by
  obtain ⟨hcc, hclear⟩ := clearBuffers_spec r
  obtain ⟨hsc, hsd⟩ := renderStars_spec (r.clearBuffers, g)
  have hcfg : rendererConfig (renderStars (r.clearBuffers, g)).1 = rendererConfig r :=
    hsc.trans hcc
  have hdepth : (renderStars (r.clearBuffers, g)).1.depthBuffer y x = DBL_MAX := by
    rw [hsd]; exact (hclear y x hy hx).2.2
  have hI := renderStars_stream g (r.clearBuffers, g) ⟨0, rfl⟩
  have H1 : ∀ (y x : ℕ) (s : ASCIIRenderer × RandStream),
      rendererConfig (renderPixel earth (lightDirOf earth) (earth.rotationY * 0.7) y x s).1
        = rendererConfig s.1 := fun y x s => renderPixel_config _ _ _ y x s
  have H2 : ∀ (y x : ℕ) (s : ASCIIRenderer × RandStream) (y' x' : ℕ), ¬(y' = y ∧ x' = x) →
      ((renderPixel earth (lightDirOf earth) (earth.rotationY * 0.7) y x s).1.frameBuffer y' x',
        (renderPixel earth (lightDirOf earth) (earth.rotationY * 0.7) y x s).1.colorBuffer y' x',
        (renderPixel earth (lightDirOf earth) (earth.rotationY * 0.7) y x s).1.depthBuffer y' x')
      = (s.1.frameBuffer y' x', s.1.colorBuffer y' x', s.1.depthBuffer y' x') := by
    intro y x s y' x' hne
    have h1 := renderPixel_other earth (lightDirOf earth) (earth.rotationY * 0.7)
      y x s y' x' hne
    have h2 := renderPixel_colorBuffer earth (lightDirOf earth) (earth.rotationY * 0.7)
      y x s y' x' (Or.inl hne)
    simp only [Prod.mk.injEq] at h1 ⊢
    exact ⟨h1.1, h2, h1.2⟩
  have HI : ∀ (y x : ℕ) (s : ASCIIRenderer × RandStream), (∃ k, s.2 = fun i => g (i + k)) →
      ∃ k, (renderPixel earth (lightDirOf earth) (earth.rotationY * 0.7) y x s).2
        = fun i => g (i + k) := by
    intro y x s hs
    rcases renderPixel_stream earth (lightDirOf earth) (earth.rotationY * 0.7) y x s
      with h1 | h1
    · rw [h1]; exact hs
    · rw [h1]; exact shift_rand g _ hs
  have hy' : y < (renderStars (r.clearBuffers, g)).1.height := by
    have := congrArg (fun c => c.2.1) hcfg
    simp only [rendererConfig] at this
    rw [this]; exact hy
  have hx' : x < (rendererConfig (renderStars (r.clearBuffers, g)).1).1 := by
    rw [hcfg]; exact hx
  -- the rows above the pixel
  obtain ⟨gI, gc, _, gout⟩ := forRange_grid_pre
    (fun (s : ASCIIRenderer × RandStream) => rendererConfig s.1)
    (fun (s : ASCIIRenderer × RandStream) y x =>
      (s.1.frameBuffer y x, s.1.colorBuffer y x, s.1.depthBuffer y x))
    (fun y x s => renderPixel earth (lightDirOf earth) (earth.rotationY * 0.7) y x s)
    (fun s => ∃ k, s.2 = fun i => g (i + k)) (fun c => c.1) H1 H2 HI
    y (renderStars (r.clearBuffers, g)) hI
  -- the pixels of the row before the pixel
  obtain ⟨rI, rc, rout, _⟩ := forRange_row_pre
    (fun (s : ASCIIRenderer × RandStream) => rendererConfig s.1)
    (fun (s : ASCIIRenderer × RandStream) y x =>
      (s.1.frameBuffer y x, s.1.colorBuffer y x, s.1.depthBuffer y x))
    (fun y x s => renderPixel earth (lightDirOf earth) (earth.rotationY * 0.7) y x s)
    (fun s => ∃ k, s.2 = fun i => g (i + k)) H1 H2 HI y x _ gI
  have hat := forRange_grid_at
    (fun (s : ASCIIRenderer × RandStream) => rendererConfig s.1)
    (fun (s : ASCIIRenderer × RandStream) y x =>
      (s.1.frameBuffer y x, s.1.colorBuffer y x, s.1.depthBuffer y x))
    (fun y x s => renderPixel earth (lightDirOf earth) (earth.rotationY * 0.7) y x s)
    (fun c => c.1) H1 H2
    (renderStars (r.clearBuffers, g)).1.height (renderStars (r.clearBuffers, g)) y x hy' hx'
  refine ⟨(rc.trans gc).trans hcfg, ?_, rI, hat⟩
  have h1 := rout y x (fun h => absurd h.2 (lt_irrefl _))
  have h2 := gout y x (lt_irrefl _)
  simp only [Prod.mk.injEq] at h1 h2
  exact (h1.2.2.trans h2.2.2).trans hdepth

end ASCIIRenderer

namespace ASCIIRenderer

/-- The pixel body in colour mode on a hit that passes the depth test: the stream it leaves is
the one left by the colour branch. -/
lemma renderPixel_near_stream (earth : Earth) (y x : ℕ)
    (s : ASCIIRenderer × RandStream) (depth : ℝ) (hitPoint normal : Vec3)
    (h : pixelHit earth (rendererConfig s.1) y x = some (depth, hitPoint, normal))
    (hd : depth < s.1.depthBuffer y x) (hc : s.1.useColor = true) :
    (renderPixel earth (lightDirOf earth) (earth.rotationY * 0.7) y x s).2
      = (shadeColor (earth.getTextureChar hitPoint) (hitDiffuse earth normal)
          (hitLat earth hitPoint) (hitLon earth hitPoint) (earth.rotationY * 0.7) s.2).2 := by
  simp only [pixelHit, rendererConfig] at h
  simp only [renderPixel, h, if_pos hd, hitDiffuse, hitLat, hitLon, if_pos hc]

end ASCIIRenderer

/-- C14. Night override in colour mode: for every pixel of the grid whose camera ray hits below
the sentinel with `diffuse < 0.2`, whatever the cloud noise is, after `render` the cell holds,
if the hit point is land, the glyph `.` with the colour bright-yellow when the value that the
call of `std::rand` in the body of this pixel returns (the head of the stream with which
`render` enters the body of the pixel) is a multiple of 25 and black when it is not, and the
body of the pixel consumes exactly that one value; if the hit point is ocean, the cell holds
the blank glyph with the colour blue and the body of the pixel draws nothing. -/
theorem night_override_colour (w h : ℕ) (fb : ℕ → ℕ → Char) (cb : ℕ → ℕ → String)
    (db : ℕ → ℕ → ℝ) (earth : Earth) (g : RandStream) (x y : ℕ) (hx : x < w) (hy : y < h)
    (depth : ℝ) (hitPoint normal : Vec3)
    (hhit : pixelHit earth (rendererConfig (rendererWith w h true fb cb db)) y x
      = some (depth, hitPoint, normal))
    (hd : depth < DBL_MAX) (hnight : hitDiffuse earth normal < 0.2) :
    (earth.getTextureChar hitPoint = '#' →
      ((rendererWith w h true fb cb db).render earth g).1.frameBuffer y x = '.' ∧
      ((rendererWith w h true fb cb db).render earth g).1.colorBuffer y x
        = (if (rand ((rendererWith w h true fb cb db).pixelEntry earth g y x).2).1 % 25 = 0
            then Color.BRIGHT_YELLOW else Color.BLACK) ∧
      (ASCIIRenderer.renderPixel earth (lightDirOf earth) (earth.rotationY * 0.7) y x
          ((rendererWith w h true fb cb db).pixelEntry earth g y x)).2
        = (rand ((rendererWith w h true fb cb db).pixelEntry earth g y x).2).2) ∧
    (earth.getTextureChar hitPoint = '~' →
      ((rendererWith w h true fb cb db).render earth g).1.frameBuffer y x = ' ' ∧
      ((rendererWith w h true fb cb db).render earth g).1.colorBuffer y x = Color.BLUE ∧
      (ASCIIRenderer.renderPixel earth (lightDirOf earth) (earth.rotationY * 0.7) y x
          ((rendererWith w h true fb cb db).pixelEntry earth g y x)).2
        = ((rendererWith w h true fb cb db).pixelEntry earth g y x).2) := by
  obtain ⟨hcfg, hdep, _, hcell⟩ := ASCIIRenderer.render_at_entry
    (rendererWith w h true fb cb db) earth g y x hy hx
  simp only [Prod.mk.injEq] at hcell
  have hcol : ((rendererWith w h true fb cb db).pixelEntry earth g y x).1.useColor = true := by
    have := congrArg (fun c => c.2.2.2) hcfg
    simpa only [rendererConfig] using this
  have hhit' : pixelHit earth
      (rendererConfig ((rendererWith w h true fb cb db).pixelEntry earth g y x).1) y x
      = some (depth, hitPoint, normal) := by
    rw [hcfg]; exact hhit
  have hd' : depth
      < ((rendererWith w h true fb cb db).pixelEntry earth g y x).1.depthBuffer y x := by
    rw [hdep]; exact hd
  obtain ⟨hf, hc⟩ := ASCIIRenderer.renderPixel_near_full earth y x _ depth hitPoint normal
    hhit' hd'
  have hs := ASCIIRenderer.renderPixel_near_stream earth y x _ depth hitPoint normal
    hhit' hd' hcol
  rw [if_pos hcol, shadeColor_table, if_pos hnight] at hf hc
  rw [shadeColor_table, if_pos hnight] at hs
  rw [hcell.1, hcell.2.1, hf, hc, hs]
  constructor
  · intro hland
    simp only [nightCell, hland, if_true]
    exact ⟨trivial, rfl, trivial⟩
  · intro hocean
    have hne : ¬ earth.getTextureChar hitPoint = '#' := by rw [hocean]; decide
    simp only [nightCell, if_neg hne]
    exact ⟨trivial, trivial, trivial⟩

/-- On a constant stream the value drawn in the body of a pixel of the grid is the constant. -/
lemma pixelEntry_head_const (r : ASCIIRenderer) (earth : Earth) (c : ℕ) (y x : ℕ)
    (hy : y < r.height) (hx : x < r.width) :
    (rand (r.pixelEntry earth (fun _ => c) y x).2).1 = c := by
  obtain ⟨_, _, ⟨k, hk⟩, _⟩ := ASCIIRenderer.render_at_entry r earth (fun _ => c) y x hy hx
  rw [hk]
  rfl

/-- Instances of C14: the centre pixel of a 10x10 grid and the planet of radius 3 at the origin
at phase 0, on the all-ocean map, and on the all-land map with a stream of multiples of 25 and
with a stream of other values. -/
theorem night_override_colour_witness :
    (5 < 10 ∧
      pixelHit ⟨3, ⟨0, 0, 0⟩, 0, oceanTexture⟩
        (rendererConfig (rendererWith 10 10 true (fun _ _ => ' ') (fun _ _ => Color.RESET)
          (fun _ _ => DBL_MAX))) 5 5 = some (5, ⟨0, 0, -3⟩, (Vec3.mk 0 0 (-3)).normalize) ∧
      (5 : ℝ) < DBL_MAX ∧
      hitDiffuse ⟨3, ⟨0, 0, 0⟩, 0, oceanTexture⟩ (Vec3.mk 0 0 (-3)).normalize < 0.2 ∧
      Earth.getTextureChar ⟨3, ⟨0, 0, 0⟩, 0, oceanTexture⟩ ⟨0, 0, -3⟩ = '~') ∧
    (((rendererWith 10 10 true (fun _ _ => ' ') (fun _ _ => Color.RESET)
        (fun _ _ => DBL_MAX)).render ⟨3, ⟨0, 0, 0⟩, 0, oceanTexture⟩
        (fun _ => 0)).1.frameBuffer 5 5 = ' ' ∧
      ((rendererWith 10 10 true (fun _ _ => ' ') (fun _ _ => Color.RESET)
        (fun _ _ => DBL_MAX)).render ⟨3, ⟨0, 0, 0⟩, 0, oceanTexture⟩
        (fun _ => 0)).1.colorBuffer 5 5 = Color.BLUE) ∧
    (Earth.getTextureChar ⟨3, ⟨0, 0, 0⟩, 0, landTexture⟩ ⟨0, 0, -3⟩ = '#' ∧
      ((rendererWith 10 10 true (fun _ _ => ' ') (fun _ _ => Color.RESET)
        (fun _ _ => DBL_MAX)).render ⟨3, ⟨0, 0, 0⟩, 0, landTexture⟩
        (fun _ => 50)).1.frameBuffer 5 5 = '.' ∧
      ((rendererWith 10 10 true (fun _ _ => ' ') (fun _ _ => Color.RESET)
        (fun _ _ => DBL_MAX)).render ⟨3, ⟨0, 0, 0⟩, 0, landTexture⟩
        (fun _ => 50)).1.colorBuffer 5 5 = Color.BRIGHT_YELLOW ∧
      ((rendererWith 10 10 true (fun _ _ => ' ') (fun _ _ => Color.RESET)
        (fun _ _ => DBL_MAX)).render ⟨3, ⟨0, 0, 0⟩, 0, landTexture⟩
        (fun _ => 51)).1.colorBuffer 5 5 = Color.BLACK) :=
  have hdiff : ∀ tex : List (List Bool),
      hitDiffuse ⟨3, ⟨0, 0, 0⟩, 0, tex⟩ (Vec3.mk 0 0 (-3)).normalize < 0.2 := by
    intro tex
    unfold hitDiffuse
    rw [centre_diffuse_zero]
    norm_num
  have hland : ∀ c : ℕ,
      ((rendererWith 10 10 true (fun _ _ => ' ') (fun _ _ => Color.RESET)
        (fun _ _ => DBL_MAX)).render ⟨3, ⟨0, 0, 0⟩, 0, landTexture⟩
        (fun _ => c)).1.frameBuffer 5 5 = '.' ∧
      ((rendererWith 10 10 true (fun _ _ => ' ') (fun _ _ => Color.RESET)
        (fun _ _ => DBL_MAX)).render ⟨3, ⟨0, 0, 0⟩, 0, landTexture⟩
        (fun _ => c)).1.colorBuffer 5 5
        = if c % 25 = 0 then Color.BRIGHT_YELLOW else Color.BLACK := by
    intro c
    have h := (night_override_colour 10 10 (fun _ _ => ' ') (fun _ _ => Color.RESET)
      (fun _ _ => DBL_MAX) ⟨3, ⟨0, 0, 0⟩, 0, landTexture⟩ (fun _ => c) 5 5
      (by decide) (by decide) 5 ⟨0, 0, -3⟩ (Vec3.mk 0 0 (-3)).normalize
      (pixelHit_centre_three 0 landTexture true _ _ _) five_lt_DBL_MAX
      (hdiff landTexture)).1 (getTextureChar_land _ _ _ _)
    rw [pixelEntry_head_const _ _ c 5 5 (show 5 < 10 by decide) (show 5 < 10 by decide)] at h
    exact ⟨h.1, h.2.1⟩
  have hocean := (night_override_colour 10 10 (fun _ _ => ' ') (fun _ _ => Color.RESET)
      (fun _ _ => DBL_MAX) ⟨3, ⟨0, 0, 0⟩, 0, oceanTexture⟩ (fun _ => 0) 5 5
      (by decide) (by decide) 5 ⟨0, 0, -3⟩ (Vec3.mk 0 0 (-3)).normalize
      (pixelHit_centre_three 0 oceanTexture true _ _ _) five_lt_DBL_MAX
      (hdiff oceanTexture)).2 (getTextureChar_ocean _ _ _ _)
  ⟨⟨by decide, pixelHit_centre_three 0 oceanTexture true _ _ _, five_lt_DBL_MAX,
      hdiff oceanTexture, getTextureChar_ocean _ _ _ _⟩,
   ⟨hocean.1, hocean.2.1⟩,
   getTextureChar_land _ _ _ _, (hland 50).1, (hland 50).2, (hland 51).2⟩


/-- C15. Daylit base glyph selection in colour mode: for every pixel of the grid whose camera
ray hits below the sentinel with `diffuse ≥ 0.2` and a cloud value of at most `0.1`, after
`render` the cell holds, for land, the glyph `%` if `diffuse > 0.8`, `&` if `diffuse > 0.6`,
`$` if `diffuse > 0.3`, else `#`, coloured bright-white if `|lat| / (PI / 2) > 0.7` and
bright-green otherwise; and for ocean, the glyph `~` if `diffuse > 0.8`, `^` if
`diffuse > 0.6`, else `.`, coloured bright-blue if `diffuse > 0.7` and blue otherwise. -/
theorem daylit_base_colour (w h : ℕ) (fb : ℕ → ℕ → Char) (cb : ℕ → ℕ → String)
    (db : ℕ → ℕ → ℝ) (earth : Earth) (g : RandStream) (x y : ℕ) (hx : x < w) (hy : y < h)
    (depth : ℝ) (hitPoint normal : Vec3)
    (hhit : pixelHit earth (rendererConfig (rendererWith w h true fb cb db)) y x
      = some (depth, hitPoint, normal))
    (hd : depth < DBL_MAX) (hday : hitDiffuse earth normal ≥ 0.2)
    (hclear : hitCloud earth hitPoint ≤ 0.1) :
    (earth.getTextureChar hitPoint = '#' →
      ((rendererWith w h true fb cb db).render earth g).1.frameBuffer y x
        = (if hitDiffuse earth normal > 0.8 then '%'
           else if hitDiffuse earth normal > 0.6 then '&'
           else if hitDiffuse earth normal > 0.3 then '$'
           else '#') ∧
      ((rendererWith w h true fb cb db).render earth g).1.colorBuffer y x
        = if |hitLat earth hitPoint / (PI / 2)| > 0.7 then Color.BRIGHT_WHITE
          else Color.BRIGHT_GREEN) ∧
    (earth.getTextureChar hitPoint = '~' →
      ((rendererWith w h true fb cb db).render earth g).1.frameBuffer y x
        = (if hitDiffuse earth normal > 0.8 then '~'
           else if hitDiffuse earth normal > 0.6 then '^'
           else '.') ∧
      ((rendererWith w h true fb cb db).render earth g).1.colorBuffer y x
        = if hitDiffuse earth normal > 0.7 then Color.BRIGHT_BLUE else Color.BLUE) := by
  obtain ⟨k, hk⟩ := ASCIIRenderer.render_colour_cell w h fb cb db earth g y x hy hx depth
    hitPoint normal hhit hd
  rw [if_neg (not_lt.mpr hday), if_neg (not_lt.mpr hclear)] at hk
  constructor
  · intro hland
    simp only [baseCell, hland, if_true] at hk
    rw [Prod.ext_iff] at hk
    exact ⟨hk.2, hk.1⟩
  · intro hocean
    have hne : ¬ earth.getTextureChar hitPoint = '#' := by rw [hocean]; decide
    simp only [baseCell, if_neg hne] at hk
    rw [Prod.ext_iff] at hk
    exact ⟨hk.2, hk.1⟩

lemma cloudValue_zero_lat (lon_rad : ℝ) : cloudValue 0 lon_rad 0 = 0 := by
  unfold cloudValue
  simp only [zero_mul, add_zero, sub_zero, Real.sin_zero, mul_zero]
  norm_num

lemma length_three_fifths : (Vec3.mk (3 / 5) 0 (-4 / 5)).length = 1 := by
  simp only [Vec3.length]
  rw [show (3 / 5 : ℝ) * (3 / 5) + 0 * 0 + -4 / 5 * (-4 / 5) = 1 by norm_num]
  exact Real.sqrt_one

/-- The scene used for the daylit instances: the normal `(3/5, 0, -4/5)` at phase 0 has a
diffuse term of at least `0.2` and no cloud. -/
lemma daylit_scene (texture : List (List Bool)) :
    hitDiffuse (unitScene ⟨3 / 5, 0, -4 / 5⟩ texture) ⟨3 / 5, 0, -4 / 5⟩ ≥ 0.2 ∧
    hitCloud (unitScene ⟨3 / 5, 0, -4 / 5⟩ texture) ⟨0, 0, 0⟩ ≤ 0.1 := by
  obtain ⟨hz, _, _, _, hx⟩ :=
    lightDir_phase_zero (unitScene ⟨3 / 5, 0, -4 / 5⟩ texture) rfl
  constructor
  · unfold hitDiffuse
    simp only [Vec3.dot, hz]
    refine le_trans ?_ (le_max_right _ _)
    norm_num
    linarith
  · unfold hitCloud
    rw [(unitScene_lat_lon _ length_three_fifths texture).1]
    simp only [Real.arcsin_zero]
    rw [show (unitScene ⟨3 / 5, 0, -4 / 5⟩ texture).rotationY * 0.7 = 0 by
      show (0 : ℝ) * 0.7 = 0; norm_num]
    rw [cloudValue_zero_lat]
    norm_num

/-- Two instances of C15: the centre pixel of a 10x10 grid and a planet hit with the normal
`(3/5, 0, -4/5)` at phase 0, on the all-ocean map and on the all-land map. -/
theorem daylit_base_colour_witness :
    (5 < 10 ∧
      pixelHit (unitScene ⟨3 / 5, 0, -4 / 5⟩ oceanTexture)
        (rendererConfig (rendererWith 10 10 true (fun _ _ => ' ') (fun _ _ => Color.RESET)
          (fun _ _ => DBL_MAX))) 5 5 = some (8, ⟨0, 0, 0⟩, ⟨3 / 5, 0, -4 / 5⟩) ∧
      (8 : ℝ) < DBL_MAX ∧
      hitDiffuse (unitScene ⟨3 / 5, 0, -4 / 5⟩ oceanTexture) ⟨3 / 5, 0, -4 / 5⟩ ≥ 0.2 ∧
      hitCloud (unitScene ⟨3 / 5, 0, -4 / 5⟩ oceanTexture) ⟨0, 0, 0⟩ ≤ 0.1 ∧
      Earth.getTextureChar (unitScene ⟨3 / 5, 0, -4 / 5⟩ oceanTexture) ⟨0, 0, 0⟩ = '~') ∧
    (((rendererWith 10 10 true (fun _ _ => ' ') (fun _ _ => Color.RESET)
        (fun _ _ => DBL_MAX)).render (unitScene ⟨3 / 5, 0, -4 / 5⟩ oceanTexture)
        (fun _ => 0)).1.colorBuffer 5 5
      = if hitDiffuse (unitScene ⟨3 / 5, 0, -4 / 5⟩ oceanTexture) ⟨3 / 5, 0, -4 / 5⟩ > 0.7
        then Color.BRIGHT_BLUE else Color.BLUE) ∧
    (Earth.getTextureChar (unitScene ⟨3 / 5, 0, -4 / 5⟩ landTexture) ⟨0, 0, 0⟩ = '#' ∧
      ((rendererWith 10 10 true (fun _ _ => ' ') (fun _ _ => Color.RESET)
        (fun _ _ => DBL_MAX)).render (unitScene ⟨3 / 5, 0, -4 / 5⟩ landTexture)
        (fun _ => 0)).1.colorBuffer 5 5
      = if |hitLat (unitScene ⟨3 / 5, 0, -4 / 5⟩ landTexture) ⟨0, 0, 0⟩ / (PI / 2)| > 0.7
        then Color.BRIGHT_WHITE else Color.BRIGHT_GREEN) :=
  have hhit : ∀ tex : List (List Bool),
      pixelHit (unitScene ⟨3 / 5, 0, -4 / 5⟩ tex)
        (rendererConfig (rendererWith 10 10 true (fun _ _ => ' ') (fun _ _ => Color.RESET)
          (fun _ _ => DBL_MAX))) 5 5 = some (8, ⟨0, 0, 0⟩, ⟨3 / 5, 0, -4 / 5⟩) :=
    fun tex => pixelHit_unitScene _ length_three_fifths (by norm_num) tex true _ _ _
  have h8 : (8 : ℝ) < DBL_MAX := by unfold DBL_MAX; norm_num
  ⟨⟨by decide, hhit oceanTexture, h8, (daylit_scene oceanTexture).1,
      (daylit_scene oceanTexture).2, getTextureChar_ocean _ _ _ _⟩,
   ((daylit_base_colour 10 10 _ _ _ (unitScene ⟨3 / 5, 0, -4 / 5⟩ oceanTexture) (fun _ => 0)
      5 5 (by decide) (by decide) 8 ⟨0, 0, 0⟩ ⟨3 / 5, 0, -4 / 5⟩ (hhit oceanTexture) h8
      (daylit_scene oceanTexture).1 (daylit_scene oceanTexture).2).2
      (getTextureChar_ocean _ _ _ _)).2,
   getTextureChar_land _ _ _ _,
   ((daylit_base_colour 10 10 _ _ _ (unitScene ⟨3 / 5, 0, -4 / 5⟩ landTexture) (fun _ => 0)
      5 5 (by decide) (by decide) 8 ⟨0, 0, 0⟩ ⟨3 / 5, 0, -4 / 5⟩ (hhit landTexture) h8
      (daylit_scene landTexture).1 (daylit_scene landTexture).2).1
      (getTextureChar_land _ _ _ _)).2⟩

/-- C16. Cloud overlay in colour mode: for every pixel of the grid whose camera ray hits below
the sentinel with `diffuse ≥ 0.2`, the cloud value is
`2 * max(0, 0.4 n1 + 0.3 n2 + 0.3 n3 + 0.3 - 0.6)` for the three noise terms, and if it is
above `0.1` then after `render` the cell is coloured bright-white and holds the glyph `@` if
the cloud value is above `0.7`, `%` if it is above `0.3`, else `.`, whatever the surface class
of the hit is. -/
theorem cloud_overlay_colour (w h : ℕ) (fb : ℕ → ℕ → Char) (cb : ℕ → ℕ → String)
    (db : ℕ → ℕ → ℝ) (earth : Earth) (g : RandStream) (x y : ℕ) (hx : x < w) (hy : y < h)
    (depth : ℝ) (hitPoint normal : Vec3)
    (hhit : pixelHit earth (rendererConfig (rendererWith w h true fb cb db)) y x
      = some (depth, hitPoint, normal))
    (hd : depth < DBL_MAX) (hday : hitDiffuse earth normal ≥ 0.2)
    (hcloud : hitCloud earth hitPoint > 0.1) :
    hitCloud earth hitPoint
      = 2 * max 0
          (0.4 * (Real.sin (hitLat earth hitPoint * 8 + earth.rotationY * 0.7 * 0.5)
              * Real.cos (hitLon earth hitPoint * 6 + earth.rotationY * 0.7 * 0.4))
            + 0.3 * (Real.sin (hitLat earth hitPoint * 18 - earth.rotationY * 0.7 * 0.8)
              * Real.cos (hitLon earth hitPoint * 14 - earth.rotationY * 0.7 * 0.6))
            + 0.3 * (Real.sin (hitLat earth hitPoint * 30 + earth.rotationY * 0.7 * 1.2)
              * Real.cos (hitLon earth hitPoint * 25 + earth.rotationY * 0.7 * 1.0))
            + 0.3 - 0.6) ∧
    ((rendererWith w h true fb cb db).render earth g).1.colorBuffer y x
      = Color.BRIGHT_WHITE ∧
    ((rendererWith w h true fb cb db).render earth g).1.frameBuffer y x
      = (if hitCloud earth hitPoint > 0.7 then '@'
         else if hitCloud earth hitPoint > 0.3 then '%'
         else '.') := by
  obtain ⟨k, hk⟩ := ASCIIRenderer.render_colour_cell w h fb cb db earth g y x hy hx depth
    hitPoint normal hhit hd
  rw [if_neg (not_lt.mpr hday), if_pos hcloud] at hk
  simp only [cloudCell] at hk
  rw [Prod.ext_iff] at hk
  refine ⟨?_, hk.1, hk.2⟩
  simp only [hitCloud, cloudValue]
  ring

lemma length_cos_sin (l : ℝ) : (Vec3.mk (Real.cos l) (Real.sin l) 0).length = 1 := by
  simp only [Vec3.length]
  rw [show Real.cos l * Real.cos l + Real.sin l * Real.sin l + 0 * 0 = 1 by
    nlinarith [Real.sin_sq_add_cos_sq l]]
  exact Real.sqrt_one

lemma atan2_zero_pos (x : ℝ) (hx : 0 ≤ x) : atan2 0 x = 0 := by
  unfold atan2
  have : (⟨x, 0⟩ : ℂ) = (x : ℂ) := by
    apply Complex.ext <;> simp
  rw [this, Complex.arg_ofReal_of_nonneg hx]

/-- The scene used for the cloud instance: the normal `(cos l, sin l, 0)` with `l = π / 36` at
phase 0 has a diffuse term of at least `0.2` and a cloud value above `0.1`. -/
lemma cloudy_scene (texture : List (List Bool)) :
    hitDiffuse (unitScene ⟨Real.cos (Real.pi / 36), Real.sin (Real.pi / 36), 0⟩ texture)
      ⟨Real.cos (Real.pi / 36), Real.sin (Real.pi / 36), 0⟩ ≥ 0.2 ∧
    hitCloud (unitScene ⟨Real.cos (Real.pi / 36), Real.sin (Real.pi / 36), 0⟩ texture)
      ⟨0, 0, 0⟩ > 0.1 := by
  have hpi := Real.pi_pos
  have hpi4 : Real.pi ≤ 4 := Real.pi_le_four
  have hcos : 1 / 2 ≤ Real.cos (Real.pi / 36) := by
    rw [← Real.cos_pi_div_three]
    exact Real.cos_le_cos_of_nonneg_of_le_pi (by positivity) (by linarith) (by linarith)
  have hsin : 0 ≤ Real.sin (Real.pi / 36) :=
    Real.sin_nonneg_of_nonneg_of_le_pi (by positivity) (by linarith)
  obtain ⟨hz, hxpos, hy, _, hx⟩ := lightDir_phase_zero
    (unitScene ⟨Real.cos (Real.pi / 36), Real.sin (Real.pi / 36), 0⟩ texture) rfl
  constructor
  · unfold hitDiffuse
    simp only [Vec3.dot, hz, hy]
    refine le_trans ?_ (le_max_right _ _)
    norm_num
    nlinarith
  · unfold hitCloud
    obtain ⟨hlat, hlon⟩ := unitScene_lat_lon _ (length_cos_sin (Real.pi / 36)) texture
    rw [hlat, hlon]
    simp only
    rw [Real.arcsin_sin (by linarith) (by linarith),
      atan2_zero_pos _ (by linarith),
      show (unitScene ⟨Real.cos (Real.pi / 36), Real.sin (Real.pi / 36), 0⟩
        texture).rotationY * 0.7 = 0 by show (0 : ℝ) * 0.7 = 0; norm_num]
    unfold cloudValue
    simp only [zero_mul, add_zero, sub_zero, Real.cos_zero, mul_one]
    have h18 : Real.sin (Real.pi / 36 * 18) = 1 := by
      rw [show Real.pi / 36 * 18 = Real.pi / 2 by ring, Real.sin_pi_div_two]
    have h30 : Real.sin (Real.pi / 36 * 30) = 1 / 2 := by
      rw [show Real.pi / 36 * 30 = Real.pi - Real.pi / 6 by ring, Real.sin_pi_sub,
        Real.sin_pi_div_six]
    have h8 : 0 ≤ Real.sin (Real.pi / 36 * 8) :=
      Real.sin_nonneg_of_nonneg_of_le_pi (by positivity) (by linarith)
    rw [h18, h30]
    have hm := le_max_right (0 : ℝ) (0.4 * Real.sin (Real.pi / 36 * 8) + 0.3 * 1
      + 0.3 * (1 / 2) + 0.3 - 0.6)
    generalize max (0 : ℝ) (0.4 * Real.sin (Real.pi / 36 * 8) + 0.3 * 1
      + 0.3 * (1 / 2) + 0.3 - 0.6) = m at hm ⊢
    norm_num at hm ⊢
    linarith

/-- An instance of C16: the centre pixel of a 10x10 grid and a planet hit with the normal
`(cos (π/36), sin (π/36), 0)` at phase 0, where the cloud value is above `0.1`. -/
theorem cloud_overlay_colour_witness :
    (5 < 10 ∧
      pixelHit (unitScene ⟨Real.cos (Real.pi / 36), Real.sin (Real.pi / 36), 0⟩ oceanTexture)
        (rendererConfig (rendererWith 10 10 true (fun _ _ => ' ') (fun _ _ => Color.RESET)
          (fun _ _ => DBL_MAX))) 5 5
        = some (8, ⟨0, 0, 0⟩, ⟨Real.cos (Real.pi / 36), Real.sin (Real.pi / 36), 0⟩) ∧
      (8 : ℝ) < DBL_MAX ∧
      hitDiffuse (unitScene ⟨Real.cos (Real.pi / 36), Real.sin (Real.pi / 36), 0⟩ oceanTexture)
        ⟨Real.cos (Real.pi / 36), Real.sin (Real.pi / 36), 0⟩ ≥ 0.2 ∧
      hitCloud (unitScene ⟨Real.cos (Real.pi / 36), Real.sin (Real.pi / 36), 0⟩ oceanTexture)
        ⟨0, 0, 0⟩ > 0.1) ∧
    ((rendererWith 10 10 true (fun _ _ => ' ') (fun _ _ => Color.RESET)
        (fun _ _ => DBL_MAX)).render
        (unitScene ⟨Real.cos (Real.pi / 36), Real.sin (Real.pi / 36), 0⟩ oceanTexture)
        (fun _ => 0)).1.colorBuffer 5 5 = Color.BRIGHT_WHITE :=
  have hhit := pixelHit_unitScene ⟨Real.cos (Real.pi / 36), Real.sin (Real.pi / 36), 0⟩
    (length_cos_sin _) (le_refl _) oceanTexture true (fun _ _ => ' ')
    (fun _ _ => Color.RESET) (fun _ _ => DBL_MAX)
  have h8 : (8 : ℝ) < DBL_MAX := by unfold DBL_MAX; norm_num
  ⟨⟨by decide, hhit, h8, (cloudy_scene oceanTexture).1, (cloudy_scene oceanTexture).2⟩,
   (cloud_overlay_colour 10 10 _ _ _ _ (fun _ => 0) 5 5 (by decide) (by decide) 8 ⟨0, 0, 0⟩
      _ hhit h8 (cloudy_scene oceanTexture).1 (cloudy_scene oceanTexture).2).2.1⟩


/-- C13. Night threshold boundary: for every pixel of the grid whose camera ray hits below the
sentinel, in colour mode and without colour, the night override is applied exactly when
`diffuse < 0.2` and the cloud overlay (over the daylit base glyph) is evaluated exactly when
`diffuse ≥ 0.2`, so exactly one of the two applies; in particular a hit whose diffuse term is
exactly `0.2` is treated as daylit in both modes. -/
theorem night_threshold_boundary (w h : ℕ) (fb : ℕ → ℕ → Char) (cb : ℕ → ℕ → String)
    (db : ℕ → ℕ → ℝ) (earth : Earth) (g : RandStream) (x y : ℕ) (hx : x < w) (hy : y < h)
    (depth : ℝ) (hitPoint normal : Vec3)
    (hhit : pixelHit earth (rendererConfig (rendererWith w h true fb cb db)) y x
      = some (depth, hitPoint, normal))
    (hd : depth < DBL_MAX) :
    (hitDiffuse earth normal < 0.2 →
      (∃ k, (((rendererWith w h true fb cb db).render earth g).1.colorBuffer y x,
          ((rendererWith w h true fb cb db).render earth g).1.frameBuffer y x)
        = nightCell (earth.getTextureChar hitPoint) (g k)) ∧
      ((rendererWith w h false fb cb db).render earth g).1.frameBuffer y x
        = (nightCell (earth.getTextureChar hitPoint) 0).2) ∧
    (hitDiffuse earth normal ≥ 0.2 →
      (((rendererWith w h true fb cb db).render earth g).1.colorBuffer y x,
          ((rendererWith w h true fb cb db).render earth g).1.frameBuffer y x)
        = (if hitCloud earth hitPoint > 0.1 then cloudCell (hitCloud earth hitPoint)
           else baseCell (earth.getTextureChar hitPoint) (hitDiffuse earth normal)
            (hitLat earth hitPoint)) ∧
      ((rendererWith w h false fb cb db).render earth g).1.frameBuffer y x
        = (if hitCloud earth hitPoint > 0.1 then (cloudCell (hitCloud earth hitPoint)).2
           else baseGlyphMono (earth.getTextureChar hitPoint) (hitDiffuse earth normal))) ∧
    ((hitDiffuse earth normal < 0.2 ∨ hitDiffuse earth normal ≥ 0.2) ∧
      ¬(hitDiffuse earth normal < 0.2 ∧ hitDiffuse earth normal ≥ 0.2)) ∧
    (hitDiffuse earth normal = 0.2 →
      (((rendererWith w h true fb cb db).render earth g).1.colorBuffer y x,
          ((rendererWith w h true fb cb db).render earth g).1.frameBuffer y x)
        = (if hitCloud earth hitPoint > 0.1 then cloudCell (hitCloud earth hitPoint)
           else baseCell (earth.getTextureChar hitPoint) 0.2 (hitLat earth hitPoint)) ∧
      ((rendererWith w h false fb cb db).render earth g).1.frameBuffer y x
        = (if hitCloud earth hitPoint > 0.1 then (cloudCell (hitCloud earth hitPoint)).2
           else baseGlyphMono (earth.getTextureChar hitPoint) 0.2)) := by
  obtain ⟨k, hk⟩ := ASCIIRenderer.render_colour_cell w h fb cb db earth g y x hy hx depth
    hitPoint normal hhit hd
  have hm := ASCIIRenderer.render_mono_glyph w h fb cb db earth g y x hy hx depth
    hitPoint normal hhit hd
  have hday : hitDiffuse earth normal ≥ 0.2 →
      (((rendererWith w h true fb cb db).render earth g).1.colorBuffer y x,
          ((rendererWith w h true fb cb db).render earth g).1.frameBuffer y x)
        = (if hitCloud earth hitPoint > 0.1 then cloudCell (hitCloud earth hitPoint)
           else baseCell (earth.getTextureChar hitPoint) (hitDiffuse earth normal)
            (hitLat earth hitPoint)) ∧
      ((rendererWith w h false fb cb db).render earth g).1.frameBuffer y x
        = (if hitCloud earth hitPoint > 0.1 then (cloudCell (hitCloud earth hitPoint)).2
           else baseGlyphMono (earth.getTextureChar hitPoint) (hitDiffuse earth normal)) := by
    intro hge
    rw [if_neg (not_lt.mpr hge)] at hk hm
    exact ⟨hk, hm⟩
  refine ⟨?_, hday, ⟨lt_or_le _ _, fun hb => absurd hb.1 (not_lt.mpr hb.2)⟩, ?_⟩
  · intro hlt
    rw [if_pos hlt] at hk hm
    exact ⟨⟨k, hk⟩, hm⟩
  · intro heq
    have := hday (le_of_eq heq.symm)
    rw [heq] at this
    exact this

lemma twilightNormal_spec :
    twilightNormal.length = 1 ∧ twilightNormal.z ≤ 0 ∧
    ∀ texture, hitDiffuse (unitScene twilightNormal texture) twilightNormal = 0.2 := by
  obtain ⟨hz, _, _, hxy, _⟩ := lightDir_phase_zero ⟨1, ⟨0, 0, 0⟩, 0, []⟩ rfl
  have hs : Real.sqrt 0.96 * Real.sqrt 0.96 = 0.96 := Real.mul_self_sqrt (by norm_num)
  refine ⟨?_, ?_, fun texture => ?_⟩
  · simp only [Vec3.length, twilightNormal]
    rw [show 0.2 * (lightDirOf ⟨1, ⟨0, 0, 0⟩, 0, []⟩).x
          * (0.2 * (lightDirOf ⟨1, ⟨0, 0, 0⟩, 0, []⟩).x)
        + 0.2 * (lightDirOf ⟨1, ⟨0, 0, 0⟩, 0, []⟩).y
          * (0.2 * (lightDirOf ⟨1, ⟨0, 0, 0⟩, 0, []⟩).y)
        + -Real.sqrt 0.96 * -Real.sqrt 0.96 = 1 by nlinarith]
    exact Real.sqrt_one
  · simp only [twilightNormal]
    linarith [Real.sqrt_nonneg 0.96]
  · have hL : lightDirOf (unitScene twilightNormal texture)
        = lightDirOf ⟨1, ⟨0, 0, 0⟩, 0, []⟩ := rfl
    unfold hitDiffuse
    rw [hL]
    simp only [Vec3.dot, twilightNormal, hz]
    rw [show 0.2 * (lightDirOf ⟨1, ⟨0, 0, 0⟩, 0, []⟩).x * (lightDirOf ⟨1, ⟨0, 0, 0⟩, 0, []⟩).x
        + 0.2 * (lightDirOf ⟨1, ⟨0, 0, 0⟩, 0, []⟩).y * (lightDirOf ⟨1, ⟨0, 0, 0⟩, 0, []⟩).y
        + -Real.sqrt 0.96 * 0 = 0.2 by nlinarith]
    exact max_eq_right (by norm_num)

/-- An instance of C13 at the boundary: the centre pixel of a 10x10 grid and a planet hit with
a normal whose diffuse term is exactly `0.2`. -/
theorem night_threshold_boundary_witness :
    (5 < 10 ∧
      pixelHit (unitScene twilightNormal oceanTexture)
        (rendererConfig (rendererWith 10 10 true (fun _ _ => ' ') (fun _ _ => Color.RESET)
          (fun _ _ => DBL_MAX))) 5 5 = some (8, ⟨0, 0, 0⟩, twilightNormal) ∧
      (8 : ℝ) < DBL_MAX ∧
      hitDiffuse (unitScene twilightNormal oceanTexture) twilightNormal = 0.2) ∧
    ((rendererWith 10 10 false (fun _ _ => ' ') (fun _ _ => Color.RESET)
        (fun _ _ => DBL_MAX)).render (unitScene twilightNormal oceanTexture)
        (fun _ => 0)).1.frameBuffer 5 5
      = (if hitCloud (unitScene twilightNormal oceanTexture) ⟨0, 0, 0⟩ > 0.1 then
          (cloudCell (hitCloud (unitScene twilightNormal oceanTexture) ⟨0, 0, 0⟩)).2
         else baseGlyphMono
          (Earth.getTextureChar (unitScene twilightNormal oceanTexture) ⟨0, 0, 0⟩) 0.2) :=
  have hhit := pixelHit_unitScene twilightNormal twilightNormal_spec.1 twilightNormal_spec.2.1
    oceanTexture true (fun _ _ => ' ') (fun _ _ => Color.RESET) (fun _ _ => DBL_MAX)
  have h8 : (8 : ℝ) < DBL_MAX := by unfold DBL_MAX; norm_num
  ⟨⟨by decide, hhit, h8, twilightNormal_spec.2.2 oceanTexture⟩,
   ((night_threshold_boundary 10 10 _ _ _ _ (fun _ => 0) 5 5 (by decide) (by decide) 8
      ⟨0, 0, 0⟩ twilightNormal hhit h8).2.2.2 (twilightNormal_spec.2.2 oceanTexture)).2⟩


/-! ## Colour mode and the glyph grid -/

/-- Two loops whose bodies keep a relation between their states end in related states. -/
lemma forRange_rel {σ τ : Type} (R : σ → τ → Prop) (f : ℕ → σ → σ) (f' : ℕ → τ → τ)
    (hstep : ∀ i s t, R s t → R (f i s) (f' i t)) (n : ℕ) (s : σ) (t : τ) (h : R s t) :
    R (forRange n f s) (forRange n f' t) := by
  induction n with
  | zero => exact h
  | succ n ih => rw [forRange_succ, forRange_succ]; exact hstep n _ _ ih

/-- The glyph written for a hit is the same in both colour modes. -/
lemma pixelGlyph_mode (earth : Earth) (lightDir : Vec3) (cloudPhase : ℝ)
    (hitPoint normal : Vec3) :
    pixelGlyph earth lightDir cloudPhase true hitPoint normal
      = pixelGlyph earth lightDir cloudPhase false hitPoint normal := by
  unfold pixelGlyph
  simp only [if_true, Bool.false_eq_true, if_false]
  exact shadeColor_glyph_eq_mono _ _ _ _ _ _

namespace ASCIIRenderer

lemma clearBuffers_sameGlyphs (r r' : ASCIIRenderer) (h : sameGlyphs r r') :
    sameGlyphs r.clearBuffers r'.clearBuffers := by
  unfold clearBuffers
  rw [h.2.2.2]
  refine forRange_rel sameGlyphs _ _ (fun y s t hst => ?_) _ r r' h
  rw [hst.2.2.1]
  refine forRange_rel sameGlyphs _ _ (fun x s t hst => ?_) _ s t hst
  obtain ⟨h1, h2, h3, h4⟩ := hst
  exact ⟨by simp only [clearCell, h1], by simp only [clearCell, h2], h3, h4⟩

lemma starStep_sameGlyphs (s t : ASCIIRenderer × RandStream)
    (h : sameGlyphs s.1 t.1 ∧ s.2 = t.2) :
    sameGlyphs (starStep s).1 (starStep t).1 ∧ (starStep s).2 = (starStep t).2 := by
  obtain ⟨⟨h1, h2, h3, h4⟩, h5⟩ := h
  unfold starStep
  simp only [h2, h3, h4, h5]
  by_cases hc : t.1.depthBuffer ((rand (rand t.2).2).1 % t.1.height) ((rand t.2).1 % t.1.width)
      = DBL_MAX
  · simp only [if_pos hc, and_true]
    exact ⟨by simp only [h1], rfl, rfl, rfl⟩
  · simp only [if_neg hc, and_true]
    exact ⟨h1, h2, h3, h4⟩

lemma renderStars_sameGlyphs (s t : ASCIIRenderer × RandStream)
    (h : sameGlyphs s.1 t.1 ∧ s.2 = t.2) :
    sameGlyphs (renderStars s).1 (renderStars t).1 ∧ (renderStars s).2 = (renderStars t).2 := by
  unfold renderStars
  rw [h.1.2.2.1, h.1.2.2.2]
  exact forRange_rel (fun s t => sameGlyphs s.1 t.1 ∧ s.2 = t.2) _ _
    (fun _ s t hst => starStep_sameGlyphs s t hst) _ s t h

end ASCIIRenderer

/-- C17. The glyph does not depend on the colour mode: for every pixel of the grid (hit or
not; land or ocean, any diffuse value, latitude, longitude and cloud phase), the glyph written
to the character grid by `render` with colour disabled equals the glyph written with colour
enabled, on the same stream of `std::rand`. -/
theorem glyph_independent_of_colour (w h : ℕ) (fb : ℕ → ℕ → Char) (cb cb' : ℕ → ℕ → String)
    (db : ℕ → ℕ → ℝ) (earth : Earth) (g : RandStream) (x y : ℕ) (hx : x < w) (hy : y < h) :
    ((rendererWith w h false fb cb db).render earth g).1.frameBuffer y x
      = ((rendererWith w h true fb cb' db).render earth g).1.frameBuffer y x := by
  have h1 := congrArg Prod.fst
    (ASCIIRenderer.render_cell (rendererWith w h false fb cb db) earth g y x hy hx)
  have h2 := congrArg Prod.fst
    (ASCIIRenderer.render_cell (rendererWith w h true fb cb' db) earth g y x hy hx)
  simp only at h1 h2
  rw [h1, h2]
  have hstars : (ASCIIRenderer.renderStars
        ((rendererWith w h false fb cb db).clearBuffers, g)).1.frameBuffer
      = (ASCIIRenderer.renderStars
        ((rendererWith w h true fb cb' db).clearBuffers, g)).1.frameBuffer :=
    (ASCIIRenderer.renderStars_sameGlyphs
      ((rendererWith w h false fb cb db).clearBuffers, g)
      ((rendererWith w h true fb cb' db).clearBuffers, g)
      ⟨ASCIIRenderer.clearBuffers_sameGlyphs (rendererWith w h false fb cb db)
        (rendererWith w h true fb cb' db) ⟨rfl, rfl, rfl, rfl⟩, rfl⟩).1.1
  rw [hstars]
  unfold pixelCell
  have hh : pixelHit earth (rendererConfig (rendererWith w h false fb cb db)) y x
      = pixelHit earth (rendererConfig (rendererWith w h true fb cb' db)) y x := rfl
  rw [hh]
  rcases pixelHit earth (rendererConfig (rendererWith w h true fb cb' db)) y x with
    _ | ⟨depth, hitPoint, normal⟩
  · rfl
  · simp only
    have hg := pixelGlyph_mode earth (lightDirOf earth) (earth.rotationY * 0.7) hitPoint normal
    have e1 : (rendererConfig (rendererWith w h false fb cb db)).2.2.2 = false := rfl
    have e2 : (rendererConfig (rendererWith w h true fb cb' db)).2.2.2 = true := rfl
    rw [e1, e2, hg]

/-- An instance of C17: the centre pixel of a 10x10 grid and the planet of radius 3 at the
origin. -/
theorem glyph_independent_of_colour_witness :
    5 < 10 ∧ 5 < 10 ∧
    ((rendererWith 10 10 false (fun _ _ => ' ') (fun _ _ => Color.RESET)
        (fun _ _ => DBL_MAX)).render ⟨3, ⟨0, 0, 0⟩, 0, oceanTexture⟩
        (fun _ => 0)).1.frameBuffer 5 5
      = ((rendererWith 10 10 true (fun _ _ => ' ') (fun _ _ => Color.RESET)
        (fun _ _ => DBL_MAX)).render ⟨3, ⟨0, 0, 0⟩, 0, oceanTexture⟩
        (fun _ => 0)).1.frameBuffer 5 5 :=
  ⟨by decide, by decide,
   glyph_independent_of_colour 10 10 _ _ _ _ ⟨3, ⟨0, 0, 0⟩, 0, oceanTexture⟩ (fun _ => 0) 5 5
     (by decide) (by decide)⟩

namespace ASCIIRenderer

/-- Without colour the pixel loops of `render` leave the colour buffer as the star pass left
it. -/
lemma pixelLoops_colorBuffer_mono (earth : Earth) (lightDir : Vec3) (cloudPhase : ℝ)
    (s : ASCIIRenderer × RandStream) (hmono : s.1.useColor = false) :
    (forRange s.1.height
      (fun y s => forRange s.1.width
        (fun x s => renderPixel earth lightDir cloudPhase y x s) s) s).1.colorBuffer
      = s.1.colorBuffer := by
  have hstep : ∀ y x (t : ASCIIRenderer × RandStream),
      (t.1.useColor = false ∧ t.1.colorBuffer = s.1.colorBuffer) →
      ((renderPixel earth lightDir cloudPhase y x t).1.useColor = false ∧
        (renderPixel earth lightDir cloudPhase y x t).1.colorBuffer = s.1.colorBuffer) := by
    intro y x t ht
    constructor
    · have := congrArg (fun c => c.2.2.2) (renderPixel_config earth lightDir cloudPhase y x t)
      simp only [rendererConfig] at this
      rw [this]; exact ht.1
    · rw [← ht.2]
      funext y' x'
      exact renderPixel_colorBuffer earth lightDir cloudPhase y x t y' x' (Or.inr ht.1)
  exact (forRange_invariant
    (fun t => t.1.useColor = false ∧ t.1.colorBuffer = s.1.colorBuffer)
    (fun y t => forRange t.1.width (fun x t => renderPixel earth lightDir cloudPhase y x t) t)
    (fun y t ht => forRange_invariant
      (fun t => t.1.useColor = false ∧ t.1.colorBuffer = s.1.colorBuffer)
      (fun x t => renderPixel earth lightDir cloudPhase y x t)
      (fun x t ht => hstep y x t ht) _ t ht)
    _ s ⟨hmono, rfl⟩).2

/-- A star drawn on a cell that holds the sentinel depth tags the cell `Color::WHITE`, in
either colour mode. -/
lemma starStep_colour (s : ASCIIRenderer × RandStream)
    (hd : s.1.depthBuffer ((rand (rand s.2).2).1 % s.1.height) ((rand s.2).1 % s.1.width)
      = DBL_MAX) :
    (starStep s).1.colorBuffer ((rand (rand s.2).2).1 % s.1.height) ((rand s.2).1 % s.1.width)
      = Color.WHITE ∧ (starStep s).1.useColor = s.1.useColor := by
  unfold starStep
  simp only
  rw [if_pos hd]
  exact ⟨by simp only [setCell, and_self, if_true], rfl⟩

/-- Without colour, when the star pass draws exactly one star, the cell of that star still
holds `Color::WHITE` after `render`. -/
lemma render_star_colour_mono (r : ASCIIRenderer) (earth : Earth) (g : RandStream)
    (hmono : r.useColor = false) (hcount : r.width * r.height / 100 = 1)
    (hw : 0 < r.width) (hh : 0 < r.height) :
    (r.render earth g).1.colorBuffer (g 1 % r.height) (g 0 % r.width) = Color.WHITE := by
  obtain ⟨hcc, hclear⟩ := clearBuffers_spec r
  have hdep := (hclear (g 1 % r.height) (g 0 % r.width) (Nat.mod_lt _ hh) (Nat.mod_lt _ hw)).2.2
  have hfin : (r.render earth g).1.colorBuffer
      = (forRange (renderStars (r.clearBuffers, g)).1.height
          (fun y s => forRange s.1.width
            (fun x s => renderPixel earth (lightDirOf earth) (earth.rotationY * 0.7) y x s) s)
          (renderStars (r.clearBuffers, g))).1.colorBuffer := rfl
  rw [hfin]
  simp only [rendererConfig, Prod.mk.injEq] at hcc
  obtain ⟨hcw, hch, _, hcu⟩ := hcc
  generalize r.clearBuffers = rc at hcw hch hcu hdep ⊢
  have hstars : renderStars (rc, g) = starStep (rc, g) := by
    unfold renderStars
    simp only [hcw, hch, hcount]
    rw [show (1 : ℕ) = 0 + 1 by rfl, forRange_succ, forRange_zero]
  have hstep := starStep_colour (rc, g) (by
    simp only [rand, hcw, hch]; exact hdep)
  simp only [rand, hcw, hch] at hstep
  rw [pixelLoops_colorBuffer_mono earth _ _ _ (by rw [hstars, hstep.2, hcu, hmono]), hstars]
  exact hstep.1

end ASCIIRenderer

/-- C18 fails on the code: the star pass writes the colour tag `Color::WHITE` without looking
at the colour mode. For a 10x10 renderer with colour disabled (any planet, any earlier buffer
contents, any stream of `std::rand`), after `render` the cell of the one star that is drawn,
column `g 0 % 10` of row `g 1 % 10`, holds `Color::WHITE` and not `Color::RESET`. -/
theorem star_colour_without_colour (earth : Earth) (fb : ℕ → ℕ → Char)
    (cb : ℕ → ℕ → String) (db : ℕ → ℕ → ℝ) (g : RandStream) :
    ((rendererWith 10 10 false fb cb db).render earth g).1.colorBuffer (g 1 % 10) (g 0 % 10)
      = Color.WHITE ∧ Color.WHITE ≠ Color.RESET :=
  ⟨ASCIIRenderer.render_star_colour_mono (rendererWith 10 10 false fb cb db) earth g rfl
      (show 10 * 10 / 100 = 1 by decide) (show 0 < 10 by decide) (show 0 < 10 by decide),
   by unfold Color.WHITE Color.RESET; decide⟩


/-! ## Surface map generation -/

/-- A property kept by every iteration below the bound holds after the loop. -/
lemma forRange_invariant_lt {σ : Type} (P : σ → Prop) (body : ℕ → σ → σ) (n : ℕ)
    (hstep : ∀ i s, i < n → P s → P (body i s)) (s : σ) (h : P s) :
    P (forRange n body s) := by
  induction n with
  | zero => exact h
  | succ n ih =>
    rw [forRange_succ]
    exact hstep n _ (Nat.lt_succ_self n)
      (ih (fun i s hi hs => hstep i s (Nat.lt_succ_of_lt hi) hs))

/-- A blob leaves every row outside the rows of its bounding box as it is. -/
lemma stampBlob_row (test : ℤ → ℤ → ℤ → ℤ → ℤ → Prop) (value : Bool)
    (centerLat centerLon size : ℤ) (t : ℕ → ℕ → Bool) (a b : ℕ)
    (ha : (a : ℤ) < centerLat - size ∨ centerLat + size ≤ (a : ℤ)) :
    stampBlob test value centerLat centerLon size t a b = t a b := by
  unfold stampBlob forInt
  refine forRange_invariant_lt (fun t' => t' a b = t a b) _ _ (fun i t' hi ht' => ?_) t rfl
  simp only
  have hlat : centerLat - size + (i : ℤ) < centerLat + size := by omega
  by_cases hg : centerLat - size + (i : ℤ) < 0 ∨ centerLat - size + (i : ℤ) ≥ 180
  · rw [if_pos hg]; exact ht'
  · rw [if_neg hg]
    have hne : (centerLat - size + (i : ℤ)).toNat ≠ a := by omega
    refine forRange_invariant (fun t'' => t'' a b = t a b) _ (fun j t'' ht'' => ?_) _ t' ht'
    simp only
    split_ifs
    · simp only [setCell]
      rw [if_neg (fun h => hne h.1.symm)]
      exact ht''
    · exact ht''

lemma lakeStep_row (s : (ℕ → ℕ → Bool) × RandStream) (a b : ℕ) (ha : a < 21 ∨ 158 ≤ a) :
    (lakeStep s).1 a b = s.1 a b := by
  unfold lakeStep
  simp only
  split_ifs
  · rfl
  · exact stampBlob_row _ _ _ _ _ _ a b (by omega)

/-- The lake pass leaves the rows below 21 and from 158 on as they are. -/
lemma lakes_row (t : ℕ → ℕ → Bool) (g : RandStream) (a b : ℕ) (ha : a < 21 ∨ 158 ≤ a) :
    (forRange 25 (fun _ s => lakeStep s) (t, g)).1 a b = t a b := by
  have h := forRange_invariant
    (fun s' : (ℕ → ℕ → Bool) × RandStream => s'.1 a b = t a b) (fun _ s => lakeStep s)
    (fun _ s' hs' => (lakeStep_row s' a b ha).trans hs') 25 (t, g) rfl
  exact h

/-- The north cap loop turns to land the cells of the rows 0 to 19 that pass its test and keeps
every other cell. -/
lemma northCap_spec (t : ℕ → ℕ → Bool) (lat lon : ℕ) :
    northCap t lat lon =
      if lat < 20 ∧ lon < 360 then
        (if (lat : ℝ) < 15 + 0.2 * Real.sin ((lon : ℝ) * 0.1) * 5 then true else t lat lon)
      else t lat lon := by
  have h := forRange_grid (fun (_ : ℕ → ℕ → Bool) => ()) (fun t y x => t y x)
    (fun lat lon t =>
      if (lat : ℝ) < 15 + 0.2 * Real.sin ((lon : ℝ) * 0.1) * 5 then setCell t lat lon true
      else t)
    (fun _ lat lon old =>
      if (lat : ℝ) < 15 + 0.2 * Real.sin ((lon : ℝ) * 0.1) * 5 then true else old)
    (fun _ => 360)
    (fun _ _ _ => rfl)
    (fun y x t y' x' hne => by
      beta_reduce
      split_ifs
      · simp only [setCell, if_neg hne]
      · rfl)
    (fun y x t => by
      beta_reduce
      split_ifs
      · simp only [setCell, and_self, if_true]
      · rfl)
    20 t
  exact h.2 lat lon

/-- The south cap loop turns to land the cells of the rows 160 to 179 that pass its test. -/
lemma southCap_spec (t : ℕ → ℕ → Bool) (i lon : ℕ) (hi : i < 20) (hlon : lon < 360)
    (hc : ((160 + i : ℕ) : ℝ) > 165 - 0.2 * Real.sin ((lon : ℝ) * 0.1) * 5) :
    southCap t (160 + i) lon = true := by
  have h := forRange_grid (fun (_ : ℕ → ℕ → Bool) => ()) (fun t y x => t (160 + y) x)
    (fun i lon t =>
      if ((160 + i : ℕ) : ℝ) > 165 - 0.2 * Real.sin ((lon : ℝ) * 0.1) * 5 then
        setCell t (160 + i) lon true
      else t)
    (fun _ i lon old =>
      if ((160 + i : ℕ) : ℝ) > 165 - 0.2 * Real.sin ((lon : ℝ) * 0.1) * 5 then true else old)
    (fun _ => 360)
    (fun _ _ _ => rfl)
    (fun y x t y' x' hne => by
      have hne' : ¬(160 + y' = 160 + y ∧ x' = x) := fun h => hne ⟨by omega, h.2⟩
      beta_reduce
      split_ifs
      · simp only [setCell, if_neg hne']
      · rfl)
    (fun y x t => by
      beta_reduce
      split_ifs
      · simp only [setCell, and_self, if_true]
      · rfl)
    20 t
  have h2 := h.2 i lon
  rw [if_pos ⟨hi, hlon⟩, if_pos hc] at h2
  exact h2

/-- The south cap loop never turns a land cell to ocean. -/
lemma southCap_mono (t : ℕ → ℕ → Bool) (a b : ℕ) (h : t a b = true) :
    southCap t a b = true := by
  unfold southCap
  refine forRange_invariant (fun t' => t' a b = true) _ (fun i t' ht' => ?_) _ t h
  refine forRange_invariant (fun t'' => t'' a b = true) _ (fun j t'' ht'' => ?_) _ t' ht'
  simp only
  split_ifs
  · simp only [setCell]
    split_ifs
    · rfl
    · exact ht''
  · exact ht''

lemma sin_bounds (x : ℝ) : -1 ≤ Real.sin x ∧ Real.sin x ≤ 1 :=
  ⟨Real.neg_one_le_sin x, Real.sin_le_one x⟩

/-- After `createSimplifiedTexture` every cell that passes the test of a polar cap is land. -/
lemma createSimplifiedTexture_caps (g : RandStream) (lat lon : ℕ) (hlat : lat < 180)
    (hlon : lon < 360)
    (hcap : (lat : ℝ) < 15 + 5 * (0.2 * Real.sin (0.1 * (lon : ℝ))) ∨
      (lat : ℝ) > 165 - 5 * (0.2 * Real.sin (0.1 * (lon : ℝ)))) :
    (createSimplifiedTexture g).1 lat lon = true := by
  obtain ⟨hs1, hs2⟩ := sin_bounds ((lon : ℝ) * 0.1)
  have hcomm : 0.1 * (lon : ℝ) = (lon : ℝ) * 0.1 := mul_comm _ _
  rw [hcomm] at hcap
  have key : ∀ s : (ℕ → ℕ → Bool) × RandStream,
      (forRange 25 (fun _ s => lakeStep s) (southCap (northCap s.1), s.2)).1 lat lon
        = true := by
    intro s
    rcases hcap with hn | hs
    · have hl : (lat : ℝ) < 16 := by linarith
      have hl' : lat < 16 := by exact_mod_cast hl
      rw [lakes_row _ _ lat lon (Or.inl (by omega))]
      have hnorth : northCap s.1 lat lon = true := by
        rw [northCap_spec, if_pos ⟨by omega, hlon⟩, if_pos (by linarith)]
      exact southCap_mono (northCap s.1) lat lon hnorth
    · have hl : (164 : ℝ) < (lat : ℝ) := by linarith
      have hl' : 164 < lat := by exact_mod_cast hl
      rw [lakes_row _ _ lat lon (Or.inr (by omega))]
      obtain ⟨i, rfl⟩ : ∃ i, lat = 160 + i := ⟨lat - 160, by omega⟩
      exact southCap_spec (northCap s.1) i lon (by omega) hlon (by linarith)
  unfold createSimplifiedTexture
  simp only
  generalize forRange 12 (fun _ s => islandStep s) _ = S
  exact key S

lemma gridToTexture_getD (t : ℕ → ℕ → Bool) (lat lon : ℕ) (hlat : lat < 180)
    (hlon : lon < 360) :
    ((gridToTexture t).getD lat []).getD lon false = t lat lon := by
  have hrow : (gridToTexture t).getD lat [] = (List.range 360).map (fun lon => t lat lon) := by
    unfold gridToTexture
    rw [List.getD_eq_getElem?_getD, List.getElem?_map, List.getElem?_range hlat]
    rfl
  rw [hrow, List.getD_eq_getElem?_getD, List.getElem?_map, List.getElem?_range hlon]
  rfl

/-- C20. Polar ice caps survive generation: for every stream of values returned by
`std::rand`, in the map produced by `createSimplifiedTexture` (and stored as the texture of a
constructed planet) every cell `(lat, lon)` with `lat < 15 + 5 * noise` or
`lat > 165 - 5 * noise`, where `noise = 0.2 * sin(0.1 * lon)`, is land; the lake pass leaves
such a cell as it is on every map; in particular the rows 0 to 13 and 167 to 179 are entirely
land. -/
theorem polar_caps_survive (radius : ℝ) (position : Vec3) (g : RandStream) (lat lon : ℕ)
    (hlat : lat < 180) (hlon : lon < 360) :
    (((lat : ℝ) < 15 + 5 * (0.2 * Real.sin (0.1 * (lon : ℝ))) ∨
        (lat : ℝ) > 165 - 5 * (0.2 * Real.sin (0.1 * (lon : ℝ)))) →
      (createSimplifiedTexture g).1 lat lon = true ∧
      (((Earth.create radius position g).1.texture.getD lat []).getD lon false = true) ∧
      ∀ (t : ℕ → ℕ → Bool) (g' : RandStream),
        (forRange 25 (fun _ s => lakeStep s) (t, g')).1 lat lon = t lat lon) ∧
    ((lat ≤ 13 ∨ 167 ≤ lat) →
      (createSimplifiedTexture g).1 lat lon = true ∧
      ((Earth.create radius position g).1.texture.getD lat []).getD lon false = true) := by
  obtain ⟨hs1, hs2⟩ := sin_bounds (0.1 * (lon : ℝ))
  have hlist : ((Earth.create radius position g).1.texture.getD lat []).getD lon false
      = (createSimplifiedTexture g).1 lat lon := gridToTexture_getD _ lat lon hlat hlon
  constructor
  · intro hcap
    have hland := createSimplifiedTexture_caps g lat lon hlat hlon hcap
    refine ⟨hland, by rw [hlist]; exact hland, fun t g' => ?_⟩
    apply lakes_row
    rcases hcap with hn | hs
    · left
      have hl : (lat : ℝ) < 21 := by linarith
      exact_mod_cast hl
    · right
      have hl : (157 : ℝ) < (lat : ℝ) := by linarith
      have hl' : 157 < lat := by exact_mod_cast hl
      omega
  · intro hrows
    have hcap : (lat : ℝ) < 15 + 5 * (0.2 * Real.sin (0.1 * (lon : ℝ))) ∨
        (lat : ℝ) > 165 - 5 * (0.2 * Real.sin (0.1 * (lon : ℝ))) := by
      rcases hrows with h13 | h167
      · left
        have : (lat : ℝ) ≤ 13 := by exact_mod_cast h13
        linarith
      · right
        have : (167 : ℝ) ≤ (lat : ℝ) := by exact_mod_cast h167
        linarith
    have hland := createSimplifiedTexture_caps g lat lon hlat hlon hcap
    exact ⟨hland, by rw [hlist]; exact hland⟩

/-- An instance of C20: the cell `(0, 0)` on the stream that always returns 0. -/
theorem polar_caps_survive_witness :
    0 < 180 ∧ 0 < 360 ∧
    (((0 : ℕ) : ℝ) < 15 + 5 * (0.2 * Real.sin (0.1 * ((0 : ℕ) : ℝ))) ∨
      ((0 : ℕ) : ℝ) > 165 - 5 * (0.2 * Real.sin (0.1 * ((0 : ℕ) : ℝ)))) ∧
    (createSimplifiedTexture (fun _ => 0)).1 0 0 = true :=
  have hcap : ((0 : ℕ) : ℝ) < 15 + 5 * (0.2 * Real.sin (0.1 * ((0 : ℕ) : ℝ))) ∨
      ((0 : ℕ) : ℝ) > 165 - 5 * (0.2 * Real.sin (0.1 * ((0 : ℕ) : ℝ))) := by
    left
    simp
  ⟨by decide, by decide, hcap,
   ((polar_caps_survive 3 ⟨0, 0, 0⟩ (fun _ => 0) 0 0 (by decide) (by decide)).1 hcap).1⟩


/-! ## Longitude wrap-around of the blobs -/

/-- A property established by one iteration and kept by all of them holds after the loop. -/
lemma forRange_establish {σ : Type} (P : σ → Prop) (body : ℕ → σ → σ) (n i0 : ℕ)
    (hi : i0 < n) (hest : ∀ s, P (body i0 s)) (hkeep : ∀ i s, P s → P (body i s)) (s : σ) :
    P (forRange n body s) := by
  induction n with
  | zero => exact absurd hi (Nat.not_lt_zero _)
  | succ n ih =>
    rw [forRange_succ]
    by_cases h : i0 = n
    · subst h; exact hest _
    · exact hkeep n _ (ih (by omega))

/-- For an unwrapped longitude above `-360` the wrapped column is in `[0, 360)` and congruent
to it modulo 360. -/
lemma wrappedLon_spec (lon : ℤ) (h : -360 ≤ lon) :
    0 ≤ wrappedLon lon ∧ wrappedLon lon < 360 ∧ wrappedLon lon ≡ lon [ZMOD 360] := by
  unfold wrappedLon
  rw [Int.tmod_eq_emod (by omega) (by norm_num)]
  refine ⟨Int.emod_nonneg _ (by norm_num), Int.emod_lt_of_pos _ (by norm_num), ?_⟩
  unfold Int.ModEq
  omega

/-- A blob whose centre longitude is in `[0, 360)` and whose size is below 35 writes no cell
outside the 180x360 map. -/
lemma stampBlob_outside (test : ℤ → ℤ → ℤ → ℤ → ℤ → Prop) (value : Bool)
    (centerLat centerLon size : ℤ) (t : ℕ → ℕ → Bool) (a b : ℕ)
    (hc0 : 0 ≤ centerLon) (hs : size < 35) (hout : ¬(a < 180 ∧ b < 360)) :
    stampBlob test value centerLat centerLon size t a b = t a b := by
  unfold stampBlob forInt
  refine forRange_invariant (fun t' => t' a b = t a b) _ (fun i t' ht' => ?_) _ t rfl
  beta_reduce
  by_cases hg : centerLat - size + (i : ℤ) < 0 ∨ centerLat - size + (i : ℤ) ≥ 180
  · rw [if_pos hg]; exact ht'
  · rw [if_neg hg]
    refine forRange_invariant (fun t'' => t'' a b = t a b) _ (fun j t'' ht'' => ?_) _ t' ht'
    beta_reduce
    split_ifs
    · obtain ⟨h0, h1, _⟩ := wrappedLon_spec (centerLon - size + (j : ℤ)) (by omega)
      have hcell : ¬(a = (centerLat - size + (i : ℤ)).toNat ∧
          b = ((centerLon - size + (j : ℤ) + 360).tmod 360).toNat) := by
        unfold wrappedLon at h0 h1
        intro h
        apply hout
        omega
      simp only [setCell, if_neg hcell]
      exact ht''
    · exact ht''

open Classical in
/-- A cell of the bounding box of a blob, in a row of the map, that passes the test holds the
value of the blob afterwards, at its wrapped column. -/
lemma stampBlob_writes (test : ℤ → ℤ → ℤ → ℤ → ℤ → Prop) (value : Bool)
    (centerLat centerLon size : ℤ) (t : ℕ → ℕ → Bool) (lat lon : ℤ)
    (hlat0 : centerLat - size ≤ lat) (hlat1 : lat < centerLat + size)
    (hlon0 : centerLon - size ≤ lon) (hlon1 : lon < centerLon + size)
    (hrow0 : 0 ≤ lat) (hrow1 : lat < 180) (htest : test centerLat centerLon size lat lon) :
    stampBlob test value centerLat centerLon size t lat.toNat (wrappedLon lon).toNat
      = value := by
  unfold stampBlob forInt
  have hkeepIn : ∀ (la : ℤ) (j : ℕ) (t'' : ℕ → ℕ → Bool),
      t'' lat.toNat (wrappedLon lon).toNat = value →
      (if test centerLat centerLon size la (centerLon - size + (j : ℤ)) then
          setCell t'' la.toNat ((centerLon - size + (j : ℤ) + 360).tmod 360).toNat value
        else t'') lat.toNat (wrappedLon lon).toNat = value := by
    intro la j t'' ht''
    split_ifs
    · simp only [setCell]
      split_ifs
      · rfl
      · exact ht''
    · exact ht''
  have hi : (lat - (centerLat - size)).toNat < (centerLat + size - (centerLat - size)).toNat := by
    omega
  have hj : (lon - (centerLon - size)).toNat < (centerLon + size - (centerLon - size)).toNat := by
    omega
  refine forRange_establish (fun t' => t' lat.toNat (wrappedLon lon).toNat = value) _ _
    (lat - (centerLat - size)).toNat hi (fun t' => ?_) (fun i t' ht' => ?_) t
  · beta_reduce
    have hla : centerLat - size + ((lat - (centerLat - size)).toNat : ℤ) = lat := by omega
    rw [hla, if_neg (by omega)]
    refine forRange_establish (fun t'' => t'' lat.toNat (wrappedLon lon).toNat = value) _ _
      (lon - (centerLon - size)).toNat hj (fun t'' => ?_)
      (fun j t'' ht'' => hkeepIn lat j t'' ht'') t'
    beta_reduce
    have hlo : centerLon - size + ((lon - (centerLon - size)).toNat : ℤ) = lon := by omega
    rw [hlo, if_pos htest]
    simp only [setCell, wrappedLon, and_self, if_true]
  · beta_reduce
    split_ifs
    · exact ht'
    · exact forRange_invariant (fun t'' => t'' lat.toNat (wrappedLon lon).toNat = value) _
        (fun j t'' ht'' => hkeepIn _ j t'' ht'') _ t' ht'

/-- The blob of a continent has its centre longitude in `[0, 360)` and a size in `[15, 35)`. -/
lemma continentStep_blob (s : (ℕ → ℕ → Bool) × RandStream) :
    ∃ centerLat centerLon size : ℤ, 0 ≤ centerLon ∧ centerLon < 360 ∧ 0 < size ∧ size < 35 ∧
      (continentStep s).1 = stampBlob continentTest true centerLat centerLon size s.1 :=
  ⟨30 + (((rand s.2).1 % 120 : ℕ) : ℤ), (((rand (rand s.2).2).1 % 360 : ℕ) : ℤ),
    15 + (((rand (rand (rand s.2).2).2).1 % 20 : ℕ) : ℤ),
    by omega, by omega, by omega, by omega, rfl⟩

/-- The blob of an island has its centre longitude in `[0, 360)` and a size in `[3, 8)`. -/
lemma islandStep_blob (s : (ℕ → ℕ → Bool) × RandStream) :
    ∃ centerLat centerLon size : ℤ, 0 ≤ centerLon ∧ centerLon < 360 ∧ 0 < size ∧ size < 35 ∧
      (islandStep s).1 = stampBlob islandTest true centerLat centerLon size s.1 :=
  ⟨20 + (((rand s.2).1 % 140 : ℕ) : ℤ), (((rand (rand s.2).2).1 % 360 : ℕ) : ℤ),
    3 + (((rand (rand (rand s.2).2).2).1 % 5 : ℕ) : ℤ),
    by omega, by omega, by omega, by omega, rfl⟩

/-- The anchor cell read by the lake loop is a cell of the map, so the range test of the loop
never skips a lake, and the blob of a lake has its centre longitude in `[0, 360)` and a size in
`[2, 10)`. -/
lemma lakeStep_blob (s : (ℕ → ℕ → Bool) × RandStream) :
    ∃ (anchorLat anchorLon : ℕ) (size : ℤ), anchorLat < 180 ∧ anchorLon < 360 ∧ 0 < size ∧
      size < 35 ∧
      (lakeStep s).1 =
        if s.1 anchorLat anchorLon = false then s.1
        else stampBlob lakeTest false (anchorLat : ℤ) (anchorLon : ℤ) size s.1 := by
  refine ⟨30 + (rand s.2).1 % 120, (rand (rand s.2).2).1 % 360,
    2 + (((rand (rand (rand s.2).2).2).1 % 8 : ℕ) : ℤ), by omega, by omega, by omega, by omega,
    ?_⟩
  have hlat : (30 + (((rand s.2).1 % 120 : ℕ) : ℤ)).toNat = 30 + (rand s.2).1 % 120 := by omega
  have hlon : ((((rand (rand s.2).2).1 % 360 : ℕ) : ℤ)).toNat = (rand (rand s.2).2).1 % 360 := by
    omega
  have hcast : ((30 + (rand s.2).1 % 120 : ℕ) : ℤ) = 30 + (((rand s.2).1 % 120 : ℕ) : ℤ) := by
    push_cast; rfl
  unfold lakeStep
  simp only
  rw [hlat, hlon, hcast]
  by_cases hanchor : s.1 (30 + (rand s.2).1 % 120) ((rand (rand s.2).2).1 % 360) = false
  · rw [if_pos hanchor, if_pos (Or.inr (Or.inr (Or.inr (Or.inr hanchor))))]
  · rw [if_neg hanchor, if_neg]
    intro h
    rcases h with h | h | h | h | h
    · omega
    · omega
    · omega
    · omega
    · exact hanchor h

lemma continentStep_outside (s : (ℕ → ℕ → Bool) × RandStream) (a b : ℕ)
    (hout : ¬(a < 180 ∧ b < 360)) : (continentStep s).1 a b = s.1 a b := by
  obtain ⟨cLat, cLon, size, h0, _, _, hs, heq⟩ := continentStep_blob s
  rw [heq]
  exact stampBlob_outside _ _ _ _ _ _ a b h0 hs hout

lemma islandStep_outside (s : (ℕ → ℕ → Bool) × RandStream) (a b : ℕ)
    (hout : ¬(a < 180 ∧ b < 360)) : (islandStep s).1 a b = s.1 a b := by
  obtain ⟨cLat, cLon, size, h0, _, _, hs, heq⟩ := islandStep_blob s
  rw [heq]
  exact stampBlob_outside _ _ _ _ _ _ a b h0 hs hout

lemma lakeStep_outside (s : (ℕ → ℕ → Bool) × RandStream) (a b : ℕ)
    (hout : ¬(a < 180 ∧ b < 360)) : (lakeStep s).1 a b = s.1 a b := by
  obtain ⟨aLat, aLon, size, _, _, _, hs, heq⟩ := lakeStep_blob s
  rw [heq]
  split_ifs
  · rfl
  · exact stampBlob_outside _ _ _ _ _ _ a b (by omega) hs hout

lemma northCap_outside (t : ℕ → ℕ → Bool) (a b : ℕ) (hout : ¬(a < 180 ∧ b < 360)) :
    northCap t a b = t a b := by
  rw [northCap_spec, if_neg (fun h => hout ⟨by omega, h.2⟩)]

lemma southCap_outside (t : ℕ → ℕ → Bool) (a b : ℕ) (hout : ¬(a < 180 ∧ b < 360)) :
    southCap t a b = t a b := by
  unfold southCap
  refine forRange_invariant_lt (fun t' => t' a b = t a b) _ _ (fun i t' hi ht' => ?_) t rfl
  refine forRange_invariant_lt (fun t'' => t'' a b = t a b) _ _ (fun j t'' hj ht'' => ?_) t' ht'
  simp only
  split_ifs
  · have hcell : ¬(a = 160 + i ∧ b = j) := fun h => hout (by omega)
    simp only [setCell, if_neg hcell]
    exact ht''
  · exact ht''

/-- The generation writes no cell outside the 180x360 map. -/
lemma createSimplifiedTexture_outside (g : RandStream) (a b : ℕ)
    (hout : ¬(a < 180 ∧ b < 360)) : (createSimplifiedTexture g).1 a b = false := by
  have hc : ∀ (n : ℕ) (s : (ℕ → ℕ → Bool) × RandStream), s.1 a b = false →
      (forRange n (fun _ s => continentStep s) s).1 a b = false := fun n s hs =>
    forRange_invariant (fun s' : (ℕ → ℕ → Bool) × RandStream => s'.1 a b = false)
      (fun _ s => continentStep s)
      (fun _ s' hs' => (continentStep_outside s' a b hout).trans hs') n s hs
  have hi : ∀ (n : ℕ) (s : (ℕ → ℕ → Bool) × RandStream), s.1 a b = false →
      (forRange n (fun _ s => islandStep s) s).1 a b = false := fun n s hs =>
    forRange_invariant (fun s' : (ℕ → ℕ → Bool) × RandStream => s'.1 a b = false)
      (fun _ s => islandStep s)
      (fun _ s' hs' => (islandStep_outside s' a b hout).trans hs') n s hs
  have hl : ∀ (n : ℕ) (t : ℕ → ℕ → Bool) (g : RandStream), t a b = false →
      (forRange n (fun _ s => lakeStep s) (t, g)).1 a b = false := fun n t g ht =>
    forRange_invariant (fun s' : (ℕ → ℕ → Bool) × RandStream => s'.1 a b = false)
      (fun _ s => lakeStep s)
      (fun _ s' hs' => (lakeStep_outside s' a b hout).trans hs') n (t, g) ht
  have key : ∀ s : (ℕ → ℕ → Bool) × RandStream, s.1 a b = false →
      (forRange 25 (fun _ s => lakeStep s) (southCap (northCap s.1), s.2)).1 a b = false := by
    intro s hs
    have hcaps : southCap (northCap s.1) a b = false := by
      rw [southCap_outside _ a b hout, northCap_outside _ a b hout]
      exact hs
    have h := hl 25 (southCap (northCap s.1)) s.2 hcaps
    exact h
  have h5 := hc 5 (fun _ _ => false, g) rfl
  have h12 := hi 12 (forRange 5 (fun _ s => continentStep s) (fun _ _ => false, g)) h5
  unfold createSimplifiedTexture
  simp only
  generalize forRange 12 (fun _ s => islandStep s) _ = S at h12 ⊢
  exact key S h12

/-- The lake test passes at the unwrapped longitude 365 of a blob of size 10 centred at
`(90, 359)`. -/
lemma lakeTest_example : lakeTest 90 359 10 90 365 := by
  unfold lakeTest blobDistance
  simp only
  rw [Real.sqrt_lt' (by norm_num)]
  norm_num

/-- C21. Longitude wrap-around in map generation: for a blob stamped by the loops of
`createSimplifiedTexture` with its centre longitude in `[0, 360)` and a size below 35, and an
unwrapped longitude `lon` in `[centre - size, centre + size)`, the written column
`(lon + 360) % 360` lies in `[0, 360)` and is congruent to `lon` modulo 360, and the centre
longitude is its own column; the blob changes no cell outside the 180 rows and 360 columns of
the map, and a cell of its bounding box in a row of `[0, 180)` that passes the test holds the
value of the blob at the wrapped column. Whatever `std::rand` returns, the continent, island
and lake blobs have such a centre and size, the anchor cell read by the lake loop is a cell of
the map, and the generated map is untouched outside the 180 rows and 360 columns. For the
centre 359 and the size 10 the unwrapped longitude 365 is in the box and addresses column 5. -/
theorem longitude_wrap_in_range (test : ℤ → ℤ → ℤ → ℤ → ℤ → Prop) (value : Bool)
    (centerLat centerLon size lat lon : ℤ) (t : ℕ → ℕ → Bool)
    (hc0 : 0 ≤ centerLon) (hc1 : centerLon < 360) (hs : size < 35)
    (hlon0 : centerLon - size ≤ lon) (hlon1 : lon < centerLon + size) :
    (0 ≤ wrappedLon lon ∧ wrappedLon lon < 360 ∧ wrappedLon lon ≡ lon [ZMOD 360]) ∧
    wrappedLon centerLon = centerLon ∧
    (∀ a b : ℕ, ¬(a < 180 ∧ b < 360) →
      stampBlob test value centerLat centerLon size t a b = t a b) ∧
    (centerLat - size ≤ lat → lat < centerLat + size → 0 ≤ lat → lat < 180 →
      test centerLat centerLon size lat lon →
      stampBlob test value centerLat centerLon size t lat.toNat (wrappedLon lon).toNat
        = value) ∧
    (∀ s : (ℕ → ℕ → Bool) × RandStream, ∃ cLat cLon sz : ℤ,
      0 ≤ cLon ∧ cLon < 360 ∧ 0 < sz ∧ sz < 35 ∧
      (continentStep s).1 = stampBlob continentTest true cLat cLon sz s.1) ∧
    (∀ s : (ℕ → ℕ → Bool) × RandStream, ∃ cLat cLon sz : ℤ,
      0 ≤ cLon ∧ cLon < 360 ∧ 0 < sz ∧ sz < 35 ∧
      (islandStep s).1 = stampBlob islandTest true cLat cLon sz s.1) ∧
    (∀ s : (ℕ → ℕ → Bool) × RandStream, ∃ (anchorLat anchorLon : ℕ) (sz : ℤ),
      anchorLat < 180 ∧ anchorLon < 360 ∧ 0 < sz ∧ sz < 35 ∧
      (lakeStep s).1 =
        if s.1 anchorLat anchorLon = false then s.1
        else stampBlob lakeTest false (anchorLat : ℤ) (anchorLon : ℤ) sz s.1) ∧
    (∀ (g : RandStream) (a b : ℕ), ¬(a < 180 ∧ b < 360) →
      (createSimplifiedTexture g).1 a b = false) ∧
    ((359 : ℤ) - 10 ≤ 365 ∧ (365 : ℤ) < 359 + 10 ∧ wrappedLon 365 = 5) := by
  refine ⟨wrappedLon_spec lon (by omega), ?_,
    fun a b hout => stampBlob_outside test value centerLat centerLon size t a b hc0 hs hout,
    fun h0 h1 h2 h3 htest =>
      stampBlob_writes test value centerLat centerLon size t lat lon h0 h1 hlon0 hlon1 h2 h3
        htest,
    continentStep_blob, islandStep_blob, lakeStep_blob, createSimplifiedTexture_outside,
    by norm_num, by norm_num, by decide⟩
  unfold wrappedLon
  rw [Int.tmod_eq_emod (by omega) (by norm_num)]
  omega

/-- Witness of C21: the lake blob of size 10 centred at row 90 and longitude 359, stamped on
an all-land map, turns the cell of row 90 and column 5 to water, through the unwrapped
longitude 365. -/
theorem longitude_wrap_in_range_witness :
    ((0 : ℤ) ≤ 359 ∧ (359 : ℤ) < 360 ∧ (10 : ℤ) < 35 ∧ (359 : ℤ) - 10 ≤ 365 ∧
      (365 : ℤ) < 359 + 10) ∧
    wrappedLon 365 = 5 ∧
    stampBlob lakeTest false 90 359 10 (fun _ _ => true) 90 5 = false := by
  have h := longitude_wrap_in_range lakeTest false 90 359 10 90 365 (fun _ _ => true)
    (by decide) (by decide) (by decide) (by decide) (by decide)
  have hw := h.2.2.2.1 (by decide) (by decide) (by decide) (by decide) lakeTest_example
  have hcol : (wrappedLon 365).toNat = 5 := by decide
  have hrow : (90 : ℤ).toNat = 90 := by decide
  rw [hcol, hrow] at hw
  exact ⟨by decide, h.2.2.2.2.2.2.2.2.2.2, hw⟩


/-! ## Rounding to double precision -/

lemma roundHalfEven_abs_sub_le (q : ℝ) : |(roundHalfEven q : ℝ) - q| ≤ 1 / 2 := by
  have h1 := Int.floor_le q
  have h2 := Int.lt_floor_add_one q
  unfold roundHalfEven
  rw [abs_le]
  split_ifs <;> push_cast <;> constructor <;> linarith

/-- A real number less than one half away from an integer rounds to it. -/
lemma roundHalfEven_eq (q : ℝ) (m : ℤ) (h : |q - m| < 1 / 2) : roundHalfEven q = m := by
  rw [abs_lt] at h
  by_cases hq : (m : ℝ) ≤ q
  · have hf : ⌊q⌋ = m := Int.floor_eq_iff.mpr ⟨hq, by linarith⟩
    unfold roundHalfEven
    rw [hf, if_pos (by linarith)]
  · have hf : ⌊q⌋ = m - 1 :=
      Int.floor_eq_iff.mpr ⟨by push_cast; linarith, by push_cast; linarith⟩
    unfold roundHalfEven
    rw [hf, if_neg (by push_cast; linarith), if_pos (by push_cast; linarith)]
    ring

lemma roundHalfEven_nonneg (q : ℝ) (hq : 0 ≤ q) : 0 ≤ roundHalfEven q := by
  have hf : 0 ≤ ⌊q⌋ := Int.floor_nonneg.mpr hq
  unfold roundHalfEven
  split_ifs <;> omega

lemma ulpExp_of_normal (x : ℝ) (k : ℤ) (hk : -1022 ≤ k) (h1 : (2 : ℝ) ^ k ≤ |x|)
    (h2 : |x| < (2 : ℝ) ^ (k + 1)) : ulpExp x = k - 52 := by
  have hpos : 0 < |x| := lt_of_lt_of_le (by positivity) h1
  have hlog : Int.log 2 |x| = k := by
    apply le_antisymm
    · have := (Int.lt_zpow_iff_log_lt (b := 2) (by norm_num) hpos).mp (by exact_mod_cast h2)
      omega
    · exact (Int.zpow_le_iff_le_log (b := 2) (by norm_num) hpos).mp (by exact_mod_cast h1)
  unfold ulpExp
  rw [hlog, max_eq_left hk]

lemma ulpExp_of_subnormal (x : ℝ) (h0 : x ≠ 0) (h : |x| < (2 : ℝ) ^ (-1022 : ℤ)) :
    ulpExp x = -1074 := by
  have hpos : 0 < |x| := abs_pos.mpr h0
  have hlog : Int.log 2 |x| < -1022 :=
    (Int.lt_zpow_iff_log_lt (b := 2) (by norm_num) hpos).mp (by exact_mod_cast h)
  unfold ulpExp
  rw [max_eq_right (le_of_lt hlog)]
  norm_num

lemma rnd_zero : rnd 0 = 0 := by
  unfold rnd
  rw [zero_div, roundHalfEven_eq 0 0 (by norm_num)]
  simp

/-- The unit in the last place at `x` is at most `2^-52 |x|`, or `2^-1074` in the subnormal
range. -/
lemma ulp_le (x : ℝ) (hx : x ≠ 0) :
    (2 : ℝ) ^ ulpExp x ≤ (2 : ℝ) ^ (-52 : ℤ) * |x| ∨ ulpExp x = -1074 := by
  have hpos : 0 < |x| := abs_pos.mpr hx
  by_cases hlog : -1022 ≤ Int.log 2 |x|
  · left
    have h1 : ((2 : ℕ) : ℝ) ^ Int.log 2 |x| ≤ |x| := Int.zpow_log_le_self (by norm_num) hpos
    have h2 : ulpExp x = Int.log 2 |x| + (-52) := by
      unfold ulpExp
      rw [max_eq_left hlog]; ring
    rw [h2, zpow_add₀ (by norm_num : (2 : ℝ) ≠ 0), mul_comm]
    exact mul_le_mul_of_nonneg_left (by exact_mod_cast h1) (by positivity)
  · right
    unfold ulpExp
    rw [max_eq_right (by omega)]
    norm_num

/-- The rounding error is at most half a unit in the last place. -/
lemma rnd_abs_sub_le_ulp (x : ℝ) : |rnd x - x| ≤ (2 : ℝ) ^ ulpExp x / 2 := by
  have hp : (0 : ℝ) < 2 ^ ulpExp x := by positivity
  have h := roundHalfEven_abs_sub_le (x / 2 ^ ulpExp x)
  have he : rnd x - x = ((roundHalfEven (x / 2 ^ ulpExp x) : ℝ) - x / 2 ^ ulpExp x)
      * 2 ^ ulpExp x := by
    unfold rnd
    field_simp
  rw [he, abs_mul, abs_of_pos hp]
  calc |(roundHalfEven (x / 2 ^ ulpExp x) : ℝ) - x / 2 ^ ulpExp x| * 2 ^ ulpExp x
      ≤ 1 / 2 * 2 ^ ulpExp x := mul_le_mul_of_nonneg_right h hp.le
    _ = 2 ^ ulpExp x / 2 := by ring

/-- The standard model of rounding: a relative error of at most `2^-53`, plus an absolute error
of at most `2^-1075` in the subnormal range. -/
lemma rnd_abs_sub_le (x : ℝ) :
    |rnd x - x| ≤ (2 : ℝ) ^ (-53 : ℤ) * |x| + (2 : ℝ) ^ (-1075 : ℤ) := by
  by_cases hx : x = 0
  · rw [hx, rnd_zero]; norm_num
  have h := rnd_abs_sub_le_ulp x
  have habs : 0 ≤ |x| := abs_nonneg x
  rcases ulp_le x hx with h1 | h1
  · have e : (2 : ℝ) ^ (-53 : ℤ) * |x| = 2 ^ (-52 : ℤ) * |x| / 2 := by
      rw [show (-52 : ℤ) = -53 + 1 by norm_num, zpow_add₀ (by norm_num : (2 : ℝ) ≠ 0)]
      ring
    have hc : (0 : ℝ) ≤ 2 ^ (-1075 : ℤ) := by positivity
    rw [e]
    generalize (2 : ℝ) ^ (-1075 : ℤ) = C at hc ⊢
    generalize (2 : ℝ) ^ (-52 : ℤ) * |x| = P at h1 ⊢
    generalize (2 : ℝ) ^ ulpExp x = U at h h1
    linarith
  · rw [h1] at h
    have e : (2 : ℝ) ^ (-1075 : ℤ) = 2 ^ (-1074 : ℤ) / 2 := by
      rw [show (-1074 : ℤ) = -1075 + 1 by norm_num, zpow_add₀ (by norm_num : (2 : ℝ) ≠ 0)]
      norm_num
    have hc : (0 : ℝ) ≤ 2 ^ (-53 : ℤ) * |x| := by positivity
    rw [e]
    generalize (2 : ℝ) ^ (-53 : ℤ) * |x| = P at hc ⊢
    generalize (2 : ℝ) ^ (-1074 : ℤ) = U at h ⊢
    linarith

lemma rnd_nonneg (x : ℝ) (hx : 0 ≤ x) : 0 ≤ rnd x := by
  unfold rnd
  have h := roundHalfEven_nonneg (x / 2 ^ ulpExp x) (by positivity)
  have h' : (0 : ℝ) ≤ (roundHalfEven (x / 2 ^ ulpExp x) : ℝ) := by exact_mod_cast h
  positivity

/-- Evaluation of the rounding of a positive number in the normal range. -/
lemma rnd_eq_of_pos (x : ℝ) (k m : ℤ) (hk : -1022 ≤ k) (h1 : (2 : ℝ) ^ k ≤ x)
    (h2 : x < (2 : ℝ) ^ (k + 1)) (hlo : ((m : ℝ) - 1 / 2) * 2 ^ (k - 52) < x)
    (hhi : x < ((m : ℝ) + 1 / 2) * 2 ^ (k - 52)) : rnd x = m * 2 ^ (k - 52) := by
  have hx : 0 < x := lt_of_lt_of_le (by positivity) h1
  have hp : (0 : ℝ) < 2 ^ (k - 52) := by positivity
  unfold rnd
  rw [ulpExp_of_normal x k hk (by rwa [abs_of_pos hx]) (by rwa [abs_of_pos hx]),
    roundHalfEven_eq _ m]
  rw [abs_lt]
  constructor
  · rw [lt_sub_iff_add_lt, lt_div_iff₀ hp]; linarith
  · rw [sub_lt_iff_lt_add, div_lt_iff₀ hp]; linarith

lemma rnd_neg (x : ℝ) : rnd (-x) = -rnd x := by
  have hu : ulpExp (-x) = ulpExp x := by unfold ulpExp; rw [abs_neg]
  have hr : ∀ q : ℝ, roundHalfEven (-q) = -roundHalfEven q := by
    intro q
    by_cases hq : (⌊q⌋ : ℝ) = q
    · rw [← hq, ← Int.cast_neg, roundHalfEven_eq _ (-⌊q⌋) (by simp),
        roundHalfEven_eq _ (⌊q⌋) (by simp)]
    · have h1 := Int.floor_le q
      have h2 := Int.lt_floor_add_one q
      have h3 : (⌊q⌋ : ℝ) < q := lt_of_le_of_ne h1 hq
      have hf : ⌊-q⌋ = -⌊q⌋ - 1 :=
        Int.floor_eq_iff.mpr ⟨by push_cast; linarith, by push_cast; linarith⟩
      unfold roundHalfEven
      rw [hf]
      push_cast
      by_cases c1 : q - ⌊q⌋ < 1 / 2
      · rw [if_pos c1, if_neg (by linarith), if_pos (by linarith)]; ring
      · by_cases c2 : 1 / 2 < q - (⌊q⌋ : ℝ)
        · rw [if_neg c1, if_pos c2, if_pos (by linarith)]; ring
        · rw [if_neg c1, if_neg c2, if_neg (by linarith), if_neg (by linarith)]
          by_cases he : Even ⌊q⌋
          · have ho : ¬ Even (-⌊q⌋ - 1) := by
              rw [Int.even_sub_one, even_neg]; simpa using he
            rw [if_pos he, if_neg ho]; ring
          · have ho : Even (-⌊q⌋ - 1) := by
              rw [Int.even_sub_one, even_neg]; exact he
            rw [if_neg he, if_pos ho]; ring
  unfold rnd
  rw [hu, neg_div, hr]
  push_cast
  ring

/-- Evaluation of the rounding of a negative number in the normal range. -/
lemma rnd_eq_of_neg (x : ℝ) (k m : ℤ) (hk : -1022 ≤ k) (h1 : (2 : ℝ) ^ k ≤ -x)
    (h2 : -x < (2 : ℝ) ^ (k + 1)) (hlo : ((m : ℝ) - 1 / 2) * 2 ^ (k - 52) < -x)
    (hhi : -x < ((m : ℝ) + 1 / 2) * 2 ^ (k - 52)) : rnd x = -(m * 2 ^ (k - 52)) := by
  have h := rnd_eq_of_pos (-x) k m hk h1 h2 hlo hhi
  rw [rnd_neg] at h
  linarith

namespace Dbl

/-- A rounded value inside the exponent range is the result of the operation. -/
lemma round_eq_fin (x y : ℝ) (h : rnd x = y) (hy : |y| < (2 : ℝ) ^ (1024 : ℤ)) :
    round x = fin y := by
  unfold round
  rw [h, if_neg (not_le.mpr hy)]

lemma round_zero : round 0 = fin 0 :=
  round_eq_fin 0 0 rnd_zero (by norm_num)

end Dbl

/-- Evaluation of the rounding of a positive number in the normal range: `y` is a value of the
format within half a unit in the last place of `x`. -/
lemma rnd_eq_of_pos' (x y : ℝ) (k m : ℤ) (hk : -1022 ≤ k) (hy : y = m * 2 ^ (k - 52))
    (h1 : (2 : ℝ) ^ k ≤ x) (h2 : x < (2 : ℝ) ^ (k + 1))
    (hlo : y - 2 ^ (k - 52) / 2 < x) (hhi : x < y + 2 ^ (k - 52) / 2) : rnd x = y := by
  rw [hy] at hlo hhi ⊢
  exact rnd_eq_of_pos x k m hk h1 h2 (by linarith) (by linarith)

/-- Evaluation of the rounding of a negative number in the normal range. -/
lemma rnd_eq_of_neg' (x y : ℝ) (k m : ℤ) (hk : -1022 ≤ k) (hy : y = -(m * 2 ^ (k - 52)))
    (h1 : (2 : ℝ) ^ k ≤ -x) (h2 : -x < (2 : ℝ) ^ (k + 1))
    (hlo : y - 2 ^ (k - 52) / 2 < x) (hhi : x < y + 2 ^ (k - 52) / 2) : rnd x = y := by
  rw [hy] at hlo hhi ⊢
  exact rnd_eq_of_neg x k m hk h1 h2 (by linarith) (by linarith)

/-- Below `2^32` in magnitude the rounding error is at most `2^-20`. -/
lemma rnd_near (t : ℝ) (h : |t| ≤ 2 ^ 32) : |rnd t - t| ≤ 1 / 2 ^ 20 := by
  have h1 := rnd_abs_sub_le t
  have hu : (2 : ℝ) ^ (-53 : ℤ) = 1 / 2 ^ 53 := by norm_num
  have hη : (2 : ℝ) ^ (-1075 : ℤ) ≤ 1 / 2 ^ 21 := by
    rw [show (1 : ℝ) / 2 ^ 21 = 2 ^ (-21 : ℤ) by norm_num]
    exact zpow_le_zpow_right₀ (by norm_num) (by norm_num)
  rw [hu] at h1
  have h2 : 1 / 2 ^ 53 * |t| ≤ 1 / 2 ^ 53 * 2 ^ 32 :=
    mul_le_mul_of_nonneg_left h (by positivity)
  have h3 : (1 : ℝ) / 2 ^ 53 * 2 ^ 32 = 1 / 2 ^ 21 := by norm_num
  have h4 : (1 : ℝ) / 2 ^ 21 + 1 / 2 ^ 21 = 1 / 2 ^ 20 := by norm_num
  linarith

namespace Dbl

/-- Below `2^32` in magnitude an operation returns the rounded exact result. -/
lemma round_of_abs_le (t : ℝ) (h : |t| ≤ 2 ^ 32) : round t = fin (rnd t) := by
  have h1 := rnd_near t h
  have h2 : |rnd t| ≤ |rnd t - t| + |t| := by
    have := abs_add (rnd t - t) t
    rwa [sub_add_cancel] at this
  have h3 : (2 : ℝ) ^ 32 + 1 / 2 ^ 20 < 2 ^ (1024 : ℤ) := by
    have : (2 : ℝ) ^ (33 : ℤ) ≤ 2 ^ (1024 : ℤ) :=
      zpow_le_zpow_right₀ (by norm_num) (by norm_num)
    have e : (2 : ℝ) ^ (33 : ℤ) = 2 ^ 32 + 2 ^ 32 := by norm_num
    have : (1 : ℝ) / 2 ^ 20 < 2 ^ 32 := by norm_num
    linarith
  unfold round
  rw [if_neg (not_le.mpr (by linarith))]

end Dbl

/-- The index computation of `Earth::isLand` in double precision, `(x + a) / n * n` followed by
the conversion to `int`: below `2^30` in magnitude the conversion is defined, and the rounded
value is less than `1` away from `x + a`. -/
lemma index_double (x a n : ℝ) (hx : |x| ≤ 2 ^ 30) (ha : Dbl.round a = Dbl.fin a)
    (hn : Dbl.round n = Dbl.fin n) (ha' : |a| ≤ 360) (hn1 : 1 ≤ n) (hn2 : n ≤ 360) :
    Dbl.toInt (Dbl.mul (Dbl.div (Dbl.add (Dbl.fin x) (Dbl.round a)) (Dbl.round n))
        (Dbl.round n))
      = some (truncToInt (rnd (rnd (rnd (x + a) / n) * n))) ∧
    |rnd (rnd (rnd (x + a) / n) * n) - (x + a)| < 1 := by
  have hn0 : n ≠ 0 := by linarith
  have hnpos : 0 < n := by linarith
  -- the sum
  have b0 : |x + a| ≤ 2 ^ 30 + 360 := (abs_add x a).trans (add_le_add hx ha')
  have e1 := rnd_near (x + a) (by linarith [b0, (by norm_num : (2 : ℝ) ^ 30 + 360 ≤ 2 ^ 32)])
  have b1 : |rnd (x + a)| ≤ 2 ^ 30 + 361 := by
    have := abs_add (rnd (x + a) - (x + a)) (x + a)
    rw [sub_add_cancel] at this
    have : (1 : ℝ) / 2 ^ 20 ≤ 1 := by norm_num
    linarith
  -- the quotient
  have b2 : |rnd (x + a) / n| ≤ 2 ^ 30 + 361 := by
    rw [abs_div, abs_of_pos hnpos, div_le_iff₀ hnpos]
    have : (0 : ℝ) ≤ 2 ^ 30 + 361 := by positivity
    nlinarith
  have e2 := rnd_near (rnd (x + a) / n)
    (by linarith [b2, (by norm_num : (2 : ℝ) ^ 30 + 361 ≤ 2 ^ 32)])
  -- the product
  have e2' : |rnd (rnd (x + a) / n) * n - rnd (x + a)| ≤ 360 / 2 ^ 20 := by
    have h : rnd (rnd (x + a) / n) * n - rnd (x + a)
        = (rnd (rnd (x + a) / n) - rnd (x + a) / n) * n := by field_simp
    rw [h, abs_mul, abs_of_pos hnpos]
    have : |rnd (rnd (x + a) / n) - rnd (x + a) / n| * n ≤ 1 / 2 ^ 20 * 360 :=
      mul_le_mul e2 hn2 hnpos.le (by positivity)
    linarith
  have b3 : |rnd (rnd (x + a) / n) * n| ≤ 2 ^ 30 + 362 := by
    have := abs_add (rnd (rnd (x + a) / n) * n - rnd (x + a)) (rnd (x + a))
    rw [sub_add_cancel] at this
    have : (360 : ℝ) / 2 ^ 20 ≤ 1 := by norm_num
    linarith
  have e3 := rnd_near (rnd (rnd (x + a) / n) * n)
    (by linarith [b3, (by norm_num : (2 : ℝ) ^ 30 + 362 ≤ 2 ^ 32)])
  have htot : |rnd (rnd (rnd (x + a) / n) * n) - (x + a)| < 1 := by
    have h : rnd (rnd (rnd (x + a) / n) * n) - (x + a)
        = (rnd (rnd (rnd (x + a) / n) * n) - rnd (rnd (x + a) / n) * n)
          + ((rnd (rnd (x + a) / n) * n - rnd (x + a)) + (rnd (x + a) - (x + a))) := by ring
    rw [h]
    have t1 := abs_add (rnd (rnd (rnd (x + a) / n) * n) - rnd (rnd (x + a) / n) * n)
      ((rnd (rnd (x + a) / n) * n - rnd (x + a)) + (rnd (x + a) - (x + a)))
    have t2 := abs_add (rnd (rnd (x + a) / n) * n - rnd (x + a)) (rnd (x + a) - (x + a))
    have : (1 : ℝ) / 2 ^ 20 + (360 / 2 ^ 20 + 1 / 2 ^ 20) < 1 := by norm_num
    linarith
  refine ⟨?_, htot⟩
  have hs : |rnd (rnd (rnd (x + a) / n) * n)| < 2 ^ 30 + 361 + 1 := by
    have := abs_add (rnd (rnd (rnd (x + a) / n) * n) - (x + a)) (x + a)
    rw [sub_add_cancel] at this
    linarith
  rw [abs_lt] at hs
  rw [ha, hn]
  simp only [Dbl.add, Dbl.div, Dbl.mul, if_neg hn0]
  rw [Dbl.round_of_abs_le _ (by linarith [b0, (by norm_num : (2 : ℝ) ^ 30 + 360 ≤ 2 ^ 32)])]
  simp only [Dbl.div, if_neg hn0]
  rw [Dbl.round_of_abs_le _ (by linarith [b2, (by norm_num : (2 : ℝ) ^ 30 + 361 ≤ 2 ^ 32)])]
  simp only [Dbl.mul]
  rw [Dbl.round_of_abs_le _ (by linarith [b3, (by norm_num : (2 : ℝ) ^ 30 + 362 ≤ 2 ^ 32)])]
  simp only [Dbl.toInt]
  rw [if_pos ⟨by norm_num at hs ⊢; linarith, by norm_num at hs ⊢; linarith⟩]

/-! ## The lookup `isLand` in double precision -/

lemma round_ninety : Dbl.round 90 = Dbl.fin 90 :=
  Dbl.round_eq_fin 90 90
    (rnd_eq_of_pos' 90 90 6 (90 * 2 ^ 46) (by norm_num) (by norm_num) (by norm_num)
      (by norm_num) (by norm_num) (by norm_num))
    (lt_of_lt_of_le (by norm_num [abs_lt] : |(90 : ℝ)| < 2 ^ (7 : ℤ))
      (zpow_le_zpow_right₀ (by norm_num) (by norm_num)))

lemma round_180 : Dbl.round 180 = Dbl.fin 180 :=
  Dbl.round_eq_fin 180 180
    (rnd_eq_of_pos' 180 180 7 (180 * 2 ^ 45) (by norm_num) (by norm_num) (by norm_num)
      (by norm_num) (by norm_num) (by norm_num))
    (lt_of_lt_of_le (by norm_num [abs_lt] : |(180 : ℝ)| < 2 ^ (8 : ℤ))
      (zpow_le_zpow_right₀ (by norm_num) (by norm_num)))

lemma round_360 : Dbl.round 360 = Dbl.fin 360 :=
  Dbl.round_eq_fin 360 360
    (rnd_eq_of_pos' 360 360 8 (360 * 2 ^ 44) (by norm_num) (by norm_num) (by norm_num)
      (by norm_num) (by norm_num) (by norm_num))
    (lt_of_lt_of_le (by norm_num [abs_lt] : |(360 : ℝ)| < 2 ^ (9 : ℤ))
      (zpow_le_zpow_right₀ (by norm_num) (by norm_num)))

/-- On the 180x360 map, for a latitude and a longitude below `2^30` in magnitude, the lookup
in double precision is defined and reads the cell whose indices are the clamped truncations of
the rounded values of `(lat + 90) / 180 * 180` and `(lon + 180) / 360 * 360`. -/
lemma isLandD_eq (e : Earth) (h180 : e.texture.length = 180)
    (h360 : (e.texture.getD 0 []).length = 360) (lat lon : ℝ) (hlat : |lat| ≤ 2 ^ 30)
    (hlon : |lon| ≤ 2 ^ 30) :
    e.isLandD (Dbl.fin lat) (Dbl.fin lon)
      = some ((e.texture.getD
          (max 0 (min 179 (truncToInt (rnd (rnd (rnd (lat + 90) / 180) * 180))))).toNat
          []).getD
          (max 0 (min 359 (truncToInt (rnd (rnd (rnd (lon + 180) / 360) * 360))))).toNat
          false) := by
  have h1 := (index_double lat 90 180 hlat round_ninety round_180 (by norm_num [abs_le])
    (by norm_num) (by norm_num)).1
  have h2 := (index_double lon 180 360 hlon round_180 round_360 (by norm_num [abs_le])
    (by norm_num) (by norm_num)).1
  unfold Earth.isLandD
  rw [h180, h360]
  norm_num only [Nat.cast_ofNat]
  rw [h1, h2]

/-- Two real numbers less than `1` apart: the clamped truncation of one and the clamped floor
of the other differ by at most one. -/
lemma clamp_trunc_floor (s x : ℝ) (h : |s - x| < 1) (N : ℤ) (hN : 0 ≤ N) :
    |max 0 (min N (truncToInt s)) - max 0 (min N ⌊x⌋)| ≤ 1 := by
  rw [abs_lt] at h
  unfold truncToInt
  by_cases hs : 0 ≤ s
  · rw [if_pos hs]
    have h1 : ⌊s⌋ ≤ ⌊x⌋ + 1 := by
      have : ((⌊s⌋ : ℤ) : ℝ) ≤ x + 1 := by linarith [Int.floor_le s]
      have := Int.le_floor.mpr (by exact_mod_cast this : ((⌊s⌋ : ℤ) : ℝ) ≤ x + 1)
      rwa [Int.floor_add_one] at this
    have h2 : ⌊x⌋ ≤ ⌊s⌋ + 1 := by
      have : ((⌊x⌋ : ℤ) : ℝ) ≤ s + 1 := by linarith [Int.floor_le x]
      have := Int.le_floor.mpr (by exact_mod_cast this : ((⌊x⌋ : ℤ) : ℝ) ≤ s + 1)
      rwa [Int.floor_add_one] at this
    rw [abs_le]
    omega
  · rw [if_neg hs]
    have h1 : ⌈s⌉ ≤ 0 := Int.ceil_le.mpr (by push_cast; linarith)
    have h2 : ⌊x⌋ ≤ 0 := by
      have : ⌊x⌋ < 1 := Int.floor_lt.mpr (by push_cast; linarith)
      omega
    rw [abs_le]
    omega

/-- The rounded value of `(-117 + 180) / 360 * 360` is the `double` just below 63. -/
lemma index_minus_117 :
    rnd (rnd (rnd (-117 + 180) / 360) * 360) = 8866461766385663 * 2 ^ (-47 : ℤ) := by
  have e1 : rnd ((-117 : ℝ) + 180) = 63 :=
    rnd_eq_of_pos' _ 63 5 (63 * 2 ^ 47) (by norm_num) (by norm_num) (by norm_num)
      (by norm_num) (by norm_num) (by norm_num)
  have e2 : rnd ((63 : ℝ) / 360) = 6305039478318694 * 2 ^ (-55 : ℤ) :=
    rnd_eq_of_pos' _ _ (-3) 6305039478318694 (by norm_num) (by norm_num) (by norm_num)
      (by norm_num) (by norm_num) (by norm_num)
  have e3 : rnd ((6305039478318694 : ℝ) * 2 ^ (-55 : ℤ) * 360)
      = 8866461766385663 * 2 ^ (-47 : ℤ) :=
    rnd_eq_of_pos' _ _ 5 8866461766385663 (by norm_num) (by norm_num) (by norm_num)
      (by norm_num) (by norm_num) (by norm_num)
  rw [e1, e2, e3]

lemma meridianTexture_size :
    meridianTexture.length = 180 ∧ (meridianTexture.getD 0 []).length = 360 := by
  unfold meridianTexture gridToTexture
  constructor
  · rw [List.length_map, List.length_range]
  · rw [List.getD_eq_getElem?_getD, List.getElem?_map,
      List.getElem?_range (by norm_num : 0 < 180)]
    simp only [Option.map_some', Option.getD_some, List.length_map, List.length_range]

/-- C19 as stated fails. On the well-formed map whose only land is the column 63, the lookup in
double precision at latitude 0 and longitude -117 reads the ocean cell of column 62, because
`(-117 + 180) / 360 * 360` is rounded to the `double` just below 63, whereas the cell at
`(clamp(floor(lat + 90)), clamp(floor(lon + 180)))` is the land cell of column 63; and at
latitude `2^40` the conversion to `int` is undefined, so the lookup is not total. -/
theorem isLand_floor_counterexample :
    Earth.isLandD ⟨1, ⟨0, 0, 0⟩, 0, meridianTexture⟩ (Dbl.fin 0) (Dbl.fin (-117)) = some false ∧
    (meridianTexture.getD (max 0 (min 179 ⌊(0 : ℝ) + 90⌋)).toNat []).getD
      (max 0 (min 359 ⌊(-117 : ℝ) + 180⌋)).toNat false = true ∧
    Earth.isLandD ⟨1, ⟨0, 0, 0⟩, 0, meridianTexture⟩ (Dbl.fin (2 ^ 40)) (Dbl.fin 0) = none := by
  refine ⟨?_, ?_, ?_⟩
  · rw [isLandD_eq ⟨1, ⟨0, 0, 0⟩, 0, meridianTexture⟩ meridianTexture_size.1
      meridianTexture_size.2 0 (-117) (by norm_num [abs_le]) (by norm_num [abs_le]),
      index_minus_117]
    have e1 : rnd ((0 : ℝ) + 90) = 90 :=
      rnd_eq_of_pos' _ 90 6 (90 * 2 ^ 46) (by norm_num) (by norm_num) (by norm_num)
        (by norm_num) (by norm_num) (by norm_num)
    have e2 : rnd ((90 : ℝ) / 180) = 1 / 2 :=
      rnd_eq_of_pos' _ _ (-1) (2 ^ 52) (by norm_num) (by norm_num) (by norm_num)
        (by norm_num) (by norm_num) (by norm_num)
    have e3 : rnd ((1 : ℝ) / 2 * 180) = 90 :=
      rnd_eq_of_pos' _ 90 6 (90 * 2 ^ 46) (by norm_num) (by norm_num) (by norm_num)
        (by norm_num) (by norm_num) (by norm_num)
    rw [e1, e2, e3]
    have t1 : truncToInt (90 : ℝ) = 90 := by
      unfold truncToInt
      rw [if_pos (by norm_num)]
      exact Int.floor_eq_iff.mpr ⟨by norm_num, by norm_num⟩
    have t2 : truncToInt ((8866461766385663 : ℝ) * 2 ^ (-47 : ℤ)) = 62 := by
      unfold truncToInt
      rw [if_pos (by positivity)]
      exact Int.floor_eq_iff.mpr ⟨by norm_num, by norm_num⟩
    rw [t1, t2]
    have i1 : (max 0 (min 179 (90 : ℤ))).toNat = 90 := by decide
    have i2 : (max 0 (min 359 (62 : ℤ))).toNat = 62 := by decide
    simp only [i1, i2]
    unfold meridianTexture
    rw [gridToTexture_getD _ 90 62 (by norm_num) (by norm_num)]
    rfl
  · have f1 : ⌊(0 : ℝ) + 90⌋ = 90 := Int.floor_eq_iff.mpr ⟨by norm_num, by norm_num⟩
    have f2 : ⌊(-117 : ℝ) + 180⌋ = 63 := Int.floor_eq_iff.mpr ⟨by norm_num, by norm_num⟩
    rw [f1, f2]
    have i1 : (max 0 (min 179 (90 : ℤ))).toNat = 90 := by decide
    have i2 : (max 0 (min 359 (63 : ℤ))).toNat = 63 := by decide
    rw [i1, i2]
    unfold meridianTexture
    rw [gridToTexture_getD _ 90 63 (by norm_num) (by norm_num)]
    rfl
  · have e1 : rnd ((2 : ℝ) ^ 40 + 90) = 2 ^ 40 + 90 :=
      rnd_eq_of_pos' _ _ 40 4503599627739136 (by norm_num) (by norm_num) (by norm_num)
        (by norm_num) (by norm_num) (by norm_num)
    have e2 : rnd (((2 : ℝ) ^ 40 + 90) / 180) = 6405119470562327 * 2 ^ (-20 : ℤ) :=
      rnd_eq_of_pos' _ _ 32 6405119470562327 (by norm_num) (by norm_num) (by norm_num)
        (by norm_num) (by norm_num) (by norm_num)
    have e3 : rnd ((6405119470562327 : ℝ) * 2 ^ (-20 : ℤ) * 180) = 2 ^ 40 + 90 :=
      rnd_eq_of_pos' _ _ 40 4503599627739136 (by norm_num) (by norm_num) (by norm_num)
        (by norm_num) (by norm_num) (by norm_num)
    have hbig : ∀ y : ℝ, y = 2 ^ 40 + 90 → |y| < 2 ^ (1024 : ℤ) := by
      intro y hy
      rw [hy]
      exact lt_of_lt_of_le (by norm_num [abs_lt] : |(2 : ℝ) ^ 40 + 90| < 2 ^ (41 : ℤ))
        (zpow_le_zpow_right₀ (by norm_num) (by norm_num))
    have hbig2 : |(6405119470562327 : ℝ) * 2 ^ (-20 : ℤ)| < 2 ^ (1024 : ℤ) :=
      lt_of_lt_of_le
        (by norm_num [abs_lt] : |(6405119470562327 : ℝ) * 2 ^ (-20 : ℤ)| < 2 ^ (41 : ℤ))
        (zpow_le_zpow_right₀ (by norm_num) (by norm_num))
    unfold Earth.isLandD
    rw [meridianTexture_size.1]
    simp only [Nat.cast_ofNat]
    rw [round_ninety, round_180]
    simp only [Dbl.add]
    rw [Dbl.round_eq_fin _ _ e1 (hbig _ rfl)]
    simp only [Dbl.div, if_neg (by norm_num : (180 : ℝ) ≠ 0)]
    rw [Dbl.round_eq_fin _ _ e2 hbig2]
    simp only [Dbl.mul]
    rw [Dbl.round_eq_fin _ _ e3 (hbig _ rfl)]
    simp only [Dbl.toInt]
    rw [if_neg (by norm_num)]

/-- C19 (amended). `Earth::isLand` in double precision clamps out-of-range lookups: on the
180x360 map, for every latitude and longitude of magnitude at most `2^30` (beyond the range of
`int` the conversion is undefined), the lookup is defined, the computed indices satisfy
`0 ≤ latIdx ≤ 179` and `0 ≤ lonIdx ≤ 359`, and the result is the stored cell at the clamped
truncations of the rounded values of `(lat + 90) / 180 * 180` and `(lon + 180) / 360 * 360`;
each index is `clamp(floor(lat + 90), 0, 179)`, respectively `clamp(floor(lon + 180), 0, 359)`,
or a neighbour of it; and `lat = 90` reads row 179 and `lon = 180` reads column 359. -/
theorem isLand_clamped_double (e : Earth) (h180 : e.texture.length = 180)
    (h360 : (e.texture.getD 0 []).length = 360) (lat lon : ℝ) (hlat : |lat| ≤ 2 ^ 30)
    (hlon : |lon| ≤ 2 ^ 30) :
    ∃ latIdx lonIdx : ℤ,
      latIdx = max 0 (min 179 (truncToInt (rnd (rnd (rnd (lat + 90) / 180) * 180)))) ∧
      lonIdx = max 0 (min 359 (truncToInt (rnd (rnd (rnd (lon + 180) / 360) * 360)))) ∧
      e.isLandD (Dbl.fin lat) (Dbl.fin lon)
        = some ((e.texture.getD latIdx.toNat []).getD lonIdx.toNat false) ∧
      (0 ≤ latIdx ∧ latIdx ≤ 179) ∧ (0 ≤ lonIdx ∧ lonIdx ≤ 359) ∧
      |latIdx - max 0 (min 179 ⌊lat + 90⌋)| ≤ 1 ∧
      |lonIdx - max 0 (min 359 ⌊lon + 180⌋)| ≤ 1 ∧
      (lat = 90 → latIdx = 179) ∧ (lon = 180 → lonIdx = 359) := by
  refine ⟨_, _, rfl, rfl, isLandD_eq e h180 h360 lat lon hlat hlon,
    ⟨le_max_left _ _, max_le (by norm_num) (min_le_left _ _)⟩,
    ⟨le_max_left _ _, max_le (by norm_num) (min_le_left _ _)⟩,
    clamp_trunc_floor _ _ (index_double lat 90 180 hlat round_ninety round_180
      (by norm_num [abs_le]) (by norm_num) (by norm_num)).2 179 (by norm_num),
    clamp_trunc_floor _ _ (index_double lon 180 360 hlon round_180 round_360
      (by norm_num [abs_le]) (by norm_num) (by norm_num)).2 359 (by norm_num), ?_, ?_⟩
  · intro h
    have e1 : rnd ((90 : ℝ) + 90) = 180 :=
      rnd_eq_of_pos' _ 180 7 (180 * 2 ^ 45) (by norm_num) (by norm_num) (by norm_num)
        (by norm_num) (by norm_num) (by norm_num)
    have e2 : rnd ((180 : ℝ) / 180) = 1 :=
      rnd_eq_of_pos' _ 1 0 (2 ^ 52) (by norm_num) (by norm_num) (by norm_num)
        (by norm_num) (by norm_num) (by norm_num)
    have e3 : rnd ((1 : ℝ) * 180) = 180 :=
      rnd_eq_of_pos' _ 180 7 (180 * 2 ^ 45) (by norm_num) (by norm_num) (by norm_num)
        (by norm_num) (by norm_num) (by norm_num)
    have t : truncToInt (180 : ℝ) = 180 := by
      unfold truncToInt
      rw [if_pos (by norm_num)]
      exact Int.floor_eq_iff.mpr ⟨by norm_num, by norm_num⟩
    rw [h, e1, e2, e3, t]
    decide
  · intro h
    have e1 : rnd ((180 : ℝ) + 180) = 360 :=
      rnd_eq_of_pos' _ 360 8 (360 * 2 ^ 44) (by norm_num) (by norm_num) (by norm_num)
        (by norm_num) (by norm_num) (by norm_num)
    have e2 : rnd ((360 : ℝ) / 360) = 1 :=
      rnd_eq_of_pos' _ 1 0 (2 ^ 52) (by norm_num) (by norm_num) (by norm_num)
        (by norm_num) (by norm_num) (by norm_num)
    have e3 : rnd ((1 : ℝ) * 360) = 360 :=
      rnd_eq_of_pos' _ 360 8 (360 * 2 ^ 44) (by norm_num) (by norm_num) (by norm_num)
        (by norm_num) (by norm_num) (by norm_num)
    have t : truncToInt (360 : ℝ) = 360 := by
      unfold truncToInt
      rw [if_pos (by norm_num)]
      exact Int.floor_eq_iff.mpr ⟨by norm_num, by norm_num⟩
    rw [h, e1, e2, e3, t]
    decide

/-- An instance of C19 (amended): on the map whose only land is the column 63, the lookup at
latitude 90 and longitude 180 reads the cell of row 179 and column 359, which is ocean. -/
theorem isLand_clamped_double_witness :
    (meridianTexture.length = 180 ∧ (meridianTexture.getD 0 []).length = 360 ∧
      |(90 : ℝ)| ≤ 2 ^ 30 ∧ |(180 : ℝ)| ≤ 2 ^ 30) ∧
    Earth.isLandD ⟨1, ⟨0, 0, 0⟩, 0, meridianTexture⟩ (Dbl.fin 90) (Dbl.fin 180)
      = some ((meridianTexture.getD 179 []).getD 359 false) := by
  have hlat : |(90 : ℝ)| ≤ 2 ^ 30 := by norm_num [abs_le]
  have hlon : |(180 : ℝ)| ≤ 2 ^ 30 := by norm_num [abs_le]
  obtain ⟨i, j, _, _, hcell, _, _, _, _, hi, hj⟩ :=
    isLand_clamped_double ⟨1, ⟨0, 0, 0⟩, 0, meridianTexture⟩ meridianTexture_size.1
      meridianTexture_size.2 90 180 hlat hlon
  rw [hi rfl, hj rfl] at hcell
  exact ⟨⟨meridianTexture_size.1, meridianTexture_size.2, hlat, hlon⟩, hcell⟩

/-! ## The method `Earth::rotate` in double precision -/

lemma round_two : Dbl.round 2 = Dbl.fin 2 :=
  Dbl.round_eq_fin 2 2
    (rnd_eq_of_pos' 2 2 1 (2 ^ 52) (by norm_num) (by norm_num) (by norm_num)
      (by norm_num) (by norm_num) (by norm_num))
    (lt_of_lt_of_le (by norm_num [abs_lt] : |(2 : ℝ)| < 2 ^ (2 : ℤ))
      (zpow_le_zpow_right₀ (by norm_num) (by norm_num)))

/-- The `double` nearest to the literal of `PI` is `7074237752028440 * 2^-51`. -/
lemma round_PI : Dbl.round PI = Dbl.fin (7074237752028440 * 2 ^ (-51 : ℤ)) :=
  Dbl.round_eq_fin _ _
    (rnd_eq_of_pos' _ _ 1 7074237752028440 (by norm_num) (by norm_num)
      (by unfold PI; norm_num) (by unfold PI; norm_num) (by unfold PI; norm_num)
      (by unfold PI; norm_num))
    (lt_of_lt_of_le
      (by norm_num [abs_lt] : |(7074237752028440 : ℝ) * 2 ^ (-51 : ℤ)| < 2 ^ (2 : ℤ))
      (zpow_le_zpow_right₀ (by norm_num) (by norm_num)))

/-- The value of `2.0 * PI` in double precision is `7074237752028440 * 2^-50`. -/
lemma twoPiD_eq : twoPiD = Dbl.fin (7074237752028440 * 2 ^ (-50 : ℤ)) := by
  unfold twoPiD
  rw [round_two, round_PI]
  simp only [Dbl.mul]
  exact Dbl.round_eq_fin _ _
    (rnd_eq_of_pos' _ _ 2 7074237752028440 (by norm_num) (by norm_num) (by norm_num)
      (by norm_num) (by norm_num) (by norm_num))
    (lt_of_lt_of_le
      (by norm_num [abs_lt] : |(7074237752028440 : ℝ) * 2 ^ (-50 : ℤ)| < 2 ^ (3 : ℤ))
      (zpow_le_zpow_right₀ (by norm_num) (by norm_num)))

/-- Below `1` in magnitude a rounded value is inside the exponent range. -/
lemma abs_lt_two_pow_1024 (y : ℝ) (k : ℤ) (hk : k ≤ 1024) (h : |y| < 2 ^ k) :
    |y| < (2 : ℝ) ^ (1024 : ℤ) :=
  lt_of_lt_of_le h (zpow_le_zpow_right₀ (by norm_num) hk)

/-- The phase that `rotate(-1e-18)` adds to a phase of zero: `-5799851259033023 * 2^-118`. -/
lemma rotate_tiny_sum :
    Dbl.add (Dbl.fin 0)
      (Dbl.div (Dbl.mul (Dbl.round (-1e-18)) (Dbl.round PI)) (Dbl.round 180))
      = Dbl.fin (-(5799851259033023 * 2 ^ (-118 : ℤ))) := by
  have ea : Dbl.round (-1e-18) = Dbl.fin (-(5192296858534828 * 2 ^ (-112 : ℤ))) :=
    Dbl.round_eq_fin _ _
      (rnd_eq_of_neg' _ _ (-60) 5192296858534828 (by norm_num) (by norm_num) (by norm_num)
        (by norm_num) (by norm_num) (by norm_num))
      (abs_lt_two_pow_1024 _ 0 (by norm_num) (by norm_num [abs_lt]))
  have eb : Dbl.round (-(5192296858534828 * 2 ^ (-112 : ℤ)) * (7074237752028440 * 2 ^ (-51 : ℤ)))
      = Dbl.fin (-(8156040833015188 * 2 ^ (-111 : ℤ))) :=
    Dbl.round_eq_fin _ _
      (rnd_eq_of_neg' _ _ (-59) 8156040833015188 (by norm_num) (by norm_num) (by norm_num)
        (by norm_num) (by norm_num) (by norm_num))
      (abs_lt_two_pow_1024 _ 0 (by norm_num) (by norm_num [abs_lt]))
  have ec : Dbl.round (-(8156040833015188 * 2 ^ (-111 : ℤ)) / 180)
      = Dbl.fin (-(5799851259033023 * 2 ^ (-118 : ℤ))) :=
    Dbl.round_eq_fin _ _
      (rnd_eq_of_neg' _ _ (-66) 5799851259033023 (by norm_num) (by norm_num) (by norm_num)
        (by norm_num) (by norm_num) (by norm_num))
      (abs_lt_two_pow_1024 _ 0 (by norm_num) (by norm_num [abs_lt]))
  have ed : Dbl.round (0 + -(5799851259033023 * 2 ^ (-118 : ℤ)))
      = Dbl.fin (-(5799851259033023 * 2 ^ (-118 : ℤ))) :=
    Dbl.round_eq_fin _ _
      (rnd_eq_of_neg' _ _ (-66) 5799851259033023 (by norm_num) (by norm_num) (by norm_num)
        (by norm_num) (by norm_num) (by norm_num))
      (abs_lt_two_pow_1024 _ 0 (by norm_num) (by norm_num [abs_lt]))
  rw [ea, round_PI, round_180]
  simp only [Dbl.mul]
  rw [eb]
  simp only [Dbl.div, if_neg (by norm_num : (180 : ℝ) ≠ 0)]
  rw [ec]
  simp only [Dbl.add]
  rw [ed]

/-- The phase that `rotate(1e30)` adds to a phase of zero: `7936838537690753 * 2^41`. -/
lemma rotate_huge_sum :
    Dbl.add (Dbl.fin 0)
      (Dbl.div (Dbl.mul (Dbl.round 1e30) (Dbl.round PI)) (Dbl.round 180))
      = Dbl.fin (7936838537690753 * 2 ^ (41 : ℤ)) := by
  have ea : Dbl.round 1e30 = Dbl.fin (7105427357601002 * 2 ^ (47 : ℤ)) :=
    Dbl.round_eq_fin _ _
      (rnd_eq_of_pos' _ _ 99 7105427357601002 (by norm_num) (by norm_num) (by norm_num)
        (by norm_num) (by norm_num) (by norm_num))
      (abs_lt_two_pow_1024 _ 100 (by norm_num) (by norm_num [abs_lt]))
  have eb : Dbl.round (7105427357601002 * 2 ^ (47 : ℤ) * (7074237752028440 * 2 ^ (-51 : ℤ)))
      = Dbl.fin (5580589596813811 * 2 ^ (49 : ℤ)) :=
    Dbl.round_eq_fin _ _
      (rnd_eq_of_pos' _ _ 101 5580589596813811 (by norm_num) (by norm_num) (by norm_num)
        (by norm_num) (by norm_num) (by norm_num))
      (abs_lt_two_pow_1024 _ 102 (by norm_num) (by norm_num [abs_lt]))
  have ec : Dbl.round (5580589596813811 * 2 ^ (49 : ℤ) / 180)
      = Dbl.fin (7936838537690753 * 2 ^ (41 : ℤ)) :=
    Dbl.round_eq_fin _ _
      (rnd_eq_of_pos' _ _ 93 7936838537690753 (by norm_num) (by norm_num) (by norm_num)
        (by norm_num) (by norm_num) (by norm_num))
      (abs_lt_two_pow_1024 _ 94 (by norm_num) (by norm_num [abs_lt]))
  have ed : Dbl.round (0 + 7936838537690753 * 2 ^ (41 : ℤ))
      = Dbl.fin (7936838537690753 * 2 ^ (41 : ℤ)) :=
    Dbl.round_eq_fin _ _
      (rnd_eq_of_pos' _ _ 93 7936838537690753 (by norm_num) (by norm_num) (by norm_num)
        (by norm_num) (by norm_num) (by norm_num))
      (abs_lt_two_pow_1024 _ 94 (by norm_num) (by norm_num [abs_lt]))
  rw [ea, round_PI, round_180]
  simp only [Dbl.mul]
  rw [eb]
  simp only [Dbl.div, if_neg (by norm_num : (180 : ℝ) ≠ 0)]
  rw [ec]
  simp only [Dbl.add]
  rw [ed]

/-- Subtracting `2.0 * PI` from the phase `7936838537690753 * 2^41` gives the same phase back:
the difference is rounded to the minuend. -/
lemma sub_twoPi_absorbed :
    Dbl.sub (Dbl.fin (7936838537690753 * 2 ^ (41 : ℤ))) twoPiD
      = Dbl.fin (7936838537690753 * 2 ^ (41 : ℤ)) := by
  rw [twoPiD_eq]
  simp only [Dbl.sub]
  exact Dbl.round_eq_fin _ _
    (rnd_eq_of_pos' _ _ 93 7936838537690753 (by norm_num) (by norm_num) (by norm_num)
      (by norm_num) (by norm_num) (by norm_num))
    (abs_lt_two_pow_1024 _ 94 (by norm_num) (by norm_num [abs_lt]))

/-- From the phase `7936838537690753 * 2^41` the first loop of `Earth::rotate` never ends. -/
lemma subLoopD_diverges (fuel : ℕ) :
    subLoopD fuel (Dbl.fin (7936838537690753 * 2 ^ (41 : ℤ))) = none := by
  have hge : Dbl.ge (Dbl.fin (7936838537690753 * 2 ^ (41 : ℤ))) twoPiD := by
    rw [twoPiD_eq]
    show (7936838537690753 : ℝ) * 2 ^ (41 : ℤ) ≥ 7074237752028440 * 2 ^ (-50 : ℤ)
    norm_num
  induction fuel with
  | zero => simp only [subLoopD, if_pos hge]
  | succ n ih => simp only [subLoopD, if_pos hge, sub_twoPi_absorbed, ih]

/-- Adding `2.0 * PI` to the phase `-5799851259033023 * 2^-118` gives `2.0 * PI`: the sum is
rounded to the larger term. -/
lemma add_twoPi_absorbs :
    Dbl.add (Dbl.fin (-(5799851259033023 * 2 ^ (-118 : ℤ)))) twoPiD = twoPiD := by
  rw [twoPiD_eq]
  simp only [Dbl.add]
  exact Dbl.round_eq_fin _ _
    (rnd_eq_of_pos' _ _ 2 7074237752028440 (by norm_num) (by norm_num) (by norm_num)
      (by norm_num) (by norm_num) (by norm_num))
    (abs_lt_two_pow_1024 _ 3 (by norm_num) (by norm_num [abs_lt]))

/-- C11. The code misses the claim: in double precision `Earth::rotate` does not keep the phase
in `[0, 2*PI)`. On a planet whose phase is zero, `rotate(-1e-18)` ends and leaves the phase
equal to `2.0 * PI` (the second loop adds `2.0 * PI` to about `-1.7e-20`, and the sum is rounded
to `2.0 * PI`), a value that still passes the test `rotationY >= 2.0 * PI` of the first loop and
is not below `2.0 * PI`; and `rotate(1e30)` never ends, whatever the number of runs of the body
of the first loop is (subtracting `2.0 * PI` from about `1.7e28` gives the same value back). -/
theorem rotate_leaves_range :
    (∀ fuel : ℕ, Earth.rotateD (fuel + 1) (Dbl.fin 0) (Dbl.round (-1e-18)) = some twoPiD) ∧
    Dbl.ge twoPiD twoPiD ∧ ¬ Dbl.lt twoPiD twoPiD ∧
    (∀ fuel : ℕ, Earth.rotateD fuel (Dbl.fin 0) (Dbl.round 1e30) = none) := by
  have hge : Dbl.ge twoPiD twoPiD := by
    rw [twoPiD_eq]
    show (7074237752028440 : ℝ) * 2 ^ (-50 : ℤ) ≥ 7074237752028440 * 2 ^ (-50 : ℤ)
    exact le_refl _
  have hlt : ¬ Dbl.lt twoPiD twoPiD := by
    rw [twoPiD_eq]
    show ¬ ((7074237752028440 : ℝ) * 2 ^ (-50 : ℤ) < 7074237752028440 * 2 ^ (-50 : ℤ))
    exact lt_irrefl _
  refine ⟨fun fuel => ?_, hge, hlt, fun fuel => ?_⟩
  · have h1 : ¬ Dbl.ge (Dbl.fin (-(5799851259033023 * 2 ^ (-118 : ℤ)))) twoPiD := by
      rw [twoPiD_eq]
      show ¬ (-((5799851259033023 : ℝ) * 2 ^ (-118 : ℤ)) ≥ 7074237752028440 * 2 ^ (-50 : ℤ))
      norm_num
    have h2 : Dbl.lt (Dbl.fin (-(5799851259033023 * 2 ^ (-118 : ℤ)))) (Dbl.round 0) := by
      rw [Dbl.round_zero]
      show -((5799851259033023 : ℝ) * 2 ^ (-118 : ℤ)) < 0
      norm_num
    have h3 : ¬ Dbl.lt twoPiD (Dbl.round 0) := by
      rw [Dbl.round_zero, twoPiD_eq]
      show ¬ ((7074237752028440 : ℝ) * 2 ^ (-50 : ℤ) < 0)
      norm_num
    have h4 : ∀ n : ℕ, addLoopD n twoPiD = some twoPiD := by
      intro n
      cases n with
      | zero => simp only [addLoopD, if_neg h3]
      | succ n => simp only [addLoopD, if_neg h3]
    have h5 : subLoopD (fuel + 1) (Dbl.fin (-(5799851259033023 * 2 ^ (-118 : ℤ))))
        = some (Dbl.fin (-(5799851259033023 * 2 ^ (-118 : ℤ)))) := by
      simp only [subLoopD, if_neg h1]
    have h6 : addLoopD (fuel + 1) (Dbl.fin (-(5799851259033023 * 2 ^ (-118 : ℤ))))
        = some twoPiD := by
      simp only [addLoopD, if_pos h2, add_twoPi_absorbs, h4]
    unfold Earth.rotateD
    simp only
    rw [rotate_tiny_sum, h5, Option.some_bind, h6]
  · unfold Earth.rotateD
    simp only
    rw [rotate_huge_sum, subLoopD_diverges, Option.none_bind]

/-! ## `Vec3::length` and `Vec3::normalize` in double precision -/

namespace Dbl

lemma round_fin_inv (t s : ℝ) (h : round t = fin s) :
    s = rnd t ∧ |rnd t| < (2 : ℝ) ^ (1024 : ℤ) := by
  unfold round at h
  by_cases hc : (2 : ℝ) ^ (1024 : ℤ) ≤ |rnd t|
  · rw [if_pos hc] at h
    split_ifs at h
  · rw [if_neg hc] at h
    injection h with h
    exact ⟨h.symm, not_le.mp hc⟩

lemma add_fin_inv (a b : Dbl) (s : ℝ) (h : add a b = fin s) :
    ∃ a' b', a = fin a' ∧ b = fin b' ∧ round (a' + b') = fin s := by
  cases a <;> cases b <;> simp only [add] at h <;> first
    | exact ⟨_, _, rfl, rfl, h⟩
    | exact absurd h (by simp)

lemma mul_self_fin_inv (a : Dbl) (s : ℝ) (h : mul a a = fin s) :
    ∃ a', a = fin a' ∧ round (a' * a') = fin s := by
  cases a <;> simp only [mul] at h <;> first
    | exact ⟨_, rfl, h⟩
    | exact absurd h (by simp)

lemma sqrt_fin_inv (d : Dbl) (L : ℝ) (h : sqrt d = fin L) :
    ∃ S, d = fin S ∧ 0 ≤ S ∧ round (Real.sqrt S) = fin L := by
  cases d with
  | fin S =>
    simp only [sqrt] at h
    by_cases hS : S < 0
    · rw [if_pos hS] at h; exact absurd h (by simp)
    · rw [if_neg hS] at h; exact ⟨S, rfl, not_lt.mp hS, h⟩
  | pinf => simp only [sqrt] at h; exact absurd h (by simp)
  | ninf => simp only [sqrt] at h; exact absurd h (by simp)
  | nan => simp only [sqrt] at h; exact absurd h (by simp)

end Dbl

/-- A finite length in double precision: the components are finite and every intermediate
result of `x * x + y * y + z * z` and of the square root is the rounded exact result. -/
lemma length_fin_inv (v : Vec3D) (L : ℝ) (h : v.length = Dbl.fin L) :
    ∃ x y z : ℝ, v = ⟨Dbl.fin x, Dbl.fin y, Dbl.fin z⟩ ∧
      0 ≤ rnd (rnd (rnd (x * x) + rnd (y * y)) + rnd (z * z)) ∧
      L = rnd (Real.sqrt (rnd (rnd (rnd (x * x) + rnd (y * y)) + rnd (z * z)))) := by
  obtain ⟨vx, vy, vz⟩ := v
  unfold Vec3D.length at h
  simp only at h
  obtain ⟨S, hS, hS0, hL⟩ := Dbl.sqrt_fin_inv _ _ h
  obtain ⟨s1, sz, h1, hz, hsum⟩ := Dbl.add_fin_inv _ _ _ hS
  obtain ⟨sx, sy, hx, hy, hsum1⟩ := Dbl.add_fin_inv _ _ _ h1
  obtain ⟨x, rfl, hx'⟩ := Dbl.mul_self_fin_inv _ _ hx
  obtain ⟨y, rfl, hy'⟩ := Dbl.mul_self_fin_inv _ _ hy
  obtain ⟨z, rfl, hz'⟩ := Dbl.mul_self_fin_inv _ _ hz
  have e1 := (Dbl.round_fin_inv _ _ hx').1
  have e2 := (Dbl.round_fin_inv _ _ hy').1
  have e3 := (Dbl.round_fin_inv _ _ hz').1
  have e4 := (Dbl.round_fin_inv _ _ hsum1).1
  have e5 := (Dbl.round_fin_inv _ _ hsum).1
  have e6 := (Dbl.round_fin_inv _ _ hL).1
  subst e1 e2 e3 e4 e5
  exact ⟨x, y, z, rfl, hS0, e6⟩

/-- The smallest positive value of the format is far below `2^-1000`. -/
lemma eta_le : (2 : ℝ) ^ (-1075 : ℤ) ≤ 1 / 2 ^ 1000 := by
  rw [show (1 : ℝ) / 2 ^ 1000 = 2 ^ (-1000 : ℤ) by
    rw [zpow_neg, one_div]; norm_cast]
  exact zpow_le_zpow_right₀ (by norm_num) (by norm_num)

/-- The rounding of a non-negative number, as an interval. -/
lemma rnd_bounds (t : ℝ) (ht : 0 ≤ t) :
    0 ≤ rnd t ∧ (1 - 1 / 2 ^ 53) * t - (2 : ℝ) ^ (-1075 : ℤ) ≤ rnd t ∧
    rnd t ≤ (1 + 1 / 2 ^ 53) * t + (2 : ℝ) ^ (-1075 : ℤ) := by
  have h := rnd_abs_sub_le t
  have hu : (2 : ℝ) ^ (-53 : ℤ) = 1 / 2 ^ 53 := by norm_num
  rw [abs_of_nonneg ht, abs_le, hu] at h
  exact ⟨rnd_nonneg t ht, by linarith, by linarith⟩

lemma abs_rnd (t : ℝ) : |rnd t| = rnd |t| := by
  by_cases ht : 0 ≤ t
  · rw [abs_of_nonneg ht, abs_of_nonneg (rnd_nonneg t ht)]
  · have ht' : 0 ≤ -t := by linarith
    have h := rnd_nonneg (-t) ht'
    rw [abs_of_neg (not_le.mp ht)]
    rw [rnd_neg] at h ⊢
    rw [abs_of_nonpos (by linarith)]

/-- The rounded sum of squares `x * x + y * y + z * z` against the exact one. -/
lemma sumsq_rnd_bounds (x y z : ℝ) :
    0 ≤ rnd (rnd (rnd (x * x) + rnd (y * y)) + rnd (z * z)) ∧
    (1 - 301 / (100 * 2 ^ 53)) * (x * x + y * y + z * z) - 6 * (2 : ℝ) ^ (-1075 : ℤ)
      ≤ rnd (rnd (rnd (x * x) + rnd (y * y)) + rnd (z * z)) ∧
    rnd (rnd (rnd (x * x) + rnd (y * y)) + rnd (z * z))
      ≤ (1 + 301 / (100 * 2 ^ 53)) * (x * x + y * y + z * z) + 6 * (2 : ℝ) ^ (-1075 : ℤ) := by
  obtain ⟨x0, x1, x2⟩ := rnd_bounds (x * x) (mul_self_nonneg x)
  obtain ⟨y0, y1, y2⟩ := rnd_bounds (y * y) (mul_self_nonneg y)
  obtain ⟨z0, z1, z2⟩ := rnd_bounds (z * z) (mul_self_nonneg z)
  obtain ⟨a0, a1, a2⟩ := rnd_bounds (rnd (x * x) + rnd (y * y)) (by linarith)
  obtain ⟨b0, b1, b2⟩ := rnd_bounds (rnd (rnd (x * x) + rnd (y * y)) + rnd (z * z))
    (by linarith)
  have hη : (0 : ℝ) ≤ 2 ^ (-1075 : ℤ) := by positivity
  have hX := mul_self_nonneg x
  have hY := mul_self_nonneg y
  have hZ := mul_self_nonneg z
  generalize (2 : ℝ) ^ (-1075 : ℤ) = η at *
  generalize rnd (rnd (rnd (x * x) + rnd (y * y)) + rnd (z * z)) = S at *
  generalize rnd (rnd (x * x) + rnd (y * y)) = s1 at *
  generalize rnd (x * x) = sx at *
  generalize rnd (y * y) = sy at *
  generalize rnd (z * z) = sz at *
  generalize x * x = X at *
  generalize y * y = Y at *
  generalize z * z = Z at *
  refine ⟨b0, ?_, ?_⟩
  · nlinarith
  · nlinarith

/-- The length computed in double precision against the exact one, in squared form: for a
vector whose exact squared length is at least `2^-200`, the square of the computed length `L`
is within the factor `1 ± 5.1 * 2^-53` of it. -/
lemma length_sq_bounds (x y z : ℝ) (hT : 1 / 2 ^ 200 ≤ x * x + y * y + z * z) :
    0 ≤ rnd (Real.sqrt (rnd (rnd (rnd (x * x) + rnd (y * y)) + rnd (z * z)))) ∧
    (1 - 51 / (10 * 2 ^ 53)) * (x * x + y * y + z * z)
      ≤ rnd (Real.sqrt (rnd (rnd (rnd (x * x) + rnd (y * y)) + rnd (z * z))))
        * rnd (Real.sqrt (rnd (rnd (rnd (x * x) + rnd (y * y)) + rnd (z * z)))) ∧
    rnd (Real.sqrt (rnd (rnd (rnd (x * x) + rnd (y * y)) + rnd (z * z))))
        * rnd (Real.sqrt (rnd (rnd (rnd (x * x) + rnd (y * y)) + rnd (z * z))))
      ≤ (1 + 51 / (10 * 2 ^ 53)) * (x * x + y * y + z * z) := by
  obtain ⟨S0, Slo, Shi⟩ := sumsq_rnd_bounds x y z
  have hr0 : 0 ≤ Real.sqrt (rnd (rnd (rnd (x * x) + rnd (y * y)) + rnd (z * z))) :=
    Real.sqrt_nonneg _
  have hrr := Real.mul_self_sqrt S0
  obtain ⟨L0, Llo, Lhi⟩ := rnd_bounds _ hr0
  have hη := eta_le
  have hη0 : (0 : ℝ) ≤ 2 ^ (-1075 : ℤ) := by positivity
  generalize (2 : ℝ) ^ (-1075 : ℤ) = η at *
  generalize rnd (Real.sqrt (rnd (rnd (rnd (x * x) + rnd (y * y)) + rnd (z * z)))) = L at *
  generalize Real.sqrt (rnd (rnd (rnd (x * x) + rnd (y * y)) + rnd (z * z))) = r at *
  generalize rnd (rnd (rnd (x * x) + rnd (y * y)) + rnd (z * z)) = S at *
  generalize x * x + y * y + z * z = T at *
  have hr1 : r ≤ S + 1 := by nlinarith [sq_nonneg (r - 1)]
  have hrη : r * η ≤ (S + 1) * η := mul_le_mul_of_nonneg_right hr1 hη0
  have hSη : S * η ≤ S * (1 / 2 ^ 1000) := mul_le_mul_of_nonneg_left hη S0
  have hηη : η * η ≤ η := by
    have : η ≤ 1 := le_trans hη (by norm_num)
    nlinarith
  have hrη0 : 0 ≤ r * η := mul_nonneg hr0 hη0
  have hTη : η ≤ 1 / 2 ^ 800 * T := by
    have e : (1 : ℝ) / 2 ^ 1000 = 1 / 2 ^ 800 * (1 / 2 ^ 200) := by norm_num
    have : (1 : ℝ) / 2 ^ 800 * (1 / 2 ^ 200) ≤ 1 / 2 ^ 800 * T :=
      mul_le_mul_of_nonneg_left hT (by positivity)
    linarith
  have hT0 : 0 ≤ T := le_trans (by positivity) hT
  refine ⟨L0, ?_, ?_⟩
  · -- lower bound
    have hp0 : 0 ≤ (1 - 1 / 2 ^ 53) * r := mul_nonneg (by norm_num) hr0
    have hkey : ((1 - 1 / 2 ^ 53) * r) * ((1 - 1 / 2 ^ 53) * r)
        - 2 * ((1 - 1 / 2 ^ 53) * r) * η ≤ L * L := by
      by_cases hc : η ≤ (1 - 1 / 2 ^ 53) * r
      · have h1 : ((1 - 1 / 2 ^ 53) * r - η) * ((1 - 1 / 2 ^ 53) * r - η) ≤ L * L :=
          mul_self_le_mul_self (by linarith) Llo
        nlinarith [mul_self_nonneg η]
      · have h1 : 0 ≤ L * L := mul_self_nonneg L
        have h2 : ((1 - 1 / 2 ^ 53) * r) * ((1 - 1 / 2 ^ 53) * r - 2 * η) ≤ 0 :=
          mul_nonpos_of_nonneg_of_nonpos hp0 (by linarith [not_le.mp hc])
        nlinarith
    have hexp : ((1 - 1 / 2 ^ 53) * r) * ((1 - 1 / 2 ^ 53) * r)
        - 2 * ((1 - 1 / 2 ^ 53) * r) * η
        = (1 - 1 / 2 ^ 53) * (1 - 1 / 2 ^ 53) * S - 2 * (1 - 1 / 2 ^ 53) * (r * η) := by
      rw [← hrr]; ring
    rw [hexp] at hkey
    linarith
  · -- upper bound
    have h1 : L * L ≤ ((1 + 1 / 2 ^ 53) * r + η) * ((1 + 1 / 2 ^ 53) * r + η) :=
      mul_self_le_mul_self L0 Lhi
    have hexp : ((1 + 1 / 2 ^ 53) * r + η) * ((1 + 1 / 2 ^ 53) * r + η)
        = (1 + 1 / 2 ^ 53) * (1 + 1 / 2 ^ 53) * S + 2 * (1 + 1 / 2 ^ 53) * (r * η)
          + η * η := by
      rw [← hrr]; ring
    rw [hexp] at h1
    linarith

/-- One component of the normalised vector: the square of the rounded quotient `x / L` against
the exact `x * x / (L * L)`. -/
lemma quotient_sq_bounds (x L : ℝ) (hL : 0 < L) (hw : x * x ≤ 2 * (L * L)) :
    |rnd (x / L)| ≤ 2 ∧
    (1 - 1 / 2 ^ 53) * (1 - 1 / 2 ^ 53) * (x * x / (L * L)) - 4 * (2 : ℝ) ^ (-1075 : ℤ)
      ≤ rnd (x / L) * rnd (x / L) ∧
    rnd (x / L) * rnd (x / L)
      ≤ (1 + 1 / 2 ^ 53) * (1 + 1 / 2 ^ 53) * (x * x / (L * L)) + 5 * (2 : ℝ) ^ (-1075 : ℤ) := by
  have hw0 : 0 ≤ |x / L| := abs_nonneg _
  have hww : |x / L| * |x / L| = x * x / (L * L) := by
    rw [abs_mul_abs_self]; field_simp
  have hw2 : |x / L| * |x / L| ≤ 2 := by
    rw [hww, div_le_iff₀ (mul_pos hL hL)]; exact hw
  have hw1 : |x / L| ≤ 3 / 2 := by nlinarith
  obtain ⟨n0, nlo, nhi⟩ := rnd_bounds |x / L| hw0
  rw [← abs_rnd] at n0 nlo nhi
  have hnn : rnd (x / L) * rnd (x / L) = |rnd (x / L)| * |rnd (x / L)| :=
    (abs_mul_abs_self _).symm
  rw [hnn, ← hww]
  have hη := eta_le
  have hη0 : (0 : ℝ) ≤ 2 ^ (-1075 : ℤ) := by positivity
  generalize (2 : ℝ) ^ (-1075 : ℤ) = η at *
  generalize |rnd (x / L)| = n at *
  generalize |x / L| = w at *
  have hη1 : η ≤ 1 / 2 ^ 10 := le_trans hη (by norm_num)
  have hwη : w * η ≤ 3 / 2 * η := mul_le_mul_of_nonneg_right hw1 hη0
  have hwη0 : 0 ≤ w * η := mul_nonneg hw0 hη0
  have hηη : η * η ≤ η := by nlinarith
  refine ⟨by linarith, ?_, ?_⟩
  · have hp0 : 0 ≤ (1 - 1 / 2 ^ 53) * w := mul_nonneg (by norm_num) hw0
    have hkey : ((1 - 1 / 2 ^ 53) * w) * ((1 - 1 / 2 ^ 53) * w)
        - 2 * ((1 - 1 / 2 ^ 53) * w) * η ≤ n * n := by
      by_cases hc : η ≤ (1 - 1 / 2 ^ 53) * w
      · have h1 : ((1 - 1 / 2 ^ 53) * w - η) * ((1 - 1 / 2 ^ 53) * w - η) ≤ n * n :=
          mul_self_le_mul_self (by linarith) nlo
        nlinarith [mul_self_nonneg η]
      · have h1 : 0 ≤ n * n := mul_self_nonneg n
        have h2 : ((1 - 1 / 2 ^ 53) * w) * ((1 - 1 / 2 ^ 53) * w - 2 * η) ≤ 0 :=
          mul_nonpos_of_nonneg_of_nonpos hp0 (by linarith [not_le.mp hc])
        nlinarith
    have hexp : ((1 - 1 / 2 ^ 53) * w) * ((1 - 1 / 2 ^ 53) * w)
        - 2 * ((1 - 1 / 2 ^ 53) * w) * η
        = (1 - 1 / 2 ^ 53) * (1 - 1 / 2 ^ 53) * (w * w) - 2 * (1 - 1 / 2 ^ 53) * (w * η) := by
      ring
    rw [hexp] at hkey
    linarith
  · have h1 : n * n ≤ ((1 + 1 / 2 ^ 53) * w + η) * ((1 + 1 / 2 ^ 53) * w + η) :=
      mul_self_le_mul_self n0 nhi
    have hexp : ((1 + 1 / 2 ^ 53) * w + η) * ((1 + 1 / 2 ^ 53) * w + η)
        = (1 + 1 / 2 ^ 53) * (1 + 1 / 2 ^ 53) * (w * w) + 2 * (1 + 1 / 2 ^ 53) * (w * η)
          + η * η := by ring
    rw [hexp] at h1
    linarith

/-- The components of the normalised vector: when the square of the divisor `L` is within the
factor `1 ± 5.1 * 2^-53` of the exact squared length, the exact sum of the squares of the three
rounded quotients is within `7.2 * 2^-53` of `1`. -/
lemma normalized_sumsq_bounds (x y z L : ℝ) (hL : 0 < L)
    (hlo : (1 - 51 / (10 * 2 ^ 53)) * (x * x + y * y + z * z) ≤ L * L)
    (hhi : L * L ≤ (1 + 51 / (10 * 2 ^ 53)) * (x * x + y * y + z * z)) :
    (|rnd (x / L)| ≤ 2 ∧ |rnd (y / L)| ≤ 2 ∧ |rnd (z / L)| ≤ 2) ∧
    1 - 72 / (10 * 2 ^ 53)
      ≤ rnd (x / L) * rnd (x / L) + rnd (y / L) * rnd (y / L) + rnd (z / L) * rnd (z / L) ∧
    rnd (x / L) * rnd (x / L) + rnd (y / L) * rnd (y / L) + rnd (z / L) * rnd (z / L)
      ≤ 1 + 72 / (10 * 2 ^ 53) := by
  have hLL : 0 < L * L := mul_pos hL hL
  have hX := mul_self_nonneg x
  have hY := mul_self_nonneg y
  have hZ := mul_self_nonneg z
  obtain ⟨ax, lx, ux⟩ := quotient_sq_bounds x L hL (by nlinarith)
  obtain ⟨ay, ly, uy⟩ := quotient_sq_bounds y L hL (by nlinarith)
  obtain ⟨az, lz, uz⟩ := quotient_sq_bounds z L hL (by nlinarith)
  have hW : x * x / (L * L) + y * y / (L * L) + z * z / (L * L)
      = (x * x + y * y + z * z) / (L * L) := by ring
  have hW1 : (1 - 51 / (10 * 2 ^ 53)) * ((x * x + y * y + z * z) / (L * L)) ≤ 1 := by
    rw [← mul_div_assoc, div_le_one hLL]; exact hlo
  have hW2 : 1 ≤ (1 + 51 / (10 * 2 ^ 53)) * ((x * x + y * y + z * z) / (L * L)) := by
    rw [← mul_div_assoc, one_le_div hLL]; exact hhi
  have hη := eta_le
  have hη0 : (0 : ℝ) ≤ 2 ^ (-1075 : ℤ) := by positivity
  generalize (2 : ℝ) ^ (-1075 : ℤ) = η at *
  generalize (x * x + y * y + z * z) / (L * L) = W at *
  generalize x * x / (L * L) = wx at *
  generalize y * y / (L * L) = wy at *
  generalize z * z / (L * L) = wz at *
  generalize rnd (x / L) * rnd (x / L) = nx at *
  generalize rnd (y / L) * rnd (y / L) = ny at *
  generalize rnd (z / L) * rnd (z / L) = nz at *
  have hη1 : η ≤ 1 / 2 ^ 100 := le_trans hη (by norm_num)
  refine ⟨⟨ax, ay, az⟩, ?_, ?_⟩
  · linarith
  · linarith

/-- The `double` nearest to the literal `1e-10` of the guard of `normalize`. -/
lemma round_guard : Dbl.round 1e-10 = Dbl.fin (7737125245533627 * 2 ^ (-86 : ℤ)) :=
  Dbl.round_eq_fin _ _
    (rnd_eq_of_pos' _ _ (-34) 7737125245533627 (by norm_num) (by norm_num) (by norm_num)
      (by norm_num) (by norm_num) (by norm_num))
    (abs_lt_two_pow_1024 _ 0 (by norm_num) (by norm_num [abs_lt]))

/-- A computed length of at least `2^-34` comes from an exact squared length of at least
`2^-200`. -/
lemma sumsq_lower_of_length (x y z : ℝ)
    (hL : 1 / 2 ^ 34
      ≤ rnd (Real.sqrt (rnd (rnd (rnd (x * x) + rnd (y * y)) + rnd (z * z))))) :
    1 / 2 ^ 200 ≤ x * x + y * y + z * z := by
  obtain ⟨S0, _, Shi⟩ := sumsq_rnd_bounds x y z
  have hr0 : 0 ≤ Real.sqrt (rnd (rnd (rnd (x * x) + rnd (y * y)) + rnd (z * z))) :=
    Real.sqrt_nonneg _
  have hrr := Real.mul_self_sqrt S0
  obtain ⟨_, _, Lhi⟩ := rnd_bounds _ hr0
  have hη := eta_le
  have hη0 : (0 : ℝ) ≤ 2 ^ (-1075 : ℤ) := by positivity
  generalize (2 : ℝ) ^ (-1075 : ℤ) = η at *
  generalize rnd (Real.sqrt (rnd (rnd (rnd (x * x) + rnd (y * y)) + rnd (z * z)))) = L at *
  generalize Real.sqrt (rnd (rnd (rnd (x * x) + rnd (y * y)) + rnd (z * z))) = r at *
  generalize rnd (rnd (rnd (x * x) + rnd (y * y)) + rnd (z * z)) = S at *
  generalize x * x + y * y + z * z = T at *
  by_contra hT
  push_neg at hT
  have hη1 : η ≤ 1 / 2 ^ 210 := le_trans hη (by norm_num)
  have hS : S < 1 / 2 ^ 198 := by
    have : (1 + 301 / (100 * 2 ^ 53)) * T < (1 + 301 / (100 * 2 ^ 53)) * (1 / 2 ^ 200) :=
      mul_lt_mul_of_pos_left hT (by norm_num)
    have e : (1 + 301 / (100 * 2 ^ 53)) * ((1 : ℝ) / 2 ^ 200) + 6 * (1 / 2 ^ 210)
        ≤ 1 / 2 ^ 198 := by norm_num
    linarith
  have hr : r < 1 / 2 ^ 99 := by
    by_contra hc
    push_neg at hc
    have : (1 / 2 ^ 99 : ℝ) * (1 / 2 ^ 99) ≤ r * r :=
      mul_self_le_mul_self (by positivity) hc
    have e : (1 / 2 ^ 99 : ℝ) * (1 / 2 ^ 99) = 1 / 2 ^ 198 := by norm_num
    linarith
  have e : (1 + 1 / 2 ^ 53) * ((1 : ℝ) / 2 ^ 99) + 1 / 2 ^ 210 < 1 / 2 ^ 34 := by norm_num
  have : (1 + 1 / 2 ^ 53) * r < (1 + 1 / 2 ^ 53) * (1 / 2 ^ 99) :=
    mul_lt_mul_of_pos_left hr (by norm_num)
  linarith

/-- A rounded value is at most `1` away from a number below `2^32` in magnitude. -/
lemma rnd_abs_le_add_one (t : ℝ) (h : |t| ≤ 2 ^ 32) : |rnd t| ≤ |t| + 1 := by
  have h1 := rnd_near t h
  have h2 : |rnd t| ≤ |rnd t - t| + |t| := by
    have := abs_add (rnd t - t) t
    rwa [sub_add_cancel] at this
  have : (1 : ℝ) / 2 ^ 20 ≤ 1 := by norm_num
  linarith

/-- The length in double precision of a vector whose components are at most `2` in magnitude:
no operation overflows. -/
lemma length_fin_of_small (x y z : ℝ) (hx : |x| ≤ 2) (hy : |y| ≤ 2) (hz : |z| ≤ 2) :
    Vec3D.length ⟨Dbl.fin x, Dbl.fin y, Dbl.fin z⟩
      = Dbl.fin (rnd (Real.sqrt (rnd (rnd (rnd (x * x) + rnd (y * y)) + rnd (z * z))))) := by
  have sq : ∀ t : ℝ, |t| ≤ 2 → |t * t| ≤ 4 := by
    intro t ht
    rw [abs_mul]
    have := abs_nonneg t
    nlinarith
  have bx := sq x hx
  have b_y := sq y hy
  have bz := sq z hz
  have cx := rnd_abs_le_add_one (x * x) (by linarith [(by norm_num : (4 : ℝ) ≤ 2 ^ 32)])
  have cy := rnd_abs_le_add_one (y * y) (by linarith [(by norm_num : (4 : ℝ) ≤ 2 ^ 32)])
  have cz := rnd_abs_le_add_one (z * z) (by linarith [(by norm_num : (4 : ℝ) ≤ 2 ^ 32)])
  have b1 : |rnd (x * x) + rnd (y * y)| ≤ 10 := (abs_add _ _).trans (by linarith)
  have c1 := rnd_abs_le_add_one (rnd (x * x) + rnd (y * y))
    (by linarith [(by norm_num : (10 : ℝ) ≤ 2 ^ 32)])
  have b2 : |rnd (rnd (x * x) + rnd (y * y)) + rnd (z * z)| ≤ 16 :=
    (abs_add _ _).trans (by linarith)
  have c2 := rnd_abs_le_add_one (rnd (rnd (x * x) + rnd (y * y)) + rnd (z * z))
    (by linarith [(by norm_num : (16 : ℝ) ≤ 2 ^ 32)])
  obtain ⟨S0, _, _⟩ := sumsq_rnd_bounds x y z
  have hr0 : 0 ≤ Real.sqrt (rnd (rnd (rnd (x * x) + rnd (y * y)) + rnd (z * z))) :=
    Real.sqrt_nonneg _
  have hrr := Real.mul_self_sqrt S0
  have b3 : |Real.sqrt (rnd (rnd (rnd (x * x) + rnd (y * y)) + rnd (z * z)))| ≤ 2 ^ 32 := by
    rw [abs_of_nonneg hr0]
    rw [abs_of_nonneg S0] at c2
    nlinarith [sq_nonneg (Real.sqrt (rnd (rnd (rnd (x * x) + rnd (y * y)) + rnd (z * z))) - 1)]
  unfold Vec3D.length
  simp only [Dbl.mul]
  rw [Dbl.round_of_abs_le _ (by linarith [(by norm_num : (4 : ℝ) ≤ 2 ^ 32)]),
    Dbl.round_of_abs_le (y * y) (by linarith [(by norm_num : (4 : ℝ) ≤ 2 ^ 32)]),
    Dbl.round_of_abs_le (z * z) (by linarith [(by norm_num : (4 : ℝ) ≤ 2 ^ 32)])]
  simp only [Dbl.add]
  rw [Dbl.round_of_abs_le _ (by linarith [(by norm_num : (10 : ℝ) ≤ 2 ^ 32)])]
  simp only [Dbl.add]
  rw [Dbl.round_of_abs_le _ (by linarith [(by norm_num : (16 : ℝ) ≤ 2 ^ 32)])]
  simp only [Dbl.sqrt, if_neg (not_lt.mpr S0)]
  rw [Dbl.round_of_abs_le _ b3]

/-- A quotient whose square is at most `2` is at most `2` in magnitude. -/
lemma abs_div_le_two (x L : ℝ) (hL : 0 < L) (hw : x * x ≤ 2 * (L * L)) : |x / L| ≤ 2 := by
  have hww : |x / L| * |x / L| = x * x / (L * L) := by
    rw [abs_mul_abs_self]; field_simp
  have hw2 : |x / L| * |x / L| ≤ 2 := by
    rw [hww, div_le_iff₀ (mul_pos hL hL)]; exact hw
  have := abs_nonneg (x / L)
  nlinarith

/-- C7 (amended). In double precision, for every vector whose computed length is finite and
passes the guard of `normalize` (it is not below the `double` nearest to `1e-10`), the computed
length of the normalised vector is finite and within `1e-15` of `1`. -/
theorem normalize_length_near_one (v : Vec3D) (L : ℝ) (hlen : v.length = Dbl.fin L)
    (hguard : ¬ Dbl.lt (Dbl.fin L) (Dbl.round 1e-10)) :
    ∃ L' : ℝ, v.normalize.length = Dbl.fin L' ∧ |L' - 1| ≤ 1e-15 := by
  obtain ⟨x, y, z, rfl, hS0, hLeq⟩ := length_fin_inv v L hlen
  -- the guard
  have hg : (7737125245533627 : ℝ) * 2 ^ (-86 : ℤ) ≤ L := by
    rw [round_guard] at hguard
    exact not_lt.mp hguard
  have hL34 : 1 / 2 ^ 34 ≤ L := le_trans (by norm_num) hg
  have hLpos : 0 < L := lt_of_lt_of_le (by norm_num) hL34
  -- the first length
  have hT := sumsq_lower_of_length x y z (by rw [← hLeq]; exact hL34)
  obtain ⟨_, hlo, hhi⟩ := length_sq_bounds x y z hT
  rw [← hLeq] at hlo hhi
  -- the components of the normalised vector
  obtain ⟨⟨ax, ay, az⟩, tlo, thi⟩ := normalized_sumsq_bounds x y z L hLpos hlo hhi
  have hX := mul_self_nonneg x
  have hY := mul_self_nonneg y
  have hZ := mul_self_nonneg z
  have qx := abs_div_le_two x L hLpos (by nlinarith)
  have qy := abs_div_le_two y L hLpos (by nlinarith)
  have qz := abs_div_le_two z L hLpos (by nlinarith)
  have hnorm : (Vec3D.mk (Dbl.fin x) (Dbl.fin y) (Dbl.fin z)).normalize
      = ⟨Dbl.fin (rnd (x / L)), Dbl.fin (rnd (y / L)), Dbl.fin (rnd (z / L))⟩ := by
    unfold Vec3D.normalize
    simp only
    rw [hlen, if_neg hguard]
    simp only [Dbl.div, if_neg (ne_of_gt hLpos)]
    rw [Dbl.round_of_abs_le _ (by linarith [(by norm_num : (2 : ℝ) ≤ 2 ^ 32)]),
      Dbl.round_of_abs_le (y / L) (by linarith [(by norm_num : (2 : ℝ) ≤ 2 ^ 32)]),
      Dbl.round_of_abs_le (z / L) (by linarith [(by norm_num : (2 : ℝ) ≤ 2 ^ 32)])]
  -- the second length
  have hT' : 1 / 2 ^ 200
      ≤ rnd (x / L) * rnd (x / L) + rnd (y / L) * rnd (y / L) + rnd (z / L) * rnd (z / L) :=
    le_trans (by norm_num) tlo
  obtain ⟨hL0', hlo', hhi'⟩ := length_sq_bounds (rnd (x / L)) (rnd (y / L)) (rnd (z / L)) hT'
  refine ⟨_, by rw [hnorm]; exact length_fin_of_small _ _ _ ax ay az, ?_⟩
  generalize rnd (Real.sqrt (rnd (rnd (rnd (rnd (x / L) * rnd (x / L))
    + rnd (rnd (y / L) * rnd (y / L))) + rnd (rnd (z / L) * rnd (z / L))))) = L' at *
  generalize rnd (x / L) * rnd (x / L) + rnd (y / L) * rnd (y / L)
    + rnd (z / L) * rnd (z / L) = T' at *
  have h1 : (1 - 51 / (10 * 2 ^ 53)) * (1 - 72 / (10 * 2 ^ 53)) ≤ L' * L' :=
    le_trans (mul_le_mul_of_nonneg_left tlo (by norm_num)) hlo'
  have h2 : L' * L' ≤ (1 + 51 / (10 * 2 ^ 53)) * (1 + 72 / (10 * 2 ^ 53)) :=
    le_trans hhi' (mul_le_mul_of_nonneg_left thi (by norm_num))
  rw [abs_le]
  constructor
  · by_contra hc
    push_neg at hc
    have h3 : L' * L' < (1 - 1e-15) * (1 - 1e-15) :=
      mul_self_lt_mul_self hL0' (by linarith)
    have e : ((1 : ℝ) - 1e-15) * (1 - 1e-15)
        ≤ (1 - 51 / (10 * 2 ^ 53)) * (1 - 72 / (10 * 2 ^ 53)) := by norm_num
    linarith
  · by_contra hc
    push_neg at hc
    have h3 : ((1 : ℝ) + 1e-15) * (1 + 1e-15) < L' * L' :=
      mul_self_lt_mul_self (by norm_num) (by linarith)
    have e : (1 + 51 / (10 * 2 ^ 53)) * (1 + 72 / (10 * 2 ^ 53))
        ≤ ((1 : ℝ) + 1e-15) * (1 + 1e-15) := by norm_num
    linarith

/-- Evaluation of the rounding of a square root in the normal range, by squares. -/
lemma rnd_sqrt_eq (S y : ℝ) (k m : ℤ) (hk : -1022 ≤ k) (hy : y = m * 2 ^ (k - 52))
    (h1 : (2 : ℝ) ^ k * 2 ^ k ≤ S) (h2 : S < (2 : ℝ) ^ (k + 1) * 2 ^ (k + 1))
    (hlo0 : 0 ≤ y - 2 ^ (k - 52) / 2)
    (hlo : (y - 2 ^ (k - 52) / 2) * (y - 2 ^ (k - 52) / 2) < S)
    (hhi : S < (y + 2 ^ (k - 52) / 2) * (y + 2 ^ (k - 52) / 2)) : rnd (Real.sqrt S) = y := by
  have hS : 0 ≤ S := le_trans (mul_self_nonneg _) h1
  have hp : (0 : ℝ) < 2 ^ (k - 52) := by positivity
  refine rnd_eq_of_pos' _ y k m hk hy ?_ ?_ ?_ ?_
  · rw [Real.le_sqrt' (by positivity), sq]; exact h1
  · rw [Real.sqrt_lt' (by positivity), sq]; exact h2
  · rw [Real.lt_sqrt hlo0, sq]; exact hlo
  · rw [Real.sqrt_lt' (by linarith), sq]; exact hhi

/-- The zero vector has length zero in double precision. -/
lemma length_zero_vector : Vec3D.length ⟨Dbl.fin 0, Dbl.fin 0, Dbl.fin 0⟩ = Dbl.fin 0 := by
  rw [length_fin_of_small 0 0 0 (by norm_num) (by norm_num) (by norm_num)]
  simp only [mul_zero, rnd_zero, add_zero, Real.sqrt_zero]

/-- The length of `(1, 1, 0)` in double precision is the `double` nearest to the square root
of 2. -/
lemma length_one_one_zero :
    Vec3D.length ⟨Dbl.fin 1, Dbl.fin 1, Dbl.fin 0⟩
      = Dbl.fin (6369051672525773 * 2 ^ (-52 : ℤ)) := by
  rw [length_fin_of_small 1 1 0 (by norm_num) (by norm_num) (by norm_num)]
  have e1 : rnd ((1 : ℝ) * 1) = 1 :=
    rnd_eq_of_pos' _ 1 0 (2 ^ 52) (by norm_num) (by norm_num) (by norm_num)
      (by norm_num) (by norm_num) (by norm_num)
  have e2 : rnd ((1 : ℝ) + 1) = 2 :=
    rnd_eq_of_pos' _ 2 1 (2 ^ 52) (by norm_num) (by norm_num) (by norm_num)
      (by norm_num) (by norm_num) (by norm_num)
  have e3 : rnd ((2 : ℝ) + 0) = 2 :=
    rnd_eq_of_pos' _ 2 1 (2 ^ 52) (by norm_num) (by norm_num) (by norm_num)
      (by norm_num) (by norm_num) (by norm_num)
  have e4 : rnd (Real.sqrt 2) = 6369051672525773 * 2 ^ (-52 : ℤ) :=
    rnd_sqrt_eq 2 _ 0 6369051672525773 (by norm_num) (by norm_num) (by norm_num)
      (by norm_num) (by norm_num) (by norm_num) (by norm_num)
  rw [e1, mul_zero, rnd_zero, e2, e3, e4]

/-- The vector `(1, 1, 0)` normalised in double precision. -/
lemma normalize_one_one_zero :
    (Vec3D.mk (Dbl.fin 1) (Dbl.fin 1) (Dbl.fin 0)).normalize
      = ⟨Dbl.fin (6369051672525772 * 2 ^ (-53 : ℤ)), Dbl.fin (6369051672525772 * 2 ^ (-53 : ℤ)),
          Dbl.fin 0⟩ := by
  have hg : ¬ Dbl.lt (Dbl.fin (6369051672525773 * 2 ^ (-52 : ℤ))) (Dbl.round 1e-10) := by
    rw [round_guard]
    show ¬ ((6369051672525773 : ℝ) * 2 ^ (-52 : ℤ) < 7737125245533627 * 2 ^ (-86 : ℤ))
    norm_num
  have hne : (6369051672525773 : ℝ) * 2 ^ (-52 : ℤ) ≠ 0 := by norm_num
  have e1 : Dbl.round (1 / ((6369051672525773 : ℝ) * 2 ^ (-52 : ℤ)))
      = Dbl.fin (6369051672525772 * 2 ^ (-53 : ℤ)) :=
    Dbl.round_eq_fin _ _
      (rnd_eq_of_pos' _ _ (-1) 6369051672525772 (by norm_num) (by norm_num) (by norm_num)
        (by norm_num) (by norm_num) (by norm_num))
      (abs_lt_two_pow_1024 _ 0 (by norm_num) (by norm_num [abs_lt]))
  unfold Vec3D.normalize
  simp only
  rw [length_one_one_zero, if_neg hg]
  simp only [Dbl.div, if_neg hne, e1, zero_div, Dbl.round_zero]

/-- The length of the normalised `(1, 1, 0)` in double precision is the `double` just below
`1`. -/
lemma length_normalize_one_one_zero :
    (Vec3D.mk (Dbl.fin 1) (Dbl.fin 1) (Dbl.fin 0)).normalize.length
      = Dbl.fin (9007199254740991 * 2 ^ (-53 : ℤ)) := by
  rw [normalize_one_one_zero,
    length_fin_of_small _ _ 0 (by norm_num [abs_le]) (by norm_num [abs_le]) (by norm_num)]
  have e1 : rnd ((6369051672525772 : ℝ) * 2 ^ (-53 : ℤ) * (6369051672525772 * 2 ^ (-53 : ℤ)))
      = 9007199254740990 * 2 ^ (-54 : ℤ) :=
    rnd_eq_of_pos' _ _ (-2) 9007199254740990 (by norm_num) (by norm_num) (by norm_num)
      (by norm_num) (by norm_num) (by norm_num)
  have e2 : rnd ((9007199254740990 : ℝ) * 2 ^ (-54 : ℤ) + 9007199254740990 * 2 ^ (-54 : ℤ))
      = 9007199254740990 * 2 ^ (-53 : ℤ) :=
    rnd_eq_of_pos' _ _ (-1) 9007199254740990 (by norm_num) (by norm_num) (by norm_num)
      (by norm_num) (by norm_num) (by norm_num)
  have e3 : rnd ((9007199254740990 : ℝ) * 2 ^ (-53 : ℤ) + 0)
      = 9007199254740990 * 2 ^ (-53 : ℤ) :=
    rnd_eq_of_pos' _ _ (-1) 9007199254740990 (by norm_num) (by norm_num) (by norm_num)
      (by norm_num) (by norm_num) (by norm_num)
  have e4 : rnd (Real.sqrt ((9007199254740990 : ℝ) * 2 ^ (-53 : ℤ)))
      = 9007199254740991 * 2 ^ (-53 : ℤ) :=
    rnd_sqrt_eq _ _ (-1) 9007199254740991 (by norm_num) (by norm_num) (by norm_num)
      (by norm_num) (by norm_num) (by norm_num) (by norm_num)
  rw [e1, mul_zero, rnd_zero, e2, e3, e4]

/-- A vector below the guard of `normalize`: `(2^-40, 0, 0)` has the length `2^-40` in double
precision and is normalised to the zero vector. -/
lemma normalize_tiny :
    (Vec3D.mk (Dbl.fin (2 ^ (-40 : ℤ))) (Dbl.fin 0) (Dbl.fin 0)).normalize
      = ⟨Dbl.fin 0, Dbl.fin 0, Dbl.fin 0⟩ := by
  have hlen : Vec3D.length ⟨Dbl.fin (2 ^ (-40 : ℤ)), Dbl.fin 0, Dbl.fin 0⟩
      = Dbl.fin (2 ^ (-40 : ℤ)) := by
    rw [length_fin_of_small _ 0 0 (by norm_num [abs_le]) (by norm_num) (by norm_num)]
    have e1 : rnd ((2 : ℝ) ^ (-40 : ℤ) * 2 ^ (-40 : ℤ)) = 2 ^ (-80 : ℤ) :=
      rnd_eq_of_pos' _ _ (-80) (2 ^ 52) (by norm_num) (by norm_num) (by norm_num)
        (by norm_num) (by norm_num) (by norm_num)
    have e2 : rnd ((2 : ℝ) ^ (-80 : ℤ) + 0) = 2 ^ (-80 : ℤ) :=
      rnd_eq_of_pos' _ _ (-80) (2 ^ 52) (by norm_num) (by norm_num) (by norm_num)
        (by norm_num) (by norm_num) (by norm_num)
    have e3 : Real.sqrt ((2 : ℝ) ^ (-80 : ℤ)) = 2 ^ (-40 : ℤ) := by
      rw [show (2 : ℝ) ^ (-80 : ℤ) = 2 ^ (-40 : ℤ) * 2 ^ (-40 : ℤ) by norm_num]
      exact Real.sqrt_mul_self (by positivity)
    have e4 : rnd ((2 : ℝ) ^ (-40 : ℤ)) = 2 ^ (-40 : ℤ) :=
      rnd_eq_of_pos' _ _ (-40) (2 ^ 52) (by norm_num) (by norm_num) (by norm_num)
        (by norm_num) (by norm_num) (by norm_num)
    rw [e1, mul_zero, rnd_zero, e2, e2, e3, e4]
  have hg : Dbl.lt (Dbl.fin (2 ^ (-40 : ℤ))) (Dbl.round 1e-10) := by
    rw [round_guard]
    show (2 : ℝ) ^ (-40 : ℤ) < 7737125245533627 * 2 ^ (-86 : ℤ)
    norm_num
  unfold Vec3D.normalize
  simp only
  rw [hlen, if_pos hg]

/-- The `double` nearest to the literal `1e200`. -/
lemma round_1e200 : Dbl.round 1e200 = Dbl.fin (5883593420661338 * 2 ^ (612 : ℤ)) :=
  Dbl.round_eq_fin _ _
    (rnd_eq_of_pos' _ _ 664 5883593420661338 (by norm_num) (by norm_num) (by norm_num)
      (by norm_num) (by norm_num) (by norm_num))
    (abs_lt_two_pow_1024 _ 665 (by norm_num) (by norm_num [abs_lt]))

/-- A vector whose squared length overflows: `(1e200, 0, 0)` has an infinite length in double
precision. -/
lemma length_overflow :
    Vec3D.length ⟨Dbl.round 1e200, Dbl.fin 0, Dbl.fin 0⟩ = Dbl.pinf := by
  have hsq : Dbl.mul (Dbl.fin (5883593420661338 * 2 ^ (612 : ℤ)))
      (Dbl.fin (5883593420661338 * 2 ^ (612 : ℤ))) = Dbl.pinf := by
    simp only [Dbl.mul]
    have hpos : (0 : ℝ)
        < 5883593420661338 * 2 ^ (612 : ℤ) * (5883593420661338 * 2 ^ (612 : ℤ)) := by
      positivity
    obtain ⟨h0, h1, _⟩ := rnd_bounds _ hpos.le
    have hη := eta_le
    have hbig : (2 : ℝ) ^ (1024 : ℤ) + 1 / 2 ^ 1000
        ≤ (1 - 1 / 2 ^ 53)
          * (5883593420661338 * 2 ^ (612 : ℤ) * (5883593420661338 * 2 ^ (612 : ℤ))) := by
      norm_num
    have hge : (2 : ℝ) ^ (1024 : ℤ)
        ≤ |rnd (5883593420661338 * 2 ^ (612 : ℤ) * (5883593420661338 * 2 ^ (612 : ℤ)))| := by
      rw [abs_of_nonneg h0]
      generalize rnd (5883593420661338 * 2 ^ (612 : ℤ) * (5883593420661338 * 2 ^ (612 : ℤ)))
        = R at *
      generalize (1 - 1 / 2 ^ 53)
          * ((5883593420661338 : ℝ) * 2 ^ (612 : ℤ) * (5883593420661338 * 2 ^ (612 : ℤ)))
        = A at *
      generalize (2 : ℝ) ^ (-1075 : ℤ) = η at *
      generalize (2 : ℝ) ^ (1024 : ℤ) = B at *
      generalize (1 : ℝ) / 2 ^ 1000 = C at *
      linarith
    unfold Dbl.round
    rw [if_pos hge, if_pos hpos]
  unfold Vec3D.length
  simp only
  rw [round_1e200, hsq]
  simp only [Dbl.mul, mul_zero, Dbl.round_zero, Dbl.add, Dbl.sqrt]

/-- The vector `(1e200, 0, 0)` is normalised to the zero vector. -/
lemma normalize_overflow :
    (Vec3D.mk (Dbl.round 1e200) (Dbl.fin 0) (Dbl.fin 0)).normalize
      = ⟨Dbl.fin 0, Dbl.fin 0, Dbl.fin 0⟩ := by
  have hg : ¬ Dbl.lt Dbl.pinf (Dbl.round 1e-10) := by
    rw [round_guard]
    exact fun h => h
  unfold Vec3D.normalize
  simp only
  rw [length_overflow, if_neg hg, round_1e200]
  simp only [Dbl.div]

/-- C7 as stated fails. In double precision the length of the normalised vector is not `1` for
three non-zero vectors: `(1, 1, 0)`, whose normalised length is the `double` just below `1`
(rounding); `(2^-40, 0, 0)`, whose length `2^-40` is below the guard `1e-10`, so that it is
normalised to the zero vector of length `0`; and `(1e200, 0, 0)`, whose squared length
overflows, so that its length is infinite and it is normalised to the zero vector too. -/
theorem normalize_length_double_counterexample :
    ((Vec3D.mk (Dbl.fin 1) (Dbl.fin 1) (Dbl.fin 0)).normalize.length
        = Dbl.fin (1 - 2 ^ (-53 : ℤ)) ∧ (1 : ℝ) - 2 ^ (-53 : ℤ) ≠ 1) ∧
    ((Vec3D.mk (Dbl.fin (2 ^ (-40 : ℤ))) (Dbl.fin 0) (Dbl.fin 0)).normalize.length = Dbl.fin 0 ∧
      Vec3D.length ⟨Dbl.round 1e200, Dbl.fin 0, Dbl.fin 0⟩ = Dbl.pinf ∧
      (Vec3D.mk (Dbl.round 1e200) (Dbl.fin 0) (Dbl.fin 0)).normalize.length = Dbl.fin 0 ∧
      (0 : ℝ) ≠ 1) := by
  refine ⟨⟨?_, by norm_num⟩, ?_, ?_, ?_, by norm_num⟩
  · rw [length_normalize_one_one_zero]
    congr 1
    norm_num
  · rw [normalize_tiny, length_zero_vector]
  · exact length_overflow
  · rw [normalize_overflow, length_zero_vector]

/-- An instance of C7 (amended): the vector `(1, 1, 0)`, whose length in double precision is the
`double` nearest to the square root of 2. -/
theorem normalize_length_near_one_witness :
    (Vec3D.length ⟨Dbl.fin 1, Dbl.fin 1, Dbl.fin 0⟩ = Dbl.fin (6369051672525773 * 2 ^ (-52 : ℤ)) ∧
      ¬ Dbl.lt (Dbl.fin (6369051672525773 * 2 ^ (-52 : ℤ))) (Dbl.round 1e-10)) ∧
    ∃ L' : ℝ, (Vec3D.mk (Dbl.fin 1) (Dbl.fin 1) (Dbl.fin 0)).normalize.length = Dbl.fin L' ∧
      |L' - 1| ≤ 1e-15 := by
  have hg : ¬ Dbl.lt (Dbl.fin (6369051672525773 * 2 ^ (-52 : ℤ))) (Dbl.round 1e-10) := by
    rw [round_guard]
    show ¬ ((6369051672525773 : ℝ) * 2 ^ (-52 : ℤ) < 7737125245533627 * 2 ^ (-86 : ℤ))
    norm_num
  exact ⟨⟨length_one_one_zero, hg⟩,
    normalize_length_near_one _ _ length_one_one_zero hg⟩


/-! ## The method `Earth::intersectRay` in double precision -/

namespace Dbl

lemma round_one : round 1 = fin 1 :=
  round_eq_fin 1 1
    (rnd_eq_of_pos' 1 1 0 (2 ^ 52) (by norm_num) (by norm_num) (by norm_num)
      (by norm_num) (by norm_num) (by norm_num))
    (abs_lt_two_pow_1024 _ 1 (by norm_num) (by norm_num [abs_lt]))

/-- A value that passes the test `>= 0` does not pass the test `< 0`. -/
lemma not_lt_of_ge_zero (x : Dbl) (h : ge x (fin 0)) : ¬ lt x (fin 0) := by
  cases x with
  | fin a => exact not_lt.mpr h
  | pinf => exact fun h' => h'
  | ninf => exact absurd h (fun h' => h')
  | nan => exact fun h' => h'

lemma not_lt_self (x : Dbl) : ¬ lt x x := by
  cases x with
  | fin a => exact lt_irrefl a
  | pinf => exact fun h' => h'
  | ninf => exact fun h' => h'
  | nan => exact fun h' => h'

lemma not_lt_of_lt (x y : Dbl) (h : lt x y) : ¬ lt y x := by
  cases x <;> cases y <;> first
    | exact fun h' => h'
    | exact absurd h (fun h' => h')
    | exact not_lt.mpr (le_of_lt h)

end Dbl

/-- C1 (amended). `Earth::intersectRay` in double precision selects the smallest non-negative
computed root: for every origin, direction, centre and radius it reports a hit if and only if
the discriminant it computes is not negative and one of the two roots `t1`, `t2` it computes is
non-negative; when it reports a hit, the returned depth is one of the computed roots, is
non-negative, no non-negative computed root is below it, the returned hit point is
`O + D * depth` as computed, and the normal is the normalised `hitPoint - C`. In particular it
reports no hit when both computed roots are negative or the computed discriminant is negative. -/
theorem intersectRay_selects_root (radius : Dbl) (position rayOrigin rayDir : Vec3D) :
    (Earth.intersectRayD radius position rayOrigin rayDir = none ↔
      Dbl.lt (discriminantD radius position rayOrigin rayDir) (Dbl.fin 0) ∨
      (¬ Dbl.ge (rootOneD radius position rayOrigin rayDir) (Dbl.fin 0) ∧
        ¬ Dbl.ge (rootTwoD radius position rayOrigin rayDir) (Dbl.fin 0))) ∧
    (∀ (depth : Dbl) (hitPoint normal : Vec3D),
      Earth.intersectRayD radius position rayOrigin rayDir = some (depth, hitPoint, normal) →
      (depth = rootOneD radius position rayOrigin rayDir ∨
        depth = rootTwoD radius position rayOrigin rayDir) ∧
      Dbl.ge depth (Dbl.fin 0) ∧
      (Dbl.ge (rootOneD radius position rayOrigin rayDir) (Dbl.fin 0) →
        ¬ Dbl.lt (rootOneD radius position rayOrigin rayDir) depth) ∧
      (Dbl.ge (rootTwoD radius position rayOrigin rayDir) (Dbl.fin 0) →
        ¬ Dbl.lt (rootTwoD radius position rayOrigin rayDir) depth) ∧
      hitPoint = rayOrigin.add (rayDir.scale depth) ∧
      normal = (hitPoint.sub position).normalize) := by
  classical
  have hm1 : Dbl.lt (Dbl.neg (Dbl.round 1)) (Dbl.fin 0) := by
    rw [Dbl.round_one]
    show (-1 : ℝ) < 0
    norm_num
  unfold Earth.intersectRayD
  simp only []
  rw [Dbl.round_zero]
  generalize discriminantD radius position rayOrigin rayDir = disc
  generalize rootOneD radius position rayOrigin rayDir = t1
  generalize rootTwoD radius position rayOrigin rayDir = t2
  by_cases hd : Dbl.lt disc (Dbl.fin 0)
  · refine ⟨?_, ?_⟩
    · simp only [if_pos hd]
      simp only [hd, true_or]
    · intro depth hitPoint normal h
      simp only [if_pos hd, reduceCtorEq] at h
  · by_cases h1 : Dbl.ge t1 (Dbl.fin 0)
    · have h1' := Dbl.not_lt_of_ge_zero t1 h1
      by_cases h2 : Dbl.ge t2 (Dbl.fin 0) ∧ Dbl.lt t2 t1
      · have h2' := Dbl.not_lt_of_ge_zero t2 h2.1
        have hc : Dbl.ge t2 (Dbl.fin 0) ∧ (Dbl.lt t1 (Dbl.fin 0) ∨ Dbl.lt t2 t1) :=
          ⟨h2.1, Or.inr h2.2⟩
        refine ⟨?_, ?_⟩
        · simp only [if_neg hd, if_pos h1, if_pos hc, if_neg h2']
          simp only [reduceCtorEq, hd, h1, not_true_eq_false, false_and, or_self]
        · intro depth hitPoint normal h
          simp only [if_neg hd, if_pos h1, if_pos hc, if_neg h2', Option.some.injEq,
            Prod.mk.injEq] at h
          obtain ⟨rfl, rfl, rfl⟩ := h
          exact ⟨Or.inr rfl, h2.1, fun _ => Dbl.not_lt_of_lt _ _ h2.2,
            fun _ => Dbl.not_lt_self _, rfl, rfl⟩
      · have hc : ¬(Dbl.ge t2 (Dbl.fin 0) ∧ (Dbl.lt t1 (Dbl.fin 0) ∨ Dbl.lt t2 t1)) := by
          rintro ⟨ha, hb | hb⟩
          · exact h1' hb
          · exact h2 ⟨ha, hb⟩
        refine ⟨?_, ?_⟩
        · simp only [if_neg hd, if_pos h1, if_neg hc, if_neg h1']
          simp only [reduceCtorEq, hd, h1, not_true_eq_false, false_and, or_self]
        · intro depth hitPoint normal h
          simp only [if_neg hd, if_pos h1, if_neg hc, if_neg h1', Option.some.injEq,
            Prod.mk.injEq] at h
          obtain ⟨rfl, rfl, rfl⟩ := h
          exact ⟨Or.inl rfl, h1, fun _ => Dbl.not_lt_self _,
            fun h => fun hlt => h2 ⟨h, hlt⟩, rfl, rfl⟩
    · by_cases h2 : Dbl.ge t2 (Dbl.fin 0)
      · have h2' := Dbl.not_lt_of_ge_zero t2 h2
        have hc : Dbl.ge t2 (Dbl.fin 0) ∧
            (Dbl.lt (Dbl.neg (Dbl.round 1)) (Dbl.fin 0) ∨ Dbl.lt t2 (Dbl.neg (Dbl.round 1))) :=
          ⟨h2, Or.inl hm1⟩
        refine ⟨?_, ?_⟩
        · simp only [if_neg hd, if_neg h1, if_pos hc, if_neg h2']
          simp only [reduceCtorEq, hd, h2, not_true_eq_false, and_false, or_self]
        · intro depth hitPoint normal h
          simp only [if_neg hd, if_neg h1, if_pos hc, if_neg h2', Option.some.injEq,
            Prod.mk.injEq] at h
          obtain ⟨rfl, rfl, rfl⟩ := h
          exact ⟨Or.inr rfl, h2, fun h => absurd h h1, fun _ => Dbl.not_lt_self _, rfl, rfl⟩
      · have hc : ¬(Dbl.ge t2 (Dbl.fin 0) ∧
            (Dbl.lt (Dbl.neg (Dbl.round 1)) (Dbl.fin 0) ∨
              Dbl.lt t2 (Dbl.neg (Dbl.round 1)))) := fun h => h2 h.1
        refine ⟨?_, ?_⟩
        · simp only [if_neg hd, if_neg h1, if_neg hc, if_pos hm1]
          simp only [h1, h2, not_false_eq_true, and_self, or_true]
        · intro depth hitPoint normal h
          simp only [if_neg hd, if_neg h1, if_neg hc, if_pos hm1, reduceCtorEq] at h

/-- An integer below `2^53` in magnitude is a value of the format. -/
lemma rnd_intCast (n : ℤ) (hn : |(n : ℝ)| < 2 ^ 53) : rnd (n : ℝ) = n := by
  by_cases h0 : n = 0
  · rw [h0, Int.cast_zero, rnd_zero]
  have h1 : (1 : ℝ) ≤ |(n : ℝ)| := by
    rw [← Int.cast_abs]
    have : (1 : ℤ) ≤ |n| := Int.one_le_abs h0
    exact_mod_cast this
  have hpos : 0 < |(n : ℝ)| := lt_of_lt_of_le one_pos h1
  have hl0 : 0 ≤ Int.log 2 |(n : ℝ)| := by
    have := (Int.zpow_le_iff_le_log (b := 2) (x := 0) (by norm_num) hpos).mp (by simpa using h1)
    exact this
  have hl1 : Int.log 2 |(n : ℝ)| < 53 :=
    (Int.lt_zpow_iff_log_lt (b := 2) (by norm_num) hpos).mp (by exact_mod_cast hn)
  have hu : ulpExp (n : ℝ) = Int.log 2 |(n : ℝ)| - 52 := by
    unfold ulpExp
    rw [max_eq_left (by omega)]
  obtain ⟨j, hj⟩ : ∃ j : ℕ, (j : ℤ) = 52 - Int.log 2 |(n : ℝ)| :=
    ⟨(52 - Int.log 2 |(n : ℝ)|).toNat, by omega⟩
  have he : ulpExp (n : ℝ) = -(j : ℤ) := by rw [hu, hj]; ring
  have hq : (n : ℝ) / 2 ^ (-(j : ℤ)) = ((n * 2 ^ j : ℤ) : ℝ) := by
    rw [zpow_neg, div_inv_eq_mul]
    push_cast
    rfl
  unfold rnd
  rw [he, hq, roundHalfEven_eq _ (n * 2 ^ j) (by simp)]
  rw [zpow_neg]
  push_cast
  rw [zpow_natCast]
  field_simp

namespace Dbl

/-- A natural number below `2^53`, written as a literal, is the rounded value of itself. -/
lemma round_ofNat (n : ℕ) [n.AtLeastTwo] (h : n < 2 ^ 53) :
    round (no_index (OfNat.ofNat n : ℝ)) = fin (OfNat.ofNat n) := by
  have hc : (OfNat.ofNat n : ℝ) = ((n : ℤ) : ℝ) := by
    rw [Int.cast_natCast]
    exact Nat.cast_eq_ofNat.symm
  have hb : |((n : ℤ) : ℝ)| < 2 ^ 53 := by
    rw [abs_of_nonneg (by positivity)]
    exact_mod_cast h
  rw [hc]
  refine round_eq_fin _ _ (rnd_intCast n hb) ?_
  exact lt_of_lt_of_le hb (by
    rw [show (2 : ℝ) ^ 53 = 2 ^ (53 : ℤ) by norm_cast]
    exact zpow_le_zpow_right₀ (by norm_num) (by norm_num))

/-- Rounding commutes with the change of sign. -/
lemma round_neg (x : ℝ) : round (-x) = neg (round x) := by
  unfold round
  rw [rnd_neg, abs_neg]
  by_cases h : (2 : ℝ) ^ (1024 : ℤ) ≤ |rnd x|
  · rw [if_pos h, if_pos h]
    have hx : x ≠ 0 := by
      rintro rfl
      rw [rnd_zero, abs_zero] at h
      exact absurd h (not_le.mpr (by positivity))
    by_cases hp : 0 < x
    · rw [if_pos hp, if_neg (by linarith)]; rfl
    · have hn : x < 0 := lt_of_le_of_ne (not_lt.mp hp) hx
      rw [if_neg hp, if_pos (by linarith)]; rfl
  · rw [if_neg h, if_neg h]; rfl

end Dbl

example : Vec3D.dot ⟨Dbl.fin (-5), Dbl.fin 0, Dbl.fin (-1000000000)⟩
    ⟨Dbl.fin 0, Dbl.fin 0, Dbl.fin 1⟩ = Dbl.fin (-1000000000) := by
  norm_num [Vec3D.dot, Dbl.mul, Dbl.add, Dbl.round_zero, Dbl.round_one, Dbl.round_neg,
    Dbl.round_ofNat, Dbl.neg]

/-- The `double` nearest to `10^18` is `10^18` itself. -/
lemma round_1e18 : Dbl.round 1000000000000000000 = Dbl.fin 1000000000000000000 :=
  Dbl.round_eq_fin _ _
    (rnd_eq_of_pos' _ _ 59 7812500000000000 (by norm_num) (by norm_num) (by norm_num)
      (by norm_num) (by norm_num) (by norm_num))
    (abs_lt_two_pow_1024 _ 60 (by norm_num) (by norm_num [abs_lt]))

/-- Adding `25` to `10^18` is absorbed by the rounding. -/
lemma round_1e18_add : Dbl.round 1000000000000000025 = Dbl.fin 1000000000000000000 :=
  Dbl.round_eq_fin _ _
    (rnd_eq_of_pos' _ _ 59 7812500000000000 (by norm_num) (by norm_num) (by norm_num)
      (by norm_num) (by norm_num) (by norm_num))
    (abs_lt_two_pow_1024 _ 60 (by norm_num) (by norm_num [abs_lt]))

/-- Subtracting `1` from `10^18` is absorbed by the rounding. -/
lemma round_1e18_sub : Dbl.round 999999999999999999 = Dbl.fin 1000000000000000000 :=
  Dbl.round_eq_fin _ _
    (rnd_eq_of_pos' _ _ 59 7812500000000000 (by norm_num) (by norm_num) (by norm_num)
      (by norm_num) (by norm_num) (by norm_num))
    (abs_lt_two_pow_1024 _ 60 (by norm_num) (by norm_num [abs_lt]))

/-- The `double` nearest to `4 * 10^18` is `4 * 10^18` itself. -/
lemma round_4e18 : Dbl.round 4000000000000000000 = Dbl.fin 4000000000000000000 :=
  Dbl.round_eq_fin _ _
    (rnd_eq_of_pos' _ _ 61 7812500000000000 (by norm_num) (by norm_num) (by norm_num)
      (by norm_num) (by norm_num) (by norm_num))
    (abs_lt_two_pow_1024 _ 62 (by norm_num) (by norm_num [abs_lt]))

lemma sqrt_twentyfive : Real.sqrt 25 = 5 := by
  rw [show (25 : ℝ) = 5 * 5 by norm_num]
  exact Real.sqrt_mul_self (by norm_num)

/-- C1 (counterexample). In double precision `Earth::intersectRay` reports a hit for a ray
that misses the sphere. For the origin `(0, 0, -1e9)`, the unit direction `(0, 0, 1)`, the centre
`(5, 0, 0)` and the radius `1`, the sum `oc.dot(oc) = 25 + 1e18` and the difference `1e18 - 1`
both round to `1e18`, so the discriminant is computed as `0` (its exact value is `-96`): a hit
is returned with depth `1e9` and hit point `(0, 0, 0)`, although no point of the ray lies on the
sphere and the returned hit point is at distance `5` from the centre. -/
theorem intersectRay_hit_counterexample :
    Earth.intersectRayD (Dbl.fin 1) ⟨Dbl.fin 5, Dbl.fin 0, Dbl.fin 0⟩
        ⟨Dbl.fin 0, Dbl.fin 0, Dbl.fin (-1000000000)⟩ ⟨Dbl.fin 0, Dbl.fin 0, Dbl.fin 1⟩
      = some (Dbl.fin 1000000000, ⟨Dbl.fin 0, Dbl.fin 0, Dbl.fin 0⟩,
          ⟨Dbl.fin (-1), Dbl.fin 0, Dbl.fin 0⟩) ∧
    discriminantD (Dbl.fin 1) ⟨Dbl.fin 5, Dbl.fin 0, Dbl.fin 0⟩
        ⟨Dbl.fin 0, Dbl.fin 0, Dbl.fin (-1000000000)⟩ ⟨Dbl.fin 0, Dbl.fin 0, Dbl.fin 1⟩
      = Dbl.fin 0 ∧
    ((0 : ℝ) * 0 + 0 * 0 + 1 * 1 = 1) ∧
    (∀ t : ℝ, (0 + t * 0 - 5) ^ 2 + (0 + t * 0 - 0) ^ 2 + (-1000000000 + t * 1 - 0) ^ 2
      ≠ (1 : ℝ) ^ 2) ∧
    ((0 : ℝ) - 5) ^ 2 + (0 - 0) ^ 2 + (0 - 0) ^ 2 ≠ 1 ^ 2 := by
  have hdisc : discriminantD (Dbl.fin 1) ⟨Dbl.fin 5, Dbl.fin 0, Dbl.fin 0⟩
      ⟨Dbl.fin 0, Dbl.fin 0, Dbl.fin (-1000000000)⟩ ⟨Dbl.fin 0, Dbl.fin 0, Dbl.fin 1⟩
      = Dbl.fin 0 := by
    norm_num [discriminantD, Vec3D.sub, Vec3D.dot, Dbl.sub, Dbl.mul, Dbl.add, Dbl.round_zero,
      Dbl.round_one, Dbl.round_neg, Dbl.round_ofNat, Dbl.neg, round_1e18, round_1e18_add,
      round_1e18_sub, round_4e18]
  have h1 : rootOneD (Dbl.fin 1) ⟨Dbl.fin 5, Dbl.fin 0, Dbl.fin 0⟩
      ⟨Dbl.fin 0, Dbl.fin 0, Dbl.fin (-1000000000)⟩ ⟨Dbl.fin 0, Dbl.fin 0, Dbl.fin 1⟩
      = Dbl.fin 1000000000 := by
    unfold rootOneD
    rw [hdisc]
    norm_num [Vec3D.sub, Vec3D.dot, Dbl.sub, Dbl.mul, Dbl.add, Dbl.div, Dbl.sqrt,
      Dbl.round_zero, Dbl.round_one, Dbl.round_neg, Dbl.round_ofNat, Dbl.neg]
  have h2 : rootTwoD (Dbl.fin 1) ⟨Dbl.fin 5, Dbl.fin 0, Dbl.fin 0⟩
      ⟨Dbl.fin 0, Dbl.fin 0, Dbl.fin (-1000000000)⟩ ⟨Dbl.fin 0, Dbl.fin 0, Dbl.fin 1⟩
      = Dbl.fin 1000000000 := by
    unfold rootTwoD
    rw [hdisc]
    norm_num [Vec3D.sub, Vec3D.dot, Dbl.sub, Dbl.mul, Dbl.add, Dbl.div, Dbl.sqrt,
      Dbl.round_zero, Dbl.round_one, Dbl.round_neg, Dbl.round_ofNat, Dbl.neg]
  have hn : Vec3D.normalize ⟨Dbl.fin (-5), Dbl.fin 0, Dbl.fin 0⟩
      = ⟨Dbl.fin (-1), Dbl.fin 0, Dbl.fin 0⟩ := by
    have hl : Vec3D.length ⟨Dbl.fin (-5), Dbl.fin 0, Dbl.fin 0⟩ = Dbl.fin 5 := by
      norm_num [Vec3D.length, Dbl.mul, Dbl.add, Dbl.sqrt, Dbl.round_zero, Dbl.round_ofNat,
        sqrt_twentyfive]
    have hg : ¬ Dbl.lt (Dbl.fin 5) (Dbl.round 1e-10) := by
      rw [round_guard]
      show ¬ ((5 : ℝ) < 7737125245533627 * 2 ^ (-86 : ℤ))
      norm_num
    unfold Vec3D.normalize
    simp only
    rw [hl, if_neg hg]
    norm_num [Dbl.div, Dbl.round_zero, Dbl.round_one, Dbl.round_neg, Dbl.neg]
  have hhit : Vec3D.add ⟨Dbl.fin 0, Dbl.fin 0, Dbl.fin (-1000000000)⟩
      (Vec3D.scale ⟨Dbl.fin 0, Dbl.fin 0, Dbl.fin 1⟩ (Dbl.fin 1000000000))
      = ⟨Dbl.fin 0, Dbl.fin 0, Dbl.fin 0⟩ := by
    norm_num [Vec3D.add, Vec3D.scale, Dbl.mul, Dbl.add, Dbl.round_zero, Dbl.round_ofNat]
  have hoff : Vec3D.sub ⟨Dbl.fin 0, Dbl.fin 0, Dbl.fin 0⟩ ⟨Dbl.fin 5, Dbl.fin 0, Dbl.fin 0⟩
      = ⟨Dbl.fin (-5), Dbl.fin 0, Dbl.fin 0⟩ := by
    norm_num [Vec3D.sub, Dbl.sub, Dbl.round_zero, Dbl.round_ofNat, Dbl.round_neg, Dbl.neg]
  have hpos : Dbl.ge (Dbl.fin 1000000000) (Dbl.fin 0) := by
    show (1000000000 : ℝ) ≥ 0
    norm_num
  have hnl : ¬ Dbl.lt (Dbl.fin 1000000000) (Dbl.fin 0) := by
    show ¬ ((1000000000 : ℝ) < 0)
    norm_num
  have hself : ¬ Dbl.lt (Dbl.fin 1000000000) (Dbl.fin 1000000000) := by
    show ¬ ((1000000000 : ℝ) < 1000000000)
    norm_num
  have hd0 : ¬ Dbl.lt (Dbl.fin 0) (Dbl.fin 0) := by
    show ¬ ((0 : ℝ) < 0)
    norm_num
  have hc : ¬ (Dbl.ge (Dbl.fin 1000000000) (Dbl.fin 0) ∧
      (Dbl.lt (Dbl.fin 1000000000) (Dbl.fin 0) ∨
        Dbl.lt (Dbl.fin 1000000000) (Dbl.fin 1000000000))) := fun h => h.2.elim hnl hself
  refine ⟨?_, hdisc, by norm_num, ?_, by norm_num⟩
  · unfold Earth.intersectRayD
    simp only []
    rw [hdisc, h1, h2, Dbl.round_zero, if_neg hd0, if_pos hpos, if_neg hc, if_neg hnl, hhit,
      hoff, hn]
  · intro t
    nlinarith [sq_nonneg (-1000000000 + t * 1 - 0)]

lemma sqrt_thirtysix : Real.sqrt 36 = 6 := by
  rw [show (36 : ℝ) = 6 * 6 by norm_num]
  exact Real.sqrt_mul_self (by norm_num)

lemma sqrt_nine : Real.sqrt 9 = 3 := by
  rw [show (9 : ℝ) = 3 * 3 by norm_num]
  exact Real.sqrt_mul_self (by norm_num)

/-- The ray from `(0, 0, -8)` along `(0, 0, 1)` against the sphere of radius `3` about the
origin, in double precision: every operation is exact, the discriminant is `36` and the roots
are `5` and `11`. -/
lemma intersectRay_axis_scene :
    discriminantD (Dbl.fin 3) ⟨Dbl.fin 0, Dbl.fin 0, Dbl.fin 0⟩
        ⟨Dbl.fin 0, Dbl.fin 0, Dbl.fin (-8)⟩ ⟨Dbl.fin 0, Dbl.fin 0, Dbl.fin 1⟩ = Dbl.fin 36 ∧
    rootOneD (Dbl.fin 3) ⟨Dbl.fin 0, Dbl.fin 0, Dbl.fin 0⟩
        ⟨Dbl.fin 0, Dbl.fin 0, Dbl.fin (-8)⟩ ⟨Dbl.fin 0, Dbl.fin 0, Dbl.fin 1⟩ = Dbl.fin 5 ∧
    rootTwoD (Dbl.fin 3) ⟨Dbl.fin 0, Dbl.fin 0, Dbl.fin 0⟩
        ⟨Dbl.fin 0, Dbl.fin 0, Dbl.fin (-8)⟩ ⟨Dbl.fin 0, Dbl.fin 0, Dbl.fin 1⟩ = Dbl.fin 11 ∧
    Earth.intersectRayD (Dbl.fin 3) ⟨Dbl.fin 0, Dbl.fin 0, Dbl.fin 0⟩
        ⟨Dbl.fin 0, Dbl.fin 0, Dbl.fin (-8)⟩ ⟨Dbl.fin 0, Dbl.fin 0, Dbl.fin 1⟩
      = some (Dbl.fin 5, ⟨Dbl.fin 0, Dbl.fin 0, Dbl.fin (-3)⟩,
          ⟨Dbl.fin 0, Dbl.fin 0, Dbl.fin (-1)⟩) := by
  have hdisc : discriminantD (Dbl.fin 3) ⟨Dbl.fin 0, Dbl.fin 0, Dbl.fin 0⟩
      ⟨Dbl.fin 0, Dbl.fin 0, Dbl.fin (-8)⟩ ⟨Dbl.fin 0, Dbl.fin 0, Dbl.fin 1⟩ = Dbl.fin 36 := by
    norm_num [discriminantD, Vec3D.sub, Vec3D.dot, Dbl.sub, Dbl.mul, Dbl.add, Dbl.round_zero,
      Dbl.round_one, Dbl.round_neg, Dbl.round_ofNat, Dbl.neg]
  have h1 : rootOneD (Dbl.fin 3) ⟨Dbl.fin 0, Dbl.fin 0, Dbl.fin 0⟩
      ⟨Dbl.fin 0, Dbl.fin 0, Dbl.fin (-8)⟩ ⟨Dbl.fin 0, Dbl.fin 0, Dbl.fin 1⟩ = Dbl.fin 5 := by
    unfold rootOneD
    rw [hdisc]
    norm_num [Vec3D.sub, Vec3D.dot, Dbl.sub, Dbl.mul, Dbl.add, Dbl.div, Dbl.sqrt,
      Dbl.round_zero, Dbl.round_one, Dbl.round_neg, Dbl.round_ofNat, Dbl.neg, sqrt_thirtysix]
  have h2 : rootTwoD (Dbl.fin 3) ⟨Dbl.fin 0, Dbl.fin 0, Dbl.fin 0⟩
      ⟨Dbl.fin 0, Dbl.fin 0, Dbl.fin (-8)⟩ ⟨Dbl.fin 0, Dbl.fin 0, Dbl.fin 1⟩ = Dbl.fin 11 := by
    unfold rootTwoD
    rw [hdisc]
    norm_num [Vec3D.sub, Vec3D.dot, Dbl.sub, Dbl.mul, Dbl.add, Dbl.div, Dbl.sqrt,
      Dbl.round_zero, Dbl.round_one, Dbl.round_neg, Dbl.round_ofNat, Dbl.neg, sqrt_thirtysix]
  have hn : Vec3D.normalize ⟨Dbl.fin 0, Dbl.fin 0, Dbl.fin (-3)⟩
      = ⟨Dbl.fin 0, Dbl.fin 0, Dbl.fin (-1)⟩ := by
    have hl : Vec3D.length ⟨Dbl.fin 0, Dbl.fin 0, Dbl.fin (-3)⟩ = Dbl.fin 3 := by
      norm_num [Vec3D.length, Dbl.mul, Dbl.add, Dbl.sqrt, Dbl.round_zero, Dbl.round_ofNat,
        sqrt_nine]
    have hg : ¬ Dbl.lt (Dbl.fin 3) (Dbl.round 1e-10) := by
      rw [round_guard]
      show ¬ ((3 : ℝ) < 7737125245533627 * 2 ^ (-86 : ℤ))
      norm_num
    unfold Vec3D.normalize
    simp only
    rw [hl, if_neg hg]
    norm_num [Dbl.div, Dbl.round_zero, Dbl.round_one, Dbl.round_neg, Dbl.neg]
  have hhit : Vec3D.add ⟨Dbl.fin 0, Dbl.fin 0, Dbl.fin (-8)⟩
      (Vec3D.scale ⟨Dbl.fin 0, Dbl.fin 0, Dbl.fin 1⟩ (Dbl.fin 5))
      = ⟨Dbl.fin 0, Dbl.fin 0, Dbl.fin (-3)⟩ := by
    norm_num [Vec3D.add, Vec3D.scale, Dbl.mul, Dbl.add, Dbl.round_zero, Dbl.round_ofNat,
      Dbl.round_neg, Dbl.neg]
  have hoff : Vec3D.sub ⟨Dbl.fin 0, Dbl.fin 0, Dbl.fin (-3)⟩ ⟨Dbl.fin 0, Dbl.fin 0, Dbl.fin 0⟩
      = ⟨Dbl.fin 0, Dbl.fin 0, Dbl.fin (-3)⟩ := by
    norm_num [Vec3D.sub, Dbl.sub, Dbl.round_zero, Dbl.round_ofNat, Dbl.round_neg, Dbl.neg]
  have hpos : Dbl.ge (Dbl.fin 5) (Dbl.fin 0) := by
    show (5 : ℝ) ≥ 0
    norm_num
  have hnl : ¬ Dbl.lt (Dbl.fin 5) (Dbl.fin 0) := by
    show ¬ ((5 : ℝ) < 0)
    norm_num
  have hfar : ¬ Dbl.lt (Dbl.fin 11) (Dbl.fin 5) := by
    show ¬ ((11 : ℝ) < 5)
    norm_num
  have hd0 : ¬ Dbl.lt (Dbl.fin 36) (Dbl.fin 0) := by
    show ¬ ((36 : ℝ) < 0)
    norm_num
  have hc : ¬ (Dbl.ge (Dbl.fin 11) (Dbl.fin 0) ∧
      (Dbl.lt (Dbl.fin 5) (Dbl.fin 0) ∨ Dbl.lt (Dbl.fin 11) (Dbl.fin 5))) :=
    fun h => h.2.elim hnl hfar
  refine ⟨hdisc, h1, h2, ?_⟩
  unfold Earth.intersectRayD
  simp only []
  rw [hdisc, h1, h2, Dbl.round_zero, if_neg hd0, if_pos hpos, if_neg hc, if_neg hnl, hhit,
    hoff, hn]

/-- C1 (witness). The ray from `(0, 0, -8)` along `(0, 0, 1)` against the sphere of radius `3`
about the origin: the computed roots are `5` and `11`, a hit is reported, and the returned depth
`5` is the smaller root. -/
theorem intersectRay_selects_root_witness :
    Earth.intersectRayD (Dbl.fin 3) ⟨Dbl.fin 0, Dbl.fin 0, Dbl.fin 0⟩
        ⟨Dbl.fin 0, Dbl.fin 0, Dbl.fin (-8)⟩ ⟨Dbl.fin 0, Dbl.fin 0, Dbl.fin 1⟩
      = some (Dbl.fin 5, ⟨Dbl.fin 0, Dbl.fin 0, Dbl.fin (-3)⟩,
          ⟨Dbl.fin 0, Dbl.fin 0, Dbl.fin (-1)⟩) ∧
    ((Dbl.fin 5 = rootOneD (Dbl.fin 3) ⟨Dbl.fin 0, Dbl.fin 0, Dbl.fin 0⟩
          ⟨Dbl.fin 0, Dbl.fin 0, Dbl.fin (-8)⟩ ⟨Dbl.fin 0, Dbl.fin 0, Dbl.fin 1⟩ ∨
        Dbl.fin 5 = rootTwoD (Dbl.fin 3) ⟨Dbl.fin 0, Dbl.fin 0, Dbl.fin 0⟩
          ⟨Dbl.fin 0, Dbl.fin 0, Dbl.fin (-8)⟩ ⟨Dbl.fin 0, Dbl.fin 0, Dbl.fin 1⟩) ∧
      Dbl.ge (Dbl.fin 5) (Dbl.fin 0)) ∧
    rootTwoD (Dbl.fin 3) ⟨Dbl.fin 0, Dbl.fin 0, Dbl.fin 0⟩
        ⟨Dbl.fin 0, Dbl.fin 0, Dbl.fin (-8)⟩ ⟨Dbl.fin 0, Dbl.fin 0, Dbl.fin 1⟩ = Dbl.fin 11 :=
  ⟨intersectRay_axis_scene.2.2.2,
    ⟨((intersectRay_selects_root (Dbl.fin 3) ⟨Dbl.fin 0, Dbl.fin 0, Dbl.fin 0⟩
        ⟨Dbl.fin 0, Dbl.fin 0, Dbl.fin (-8)⟩ ⟨Dbl.fin 0, Dbl.fin 0, Dbl.fin 1⟩).2 _ _ _
        intersectRay_axis_scene.2.2.2).1,
      ((intersectRay_selects_root (Dbl.fin 3) ⟨Dbl.fin 0, Dbl.fin 0, Dbl.fin 0⟩
        ⟨Dbl.fin 0, Dbl.fin 0, Dbl.fin (-8)⟩ ⟨Dbl.fin 0, Dbl.fin 0, Dbl.fin 1⟩).2 _ _ _
        intersectRay_axis_scene.2.2.2).2.1⟩,
    intersectRay_axis_scene.2.2.1⟩

/-! ## The animation step of `main` in double precision -/

/-- The animation step of `main` keeps the phase in `[0, 2*PI)` in double precision: from a
finite phase `r` with `0 <= r < 2.0 * PI` the step yields a finite phase in the same range. -/
lemma animationStepD_range (r : ℝ) (h0 : 0 ≤ r) (h1 : Dbl.lt (Dbl.fin r) twoPiD) :
    ∃ r' : ℝ, animationStepD (Dbl.fin r) = Dbl.fin r' ∧ 0 ≤ r' ∧ Dbl.lt (Dbl.fin r') twoPiD := by
  classical
  rw [twoPiD_eq] at h1 ⊢
  have hT : r < 7074237752028440 * 2 ^ (-50 : ℤ) := h1
  have hT7 : (7074237752028440 : ℝ) * 2 ^ (-50 : ℤ) < 7 := by norm_num
  have hT6 : (6 : ℝ) < 7074237752028440 * 2 ^ (-50 : ℤ) := by norm_num
  have hη := eta_le
  have hs : Dbl.round 0.03 = Dbl.fin (rnd 0.03) := Dbl.round_of_abs_le _ (by norm_num [abs_le])
  obtain ⟨hs0, _, hs1⟩ := rnd_bounds 0.03 (by norm_num)
  have hs2 : rnd 0.03 ≤ 0.04 := by
    have : (1 + 1 / 2 ^ 53) * (0.03 : ℝ) + 1 / 2 ^ 1000 ≤ 0.04 := by norm_num
    linarith
  have hx : Dbl.round (r + rnd 0.03) = Dbl.fin (rnd (r + rnd 0.03)) :=
    Dbl.round_of_abs_le _ (by rw [abs_of_nonneg (by linarith)]; norm_num; linarith)
  obtain ⟨hx0, _, hx1⟩ := rnd_bounds (r + rnd 0.03) (by linarith)
  unfold animationStepD
  simp only []
  rw [hs, twoPiD_eq]
  simp only [Dbl.add]
  rw [hx]
  generalize rnd (r + rnd 0.03) = x at hx0 hx1
  generalize rnd 0.03 = s at hs0 hs2 hx1
  by_cases hge : Dbl.ge (Dbl.fin x) (Dbl.fin (7074237752028440 * 2 ^ (-50 : ℤ)))
  · rw [if_pos hge]
    have hge' : 7074237752028440 * 2 ^ (-50 : ℤ) ≤ x := hge
    have hd1 : x - 7074237752028440 * 2 ^ (-50 : ℤ) ≤ 1 := by
      have : (1 / 2 ^ 53 : ℝ) * (r + s) ≤ 1 / 2 ^ 53 * 8 :=
        mul_le_mul_of_nonneg_left (by linarith) (by positivity)
      have : (1 / 2 ^ 53 : ℝ) * 8 + 1 / 2 ^ 1000 ≤ 0.5 := by norm_num
      linarith
    have hy : Dbl.round (x - 7074237752028440 * 2 ^ (-50 : ℤ))
        = Dbl.fin (rnd (x - 7074237752028440 * 2 ^ (-50 : ℤ))) :=
      Dbl.round_of_abs_le _ (by rw [abs_of_nonneg (by linarith)]; norm_num; linarith)
    obtain ⟨hy0, _, hy1⟩ := rnd_bounds (x - 7074237752028440 * 2 ^ (-50 : ℤ)) (by linarith)
    simp only [Dbl.sub]
    rw [hy]
    refine ⟨_, rfl, hy0, ?_⟩
    show rnd (x - 7074237752028440 * 2 ^ (-50 : ℤ)) < 7074237752028440 * 2 ^ (-50 : ℤ)
    have : (1 + 1 / 2 ^ 53 : ℝ) * (x - 7074237752028440 * 2 ^ (-50 : ℤ)) ≤ (1 + 1 / 2 ^ 53) * 1 :=
      mul_le_mul_of_nonneg_left hd1 (by positivity)
    have : (1 + 1 / 2 ^ 53 : ℝ) * 1 + 1 / 2 ^ 1000 < 6 := by norm_num
    generalize rnd (x - 7074237752028440 * 2 ^ (-50 : ℤ)) = y at hy1 ⊢
    generalize (1 + 1 / 2 ^ 53 : ℝ) * (x - 7074237752028440 * 2 ^ (-50 : ℤ)) = p at *
    generalize (7074237752028440 : ℝ) * 2 ^ (-50 : ℤ) = T at *
    generalize (2 : ℝ) ^ (-1075 : ℤ) = η at *
    generalize (1 + 1 / 2 ^ 53 : ℝ) * 1 = q at *
    generalize (1 : ℝ) / 2 ^ 1000 = w at *
    linarith
  · rw [if_neg hge]
    exact ⟨x, rfl, hx0, not_le.mp hge⟩


/-! ## The ray aimed at the centre in double precision -/

namespace Dbl

/-- Below `2^250` in magnitude an operation returns the rounded exact result. -/
lemma round_of_abs_le_big (t : ℝ) (h : |t| ≤ 2 ^ 250) : round t = fin (rnd t) := by
  have h1 := rnd_abs_sub_le t
  have hu : (2 : ℝ) ^ (-53 : ℤ) ≤ 1 := by
    rw [show (1 : ℝ) = 2 ^ (0 : ℤ) by norm_num]
    exact zpow_le_zpow_right₀ (by norm_num) (by norm_num)
  have hη : (2 : ℝ) ^ (-1075 : ℤ) ≤ 1 := by
    rw [show (1 : ℝ) = 2 ^ (0 : ℤ) by norm_num]
    exact zpow_le_zpow_right₀ (by norm_num) (by norm_num)
  have h2 : |rnd t| ≤ |rnd t - t| + |t| := by
    have := abs_add (rnd t - t) t
    rwa [sub_add_cancel] at this
  have h3 : (2 : ℝ) ^ (-53 : ℤ) * |t| ≤ 1 * |t| :=
    mul_le_mul_of_nonneg_right hu (abs_nonneg t)
  have h4 : (2 : ℝ) ^ 250 + 2 ^ 250 + 1 < 2 ^ (1024 : ℤ) := by
    have h5 : (2 : ℝ) ^ (252 : ℤ) ≤ 2 ^ (1024 : ℤ) :=
      zpow_le_zpow_right₀ (by norm_num) (by norm_num)
    have e : (2 : ℝ) ^ (252 : ℤ) = 4 * 2 ^ 250 := by
      rw [show (252 : ℤ) = 2 + 250 by rfl, zpow_add₀ (two_ne_zero), zpow_ofNat, zpow_ofNat,
        show (2 : ℝ) ^ 2 = 4 by norm_num]
    have h6 : (1 : ℝ) ≤ 2 ^ 250 := one_le_pow₀ (by norm_num)
    linarith
  unfold round
  rw [if_neg (not_le.mpr (by linarith))]

end Dbl

/-- Away from the subnormal range the rounding has the relative error `1.01 * 2^-53`. -/
lemma rnd_rel (t : ℝ) (ht : 1 / 2 ^ 400 ≤ |t|) : |rnd t - t| ≤ 101 / (100 * 2 ^ 53) * |t| := by
  have h1 := rnd_abs_sub_le t
  have hu : (2 : ℝ) ^ (-53 : ℤ) = 1 / 2 ^ 53 := by norm_num
  have hη := eta_le
  have h2 : (1 : ℝ) / 2 ^ 1000 ≤ 1 / (100 * 2 ^ 53) * (1 / 2 ^ 400) := by norm_num
  have h3 : (1 : ℝ) / (100 * 2 ^ 53) * (1 / 2 ^ 400) ≤ 1 / (100 * 2 ^ 53) * |t| :=
    mul_le_mul_of_nonneg_left ht (by positivity)
  rw [hu] at h1
  generalize (2 : ℝ) ^ (-1075 : ℤ) = η at *
  generalize |rnd t - t| = e at *
  generalize |t| = T at *
  linarith

/-- The rounding of a number of at least `2^-400`, as an interval. -/
lemma rnd_rel_pos (t : ℝ) (ht : 1 / 2 ^ 400 ≤ t) :
    0 ≤ rnd t ∧ (1 - 101 / (100 * 2 ^ 53)) * t ≤ rnd t ∧
    rnd t ≤ (1 + 101 / (100 * 2 ^ 53)) * t := by
  have h0 : (0 : ℝ) ≤ t := le_trans (by positivity) ht
  have h := rnd_rel t (by rwa [abs_of_nonneg h0])
  rw [abs_of_nonneg h0, abs_le] at h
  exact ⟨rnd_nonneg t h0, by linarith, by linarith⟩

/-- The rounded sum `X + Y + Z` of three non-negative numbers against the exact one. -/
lemma sum3_rnd_bounds (X Y Z : ℝ) (hX : 0 ≤ X) (hY : 0 ≤ Y) (hZ : 0 ≤ Z) :
    0 ≤ rnd (rnd (rnd X + rnd Y) + rnd Z) ∧
    (1 - 301 / (100 * 2 ^ 53)) * (X + Y + Z) - 6 * (2 : ℝ) ^ (-1075 : ℤ)
      ≤ rnd (rnd (rnd X + rnd Y) + rnd Z) ∧
    rnd (rnd (rnd X + rnd Y) + rnd Z)
      ≤ (1 + 301 / (100 * 2 ^ 53)) * (X + Y + Z) + 6 * (2 : ℝ) ^ (-1075 : ℤ) := by
  obtain ⟨x0, x1, x2⟩ := rnd_bounds X hX
  obtain ⟨y0, y1, y2⟩ := rnd_bounds Y hY
  obtain ⟨z0, z1, z2⟩ := rnd_bounds Z hZ
  obtain ⟨a0, a1, a2⟩ := rnd_bounds (rnd X + rnd Y) (by linarith)
  obtain ⟨b0, b1, b2⟩ := rnd_bounds (rnd (rnd X + rnd Y) + rnd Z) (by linarith)
  have hη : (0 : ℝ) ≤ 2 ^ (-1075 : ℤ) := by positivity
  generalize (2 : ℝ) ^ (-1075 : ℤ) = η at *
  generalize rnd (rnd (rnd X + rnd Y) + rnd Z) = S at *
  generalize rnd (rnd X + rnd Y) = s1 at *
  generalize rnd X = sx at *
  generalize rnd Y = sy at *
  generalize rnd Z = sz at *
  refine ⟨b0, ?_, ?_⟩
  · nlinarith
  · nlinarith

/-- The square of a rounded number against the square of the exact one. -/
lemma rnd_sq_bounds (e : ℝ) (he : |e| ≤ 2 ^ 100) :
    |rnd e * rnd e - e * e| ≤ 201 / (100 * 2 ^ 53) * (e * e) + 1 / 2 ^ 890 := by
  have h := rnd_abs_sub_le e
  have hu : (2 : ℝ) ^ (-53 : ℤ) = 1 / 2 ^ 53 := by norm_num
  have hη := eta_le
  have hη0 : (0 : ℝ) ≤ 2 ^ (-1075 : ℤ) := by positivity
  rw [hu] at h
  have hA : 0 ≤ |e| := abs_nonneg e
  have hAA : |e| * |e| = e * e := abs_mul_abs_self e
  have hD : 0 ≤ |rnd e - e| := abs_nonneg _
  have hS : 0 ≤ |rnd e + e| := abs_nonneg _
  have hsum : |rnd e + e| ≤ 2 * |e| + |rnd e - e| := by
    have := abs_add (rnd e - e) (2 * e)
    rw [show rnd e - e + 2 * e = rnd e + e by ring, abs_mul, abs_two] at this
    linarith
  have hfac : |rnd e * rnd e - e * e| = |rnd e - e| * |rnd e + e| := by
    rw [← abs_mul]; congr 1; ring
  rw [hfac]
  generalize (2 : ℝ) ^ (-1075 : ℤ) = η at *
  generalize |rnd e - e| = D at *
  generalize |rnd e + e| = S at *
  rw [← hAA]
  generalize |e| = A at *
  have hS0 : 0 ≤ 2 * A + D := by linarith
  have h1 : D * S ≤ (1 / 2 ^ 53 * A + η) * (2 * A + (1 / 2 ^ 53 * A + η)) :=
    mul_le_mul h (by linarith) hS (by positivity)
  have h2 : A * η ≤ 2 ^ 100 * η := mul_le_mul_of_nonneg_right he hη0
  have h3 : η * η ≤ 1 * η := mul_le_mul_of_nonneg_right (by linarith [(by norm_num : (1 : ℝ) / 2 ^ 1000 ≤ 1)]) hη0
  have h4 : (2 ^ 100 * 3 + 1) * η ≤ (2 ^ 100 * 3 + 1) * (1 / 2 ^ 1000) :=
    mul_le_mul_of_nonneg_left hη (by positivity)
  have h5 : ((2 : ℝ) ^ 100 * 3 + 1) * (1 / 2 ^ 1000) ≤ 1 / 2 ^ 890 := by norm_num
  have h6 : 0 ≤ A * A := mul_nonneg hA hA
  have h7 : (1 / 2 ^ 53 * A + η) * (2 * A + (1 / 2 ^ 53 * A + η))
      = (2 / 2 ^ 53 + 1 / 2 ^ 53 * (1 / 2 ^ 53)) * (A * A) + (2 + 2 / 2 ^ 53) * (A * η)
        + η * η := by ring
  have h8 : ((2 : ℝ) / 2 ^ 53 + 1 / 2 ^ 53 * (1 / 2 ^ 53)) * (A * A)
      ≤ 201 / (100 * 2 ^ 53) * (A * A) :=
    mul_le_mul_of_nonneg_right (by norm_num) h6
  have h9 : ((2 : ℝ) + 2 / 2 ^ 53) * (A * η) ≤ 3 * (A * η) :=
    mul_le_mul_of_nonneg_right (by norm_num) (mul_nonneg hA hη0)
  generalize A * A = AA at *
  generalize A * η = Aη at *
  generalize η * η = ηη at *
  generalize D * S = DS at *
  linarith

/-- The squared length of a rounded difference vector against the exact squared length. -/
lemma diff_sumsq_bounds (e1 e2 e3 : ℝ) (h1 : |e1| ≤ 2 ^ 100) (h2 : |e2| ≤ 2 ^ 100)
    (h3 : |e3| ≤ 2 ^ 100) (hd : 1 / 2 ^ 60 ≤ e1 * e1 + e2 * e2 + e3 * e3) :
    (1 - 202 / (100 * 2 ^ 53)) * (e1 * e1 + e2 * e2 + e3 * e3)
      ≤ rnd e1 * rnd e1 + rnd e2 * rnd e2 + rnd e3 * rnd e3 ∧
    rnd e1 * rnd e1 + rnd e2 * rnd e2 + rnd e3 * rnd e3
      ≤ (1 + 202 / (100 * 2 ^ 53)) * (e1 * e1 + e2 * e2 + e3 * e3) := by
  have b1 := abs_le.mp (rnd_sq_bounds e1 h1)
  have b2 := abs_le.mp (rnd_sq_bounds e2 h2)
  have b3 := abs_le.mp (rnd_sq_bounds e3 h3)
  have ht : 3 * ((1 : ℝ) / 2 ^ 890) ≤ 1 / (100 * 2 ^ 53) * (1 / 2 ^ 60) := by norm_num
  have ht2 : (1 : ℝ) / (100 * 2 ^ 53) * (1 / 2 ^ 60)
      ≤ 1 / (100 * 2 ^ 53) * (e1 * e1 + e2 * e2 + e3 * e3) :=
    mul_le_mul_of_nonneg_left hd (by positivity)
  generalize rnd e1 * rnd e1 = a1 at *
  generalize rnd e2 * rnd e2 = a2 at *
  generalize rnd e3 * rnd e3 = a3 at *
  generalize e1 * e1 = x1 at *
  generalize e2 * e2 = x2 at *
  generalize e3 * e3 = x3 at *
  generalize (1 : ℝ) / 2 ^ 890 = τ at *
  constructor <;> linarith [b1.1, b1.2, b2.1, b2.2, b3.1, b3.2]

/-- Linear bounds from bounds on the squares. -/
lemma bounds_of_sq_bounds (x y lo hi : ℝ) (hx : 0 ≤ x) (hy : 0 ≤ y) (hlo : 0 ≤ lo)
    (hhi : 0 ≤ hi) (h1 : lo * lo * (y * y) ≤ x * x) (h2 : x * x ≤ hi * hi * (y * y)) :
    lo * y ≤ x ∧ x ≤ hi * y := by
  constructor
  · rw [mul_self_le_mul_self_iff (mul_nonneg hlo hy) hx]
    calc lo * y * (lo * y) = lo * lo * (y * y) := by ring
      _ ≤ x * x := h1
  · rw [mul_self_le_mul_self_iff hx (mul_nonneg hhi hy)]
    calc x * x ≤ hi * hi * (y * y) := h2
      _ = hi * y * (hi * y) := by ring

/-- One term of the dot product of a vector with its normalisation: `w * rnd (w / L)` is
non-negative and close to `w * w / L`. -/
lemma mul_rnd_div_bounds (w L : ℝ) (hL : 0 < L) :
    0 ≤ w * rnd (w / L) ∧
    |w * rnd (w / L) - w * w / L| ≤ 1 / 2 ^ 53 * (w * w / L) + |w| * (2 : ℝ) ^ (-1075 : ℤ) := by
  constructor
  · by_cases hw : 0 ≤ w
    · exact mul_nonneg hw (rnd_nonneg _ (div_nonneg hw hL.le))
    · have hw' : 0 ≤ -w := by linarith
      have h := rnd_nonneg (-w / L) (div_nonneg hw' hL.le)
      rw [neg_div, rnd_neg] at h
      nlinarith
  · have h := rnd_abs_sub_le (w / L)
    have hu : (2 : ℝ) ^ (-53 : ℤ) = 1 / 2 ^ 53 := by norm_num
    rw [hu] at h
    have e1 : w * rnd (w / L) - w * w / L = w * (rnd (w / L) - w / L) := by ring
    have e2 : |w| * |w / L| = w * w / L := by
      rw [abs_div, abs_of_pos hL, ← mul_div_assoc, abs_mul_abs_self]
    rw [e1, abs_mul]
    calc |w| * |rnd (w / L) - w / L|
        ≤ |w| * (1 / 2 ^ 53 * |w / L| + (2 : ℝ) ^ (-1075 : ℤ)) :=
          mul_le_mul_of_nonneg_left h (abs_nonneg w)
      _ = 1 / 2 ^ 53 * (|w| * |w / L|) + |w| * (2 : ℝ) ^ (-1075 : ℤ) := by ring
      _ = 1 / 2 ^ 53 * (w * w / L) + |w| * (2 : ℝ) ^ (-1075 : ℤ) := by rw [e2]

/-- The dot product of a vector `w` with its normalisation `rnd (w / L)`, componentwise in
double precision, against the exact length `W` of `w`, when the divisor `L` is within the
factor `1 ± 2.6 * 2^-53` of `W`. -/
lemma dot_toward_bounds (w1 w2 w3 L W : ℝ) (h1 : |w1| ≤ 2 ^ 101) (h2 : |w2| ≤ 2 ^ 101)
    (h3 : |w3| ≤ 2 ^ 101) (hW : 1 / 2 ^ 31 ≤ W) (hW2 : W * W = w1 * w1 + w2 * w2 + w3 * w3)
    (hL : 0 < L) (hLlo : (1 - 26 / (10 * 2 ^ 53)) * W ≤ L)
    (hLhi : L ≤ (1 + 26 / (10 * 2 ^ 53)) * W) :
    (1 - 68 / (10 * 2 ^ 53)) * W
      ≤ rnd (rnd (rnd (w1 * rnd (w1 / L)) + rnd (w2 * rnd (w2 / L))) + rnd (w3 * rnd (w3 / L))) ∧
    rnd (rnd (rnd (w1 * rnd (w1 / L)) + rnd (w2 * rnd (w2 / L))) + rnd (w3 * rnd (w3 / L)))
      ≤ (1 + 68 / (10 * 2 ^ 53)) * W := by
  obtain ⟨p1, q1⟩ := mul_rnd_div_bounds w1 L hL
  obtain ⟨p2, q2⟩ := mul_rnd_div_bounds w2 L hL
  obtain ⟨p3, q3⟩ := mul_rnd_div_bounds w3 L hL
  obtain ⟨_, s1, s2⟩ := sum3_rnd_bounds _ _ _ p1 p2 p3
  have hη := eta_le
  have hη0 : (0 : ℝ) ≤ 2 ^ (-1075 : ℤ) := by positivity
  have hW0 : 0 < W := lt_of_lt_of_le (by positivity) hW
  rw [abs_le] at q1 q2 q3
  -- the exact value `G = W * W / L`
  have hG : w1 * w1 / L + w2 * w2 / L + w3 * w3 / L = W * W / L := by
    rw [hW2]; ring
  have hG0 : 0 ≤ W * W / L := div_nonneg (mul_nonneg hW0.le hW0.le) hL.le
  have hGL : W * W / L * L = W * W := div_mul_cancel₀ _ (ne_of_gt hL)
  have hG1 : W * W / L * (1 - 26 / (10 * 2 ^ 53)) ≤ W := by
    have : W * W / L * ((1 - 26 / (10 * 2 ^ 53)) * W) ≤ W * W / L * L :=
      mul_le_mul_of_nonneg_left hLlo hG0
    rw [hGL] at this
    apply le_of_mul_le_mul_right _ hW0
    calc W * W / L * (1 - 26 / (10 * 2 ^ 53)) * W
        = W * W / L * ((1 - 26 / (10 * 2 ^ 53)) * W) := by ring
      _ ≤ W * W := this
  have hG2 : W ≤ W * W / L * (1 + 26 / (10 * 2 ^ 53)) := by
    have : W * W / L * L ≤ W * W / L * ((1 + 26 / (10 * 2 ^ 53)) * W) :=
      mul_le_mul_of_nonneg_left hLhi hG0
    rw [hGL] at this
    apply le_of_mul_le_mul_right _ hW0
    calc W * W ≤ W * W / L * ((1 + 26 / (10 * 2 ^ 53)) * W) := this
      _ = W * W / L * (1 + 26 / (10 * 2 ^ 53)) * W := by ring
  have t1 : |w1| * (2 : ℝ) ^ (-1075 : ℤ) ≤ 2 ^ 101 * (2 : ℝ) ^ (-1075 : ℤ) :=
    mul_le_mul_of_nonneg_right h1 hη0
  have t2 : |w2| * (2 : ℝ) ^ (-1075 : ℤ) ≤ 2 ^ 101 * (2 : ℝ) ^ (-1075 : ℤ) :=
    mul_le_mul_of_nonneg_right h2 hη0
  have t3 : |w3| * (2 : ℝ) ^ (-1075 : ℤ) ≤ 2 ^ 101 * (2 : ℝ) ^ (-1075 : ℤ) :=
    mul_le_mul_of_nonneg_right h3 hη0
  have n1 : 0 ≤ |w1| * (2 : ℝ) ^ (-1075 : ℤ) := mul_nonneg (abs_nonneg _) hη0
  have n2 : 0 ≤ |w2| * (2 : ℝ) ^ (-1075 : ℤ) := mul_nonneg (abs_nonneg _) hη0
  have n3 : 0 ≤ |w3| * (2 : ℝ) ^ (-1075 : ℤ) := mul_nonneg (abs_nonneg _) hη0
  have t4 : (2 : ℝ) ^ 101 * (2 : ℝ) ^ (-1075 : ℤ) ≤ 2 ^ 101 * (1 / 2 ^ 1000) :=
    mul_le_mul_of_nonneg_left hη (by positivity)
  have t5 : (4 : ℝ) * (2 ^ 101 * (1 / 2 ^ 1000)) + 6 * (1 / 2 ^ 1000)
      ≤ 1 / (100 * 2 ^ 53) * (1 / 2 ^ 31) := by norm_num
  have t6 : (1 : ℝ) / (100 * 2 ^ 53) * (1 / 2 ^ 31) ≤ 1 / (100 * 2 ^ 53) * W :=
    mul_le_mul_of_nonneg_left hW (by positivity)
  generalize rnd (rnd (rnd (w1 * rnd (w1 / L)) + rnd (w2 * rnd (w2 / L)))
    + rnd (w3 * rnd (w3 / L))) = P at *
  generalize w1 * rnd (w1 / L) = y1 at *
  generalize w2 * rnd (w2 / L) = y2 at *
  generalize w3 * rnd (w3 / L) = y3 at *
  generalize |w1| * (2 : ℝ) ^ (-1075 : ℤ) = z1 at *
  generalize |w2| * (2 : ℝ) ^ (-1075 : ℤ) = z2 at *
  generalize |w3| * (2 : ℝ) ^ (-1075 : ℤ) = z3 at *
  generalize (2 : ℝ) ^ 101 * (2 : ℝ) ^ (-1075 : ℤ) = z at *
  generalize (2 : ℝ) ^ (-1075 : ℤ) = η at *
  generalize (2 : ℝ) ^ 101 * (1 / 2 ^ 1000) = z' at *
  generalize (1 : ℝ) / 2 ^ 1000 = η' at *
  generalize (1 : ℝ) / (100 * 2 ^ 53) * (1 / 2 ^ 31) = m at *
  generalize hg1 : w1 * w1 / L = g1 at *
  generalize hg2 : w2 * w2 / L = g2 at *
  generalize hg3 : w3 * w3 / L = g3 at *
  generalize W * W / L = G at *
  constructor
  · linarith [q1.1, q2.1, q3.1]
  · linarith [q1.2, q2.2, q3.2]

/-- The coefficient `b = 2 * (oc . D)` and its square in double precision: with `P` the computed
value of `-(oc . D)`, within the factor `1 ± 6.8 * 2^-53` of the length `W`, the value
`B = rnd (2 * P)` is within `1 ± 7.9 * 2^-53` of `2 * W` and `rnd (B * B)` is within
`1 ± 17 * 2^-53` of `4 * W * W`. -/
lemma b_sq_bounds (W P : ℝ) (hW : 1 / 2 ^ 31 ≤ W)
    (hP1 : (1 - 68 / (10 * 2 ^ 53)) * W ≤ P) (hP2 : P ≤ (1 + 68 / (10 * 2 ^ 53)) * W) :
    ((1 - 79 / (10 * 2 ^ 53)) * (2 * W) ≤ rnd (2 * P) ∧
      rnd (2 * P) ≤ (1 + 79 / (10 * 2 ^ 53)) * (2 * W)) ∧
    (1 - 17 / 2 ^ 53) * (4 * (W * W)) ≤ rnd (rnd (2 * P) * rnd (2 * P)) ∧
    rnd (rnd (2 * P) * rnd (2 * P)) ≤ (1 + 17 / 2 ^ 53) * (4 * (W * W)) := by
  have hW0 : 0 < W := lt_of_lt_of_le (by positivity) hW
  have hP0 : 1 / 2 ^ 400 ≤ 2 * P := by
    have : (1 : ℝ) / 2 ^ 400 ≤ 2 * ((1 - 68 / (10 * 2 ^ 53)) * (1 / 2 ^ 31)) := by norm_num
    have : (1 - 68 / (10 * 2 ^ 53)) * (1 / 2 ^ 31) ≤ (1 - 68 / (10 * 2 ^ 53)) * W :=
      mul_le_mul_of_nonneg_left hW (by norm_num)
    linarith
  obtain ⟨hB0, hB1, hB2⟩ := rnd_rel_pos (2 * P) hP0
  have hB3 : (1 - 79 / (10 * 2 ^ 53)) * (2 * W) ≤ rnd (2 * P) := by linarith
  have hB4 : rnd (2 * P) ≤ (1 + 79 / (10 * 2 ^ 53)) * (2 * W) := by linarith
  have hlo : 0 ≤ (1 - 79 / (10 * 2 ^ 53)) * (2 * W) :=
    mul_nonneg (by norm_num) (by linarith)
  have hsq1 := mul_self_le_mul_self hlo hB3
  have hsq2 := mul_self_le_mul_self hB0 hB4
  have hWW : 0 < W * W := mul_pos hW0 hW0
  have hBB0 : 1 / 2 ^ 400 ≤ rnd (2 * P) * rnd (2 * P) := by
    have h1 : (1 / 2 ^ 31 : ℝ) * (1 / 2 ^ 31) ≤ W * W := mul_self_le_mul_self (by positivity) hW
    have h2 : (1 : ℝ) / 2 ^ 400
        ≤ (1 - 79 / (10 * 2 ^ 53)) * 2 * ((1 - 79 / (10 * 2 ^ 53)) * 2)
          * (1 / 2 ^ 31 * (1 / 2 ^ 31)) := by norm_num
    have h3 : (1 - 79 / (10 * 2 ^ 53)) * 2 * ((1 - 79 / (10 * 2 ^ 53)) * 2)
          * (1 / 2 ^ 31 * (1 / 2 ^ 31))
        ≤ (1 - 79 / (10 * 2 ^ 53)) * 2 * ((1 - 79 / (10 * 2 ^ 53)) * 2) * (W * W) :=
      mul_le_mul_of_nonneg_left h1 (by norm_num)
    have h4 : (1 - 79 / (10 * 2 ^ 53)) * (2 * W) * ((1 - 79 / (10 * 2 ^ 53)) * (2 * W))
        = (1 - 79 / (10 * 2 ^ 53)) * 2 * ((1 - 79 / (10 * 2 ^ 53)) * 2) * (W * W) := by ring
    linarith
  obtain ⟨_, hb1, hb2⟩ := rnd_rel_pos _ hBB0
  refine ⟨⟨hB3, hB4⟩, ?_, ?_⟩
  · generalize rnd (rnd (2 * P) * rnd (2 * P)) = bb at *
    generalize rnd (2 * P) * rnd (2 * P) = BB at *
    nlinarith
  · generalize rnd (rnd (2 * P) * rnd (2 * P)) = bb at *
    generalize rnd (2 * P) * rnd (2 * P) = BB at *
    nlinarith

/-- The product `4 * a * c` of the discriminant in double precision, with `a` within
`10.3 * 2^-53` of `1`, `s` the computed squared length within `1 ± 3.02 * 2^-53` of `W2`, and
`c = rnd (s - rnd (r * r))`. -/
lemma four_a_c_bounds (W2 r a s : ℝ) (hr : 1 / 2 ^ 60 ≤ r * r)
    (hWr : (1 + 1 / 2 ^ 47) * (r * r) ≤ W2)
    (ha1 : 1 - 103 / (10 * 2 ^ 53) ≤ a) (ha2 : a ≤ 1 + 103 / (10 * 2 ^ 53))
    (hs1 : (1 - 302 / (100 * 2 ^ 53)) * W2 ≤ s) (hs2 : s ≤ (1 + 302 / (100 * 2 ^ 53)) * W2) :
    (1 / 2 ^ 400 ≤ s - rnd (r * r) ∧ 1 / 2 ^ 400 ≤ rnd (4 * a) * rnd (s - rnd (r * r))) ∧
    (1 - 166 / (10 * 2 ^ 53)) * (4 * W2) - (1 + 101 / (100 * 2 ^ 53)) * (4 * (r * r))
      ≤ rnd (rnd (4 * a) * rnd (s - rnd (r * r))) ∧
    rnd (rnd (4 * a) * rnd (s - rnd (r * r)))
      ≤ (1 + 166 / (10 * 2 ^ 53)) * (4 * W2) - (1 - 101 / (100 * 2 ^ 53)) * (4 * (r * r)) := by
  have hr0 : (0 : ℝ) < r * r := lt_of_lt_of_le (by positivity) hr
  obtain ⟨_, hrr1, hrr2⟩ := rnd_rel_pos (r * r) (le_trans (by norm_num) hr)
  -- the difference `s - rr`
  have hx1 : 59 / 2 ^ 53 * (r * r) ≤ s - rnd (r * r) := by
    have : (1 - 302 / (100 * 2 ^ 53)) * ((1 + 1 / 2 ^ 47) * (r * r))
        ≤ (1 - 302 / (100 * 2 ^ 53)) * W2 := mul_le_mul_of_nonneg_left hWr (by norm_num)
    linarith
  have hx0 : 1 / 2 ^ 400 ≤ s - rnd (r * r) := by
    have : (59 : ℝ) / 2 ^ 53 * (1 / 2 ^ 60) ≤ 59 / 2 ^ 53 * (r * r) :=
      mul_le_mul_of_nonneg_left hr (by norm_num)
    have : (1 : ℝ) / 2 ^ 400 ≤ 59 / 2 ^ 53 * (1 / 2 ^ 60) := by norm_num
    linarith
  obtain ⟨hc0, hc1, hc2⟩ := rnd_rel_pos _ hx0
  obtain ⟨hf0, hf1, hf2⟩ := rnd_rel_pos (4 * a) (by
    have : (1 : ℝ) / 2 ^ 400 ≤ 4 * (1 - 103 / (10 * 2 ^ 53)) := by norm_num
    linarith)
  -- numeric bounds of `fa`
  have hf3 : (1 - 114 / (10 * 2 ^ 53)) * 4 ≤ rnd (4 * a) := by
    have : (1 - 114 / (10 * 2 ^ 53)) * 4
        ≤ (1 - 101 / (100 * 2 ^ 53)) * (4 * (1 - 103 / (10 * 2 ^ 53)) : ℝ) := by norm_num
    have : (1 - 101 / (100 * 2 ^ 53)) * (4 * (1 - 103 / (10 * 2 ^ 53)))
        ≤ (1 - 101 / (100 * 2 ^ 53)) * (4 * a) :=
      mul_le_mul_of_nonneg_left (by linarith) (by norm_num)
    linarith
  have hf4 : rnd (4 * a) ≤ (1 + 114 / (10 * 2 ^ 53)) * 4 := by
    have : (1 + 101 / (100 * 2 ^ 53)) * (4 * (1 + 103 / (10 * 2 ^ 53)) : ℝ)
        ≤ (1 + 114 / (10 * 2 ^ 53)) * 4 := by norm_num
    have : (1 + 101 / (100 * 2 ^ 53)) * (4 * a)
        ≤ (1 + 101 / (100 * 2 ^ 53)) * (4 * (1 + 103 / (10 * 2 ^ 53))) :=
      mul_le_mul_of_nonneg_left (by linarith) (by norm_num)
    linarith
  -- bounds of `c`
  have hclo : 0 ≤ (1 - 101 / (100 * 2 ^ 53)) * (s - rnd (r * r)) :=
    mul_nonneg (by norm_num) (by linarith)
  have hp1 := mul_le_mul hf3 hc1 hclo hf0
  have hp2 := mul_le_mul hf4 hc2 hc0 (by norm_num : (0 : ℝ) ≤ (1 + 114 / (10 * 2 ^ 53)) * 4)
  have hp0 : 1 / 2 ^ 400 ≤ rnd (4 * a) * rnd (s - rnd (r * r)) := by
    have h1 : (1 - 114 / (10 * 2 ^ 53)) * 4 * ((1 - 101 / (100 * 2 ^ 53)) * (1 / 2 ^ 400))
        ≤ (1 - 114 / (10 * 2 ^ 53)) * 4 * ((1 - 101 / (100 * 2 ^ 53)) * (s - rnd (r * r))) :=
      mul_le_mul_of_nonneg_left (mul_le_mul_of_nonneg_left hx0 (by norm_num)) (by norm_num)
    have h2 : (1 : ℝ) / 2 ^ 400
        ≤ (1 - 114 / (10 * 2 ^ 53)) * 4 * ((1 - 101 / (100 * 2 ^ 53)) * (1 / 2 ^ 400)) := by
      norm_num
    linarith
  obtain ⟨_, hq1, hq2⟩ := rnd_rel_pos _ hp0
  refine ⟨⟨hx0, hp0⟩, ?_, ?_⟩
  · generalize rnd (rnd (4 * a) * rnd (s - rnd (r * r))) = fac at *
    generalize rnd (4 * a) * rnd (s - rnd (r * r)) = fc at *
    generalize rnd (s - rnd (r * r)) = c at *
    generalize rnd (4 * a) = fa at *
    generalize rnd (r * r) = rr at *
    generalize r * r = r2 at *
    have e1 : (1 - 101 / (100 * 2 ^ 53)) * ((1 - 114 / (10 * 2 ^ 53)) * 4
        * ((1 - 101 / (100 * 2 ^ 53)) * (s - rr))) ≤ fac :=
      le_trans (mul_le_mul_of_nonneg_left hp1 (by norm_num)) hq1
    linarith
  · generalize rnd (rnd (4 * a) * rnd (s - rnd (r * r))) = fac at *
    generalize rnd (4 * a) * rnd (s - rnd (r * r)) = fc at *
    generalize rnd (s - rnd (r * r)) = c at *
    generalize rnd (4 * a) = fa at *
    generalize rnd (r * r) = rr at *
    generalize r * r = r2 at *
    have e1 : fac ≤ (1 + 101 / (100 * 2 ^ 53)) * ((1 + 114 / (10 * 2 ^ 53)) * 4
        * ((1 + 101 / (100 * 2 ^ 53)) * (s - rr))) :=
      le_trans hq2 (mul_le_mul_of_nonneg_left hp2 (by norm_num))
    linarith

/-- The discriminant in double precision from the bounds of `b * b` and of `4 * a * c`: it is
within `143 * 2^-53 * W2` of `4 * r * r`. -/
lemma disc_bounds (W2 r bb fac : ℝ) (hr : 1 / 2 ^ 60 ≤ r * r) (hWr : r * r ≤ W2)
    (hfar : W2 ≤ 2 ^ 41 * (r * r))
    (hb1 : (1 - 17 / 2 ^ 53) * (4 * W2) ≤ bb) (hb2 : bb ≤ (1 + 17 / 2 ^ 53) * (4 * W2))
    (hf1 : (1 - 166 / (10 * 2 ^ 53)) * (4 * W2) - (1 + 101 / (100 * 2 ^ 53)) * (4 * (r * r))
      ≤ fac)
    (hf2 : fac
      ≤ (1 + 166 / (10 * 2 ^ 53)) * (4 * W2) - (1 - 101 / (100 * 2 ^ 53)) * (4 * (r * r))) :
    1 / 2 ^ 400 ≤ bb - fac ∧
    4 * (r * r) - 143 / 2 ^ 53 * W2 ≤ rnd (bb - fac) ∧
    rnd (bb - fac) ≤ 4 * (r * r) + 143 / 2 ^ 53 * W2 := by
  have hy1 : 3 * (r * r) ≤ bb - fac := by
    have : (135 : ℝ) / 2 ^ 53 * W2 ≤ 135 / 2 ^ 53 * (2 ^ 41 * (r * r)) :=
      mul_le_mul_of_nonneg_left hfar (by norm_num)
    linarith
  have hy0 : 1 / 2 ^ 400 ≤ bb - fac := by
    have : (1 : ℝ) / 2 ^ 400 ≤ 3 * (1 / 2 ^ 60) := by norm_num
    linarith
  obtain ⟨_, hd1, hd2⟩ := rnd_rel_pos _ hy0
  refine ⟨hy0, ?_, ?_⟩
  · generalize rnd (bb - fac) = disc at *
    generalize r * r = r2 at *
    have e := mul_le_mul_of_nonneg_left
      (show (1 - 17 / 2 ^ 53) * (4 * W2)
          - ((1 + 166 / (10 * 2 ^ 53)) * (4 * W2) - (1 - 101 / (100 * 2 ^ 53)) * (4 * r2))
        ≤ bb - fac by linarith)
      (by norm_num : (0 : ℝ) ≤ 1 - 101 / (100 * 2 ^ 53))
    linarith
  · generalize rnd (bb - fac) = disc at *
    generalize r * r = r2 at *
    have e := mul_le_mul_of_nonneg_left
      (show bb - fac ≤ (1 + 17 / 2 ^ 53) * (4 * W2)
          - ((1 - 166 / (10 * 2 ^ 53)) * (4 * W2) - (1 + 101 / (100 * 2 ^ 53)) * (4 * r2))
        by linarith)
      (by norm_num : (0 : ℝ) ≤ 1 + 101 / (100 * 2 ^ 53))
    linarith

/-- The square root of the discriminant in double precision: with the discriminant within
`143 * 2^-53 * Q * r` of `4 * r * r`, where `Q` is at most `2^41 * r`, the rounded square root is
within `74 * 2^-53 * Q` of `2 * r`. -/
lemma sqrt_disc_bounds (r Q disc : ℝ) (hr : 1 / 2 ^ 30 ≤ r) (hQ1 : r ≤ Q) (hQ2 : Q ≤ 2 ^ 41 * r)
    (hd1 : 4 * (r * r) - 143 / 2 ^ 53 * (Q * r) ≤ disc)
    (hd2 : disc ≤ 4 * (r * r) + 143 / 2 ^ 53 * (Q * r)) :
    (0 ≤ disc ∧ 1 / 2 ^ 400 ≤ Real.sqrt disc) ∧
    2 * r - 74 / 2 ^ 53 * Q ≤ rnd (Real.sqrt disc) ∧
    rnd (Real.sqrt disc) ≤ 2 * r + 74 / 2 ^ 53 * Q := by
  have hr0 : 0 < r := lt_of_lt_of_le (by positivity) hr
  have hQ0 : 0 < Q := lt_of_lt_of_le hr0 hQ1
  have hQr : Q * r ≤ 2 ^ 41 * r * r := mul_le_mul_of_nonneg_right hQ2 hr0.le
  have hQQ : Q * Q ≤ 2 ^ 41 * r * Q := mul_le_mul_of_nonneg_right hQ2 hQ0.le
  have hrr : 0 < r * r := mul_pos hr0 hr0
  have hdisc0 : 0 ≤ disc := by
    have : (143 : ℝ) / 2 ^ 53 * (Q * r) ≤ 143 / 2 ^ 53 * (2 ^ 41 * r * r) :=
      mul_le_mul_of_nonneg_left hQr (by norm_num)
    nlinarith
  have hx0 : 0 ≤ Real.sqrt disc := Real.sqrt_nonneg _
  have hxx : Real.sqrt disc * Real.sqrt disc = disc := Real.mul_self_sqrt hdisc0
  -- the exact square root
  have hlo0 : 0 ≤ 2 * r - 143 / 2 ^ 54 * Q := by
    have : (143 : ℝ) / 2 ^ 54 * Q ≤ 143 / 2 ^ 54 * (2 ^ 41 * r) :=
      mul_le_mul_of_nonneg_left hQ2 (by norm_num)
    nlinarith
  have hx1 : 2 * r - 143 / 2 ^ 54 * Q ≤ Real.sqrt disc := by
    rw [mul_self_le_mul_self_iff hlo0 hx0, hxx]
    have e : (2 * r - 143 / 2 ^ 54 * Q) * (2 * r - 143 / 2 ^ 54 * Q)
        = 4 * (r * r) - 143 / 2 ^ 52 * (Q * r) + 143 / 2 ^ 54 * (143 / 2 ^ 54) * (Q * Q) := by
      ring
    have : (143 : ℝ) / 2 ^ 54 * (143 / 2 ^ 54) * (Q * Q)
        ≤ 143 / 2 ^ 54 * (143 / 2 ^ 54) * (2 ^ 41 * r * Q) :=
      mul_le_mul_of_nonneg_left hQQ (by norm_num)
    have hQr0 : 0 ≤ Q * r := mul_nonneg hQ0.le hr0.le
    rw [e]
    nlinarith
  have hx2 : Real.sqrt disc ≤ 2 * r + 143 / 2 ^ 54 * Q := by
    rw [mul_self_le_mul_self_iff hx0 (by positivity), hxx]
    have e : (2 * r + 143 / 2 ^ 54 * Q) * (2 * r + 143 / 2 ^ 54 * Q)
        = 4 * (r * r) + 143 / 2 ^ 52 * (Q * r) + 143 / 2 ^ 54 * (143 / 2 ^ 54) * (Q * Q) := by
      ring
    have hQQ0 : 0 ≤ Q * Q := mul_nonneg hQ0.le hQ0.le
    have hQr0 : 0 ≤ Q * r := mul_nonneg hQ0.le hr0.le
    rw [e]
    nlinarith
  have hx3 : r ≤ Real.sqrt disc := by
    have : (143 : ℝ) / 2 ^ 54 * Q ≤ 143 / 2 ^ 54 * (2 ^ 41 * r) :=
      mul_le_mul_of_nonneg_left hQ2 (by norm_num)
    nlinarith
  have hx4 : 1 / 2 ^ 400 ≤ Real.sqrt disc :=
    le_trans (le_trans (by norm_num) hr) hx3
  obtain ⟨_, hs1, hs2⟩ := rnd_rel_pos _ hx4
  refine ⟨⟨hdisc0, hx4⟩, ?_, ?_⟩
  · generalize rnd (Real.sqrt disc) = sd at *
    generalize Real.sqrt disc = x at *
    have := mul_le_mul_of_nonneg_left hx1
      (by norm_num : (0 : ℝ) ≤ 1 - 101 / (100 * 2 ^ 53))
    linarith
  · generalize rnd (Real.sqrt disc) = sd at *
    generalize Real.sqrt disc = x at *
    have := mul_le_mul_of_nonneg_left hx2
      (by norm_num : (0 : ℝ) ≤ 1 + 101 / (100 * 2 ^ 53))
    linarith

/-- The two roots in double precision, from the bounds of `a`, of `B = -b` and of the rounded
square root `sd` of the discriminant: the first root `t1 = rnd (rnd (B - sd) / rnd (2 * a))` is
non-negative, is not above the second root, and is within `60 * 2^-53 * Q` of `W - r`. -/
lemma roots_bounds (W r Q a B sd : ℝ) (hr : 1 / 2 ^ 30 ≤ r) (hWQ : W ≤ Q)
    (_hWfar : W ≤ 2 ^ 21 * r) (hQ2 : Q ≤ 2 ^ 41 * r)
    (hmarg : 100 / 2 ^ 53 * Q ≤ W - r)
    (ha1 : 1 - 103 / (10 * 2 ^ 53) ≤ a) (ha2 : a ≤ 1 + 103 / (10 * 2 ^ 53))
    (hB1 : (1 - 79 / (10 * 2 ^ 53)) * (2 * W) ≤ B) (hB2 : B ≤ (1 + 79 / (10 * 2 ^ 53)) * (2 * W))
    (hs1 : 2 * r - 74 / 2 ^ 53 * Q ≤ sd) (hs2 : sd ≤ 2 * r + 74 / 2 ^ 53 * Q) :
    (1 ≤ rnd (2 * a) ∧ rnd (2 * a) ≤ 3) ∧
    (0 ≤ B - sd ∧ B - sd ≤ 3 * Q ∧ 0 ≤ B + sd ∧ B + sd ≤ 5 * Q) ∧
    (0 ≤ rnd (B - sd) ∧ rnd (B - sd) ≤ 4 * Q ∧ 0 ≤ rnd (B + sd) ∧ rnd (B + sd) ≤ 6 * Q) ∧
    0 ≤ rnd (rnd (B - sd) / rnd (2 * a)) ∧
    rnd (rnd (B - sd) / rnd (2 * a)) ≤ rnd (rnd (B + sd) / rnd (2 * a)) ∧
    rnd (rnd (B + sd) / rnd (2 * a)) ≤ 7 * Q ∧
    W - r - 60 / 2 ^ 53 * Q ≤ rnd (rnd (B - sd) / rnd (2 * a)) ∧
    rnd (rnd (B - sd) / rnd (2 * a)) ≤ W - r + 60 / 2 ^ 53 * Q := by
  have hr0 : 0 < r := lt_of_lt_of_le (by positivity) hr
  have hQ0 : 0 ≤ Q := by
    by_contra hc
    push_neg at hc
    have h1 : (0 : ℝ) ≤ 100 / 2 ^ 53 * (-Q) := mul_nonneg (by norm_num) (by linarith only [hc])
    linarith only [h1, hmarg, hWQ, hc, hr0]
  have hWr : r ≤ W := by
    have h1 : (0 : ℝ) ≤ 100 / 2 ^ 53 * Q := mul_nonneg (by norm_num) hQ0
    linarith only [h1, hmarg]
  have hrQ : r ≤ Q := le_trans hWr hWQ
  have hQ400 : 1 / 2 ^ 400 ≤ 1 / 2 ^ 60 * Q := by
    have h1 : (1 : ℝ) / 2 ^ 60 * (1 / 2 ^ 30) ≤ 1 / 2 ^ 60 * Q :=
      mul_le_mul_of_nonneg_left (le_trans hr hrQ) (by norm_num)
    have h2 : (1 : ℝ) / 2 ^ 400 ≤ 1 / 2 ^ 60 * (1 / 2 ^ 30) := by norm_num
    exact le_trans h2 h1
  -- the divisor `2 * a`
  obtain ⟨hta0, hta1, hta2⟩ := rnd_rel_pos (2 * a) (by
    have h1 : (1 : ℝ) / 2 ^ 400 ≤ 2 * (1 - 103 / (10 * 2 ^ 53)) := by norm_num
    linarith only [h1, ha1])
  have hta3 : (1 - 114 / (10 * 2 ^ 53)) * 2 ≤ rnd (2 * a) := by
    have h1 : (1 - 114 / (10 * 2 ^ 53)) * 2
        ≤ (1 - 101 / (100 * 2 ^ 53)) * (2 * (1 - 103 / (10 * 2 ^ 53)) : ℝ) := by norm_num
    have h2 : (1 - 101 / (100 * 2 ^ 53)) * (2 * (1 - 103 / (10 * 2 ^ 53)))
        ≤ (1 - 101 / (100 * 2 ^ 53)) * (2 * a) :=
      mul_le_mul_of_nonneg_left (by linarith only [ha1]) (by norm_num)
    exact le_trans h1 (le_trans h2 hta1)
  have hta4 : rnd (2 * a) ≤ (1 + 114 / (10 * 2 ^ 53)) * 2 := by
    have h1 : (1 + 101 / (100 * 2 ^ 53)) * (2 * (1 + 103 / (10 * 2 ^ 53)) : ℝ)
        ≤ (1 + 114 / (10 * 2 ^ 53)) * 2 := by norm_num
    have h2 : (1 + 101 / (100 * 2 ^ 53)) * (2 * a)
        ≤ (1 + 101 / (100 * 2 ^ 53)) * (2 * (1 + 103 / (10 * 2 ^ 53))) :=
      mul_le_mul_of_nonneg_left (by linarith only [ha2]) (by norm_num)
    exact le_trans hta2 (le_trans h2 h1)
  have hta5 : 1 ≤ rnd (2 * a) := le_trans (by norm_num) hta3
  have hta6 : rnd (2 * a) ≤ 3 := le_trans hta4 (by norm_num)
  have htapos : 0 < rnd (2 * a) := lt_of_lt_of_le one_pos hta5
  -- the numerators
  have hWu : (79 : ℝ) / (10 * 2 ^ 53) * (2 * W) ≤ 79 / (10 * 2 ^ 53) * (2 * Q) :=
    mul_le_mul_of_nonneg_left (by linarith only [hWQ]) (by norm_num)
  have hx1 : 2 * (W - r) - 898 / (10 * 2 ^ 53) * Q ≤ B - sd := by
    linarith only [hB1, hs2, hWu]
  have hx2 : B - sd ≤ 2 * (W - r) + 898 / (10 * 2 ^ 53) * Q := by
    linarith only [hB2, hs1, hWu]
  have hx3 : 110 / 2 ^ 53 * Q ≤ B - sd := by linarith only [hx1, hmarg, hQ0]
  have hx4 : 1 / 2 ^ 400 ≤ B - sd := by
    have h1 : (1 : ℝ) / 2 ^ 60 * Q ≤ 110 / 2 ^ 53 * Q :=
      mul_le_mul_of_nonneg_right (by norm_num) hQ0
    linarith only [h1, hx3, hQ400]
  have hsd0 : r ≤ sd := by
    have h1 : (74 : ℝ) / 2 ^ 53 * Q ≤ 74 / 2 ^ 53 * (2 ^ 41 * r) :=
      mul_le_mul_of_nonneg_left hQ2 (by norm_num)
    linarith only [h1, hs1, hr0]
  have hy4 : 1 / 2 ^ 400 ≤ B + sd := by linarith only [hx4, hsd0, hr0]
  obtain ⟨hn0, hn1, hn2⟩ := rnd_rel_pos _ hx4
  obtain ⟨hm0, hm1, hm2⟩ := rnd_rel_pos _ hy4
  have hWQ' : W - r ≤ Q := by linarith only [hWQ, hr0]
  have hBQ : B ≤ 3 * Q := by
    have h1 : (1 + 79 / (10 * 2 ^ 53)) * (2 * W) ≤ (1 + 79 / (10 * 2 ^ 53)) * (2 * Q) :=
      mul_le_mul_of_nonneg_left (by linarith only [hWQ]) (by norm_num)
    have h2 : (1 + 79 / (10 * 2 ^ 53)) * (2 * Q) ≤ 3 * Q := by
      have := mul_le_mul_of_nonneg_right
        (by norm_num : (1 + 79 / (10 * 2 ^ 53)) * 2 ≤ (3 : ℝ)) hQ0
      linarith only [this]
    exact le_trans hB2 (le_trans h1 h2)
  have hBQ2 : B ≤ 21 / 10 * Q := by
    have h1 : (1 + 79 / (10 * 2 ^ 53)) * (2 * W) ≤ (1 + 79 / (10 * 2 ^ 53)) * (2 * Q) :=
      mul_le_mul_of_nonneg_left (by linarith only [hWQ]) (by norm_num)
    have h2 : (1 + 79 / (10 * 2 ^ 53)) * (2 * Q) ≤ 21 / 10 * Q := by
      have := mul_le_mul_of_nonneg_right
        (by norm_num : (1 + 79 / (10 * 2 ^ 53)) * 2 ≤ (21 / 10 : ℝ)) hQ0
      linarith only [this]
    exact le_trans hB2 (le_trans h1 h2)
  have hsdQ : sd ≤ 2 * Q + 74 / 2 ^ 53 * Q := by linarith only [hs2, hrQ]
  have hxQ : B - sd ≤ 3 * Q := by linarith only [hBQ, hsd0, hr0]
  have h74 : (74 : ℝ) / 2 ^ 53 * Q ≤ 1 / 2 * Q :=
    mul_le_mul_of_nonneg_right (by norm_num) hQ0
  have hyQ : B + sd ≤ 5 * Q + 74 / 2 ^ 53 * Q := by linarith only [hBQ, hsdQ]
  have hn3 : rnd (B - sd) ≤ 4 * Q := by
    have h1 := mul_le_mul_of_nonneg_left hxQ
      (by norm_num : (0 : ℝ) ≤ 1 + 101 / (100 * 2 ^ 53))
    have h2 : (1 + 101 / (100 * 2 ^ 53)) * (3 * Q) ≤ 4 * Q := by
      have := mul_le_mul_of_nonneg_right
        (by norm_num : (1 + 101 / (100 * 2 ^ 53)) * 3 ≤ (4 : ℝ)) hQ0
      linarith only [this]
    exact le_trans hn2 (le_trans h1 h2)
  have hm3 : rnd (B + sd) ≤ 6 * Q := by
    have h1 := mul_le_mul_of_nonneg_left (show B + sd ≤ (11 / 2) * Q by linarith only [hyQ, h74])
      (by norm_num : (0 : ℝ) ≤ 1 + 101 / (100 * 2 ^ 53))
    have h2 : (1 + 101 / (100 * 2 ^ 53)) * (11 / 2 * Q) ≤ 6 * Q := by
      have := mul_le_mul_of_nonneg_right
        (by norm_num : (1 + 101 / (100 * 2 ^ 53)) * (11 / 2) ≤ (6 : ℝ)) hQ0
      linarith only [this]
    exact le_trans hm2 (le_trans h1 h2)
  -- the quotients
  have hn4 : 100 / 2 ^ 53 * Q ≤ rnd (B - sd) := by
    have h1 := mul_le_mul_of_nonneg_left hx3
      (by norm_num : (0 : ℝ) ≤ 1 - 101 / (100 * 2 ^ 53))
    have h2 : (100 : ℝ) / 2 ^ 53 * Q ≤ (1 - 101 / (100 * 2 ^ 53)) * (110 / 2 ^ 53 * Q) := by
      have := mul_le_mul_of_nonneg_right
        (by norm_num : (100 : ℝ) / 2 ^ 53 ≤ (1 - 101 / (100 * 2 ^ 53)) * (110 / 2 ^ 53)) hQ0
      linarith only [this]
    exact le_trans h2 (le_trans h1 hn1)
  have hv1lo : 1 / 2 ^ 400 ≤ rnd (B - sd) / rnd (2 * a) := by
    rw [le_div_iff₀ htapos]
    have h1 : (1 : ℝ) / 2 ^ 400 * rnd (2 * a) ≤ 1 / 2 ^ 400 * 3 :=
      mul_le_mul_of_nonneg_left hta6 (by positivity)
    have h2 : (1 : ℝ) / 2 ^ 60 * Q ≤ 100 / 2 ^ 53 * Q :=
      mul_le_mul_of_nonneg_right (by norm_num) hQ0
    have h3 : (1 : ℝ) / 2 ^ 400 * 3 ≤ 1 / 2 ^ 60 * (1 / 2 ^ 30) := by norm_num
    have h4 : (1 : ℝ) / 2 ^ 60 * (1 / 2 ^ 30) ≤ 1 / 2 ^ 60 * Q :=
      mul_le_mul_of_nonneg_left (le_trans hr hrQ) (by norm_num)
    exact le_trans h1 (le_trans h3 (le_trans h4 (le_trans h2 hn4)))
  have hmn : rnd (B - sd) ≤ rnd (B + sd) := by
    have h1 := mul_le_mul_of_nonneg_left hx2
      (by norm_num : (0 : ℝ) ≤ 1 + 101 / (100 * 2 ^ 53))
    have h2 : (1 + 101 / (100 * 2 ^ 53)) * (B - sd) ≤ (1 - 101 / (100 * 2 ^ 53)) * (B + sd) := by
      have h3 : (4 : ℝ) * (101 / (100 * 2 ^ 53)) * (3 * Q)
          ≤ 4 * (101 / (100 * 2 ^ 53)) * (3 * (2 ^ 41 * r)) :=
        mul_le_mul_of_nonneg_left (by linarith only [hQ2]) (by norm_num)
      have h4 : (101 : ℝ) / (100 * 2 ^ 53) * B ≤ 101 / (100 * 2 ^ 53) * (3 * Q) :=
        mul_le_mul_of_nonneg_left hBQ (by norm_num)
      linarith only [h3, h4, hsd0, hr0]
    linarith only [h1, h2, hn2, hm1]
  have hv2lo : 1 / 2 ^ 400 ≤ rnd (B + sd) / rnd (2 * a) :=
    le_trans hv1lo (div_le_div_of_nonneg_right hmn htapos.le)
  obtain ⟨ht0, ht1, ht2⟩ := rnd_rel_pos _ hv1lo
  obtain ⟨hu0, hu1, hu2⟩ := rnd_rel_pos _ hv2lo
  -- the first root against `W - r`
  have hX0 : 0 ≤ W - r - 585 / (10 * 2 ^ 53) * Q := by linarith only [hmarg, hQ0]
  have hv1 : W - r - 585 / (10 * 2 ^ 53) * Q ≤ rnd (B - sd) / rnd (2 * a) := by
    rw [le_div_iff₀ htapos]
    have h1 : (W - r - 585 / (10 * 2 ^ 53) * Q) * rnd (2 * a)
        ≤ (W - r - 585 / (10 * 2 ^ 53) * Q) * ((1 + 114 / (10 * 2 ^ 53)) * 2) :=
      mul_le_mul_of_nonneg_left hta4 hX0
    have h2 := mul_le_mul_of_nonneg_left hx1
      (by norm_num : (0 : ℝ) ≤ 1 - 101 / (100 * 2 ^ 53))
    have h3 : (W - r - 585 / (10 * 2 ^ 53) * Q) * ((1 + 114 / (10 * 2 ^ 53)) * 2)
        ≤ (1 - 101 / (100 * 2 ^ 53)) * (2 * (W - r) - 898 / (10 * 2 ^ 53) * Q) := by
      linarith only [hWQ', hQ0, hX0]
    linarith only [h1, h2, h3, hn1]
  have hv2 : rnd (B - sd) / rnd (2 * a) ≤ W - r + 585 / (10 * 2 ^ 53) * Q := by
    rw [div_le_iff₀ htapos]
    have h1 : (W - r + 585 / (10 * 2 ^ 53) * Q) * ((1 - 114 / (10 * 2 ^ 53)) * 2)
        ≤ (W - r + 585 / (10 * 2 ^ 53) * Q) * rnd (2 * a) :=
      mul_le_mul_of_nonneg_left hta3 (by linarith only [hX0, hQ0])
    have h2 := mul_le_mul_of_nonneg_left hx2
      (by norm_num : (0 : ℝ) ≤ 1 + 101 / (100 * 2 ^ 53))
    have h3 : (1 + 101 / (100 * 2 ^ 53)) * (2 * (W - r) + 898 / (10 * 2 ^ 53) * Q)
        ≤ (W - r + 585 / (10 * 2 ^ 53) * Q) * ((1 - 114 / (10 * 2 ^ 53)) * 2) := by
      linarith only [hWQ', hQ0, hX0]
    linarith only [h1, h2, h3, hn2]
  have hv3 : rnd (B + sd) / rnd (2 * a) ≤ 6 * Q := by
    rw [div_le_iff₀ htapos]
    have h1 : 6 * Q * 1 ≤ 6 * Q * rnd (2 * a) :=
      mul_le_mul_of_nonneg_left hta5 (by linarith only [hQ0])
    linarith only [h1, hm3]
  have hroot : rnd (rnd (B - sd) / rnd (2 * a)) ≤ rnd (rnd (B + sd) / rnd (2 * a)) := by
    have h1 : (1 + 101 / (100 * 2 ^ 53)) * (rnd (B - sd) / rnd (2 * a))
        ≤ (1 - 101 / (100 * 2 ^ 53)) * (rnd (B + sd) / rnd (2 * a)) := by
      rw [← mul_div_assoc, ← mul_div_assoc]
      apply div_le_div_of_nonneg_right _ htapos.le
      have h2 := mul_le_mul_of_nonneg_left hn2
        (by norm_num : (0 : ℝ) ≤ 1 + 101 / (100 * 2 ^ 53))
      have h3 := mul_le_mul_of_nonneg_left hm1
        (by norm_num : (0 : ℝ) ≤ 1 - 101 / (100 * 2 ^ 53))
      have h4 : (1 + 101 / (100 * 2 ^ 53)) * ((1 + 101 / (100 * 2 ^ 53)) * (B - sd))
          ≤ (1 - 101 / (100 * 2 ^ 53)) * ((1 - 101 / (100 * 2 ^ 53)) * (B + sd)) := by
        have h5 : (8 : ℝ) * (101 / (100 * 2 ^ 53)) * (3 * Q)
            ≤ 8 * (101 / (100 * 2 ^ 53)) * (3 * (2 ^ 41 * r)) :=
          mul_le_mul_of_nonneg_left (by linarith only [hQ2]) (by norm_num)
        have h6 : (101 : ℝ) / (100 * 2 ^ 53) * B ≤ 101 / (100 * 2 ^ 53) * (3 * Q) :=
          mul_le_mul_of_nonneg_left hBQ (by norm_num)
        linarith only [h5, h6, hsd0, hr0]
      linarith only [h2, h3, h4]
    linarith only [h1, ht2, hu1]
  refine ⟨⟨hta5, hta6⟩, ⟨by linarith only [hx3, hQ0], hxQ,
    by linarith only [hx3, hQ0, hsd0, hr0], by linarith only [hBQ2, hsdQ, h74]⟩, ⟨hn0, hn3, hm0, hm3⟩, ht0,
    hroot, ?_, ?_, ?_⟩
  · have h1 := mul_le_mul_of_nonneg_left hv3
      (by norm_num : (0 : ℝ) ≤ 1 + 101 / (100 * 2 ^ 53))
    have h2 : (1 + 101 / (100 * 2 ^ 53)) * (6 * Q) ≤ 7 * Q := by
      have := mul_le_mul_of_nonneg_right
        (by norm_num : (1 + 101 / (100 * 2 ^ 53)) * 6 ≤ (7 : ℝ)) hQ0
      linarith only [this]
    exact le_trans hu2 (le_trans h1 h2)
  · have h1 := mul_le_mul_of_nonneg_left hv1
      (by norm_num : (0 : ℝ) ≤ 1 - 101 / (100 * 2 ^ 53))
    linarith only [h1, ht1, hWQ', hQ0, hX0]
  · have h1 := mul_le_mul_of_nonneg_left hv2
      (by norm_num : (0 : ℝ) ≤ 1 + 101 / (100 * 2 ^ 53))
    linarith only [h1, ht2, hWQ', hQ0, hX0]

/-- A rounded value is at most twice the bound of the exact one, plus one. -/
lemma rnd_abs_le_two_mul (t M : ℝ) (h : |t| ≤ M) : |rnd t| ≤ 2 * M + 1 := by
  have h1 := rnd_abs_sub_le t
  have hu : (2 : ℝ) ^ (-53 : ℤ) ≤ 1 := by
    rw [show (1 : ℝ) = 2 ^ (0 : ℤ) by norm_num]
    exact zpow_le_zpow_right₀ (by norm_num) (by norm_num)
  have hη : (2 : ℝ) ^ (-1075 : ℤ) ≤ 1 := by
    rw [show (1 : ℝ) = 2 ^ (0 : ℤ) by norm_num]
    exact zpow_le_zpow_right₀ (by norm_num) (by norm_num)
  have h2 : |rnd t| ≤ |rnd t - t| + |t| := by
    have := abs_add (rnd t - t) t
    rwa [sub_add_cancel] at this
  have h3 : (2 : ℝ) ^ (-53 : ℤ) * |t| ≤ 1 * |t| :=
    mul_le_mul_of_nonneg_right hu (abs_nonneg t)
  linarith

/-- The method `Vec3::dot` in double precision on finite vectors whose components are at most
`2^110` in magnitude: no operation overflows. -/
lemma dot_fin (x1 x2 x3 y1 y2 y3 : ℝ) (hx1 : |x1| ≤ 2 ^ 110) (hx2 : |x2| ≤ 2 ^ 110)
    (hx3 : |x3| ≤ 2 ^ 110) (hy1 : |y1| ≤ 2 ^ 110) (hy2 : |y2| ≤ 2 ^ 110)
    (hy3 : |y3| ≤ 2 ^ 110) :
    Vec3D.dot ⟨Dbl.fin x1, Dbl.fin x2, Dbl.fin x3⟩ ⟨Dbl.fin y1, Dbl.fin y2, Dbl.fin y3⟩
      = Dbl.fin (rnd (rnd (rnd (x1 * y1) + rnd (x2 * y2)) + rnd (x3 * y3))) := by
  have pr : ∀ a b : ℝ, |a| ≤ 2 ^ 110 → |b| ≤ 2 ^ 110 → |a * b| ≤ 2 ^ 220 := by
    intro a b ha hb
    rw [abs_mul]
    calc |a| * |b| ≤ 2 ^ 110 * 2 ^ 110 := mul_le_mul ha hb (abs_nonneg _) (by positivity)
      _ = 2 ^ 220 := by norm_num
  have p1 := pr x1 y1 hx1 hy1
  have p2 := pr x2 y2 hx2 hy2
  have p3 := pr x3 y3 hx3 hy3
  have r1 := rnd_abs_le_two_mul _ _ p1
  have r2 := rnd_abs_le_two_mul _ _ p2
  have r3 := rnd_abs_le_two_mul _ _ p3
  have s1 : |rnd (x1 * y1) + rnd (x2 * y2)| ≤ 2 ^ 223 := by
    have := abs_add (rnd (x1 * y1)) (rnd (x2 * y2))
    have : (2 : ℝ) * 2 ^ 220 + 1 + (2 * 2 ^ 220 + 1) ≤ 2 ^ 223 := by norm_num
    linarith
  have r4 := rnd_abs_le_two_mul _ _ s1
  have s2 : |rnd (rnd (x1 * y1) + rnd (x2 * y2)) + rnd (x3 * y3)| ≤ 2 ^ 225 := by
    have := abs_add (rnd (rnd (x1 * y1) + rnd (x2 * y2))) (rnd (x3 * y3))
    have : (2 : ℝ) * 2 ^ 223 + 1 + (2 * 2 ^ 220 + 1) ≤ 2 ^ 225 := by norm_num
    linarith
  have big : ∀ t : ℝ, ∀ k : ℕ, k ≤ 250 → |t| ≤ 2 ^ k → |t| ≤ 2 ^ 250 := by
    intro t k hk ht
    exact le_trans ht (pow_le_pow_right₀ (by norm_num) hk)
  simp only [Vec3D.dot, Dbl.mul, Dbl.add]
  rw [Dbl.round_of_abs_le_big _ (big _ 220 (by norm_num) p1),
    Dbl.round_of_abs_le_big _ (big _ 220 (by norm_num) p2),
    Dbl.round_of_abs_le_big _ (big _ 220 (by norm_num) p3)]
  simp only [Dbl.add]
  rw [Dbl.round_of_abs_le_big _ (big _ 223 (by norm_num) s1)]
  simp only [Dbl.add]
  rw [Dbl.round_of_abs_le_big _ (big _ 225 (by norm_num) s2)]

/-- The method `Vec3::length` in double precision on a finite vector whose components are at most
`2^110` in magnitude: no operation overflows. -/
lemma length_fin (x y z : ℝ) (hx : |x| ≤ 2 ^ 110) (hy : |y| ≤ 2 ^ 110) (hz : |z| ≤ 2 ^ 110) :
    Vec3D.length ⟨Dbl.fin x, Dbl.fin y, Dbl.fin z⟩
      = Dbl.fin (rnd (Real.sqrt (rnd (rnd (rnd (x * x) + rnd (y * y)) + rnd (z * z))))) := by
  have hd := dot_fin x y z x y z hx hy hz hx hy hz
  have hS := (sumsq_rnd_bounds x y z).1
  have hlen : Vec3D.length ⟨Dbl.fin x, Dbl.fin y, Dbl.fin z⟩
      = Dbl.sqrt (Vec3D.dot ⟨Dbl.fin x, Dbl.fin y, Dbl.fin z⟩
          ⟨Dbl.fin x, Dbl.fin y, Dbl.fin z⟩) := rfl
  rw [hlen, hd]
  simp only [Dbl.sqrt, if_neg (not_lt.mpr hS)]
  apply Dbl.round_of_abs_le_big
  rw [abs_of_nonneg (Real.sqrt_nonneg _)]
  have h1 : rnd (rnd (rnd (x * x) + rnd (y * y)) + rnd (z * z)) ≤ 2 ^ 250 := by
    have pr : ∀ a : ℝ, |a| ≤ 2 ^ 110 → |a * a| ≤ 2 ^ 220 := by
      intro a ha
      rw [abs_mul]
      calc |a| * |a| ≤ 2 ^ 110 * 2 ^ 110 := mul_le_mul ha ha (abs_nonneg _) (by positivity)
        _ = 2 ^ 220 := by norm_num
    have r1 := rnd_abs_le_two_mul _ _ (pr x hx)
    have r2 := rnd_abs_le_two_mul _ _ (pr y hy)
    have r3 := rnd_abs_le_two_mul _ _ (pr z hz)
    have s1 : |rnd (x * x) + rnd (y * y)| ≤ 2 ^ 223 := by
      have := abs_add (rnd (x * x)) (rnd (y * y))
      have : (2 : ℝ) * 2 ^ 220 + 1 + (2 * 2 ^ 220 + 1) ≤ 2 ^ 223 := by norm_num
      linarith
    have r4 := rnd_abs_le_two_mul _ _ s1
    have s2 : |rnd (rnd (x * x) + rnd (y * y)) + rnd (z * z)| ≤ 2 ^ 225 := by
      have := abs_add (rnd (rnd (x * x) + rnd (y * y))) (rnd (z * z))
      have : (2 : ℝ) * 2 ^ 223 + 1 + (2 * 2 ^ 220 + 1) ≤ 2 ^ 225 := by norm_num
      linarith
    have r5 := rnd_abs_le_two_mul _ _ s2
    have : (2 : ℝ) * 2 ^ 225 + 1 ≤ 2 ^ 250 := by norm_num
    exact le_trans (le_abs_self _) (by linarith)
  calc Real.sqrt (rnd (rnd (rnd (x * x) + rnd (y * y)) + rnd (z * z)))
      ≤ Real.sqrt (2 ^ 250) := Real.sqrt_le_sqrt h1
    _ ≤ 2 ^ 250 := by
      rw [Real.sqrt_le_left (by positivity)]
      calc (2 : ℝ) ^ 250 = 2 ^ 250 * 1 := (mul_one _).symm
        _ ≤ 2 ^ 250 * 2 ^ 250 := by
          apply mul_le_mul_of_nonneg_left _ (by positivity)
          exact one_le_pow₀ (by norm_num)
        _ = (2 ^ 250) ^ 2 := by ring

/-- Changing the sign of the first vector changes the sign of the computed dot product. -/
lemma rnd_dot_neg (x1 x2 x3 y1 y2 y3 : ℝ) :
    rnd (rnd (rnd (-x1 * y1) + rnd (-x2 * y2)) + rnd (-x3 * y3))
      = -rnd (rnd (rnd (x1 * y1) + rnd (x2 * y2)) + rnd (x3 * y3)) := by
  rw [neg_mul, neg_mul, neg_mul, rnd_neg, rnd_neg, rnd_neg, ← neg_add, rnd_neg, ← neg_add, rnd_neg]

/-- The quadratic of `Earth::intersectRay` in double precision for a ray aimed at the centre,
over the reals: `W` is the length of the computed vector `oc`, `Q = W * W / r`, `a` the
computed `D . D`, `-P` the computed `oc . D` and `s` the computed `oc . oc`. No operation
overflows, the discriminant is not negative, the first root is not negative and not above the
second, and it is within `60 * 2^-53 * Q` of `W - r`. -/
lemma toward_centre_roots (W r Q a P s : ℝ) (hr : 1 / 2 ^ 30 ≤ r) (hW101 : W ≤ 2 ^ 101)
    (hQ : Q * r = W * W) (hfar : W * W ≤ 2 ^ 41 * (r * r))
    (hmarg : 100 / 2 ^ 53 * Q ≤ W - r)
    (ha1 : 1 - 103 / (10 * 2 ^ 53) ≤ a) (ha2 : a ≤ 1 + 103 / (10 * 2 ^ 53))
    (hP1 : (1 - 68 / (10 * 2 ^ 53)) * W ≤ P) (hP2 : P ≤ (1 + 68 / (10 * 2 ^ 53)) * W)
    (hs1 : (1 - 302 / (100 * 2 ^ 53)) * (W * W) ≤ s)
    (hs2 : s ≤ (1 + 302 / (100 * 2 ^ 53)) * (W * W)) :
    (|2 * -P| ≤ 2 ^ 250 ∧ |r * r| ≤ 2 ^ 250 ∧ |s - rnd (r * r)| ≤ 2 ^ 250 ∧
      |-rnd (2 * P) * -rnd (2 * P)| ≤ 2 ^ 250 ∧ |4 * a| ≤ 2 ^ 250 ∧
      |rnd (4 * a) * rnd (s - rnd (r * r))| ≤ 2 ^ 250 ∧
      |rnd (rnd (2 * P) * rnd (2 * P)) - rnd (rnd (4 * a) * rnd (s - rnd (r * r)))|
        ≤ 2 ^ 250) ∧
    (0 ≤ rnd (rnd (rnd (2 * P) * rnd (2 * P)) - rnd (rnd (4 * a) * rnd (s - rnd (r * r)))) ∧
      |Real.sqrt (rnd (rnd (rnd (2 * P) * rnd (2 * P))
        - rnd (rnd (4 * a) * rnd (s - rnd (r * r)))))| ≤ 2 ^ 250) ∧
    (|rnd (2 * P) - rnd (Real.sqrt (rnd (rnd (rnd (2 * P) * rnd (2 * P))
        - rnd (rnd (4 * a) * rnd (s - rnd (r * r))))))| ≤ 2 ^ 250 ∧
      |rnd (2 * P) + rnd (Real.sqrt (rnd (rnd (rnd (2 * P) * rnd (2 * P))
        - rnd (rnd (4 * a) * rnd (s - rnd (r * r))))))| ≤ 2 ^ 250 ∧
      |2 * a| ≤ 2 ^ 250 ∧ rnd (2 * a) ≠ 0 ∧
      |rnd (rnd (2 * P) - rnd (Real.sqrt (rnd (rnd (rnd (2 * P) * rnd (2 * P))
        - rnd (rnd (4 * a) * rnd (s - rnd (r * r))))))) / rnd (2 * a)| ≤ 2 ^ 250 ∧
      |rnd (rnd (2 * P) + rnd (Real.sqrt (rnd (rnd (rnd (2 * P) * rnd (2 * P))
        - rnd (rnd (4 * a) * rnd (s - rnd (r * r))))))) / rnd (2 * a)| ≤ 2 ^ 250) ∧
    0 ≤ rnd (rnd (rnd (2 * P) - rnd (Real.sqrt (rnd (rnd (rnd (2 * P) * rnd (2 * P))
        - rnd (rnd (4 * a) * rnd (s - rnd (r * r))))))) / rnd (2 * a)) ∧
    rnd (rnd (rnd (2 * P) - rnd (Real.sqrt (rnd (rnd (rnd (2 * P) * rnd (2 * P))
        - rnd (rnd (4 * a) * rnd (s - rnd (r * r))))))) / rnd (2 * a))
      ≤ rnd (rnd (rnd (2 * P) + rnd (Real.sqrt (rnd (rnd (rnd (2 * P) * rnd (2 * P))
        - rnd (rnd (4 * a) * rnd (s - rnd (r * r))))))) / rnd (2 * a)) ∧
    |rnd (rnd (rnd (2 * P) - rnd (Real.sqrt (rnd (rnd (rnd (2 * P) * rnd (2 * P))
        - rnd (rnd (4 * a) * rnd (s - rnd (r * r))))))) / rnd (2 * a)) - (W - r)|
      ≤ 60 / 2 ^ 53 * Q := by
  have hr0 : 0 < r := lt_of_lt_of_le (by positivity) hr
  have hrr : 1 / 2 ^ 60 ≤ r * r := by
    have := mul_self_le_mul_self (by positivity : (0 : ℝ) ≤ 1 / 2 ^ 30) hr
    have e : (1 / 2 ^ 30 : ℝ) * (1 / 2 ^ 30) = 1 / 2 ^ 60 := by norm_num
    linarith only [this, e]
  -- the order of `r`, `W` and `Q`
  have hQ0 : 0 ≤ Q := by
    have h1 : 0 ≤ Q * r := by rw [hQ]; exact mul_self_nonneg W
    by_contra hc
    push_neg at hc
    have h2 := mul_neg_of_neg_of_pos hc hr0
    linarith only [h1, h2]
  have hrW1 : r ≤ W := by
    have h1 : (0 : ℝ) ≤ 100 / 2 ^ 53 * Q := mul_nonneg (by norm_num) hQ0
    linarith only [h1, hmarg]
  have hW0 : 0 < W := lt_of_lt_of_le hr0 hrW1
  have hWQ : W ≤ Q := by
    apply le_of_mul_le_mul_right _ hr0
    rw [hQ]
    exact mul_le_mul_of_nonneg_left hrW1 hW0.le
  have hW31 : 1 / 2 ^ 31 ≤ W := le_trans (le_trans (by norm_num) hr) hrW1
  have hWfar : W ≤ 2 ^ 21 * r := by
    rw [mul_self_le_mul_self_iff hW0.le (by positivity)]
    have e : (2 : ℝ) ^ 21 * r * (2 ^ 21 * r) = 2 ^ 42 * (r * r) := by ring
    have h1 : (2 : ℝ) ^ 41 * (r * r) ≤ 2 ^ 42 * (r * r) :=
      mul_le_mul_of_nonneg_right (by norm_num) (mul_self_nonneg r)
    linarith only [e, h1, hfar]
  have hQ2 : Q ≤ 2 ^ 41 * r := by
    apply le_of_mul_le_mul_right _ hr0
    rw [hQ]
    calc W * W ≤ 2 ^ 41 * (r * r) := hfar
      _ = 2 ^ 41 * r * r := by ring
  have hWr2 : (1 + 1 / 2 ^ 47) * (r * r) ≤ W * W := by
    have h1 : (1 + 100 / 2 ^ 53) * r ≤ W := by
      have h0 : (100 : ℝ) / 2 ^ 53 * r ≤ 100 / 2 ^ 53 * Q :=
        mul_le_mul_of_nonneg_left (le_trans hrW1 hWQ) (by norm_num)
      linarith only [h0, hmarg]
    have h2 := mul_self_le_mul_self (by positivity) h1
    have h3 : (1 + 1 / 2 ^ 47) * (r * r)
        ≤ (1 + 100 / 2 ^ 53) * (1 + 100 / 2 ^ 53) * (r * r) :=
      mul_le_mul_of_nonneg_right (by norm_num) (mul_self_nonneg r)
    have e : (1 + 100 / 2 ^ 53) * r * ((1 + 100 / 2 ^ 53) * r)
        = (1 + 100 / 2 ^ 53) * (1 + 100 / 2 ^ 53) * (r * r) := by ring
    linarith only [h2, h3, e]
  have hrW2 : r * r ≤ W * W := mul_self_le_mul_self hr0.le hrW1
  have hW202 : W * W ≤ 2 ^ 202 := by
    have := mul_self_le_mul_self hW0.le hW101
    have e : (2 : ℝ) ^ 101 * 2 ^ 101 = 2 ^ 202 := by norm_num
    linarith only [this, e]
  have hQ142 : Q ≤ 2 ^ 142 := by
    have : (2 : ℝ) ^ 41 * r ≤ 2 ^ 41 * 2 ^ 101 :=
      mul_le_mul_of_nonneg_left (le_trans hrW1 hW101) (by norm_num)
    have e : (2 : ℝ) ^ 41 * 2 ^ 101 = 2 ^ 142 := by norm_num
    linarith only [this, e, hQ2]
  -- the stages
  obtain ⟨⟨hB1, hB2⟩, hbb1, hbb2⟩ := b_sq_bounds W P hW31 hP1 hP2
  obtain ⟨⟨hx0, hp0⟩, hf1, hf2⟩ := four_a_c_bounds (W * W) r a s hrr hWr2 ha1 ha2 hs1 hs2
  obtain ⟨hy0, hd1, hd2⟩ := disc_bounds (W * W) r _ _ hrr hrW2 hfar hbb1 hbb2 hf1 hf2
  rw [← hQ] at hd1 hd2
  obtain ⟨⟨hdisc0, hsq0⟩, hsd1, hsd2⟩ :=
    sqrt_disc_bounds r Q _ hr (le_trans hrW1 hWQ) hQ2 hd1 hd2
  obtain ⟨⟨hta1, hta2⟩, ⟨hn1a, hn1b, hn2a, hn2b⟩, ⟨hm1a, hm1b, hm2a, hm2b⟩, ht0, hroot, htt,
    hlo, hhi⟩ := roots_bounds W r Q a _ _ hr hWQ hWfar hQ2 hmarg ha1 ha2 hB1 hB2 hsd1 hsd2
  have hta0 : 0 < rnd (2 * a) := lt_of_lt_of_le one_pos hta1
  have hB0 : 0 ≤ rnd (2 * P) :=
    le_trans (mul_nonneg (by norm_num) (by linarith only [hW0])) hB1
  have hB3 : rnd (2 * P) ≤ 2 ^ 103 := by
    have h1 : (1 + 79 / (10 * 2 ^ 53)) * (2 * W) ≤ (1 + 79 / (10 * 2 ^ 53)) * (2 * 2 ^ 101) :=
      mul_le_mul_of_nonneg_left (by linarith only [hW101]) (by norm_num)
    have h2 : (1 + 79 / (10 * 2 ^ 53)) * (2 * 2 ^ 101) ≤ (2 : ℝ) ^ 103 := by norm_num
    exact le_trans hB2 (le_trans h1 h2)
  have big : ∀ t : ℝ, ∀ k : ℕ, k ≤ 250 → 0 ≤ t → t ≤ 2 ^ k → |t| ≤ 2 ^ 250 := by
    intro t k hk h0 ht
    rw [abs_of_nonneg h0]
    exact le_trans ht (pow_le_pow_right₀ (by norm_num) hk)
  have hP0 : 0 ≤ P := le_trans (mul_nonneg (by norm_num) hW0.le) hP1
  have hs0 : 0 ≤ s := le_trans (mul_nonneg (by norm_num) (mul_self_nonneg W)) hs1
  have hrr0 : 0 ≤ rnd (r * r) := rnd_nonneg _ (mul_self_nonneg r)
  have hc0 : 0 ≤ rnd (s - rnd (r * r)) := rnd_nonneg _ (le_trans (by positivity) hx0)
  have ha0 : 0 ≤ a := le_trans (by norm_num) ha1
  have ha5 : a ≤ 5 / 4 := le_trans ha2 (by norm_num)
  have hfa0 : 0 ≤ rnd (4 * a) := rnd_nonneg _ (by linarith only [ha0])
  have hbb0 : 0 ≤ rnd (rnd (2 * P) * rnd (2 * P)) := rnd_nonneg _ (mul_self_nonneg _)
  have hfac0 : 0 ≤ rnd (rnd (4 * a) * rnd (s - rnd (r * r))) :=
    rnd_nonneg _ (mul_nonneg hfa0 hc0)
  have hsd0 : 0 ≤ rnd (Real.sqrt (rnd (rnd (rnd (2 * P) * rnd (2 * P))
      - rnd (rnd (4 * a) * rnd (s - rnd (r * r)))))) := rnd_nonneg _ (Real.sqrt_nonneg _)
  refine ⟨⟨?_, ?_, ?_, ?_, ?_, ?_, ?_⟩, ⟨hdisc0, ?_⟩, ⟨?_, ?_, ?_, ne_of_gt hta0, ?_, ?_⟩, ht0,
    hroot, ?_⟩
  · rw [mul_neg, abs_neg]
    apply big _ 103 (by norm_num) (by linarith only [hP0])
    have h1 : (1 + 68 / (10 * 2 ^ 53)) * W ≤ (1 + 68 / (10 * 2 ^ 53)) * 2 ^ 101 :=
      mul_le_mul_of_nonneg_left hW101 (by norm_num)
    have h2 : 2 * ((1 + 68 / (10 * 2 ^ 53)) * 2 ^ 101) ≤ (2 : ℝ) ^ 103 := by norm_num
    linarith only [h1, h2, hP2]
  · exact big _ 202 (by norm_num) (mul_self_nonneg r) (le_trans hrW2 hW202)
  · apply big _ 203 (by norm_num) (le_trans (by positivity) hx0)
    have h1 : (1 + 302 / (100 * 2 ^ 53)) * (W * W) ≤ (1 + 302 / (100 * 2 ^ 53)) * 2 ^ 202 :=
      mul_le_mul_of_nonneg_left hW202 (by norm_num)
    have h2 : (1 + 302 / (100 * 2 ^ 53)) * 2 ^ 202 ≤ (2 : ℝ) ^ 203 := by norm_num
    linarith only [h1, h2, hs2, hrr0]
  · rw [neg_mul_neg]
    apply big _ 206 (by norm_num) (mul_self_nonneg _)
    have := mul_self_le_mul_self hB0 hB3
    have e : (2 : ℝ) ^ 103 * 2 ^ 103 = 2 ^ 206 := by norm_num
    linarith only [this, e]
  · exact big _ 3 (by norm_num) (by linarith only [ha0]) (by norm_num; linarith only [ha5])
  · apply big _ 207 (by norm_num) (mul_nonneg hfa0 hc0)
    have h1 : rnd (4 * a) * rnd (s - rnd (r * r))
        ≤ 2 * rnd (rnd (4 * a) * rnd (s - rnd (r * r))) := by
      obtain ⟨_, h2, _⟩ := rnd_rel_pos _ hp0
      have h0 : (1 / 2 : ℝ) * (rnd (4 * a) * rnd (s - rnd (r * r)))
          ≤ (1 - 101 / (100 * 2 ^ 53)) * (rnd (4 * a) * rnd (s - rnd (r * r))) :=
        mul_le_mul_of_nonneg_right (by norm_num) (mul_nonneg hfa0 hc0)
      linarith only [h0, h2]
    have h2 : (1 + 166 / (10 * 2 ^ 53)) * (4 * (W * W))
        ≤ (1 + 166 / (10 * 2 ^ 53)) * (4 * 2 ^ 202) :=
      mul_le_mul_of_nonneg_left (by linarith only [hW202]) (by norm_num)
    have h3 : (0 : ℝ) ≤ (1 - 101 / (100 * 2 ^ 53)) * (4 * (r * r)) :=
      mul_nonneg (by norm_num) (by linarith only [mul_self_nonneg r])
    have h4 : 2 * ((1 + 166 / (10 * 2 ^ 53)) * (4 * 2 ^ 202)) ≤ (2 : ℝ) ^ 207 := by norm_num
    linarith only [h1, h2, h3, h4, hf2]
  · apply big _ 206 (by norm_num) (le_trans (by positivity) hy0)
    have h2 : (1 + 17 / 2 ^ 53) * (4 * (W * W)) ≤ (1 + 17 / 2 ^ 53) * (4 * 2 ^ 202) :=
      mul_le_mul_of_nonneg_left (by linarith only [hW202]) (by norm_num)
    have h4 : (1 + 17 / 2 ^ 53) * (4 * 2 ^ 202) ≤ (2 : ℝ) ^ 206 := by norm_num
    linarith only [h2, h4, hbb2, hfac0]
  · apply big _ 150 (by norm_num) (Real.sqrt_nonneg _)
    obtain ⟨_, h2, _⟩ := rnd_rel_pos _ hsq0
    have h3 : (1 / 2 : ℝ) * Real.sqrt (rnd (rnd (rnd (2 * P) * rnd (2 * P))
          - rnd (rnd (4 * a) * rnd (s - rnd (r * r)))))
        ≤ (1 - 101 / (100 * 2 ^ 53)) * Real.sqrt (rnd (rnd (rnd (2 * P) * rnd (2 * P))
          - rnd (rnd (4 * a) * rnd (s - rnd (r * r))))) :=
      mul_le_mul_of_nonneg_right (by norm_num) (Real.sqrt_nonneg _)
    have h4 : (74 : ℝ) / 2 ^ 53 * Q ≤ 1 * Q :=
      mul_le_mul_of_nonneg_right (by norm_num) hQ0
    have h5 : (2 : ℝ) * (2 * 2 ^ 142 + 2 ^ 142) ≤ 2 ^ 150 := by norm_num
    have h6 : r ≤ 2 ^ 142 := le_trans (le_trans hrW1 hWQ) hQ142
    linarith only [h2, h3, h4, h5, h6, hsd2, hQ142]
  · apply big _ 150 (by norm_num) hn1a
    have h1 : (3 : ℝ) * 2 ^ 142 ≤ 2 ^ 150 := by norm_num
    linarith only [h1, hn1b, hQ142]
  · apply big _ 150 (by norm_num) hn2a
    have h1 : (5 : ℝ) * 2 ^ 142 ≤ 2 ^ 150 := by norm_num
    linarith only [h1, hn2b, hQ142]
  · exact big _ 3 (by norm_num) (by linarith only [ha0]) (by norm_num; linarith only [ha5])
  · apply big _ 150 (by norm_num) (div_nonneg hm1a hta0.le)
    rw [div_le_iff₀ hta0]
    have h1 : (2 : ℝ) ^ 150 * 1 ≤ 2 ^ 150 * rnd (2 * a) :=
      mul_le_mul_of_nonneg_left hta1 (by positivity)
    have h2 : (4 : ℝ) * 2 ^ 142 ≤ 2 ^ 150 := by norm_num
    linarith only [h1, h2, hm1b, hQ142]
  · apply big _ 150 (by norm_num) (div_nonneg hm2a hta0.le)
    rw [div_le_iff₀ hta0]
    have h1 : (2 : ℝ) ^ 150 * 1 ≤ 2 ^ 150 * rnd (2 * a) :=
      mul_le_mul_of_nonneg_left hta1 (by positivity)
    have h2 : (6 : ℝ) * 2 ^ 142 ≤ 2 ^ 150 := by norm_num
    linarith only [h1, h2, hm2b, hQ142]
  · rw [abs_le]
    constructor
    · linarith only [hlo]
    · linarith only [hhi]

/-- The vector `w = C - O` as computed, of exact length `W`, and its normalisation in double
precision: sizes, the computed squared length `s`, the computed length `L` against `W` and the
guard of `normalize`, the computed `D . D` and the computed `w . D`. -/
lemma toward_centre_normalized (w1 w2 w3 W L : ℝ) (hW2 : W * W = w1 * w1 + w2 * w2 + w3 * w3)
    (hWlo : 1 / 2 ^ 31 ≤ W) (hWhi : W ≤ 2 ^ 101)
    (hL : L = rnd (Real.sqrt (rnd (rnd (rnd (w1 * w1) + rnd (w2 * w2)) + rnd (w3 * w3))))) :
    (|w1| ≤ 2 ^ 101 ∧ |w2| ≤ 2 ^ 101 ∧ |w3| ≤ 2 ^ 101) ∧
    ((1 - 302 / (100 * 2 ^ 53)) * (W * W)
        ≤ rnd (rnd (rnd (w1 * w1) + rnd (w2 * w2)) + rnd (w3 * w3)) ∧
      rnd (rnd (rnd (w1 * w1) + rnd (w2 * w2)) + rnd (w3 * w3))
        ≤ (1 + 302 / (100 * 2 ^ 53)) * (W * W)) ∧
    (0 < L ∧ 7737125245533627 * 2 ^ (-86 : ℤ) ≤ L ∧
      |w1 / L| ≤ 2 ∧ |w2 / L| ≤ 2 ∧ |w3 / L| ≤ 2) ∧
    (|rnd (w1 / L)| ≤ 2 ∧ |rnd (w2 / L)| ≤ 2 ∧ |rnd (w3 / L)| ≤ 2) ∧
    (1 - 103 / (10 * 2 ^ 53)
        ≤ rnd (rnd (rnd (rnd (w1 / L) * rnd (w1 / L)) + rnd (rnd (w2 / L) * rnd (w2 / L)))
          + rnd (rnd (w3 / L) * rnd (w3 / L))) ∧
      rnd (rnd (rnd (rnd (w1 / L) * rnd (w1 / L)) + rnd (rnd (w2 / L) * rnd (w2 / L)))
          + rnd (rnd (w3 / L) * rnd (w3 / L))) ≤ 1 + 103 / (10 * 2 ^ 53)) ∧
    (1 - 68 / (10 * 2 ^ 53)) * W
      ≤ rnd (rnd (rnd (w1 * rnd (w1 / L)) + rnd (w2 * rnd (w2 / L))) + rnd (w3 * rnd (w3 / L))) ∧
    rnd (rnd (rnd (w1 * rnd (w1 / L)) + rnd (w2 * rnd (w2 / L))) + rnd (w3 * rnd (w3 / L)))
      ≤ (1 + 68 / (10 * 2 ^ 53)) * W := by
  have hW0 : 0 < W := lt_of_lt_of_le (by positivity) hWlo
  have hη := eta_le
  have hη0 : (0 : ℝ) ≤ 2 ^ (-1075 : ℤ) := by positivity
  have hX := mul_self_nonneg w1
  have hY := mul_self_nonneg w2
  have hZ := mul_self_nonneg w3
  have hWW : 1 / 2 ^ 62 ≤ W * W := by
    have := mul_self_le_mul_self (by positivity : (0 : ℝ) ≤ 1 / 2 ^ 31) hWlo
    have e : (1 / 2 ^ 31 : ℝ) * (1 / 2 ^ 31) = 1 / 2 ^ 62 := by norm_num
    linarith
  -- sizes
  have sz : ∀ w : ℝ, w * w ≤ W * W → |w| ≤ 2 ^ 101 := by
    intro w hw
    have : |w| ≤ W := by
      rw [mul_self_le_mul_self_iff (abs_nonneg w) hW0.le, abs_mul_abs_self]
      exact hw
    linarith
  have z1 := sz w1 (by linarith)
  have z2 := sz w2 (by linarith)
  have z3 := sz w3 (by linarith)
  -- the computed squared length
  obtain ⟨hs0, hs1, hs2⟩ := sumsq_rnd_bounds w1 w2 w3
  rw [← hW2] at hs1 hs2
  have hs3 : (1 - 302 / (100 * 2 ^ 53)) * (W * W)
      ≤ rnd (rnd (rnd (w1 * w1) + rnd (w2 * w2)) + rnd (w3 * w3)) := by
    have : (6 : ℝ) * (1 / 2 ^ 1000) ≤ 1 / (100 * 2 ^ 53) * (1 / 2 ^ 62) := by norm_num
    have : (1 : ℝ) / (100 * 2 ^ 53) * (1 / 2 ^ 62) ≤ 1 / (100 * 2 ^ 53) * (W * W) :=
      mul_le_mul_of_nonneg_left hWW (by positivity)
    linarith
  have hs4 : rnd (rnd (rnd (w1 * w1) + rnd (w2 * w2)) + rnd (w3 * w3))
      ≤ (1 + 302 / (100 * 2 ^ 53)) * (W * W) := by
    have : (6 : ℝ) * (1 / 2 ^ 1000) ≤ 1 / (100 * 2 ^ 53) * (1 / 2 ^ 62) := by norm_num
    have : (1 : ℝ) / (100 * 2 ^ 53) * (1 / 2 ^ 62) ≤ 1 / (100 * 2 ^ 53) * (W * W) :=
      mul_le_mul_of_nonneg_left hWW (by positivity)
    linarith
  -- the computed length
  obtain ⟨hL0, hlo, hhi⟩ := length_sq_bounds w1 w2 w3 (by
    rw [← hW2]
    exact le_trans (by norm_num) hWW)
  rw [← hL] at hL0 hlo hhi
  obtain ⟨hL1, hL2⟩ := bounds_of_sq_bounds L W (1 - 26 / (10 * 2 ^ 53))
    (1 + 26 / (10 * 2 ^ 53)) hL0 hW0.le (by norm_num) (by norm_num)
    (by
      rw [hW2]
      have : (1 - 26 / (10 * 2 ^ 53)) * (1 - 26 / (10 * 2 ^ 53))
            * (w1 * w1 + w2 * w2 + w3 * w3)
          ≤ (1 - 51 / (10 * 2 ^ 53)) * (w1 * w1 + w2 * w2 + w3 * w3) :=
        mul_le_mul_of_nonneg_right (by norm_num) (by linarith)
      linarith)
    (by
      rw [hW2]
      have : (1 + 51 / (10 * 2 ^ 53)) * (w1 * w1 + w2 * w2 + w3 * w3)
          ≤ (1 + 26 / (10 * 2 ^ 53)) * (1 + 26 / (10 * 2 ^ 53))
            * (w1 * w1 + w2 * w2 + w3 * w3) :=
        mul_le_mul_of_nonneg_right (by norm_num) (by linarith)
      linarith)
  have hL3 : 1 / 2 ^ 32 ≤ L := by
    have : (1 - 26 / (10 * 2 ^ 53)) * (1 / 2 ^ 31) ≤ (1 - 26 / (10 * 2 ^ 53)) * W :=
      mul_le_mul_of_nonneg_left hWlo (by norm_num)
    have : (1 : ℝ) / 2 ^ 32 ≤ (1 - 26 / (10 * 2 ^ 53)) * (1 / 2 ^ 31) := by norm_num
    linarith
  have hLpos : 0 < L := lt_of_lt_of_le (by positivity) hL3
  have hguard : (7737125245533627 : ℝ) * 2 ^ (-86 : ℤ) ≤ L :=
    le_trans (by norm_num) hL3
  -- the components of the normalised vector
  obtain ⟨⟨ax, ay, az⟩, tlo, thi⟩ := normalized_sumsq_bounds w1 w2 w3 L hLpos hlo hhi
  have hT2 : w1 * w1 + w2 * w2 + w3 * w3 ≤ 2 * (L * L) := by
    have : (1 / 2 : ℝ) * (w1 * w1 + w2 * w2 + w3 * w3)
        ≤ (1 - 51 / (10 * 2 ^ 53)) * (w1 * w1 + w2 * w2 + w3 * w3) :=
      mul_le_mul_of_nonneg_right (by norm_num) (by linarith)
    linarith
  have q1 := abs_div_le_two w1 L hLpos (by linarith)
  have q2 := abs_div_le_two w2 L hLpos (by linarith)
  have q3 := abs_div_le_two w3 L hLpos (by linarith)
  -- the computed `D . D`
  obtain ⟨_, ha1, ha2⟩ := sumsq_rnd_bounds (rnd (w1 / L)) (rnd (w2 / L)) (rnd (w3 / L))
  have ha3 : 1 - 103 / (10 * 2 ^ 53)
      ≤ rnd (rnd (rnd (rnd (w1 / L) * rnd (w1 / L)) + rnd (rnd (w2 / L) * rnd (w2 / L)))
        + rnd (rnd (w3 / L) * rnd (w3 / L))) := by
    have h1 := mul_le_mul_of_nonneg_left tlo
      (by norm_num : (0 : ℝ) ≤ 1 - 301 / (100 * 2 ^ 53))
    have h2 : (1 - 103 / (10 * 2 ^ 53) : ℝ) + 6 * (1 / 2 ^ 1000)
        ≤ (1 - 301 / (100 * 2 ^ 53)) * (1 - 72 / (10 * 2 ^ 53)) := by norm_num
    linarith
  have ha4 : rnd (rnd (rnd (rnd (w1 / L) * rnd (w1 / L)) + rnd (rnd (w2 / L) * rnd (w2 / L)))
        + rnd (rnd (w3 / L) * rnd (w3 / L))) ≤ 1 + 103 / (10 * 2 ^ 53) := by
    have h1 := mul_le_mul_of_nonneg_left thi
      (by norm_num : (0 : ℝ) ≤ 1 + 301 / (100 * 2 ^ 53))
    have h2 : (1 + 301 / (100 * 2 ^ 53)) * (1 + 72 / (10 * 2 ^ 53)) + 6 * (1 / 2 ^ 1000)
        ≤ (1 + 103 / (10 * 2 ^ 53) : ℝ) := by norm_num
    linarith
  exact ⟨⟨z1, z2, z3⟩, ⟨hs3, hs4⟩, ⟨hLpos, hguard, q1, q2, q3⟩, ⟨ax, ay, az⟩, ⟨ha3, ha4⟩,
    dot_toward_bounds w1 w2 w3 L W z1 z2 z3 hWlo hW2 hLpos hL1 hL2⟩

/-- The distance to the centre: with `d` the exact length of the difference `e = C - O`, the
length `W` of the rounded difference and `Q = W * W / r` are in the range that the analysis of
the roots needs, and a value within `60 * 2^-53 * Q` of `W - r` is within
`d * d / (2^46 * r)` of `d - r`. -/
lemma toward_centre_distance (e1 e2 e3 d r W : ℝ) (hd0 : 0 ≤ d)
    (hd2 : d * d = e1 * e1 + e2 * e2 + e3 * e3) (hr : 1 / 2 ^ 30 ≤ r) (hbig : d ≤ 2 ^ 100)
    (hfar : d ≤ 2 ^ 20 * r) (hmargin : d * d / (2 ^ 46 * r) ≤ d - r)
    (hW0 : 0 ≤ W) (hW2 : W * W = rnd e1 * rnd e1 + rnd e2 * rnd e2 + rnd e3 * rnd e3) :
    (|e1| ≤ 2 ^ 250 ∧ |e2| ≤ 2 ^ 250 ∧ |e3| ≤ 2 ^ 250) ∧
    (1 / 2 ^ 31 ≤ W ∧ W ≤ 2 ^ 101) ∧
    (W * W / r * r = W * W ∧ W * W ≤ 2 ^ 41 * (r * r) ∧ 100 / 2 ^ 53 * (W * W / r) ≤ W - r) ∧
    ∀ t : ℝ, |t - (W - r)| ≤ 60 / 2 ^ 53 * (W * W / r) →
      |t - (d - r)| ≤ d * d / (2 ^ 46 * r) := by
  have hr0 : 0 < r := lt_of_lt_of_le (by positivity) hr
  -- the quotient `Y = d * d / r`
  have hY : d * d / (2 ^ 46 * r) = 1 / 2 ^ 46 * (d * d / r) := by
    field_simp
  rw [hY] at hmargin ⊢
  have hYr : d * d / r * r = d * d := div_mul_cancel₀ _ (ne_of_gt hr0)
  have hY0 : 0 ≤ d * d / r := div_nonneg (mul_self_nonneg d) hr0.le
  have hrd : r ≤ d := by
    have : (0 : ℝ) ≤ 1 / 2 ^ 46 * (d * d / r) := mul_nonneg (by positivity) hY0
    linarith
  have hdpos : 0 < d := lt_of_lt_of_le hr0 hrd
  have hdY : d ≤ d * d / r := by
    rw [le_div_iff₀ hr0]
    exact mul_le_mul_of_nonneg_left hrd hd0
  -- sizes of the components
  have sz : ∀ e : ℝ, e * e ≤ d * d → |e| ≤ 2 ^ 100 := by
    intro e he
    have : |e| ≤ d := by
      rw [mul_self_le_mul_self_iff (abs_nonneg e) hd0, abs_mul_abs_self]
      exact he
    linarith
  have hX := mul_self_nonneg e1
  have hY' := mul_self_nonneg e2
  have hZ := mul_self_nonneg e3
  have z1 := sz e1 (by linarith)
  have z2 := sz e2 (by linarith)
  have z3 := sz e3 (by linarith)
  have hdd : 1 / 2 ^ 60 ≤ d * d := by
    have := mul_self_le_mul_self (by positivity : (0 : ℝ) ≤ 1 / 2 ^ 30) (le_trans hr hrd)
    have e : (1 / 2 ^ 30 : ℝ) * (1 / 2 ^ 30) = 1 / 2 ^ 60 := by norm_num
    linarith
  -- the length of the rounded difference
  obtain ⟨hw1, hw2⟩ := diff_sumsq_bounds e1 e2 e3 z1 z2 z3 (by rw [← hd2]; exact hdd)
  rw [← hW2, ← hd2] at hw1 hw2
  obtain ⟨hW1, hW3⟩ := bounds_of_sq_bounds W d (1 - 102 / (100 * 2 ^ 53))
    (1 + 102 / (100 * 2 ^ 53)) hW0 hd0 (by norm_num) (by norm_num)
    (by
      have : (1 - 102 / (100 * 2 ^ 53)) * (1 - 102 / (100 * 2 ^ 53)) * (d * d)
          ≤ (1 - 202 / (100 * 2 ^ 53)) * (d * d) :=
        mul_le_mul_of_nonneg_right (by norm_num) (mul_self_nonneg d)
      linarith)
    (by
      have : (1 + 202 / (100 * 2 ^ 53)) * (d * d)
          ≤ (1 + 102 / (100 * 2 ^ 53)) * (1 + 102 / (100 * 2 ^ 53)) * (d * d) :=
        mul_le_mul_of_nonneg_right (by norm_num) (mul_self_nonneg d)
      linarith)
  have hW31 : 1 / 2 ^ 31 ≤ W := by
    have : (1 - 102 / (100 * 2 ^ 53)) * (1 / 2 ^ 30) ≤ (1 - 102 / (100 * 2 ^ 53)) * d :=
      mul_le_mul_of_nonneg_left (le_trans hr hrd) (by norm_num)
    have : (1 : ℝ) / 2 ^ 31 ≤ (1 - 102 / (100 * 2 ^ 53)) * (1 / 2 ^ 30) := by norm_num
    linarith
  have hW101 : W ≤ 2 ^ 101 := by
    have : (1 + 102 / (100 * 2 ^ 53)) * d ≤ (1 + 102 / (100 * 2 ^ 53)) * 2 ^ 100 :=
      mul_le_mul_of_nonneg_left hbig (by norm_num)
    have : (1 + 102 / (100 * 2 ^ 53)) * 2 ^ 100 ≤ (2 : ℝ) ^ 101 := by norm_num
    linarith
  -- the quotient `Q = W * W / r`
  have hQr : W * W / r * r = W * W := div_mul_cancel₀ _ (ne_of_gt hr0)
  have hQY : W * W / r ≤ (1 + 202 / (100 * 2 ^ 53)) * (d * d / r) := by
    rw [← mul_div_assoc]
    exact div_le_div_of_nonneg_right hw2 hr0.le
  have hfar2 : W * W ≤ 2 ^ 41 * (r * r) := by
    have h1 := mul_self_le_mul_self hd0 hfar
    have h2 : (1 + 202 / (100 * 2 ^ 53)) * (d * d)
        ≤ (1 + 202 / (100 * 2 ^ 53)) * (2 ^ 20 * r * (2 ^ 20 * r)) :=
      mul_le_mul_of_nonneg_left h1 (by norm_num)
    have e : (1 + 202 / (100 * 2 ^ 53)) * (2 ^ 20 * r * (2 ^ 20 * r))
        = (1 + 202 / (100 * 2 ^ 53)) * 2 ^ 40 * (r * r) := by ring
    have h3 : (1 + 202 / (100 * 2 ^ 53)) * 2 ^ 40 * (r * r) ≤ 2 ^ 41 * (r * r) :=
      mul_le_mul_of_nonneg_right (by norm_num) (mul_self_nonneg r)
    linarith
  have hQ0 : 0 ≤ W * W / r := div_nonneg (mul_self_nonneg W) hr0.le
  have big : ∀ e : ℝ, |e| ≤ 2 ^ 100 → |e| ≤ 2 ^ 250 := fun e he =>
    le_trans he (pow_le_pow_right₀ (by norm_num) (by norm_num))
  refine ⟨⟨big _ z1, big _ z2, big _ z3⟩, ⟨hW31, hW101⟩, ⟨hQr, hfar2, ?_⟩, ?_⟩
  · have h1 := mul_le_mul_of_nonneg_left hQY (by norm_num : (0 : ℝ) ≤ 100 / 2 ^ 53)
    have h2 : (100 : ℝ) / 2 ^ 53 * ((1 + 202 / (100 * 2 ^ 53)) * (d * d / r))
        + 102 / (100 * 2 ^ 53) * (d * d / r) ≤ 1 / 2 ^ 46 * (d * d / r) := by
      have : (100 : ℝ) / 2 ^ 53 * (1 + 202 / (100 * 2 ^ 53)) + 102 / (100 * 2 ^ 53)
          ≤ 1 / 2 ^ 46 := by norm_num
      have := mul_le_mul_of_nonneg_right this hY0
      linarith
    have h3 : (102 : ℝ) / (100 * 2 ^ 53) * d ≤ 102 / (100 * 2 ^ 53) * (d * d / r) :=
      mul_le_mul_of_nonneg_left hdY (by norm_num)
    generalize W * W / r = Q at *
    generalize d * d / r = Y at *
    linarith
  · intro t ht
    rw [abs_le] at ht ⊢
    have h1 := mul_le_mul_of_nonneg_left hQY (by norm_num : (0 : ℝ) ≤ 60 / 2 ^ 53)
    have h2 : (60 : ℝ) / 2 ^ 53 * ((1 + 202 / (100 * 2 ^ 53)) * (d * d / r))
        + 102 / (100 * 2 ^ 53) * (d * d / r) ≤ 1 / 2 ^ 46 * (d * d / r) := by
      have : (60 : ℝ) / 2 ^ 53 * (1 + 202 / (100 * 2 ^ 53)) + 102 / (100 * 2 ^ 53)
          ≤ 1 / 2 ^ 46 := by norm_num
      have := mul_le_mul_of_nonneg_right this hY0
      linarith
    have h3 : (102 : ℝ) / (100 * 2 ^ 53) * d ≤ 102 / (100 * 2 ^ 53) * (d * d / r) :=
      mul_le_mul_of_nonneg_left hdY (by norm_num)
    generalize W * W / r = Q at *
    generalize d * d / r = Y at *
    constructor <;> linarith [ht.1, ht.2]

/-- C2 (amended). A ray aimed at the centre from outside hits, with the depth close to the
distance to the surface, in double precision. For a sphere of radius `r >= 2^-30` and centre `C`
and an origin `O` whose exact distance `dist = |O - C|` from the centre is at most `2^100` and
at most `2^20 * r`, and whose distance `dist - r` from the surface is at least the tolerance
`dist^2 / (2^46 * r)`, the method `Earth::intersectRay`, called with the direction
`D = normalize(C - O)` as computed in double precision, reports a hit, and the returned depth is
finite and differs from `dist - r` by at most `dist^2 / (2^46 * r)`. -/
theorem intersectRay_toward_centre_double (r c1 c2 c3 o1 o2 o3 dist : ℝ)
    (hdist : dist = Real.sqrt ((o1 - c1) * (o1 - c1) + (o2 - c2) * (o2 - c2)
      + (o3 - c3) * (o3 - c3)))
    (hr : 1 / 2 ^ 30 ≤ r) (hbig : dist ≤ 2 ^ 100) (hfar : dist ≤ 2 ^ 20 * r)
    (hmargin : dist * dist / (2 ^ 46 * r) ≤ dist - r) :
    ∃ (depth : ℝ) (hitPoint normal : Vec3D),
      Earth.intersectRayD (Dbl.fin r) ⟨Dbl.fin c1, Dbl.fin c2, Dbl.fin c3⟩
          ⟨Dbl.fin o1, Dbl.fin o2, Dbl.fin o3⟩
          (Vec3D.normalize (Vec3D.sub ⟨Dbl.fin c1, Dbl.fin c2, Dbl.fin c3⟩
            ⟨Dbl.fin o1, Dbl.fin o2, Dbl.fin o3⟩))
        = some (Dbl.fin depth, hitPoint, normal) ∧
      |depth - (dist - r)| ≤ dist * dist / (2 ^ 46 * r) := by
  classical
  have hd0 : 0 ≤ dist := hdist ▸ Real.sqrt_nonneg _
  have hd2 : dist * dist
      = (c1 - o1) * (c1 - o1) + (c2 - o2) * (c2 - o2) + (c3 - o3) * (c3 - o3) := by
    rw [hdist, Real.mul_self_sqrt
      (add_nonneg (add_nonneg (mul_self_nonneg _) (mul_self_nonneg _)) (mul_self_nonneg _))]
    ring
  -- the vector `w = C - O` as computed and its exact length `W`
  obtain ⟨w1, hw1⟩ : ∃ w, w = rnd (c1 - o1) := ⟨_, rfl⟩
  obtain ⟨w2, hw2⟩ : ∃ w, w = rnd (c2 - o2) := ⟨_, rfl⟩
  obtain ⟨w3, hw3⟩ : ∃ w, w = rnd (c3 - o3) := ⟨_, rfl⟩
  obtain ⟨W, hW⟩ : ∃ W, W = Real.sqrt (w1 * w1 + w2 * w2 + w3 * w3) := ⟨_, rfl⟩
  have hW0 : 0 ≤ W := hW ▸ Real.sqrt_nonneg _
  have hW2 : W * W = w1 * w1 + w2 * w2 + w3 * w3 := by
    rw [hW, Real.mul_self_sqrt
      (add_nonneg (add_nonneg (mul_self_nonneg _) (mul_self_nonneg _)) (mul_self_nonneg _))]
  obtain ⟨⟨he1, he2, he3⟩, ⟨hW31, hW101⟩, ⟨hQr, hfar2, hmarg⟩, hconv⟩ :=
    toward_centre_distance (c1 - o1) (c2 - o2) (c3 - o3) dist r W hd0 hd2 hr hbig hfar hmargin
      hW0 (by rw [hW2, hw1, hw2, hw3])
  -- its normalisation
  obtain ⟨L, hL⟩ : ∃ L, L
      = rnd (Real.sqrt (rnd (rnd (rnd (w1 * w1) + rnd (w2 * w2)) + rnd (w3 * w3)))) := ⟨_, rfl⟩
  obtain ⟨⟨z1, z2, z3⟩, ⟨hs1, hs2⟩, ⟨hLpos, hguard, q1, q2, q3⟩, ⟨ax, ay, az⟩, ⟨ha1, ha2⟩, hP1,
    hP2⟩ := toward_centre_normalized w1 w2 w3 W L hW2 hW31 hW101 hL
  obtain ⟨D1, hD1⟩ : ∃ D, D = rnd (w1 / L) := ⟨_, rfl⟩
  obtain ⟨D2, hD2⟩ : ∃ D, D = rnd (w2 / L) := ⟨_, rfl⟩
  obtain ⟨D3, hD3⟩ : ∃ D, D = rnd (w3 / L) := ⟨_, rfl⟩
  rw [← hD1] at ax
  rw [← hD2] at ay
  rw [← hD3] at az
  rw [← hD1, ← hD2, ← hD3] at ha1 ha2 hP1 hP2
  obtain ⟨a, ha⟩ : ∃ a, a
      = rnd (rnd (rnd (D1 * D1) + rnd (D2 * D2)) + rnd (D3 * D3)) := ⟨_, rfl⟩
  obtain ⟨P, hP⟩ : ∃ P, P
      = rnd (rnd (rnd (w1 * D1) + rnd (w2 * D2)) + rnd (w3 * D3)) := ⟨_, rfl⟩
  obtain ⟨s, hs⟩ : ∃ s, s
      = rnd (rnd (rnd (w1 * w1) + rnd (w2 * w2)) + rnd (w3 * w3)) := ⟨_, rfl⟩
  rw [← ha] at ha1 ha2
  rw [← hP] at hP1 hP2
  rw [← hs] at hs1 hs2
  -- the roots
  obtain ⟨⟨f1, f2, f3, f4, f5, f6, f7⟩, ⟨hdisc0, f8⟩, ⟨f9, f10, f11, hta, f12, f13⟩, ht0, hroot,
    hnear⟩ := toward_centre_roots W r (W * W / r) a P s hr hW101 hQr hfar2 hmarg ha1 ha2 hP1 hP2
      hs1 hs2
  -- the computation in double precision
  have b110 : ∀ t : ℝ, |t| ≤ 2 ^ 101 → |t| ≤ 2 ^ 110 := fun t ht =>
    le_trans ht (pow_le_pow_right₀ (by norm_num) (by norm_num))
  have c110 : ∀ t : ℝ, |t| ≤ 2 → |t| ≤ 2 ^ 110 := fun t ht =>
    le_trans ht (by norm_num)
  have c250 : ∀ t : ℝ, |t| ≤ 2 → |t| ≤ 2 ^ 250 := fun t ht =>
    le_trans ht (by norm_num)
  have hsub : Vec3D.sub ⟨Dbl.fin c1, Dbl.fin c2, Dbl.fin c3⟩
      ⟨Dbl.fin o1, Dbl.fin o2, Dbl.fin o3⟩ = ⟨Dbl.fin w1, Dbl.fin w2, Dbl.fin w3⟩ := by
    simp only [Vec3D.sub, Dbl.sub]
    rw [Dbl.round_of_abs_le_big _ he1, Dbl.round_of_abs_le_big _ he2,
      Dbl.round_of_abs_le_big _ he3, ← hw1, ← hw2, ← hw3]
  have hoc : Vec3D.sub ⟨Dbl.fin o1, Dbl.fin o2, Dbl.fin o3⟩
      ⟨Dbl.fin c1, Dbl.fin c2, Dbl.fin c3⟩ = ⟨Dbl.fin (-w1), Dbl.fin (-w2), Dbl.fin (-w3)⟩ := by
    simp only [Vec3D.sub, Dbl.sub]
    rw [show o1 - c1 = -(c1 - o1) by ring, show o2 - c2 = -(c2 - o2) by ring,
      show o3 - c3 = -(c3 - o3) by ring,
      Dbl.round_of_abs_le_big _ (by rwa [abs_neg]), Dbl.round_of_abs_le_big _ (by rwa [abs_neg]),
      Dbl.round_of_abs_le_big _ (by rwa [abs_neg]), rnd_neg, rnd_neg, rnd_neg,
      ← hw1, ← hw2, ← hw3]
  have hlen : Vec3D.length ⟨Dbl.fin w1, Dbl.fin w2, Dbl.fin w3⟩ = Dbl.fin L := by
    rw [length_fin _ _ _ (b110 _ z1) (b110 _ z2) (b110 _ z3), ← hL]
  have hg : ¬ Dbl.lt (Dbl.fin L) (Dbl.round 1e-10) := by
    rw [round_guard]
    exact not_lt.mpr hguard
  have hnorm : Vec3D.normalize ⟨Dbl.fin w1, Dbl.fin w2, Dbl.fin w3⟩
      = ⟨Dbl.fin D1, Dbl.fin D2, Dbl.fin D3⟩ := by
    unfold Vec3D.normalize
    simp only
    rw [hlen, if_neg hg]
    simp only [Dbl.div, if_neg (ne_of_gt hLpos)]
    rw [Dbl.round_of_abs_le_big _ (c250 _ q1), Dbl.round_of_abs_le_big _ (c250 _ q2),
      Dbl.round_of_abs_le_big _ (c250 _ q3), ← hD1, ← hD2, ← hD3]
  have hDD : Vec3D.dot ⟨Dbl.fin D1, Dbl.fin D2, Dbl.fin D3⟩ ⟨Dbl.fin D1, Dbl.fin D2, Dbl.fin D3⟩
      = Dbl.fin a := by
    rw [dot_fin _ _ _ _ _ _ (c110 _ ax) (c110 _ ay) (c110 _ az) (c110 _ ax) (c110 _ ay)
      (c110 _ az), ← ha]
  have n110 : ∀ t : ℝ, |t| ≤ 2 ^ 101 → |-t| ≤ 2 ^ 110 := fun t ht => by
    rw [abs_neg]; exact b110 t ht
  have hocD : Vec3D.dot ⟨Dbl.fin (-w1), Dbl.fin (-w2), Dbl.fin (-w3)⟩
      ⟨Dbl.fin D1, Dbl.fin D2, Dbl.fin D3⟩ = Dbl.fin (-P) := by
    rw [dot_fin _ _ _ _ _ _ (n110 _ z1) (n110 _ z2) (n110 _ z3) (c110 _ ax) (c110 _ ay)
      (c110 _ az), rnd_dot_neg, ← hP]
  have hococ : Vec3D.dot ⟨Dbl.fin (-w1), Dbl.fin (-w2), Dbl.fin (-w3)⟩
      ⟨Dbl.fin (-w1), Dbl.fin (-w2), Dbl.fin (-w3)⟩ = Dbl.fin s := by
    rw [dot_fin _ _ _ _ _ _ (n110 _ z1) (n110 _ z2) (n110 _ z3) (n110 _ z1) (n110 _ z2)
      (n110 _ z3), neg_mul_neg, neg_mul_neg, neg_mul_neg, ← hs]
  have e_b : Dbl.mul (Dbl.round 2) (Dbl.fin (-P)) = Dbl.fin (-rnd (2 * P)) := by
    rw [Dbl.round_ofNat 2 (by norm_num)]
    simp only [Dbl.mul]
    rw [Dbl.round_of_abs_le_big _ f1, mul_neg, rnd_neg]
  have e_rr : Dbl.mul (Dbl.fin r) (Dbl.fin r) = Dbl.fin (rnd (r * r)) := by
    simp only [Dbl.mul]
    rw [Dbl.round_of_abs_le_big _ f2]
  have e_c : Dbl.sub (Dbl.fin s) (Dbl.fin (rnd (r * r))) = Dbl.fin (rnd (s - rnd (r * r))) := by
    simp only [Dbl.sub]
    rw [Dbl.round_of_abs_le_big _ f3]
  have e_bb : Dbl.mul (Dbl.fin (-rnd (2 * P))) (Dbl.fin (-rnd (2 * P)))
      = Dbl.fin (rnd (rnd (2 * P) * rnd (2 * P))) := by
    simp only [Dbl.mul]
    rw [Dbl.round_of_abs_le_big _ f4, neg_mul_neg]
  have e_fa : Dbl.mul (Dbl.round 4) (Dbl.fin a) = Dbl.fin (rnd (4 * a)) := by
    rw [Dbl.round_ofNat 4 (by norm_num)]
    simp only [Dbl.mul]
    rw [Dbl.round_of_abs_le_big _ f5]
  have e_fac : Dbl.mul (Dbl.fin (rnd (4 * a))) (Dbl.fin (rnd (s - rnd (r * r))))
      = Dbl.fin (rnd (rnd (4 * a) * rnd (s - rnd (r * r)))) := by
    simp only [Dbl.mul]
    rw [Dbl.round_of_abs_le_big _ f6]
  obtain ⟨disc, hdisc⟩ : ∃ disc, disc = rnd (rnd (rnd (2 * P) * rnd (2 * P))
      - rnd (rnd (4 * a) * rnd (s - rnd (r * r)))) := ⟨_, rfl⟩
  rw [← hdisc] at hdisc0 f8 f9 f10 f12 f13 ht0 hroot hnear
  have e_disc : Dbl.sub (Dbl.fin (rnd (rnd (2 * P) * rnd (2 * P))))
      (Dbl.fin (rnd (rnd (4 * a) * rnd (s - rnd (r * r))))) = Dbl.fin disc := by
    simp only [Dbl.sub]
    rw [Dbl.round_of_abs_le_big _ f7, ← hdisc]
  have hdiscD : discriminantD (Dbl.fin r) ⟨Dbl.fin c1, Dbl.fin c2, Dbl.fin c3⟩
      ⟨Dbl.fin o1, Dbl.fin o2, Dbl.fin o3⟩ ⟨Dbl.fin D1, Dbl.fin D2, Dbl.fin D3⟩
      = Dbl.fin disc := by
    unfold discriminantD
    simp only []
    rw [hoc, hDD, hocD, hococ, e_b, e_rr, e_c, e_bb, e_fa, e_fac, e_disc]
  have e_sd : Dbl.sqrt (Dbl.fin disc) = Dbl.fin (rnd (Real.sqrt disc)) := by
    simp only [Dbl.sqrt, if_neg (not_lt.mpr hdisc0)]
    rw [Dbl.round_of_abs_le_big _ f8]
  have e_ta : Dbl.mul (Dbl.round 2) (Dbl.fin a) = Dbl.fin (rnd (2 * a)) := by
    rw [Dbl.round_ofNat 2 (by norm_num)]
    simp only [Dbl.mul]
    rw [Dbl.round_of_abs_le_big _ f11]
  obtain ⟨t1, ht1⟩ : ∃ t, t
      = rnd (rnd (rnd (2 * P) - rnd (Real.sqrt disc)) / rnd (2 * a)) := ⟨_, rfl⟩
  obtain ⟨t2, ht2⟩ : ∃ t, t
      = rnd (rnd (rnd (2 * P) + rnd (Real.sqrt disc)) / rnd (2 * a)) := ⟨_, rfl⟩
  rw [← ht1] at ht0 hroot hnear
  rw [← ht2] at hroot
  have hroot1 : rootOneD (Dbl.fin r) ⟨Dbl.fin c1, Dbl.fin c2, Dbl.fin c3⟩
      ⟨Dbl.fin o1, Dbl.fin o2, Dbl.fin o3⟩ ⟨Dbl.fin D1, Dbl.fin D2, Dbl.fin D3⟩
      = Dbl.fin t1 := by
    unfold rootOneD
    simp only []
    rw [hdiscD, hoc, hDD, hocD, e_b, e_sd, e_ta]
    simp only [Dbl.neg, neg_neg, Dbl.sub]
    rw [Dbl.round_of_abs_le_big _ f9]
    simp only [Dbl.div, if_neg hta]
    rw [Dbl.round_of_abs_le_big _ f12, ← ht1]
  have hroot2 : rootTwoD (Dbl.fin r) ⟨Dbl.fin c1, Dbl.fin c2, Dbl.fin c3⟩
      ⟨Dbl.fin o1, Dbl.fin o2, Dbl.fin o3⟩ ⟨Dbl.fin D1, Dbl.fin D2, Dbl.fin D3⟩
      = Dbl.fin t2 := by
    unfold rootTwoD
    simp only []
    rw [hdiscD, hoc, hDD, hocD, e_b, e_sd, e_ta]
    simp only [Dbl.neg, neg_neg, Dbl.add]
    rw [Dbl.round_of_abs_le_big _ f10]
    simp only [Dbl.div, if_neg hta]
    rw [Dbl.round_of_abs_le_big _ f13, ← ht2]
  -- the selection of the root
  have hd0' : ¬ Dbl.lt (Dbl.fin disc) (Dbl.fin 0) := not_lt.mpr hdisc0
  have hpos : Dbl.ge (Dbl.fin t1) (Dbl.fin 0) := ht0
  have hnl : ¬ Dbl.lt (Dbl.fin t1) (Dbl.fin 0) := not_lt.mpr ht0
  have hc : ¬ (Dbl.ge (Dbl.fin t2) (Dbl.fin 0) ∧
      (Dbl.lt (Dbl.fin t1) (Dbl.fin 0) ∨ Dbl.lt (Dbl.fin t2) (Dbl.fin t1))) :=
    fun h => h.2.elim hnl (not_lt.mpr hroot)
  have hres : Earth.intersectRayD (Dbl.fin r) ⟨Dbl.fin c1, Dbl.fin c2, Dbl.fin c3⟩
      ⟨Dbl.fin o1, Dbl.fin o2, Dbl.fin o3⟩
      (Vec3D.normalize (Vec3D.sub ⟨Dbl.fin c1, Dbl.fin c2, Dbl.fin c3⟩
        ⟨Dbl.fin o1, Dbl.fin o2, Dbl.fin o3⟩))
      = some (Dbl.fin t1,
          Vec3D.add ⟨Dbl.fin o1, Dbl.fin o2, Dbl.fin o3⟩
            (Vec3D.scale ⟨Dbl.fin D1, Dbl.fin D2, Dbl.fin D3⟩ (Dbl.fin t1)),
          Vec3D.normalize (Vec3D.sub (Vec3D.add ⟨Dbl.fin o1, Dbl.fin o2, Dbl.fin o3⟩
            (Vec3D.scale ⟨Dbl.fin D1, Dbl.fin D2, Dbl.fin D3⟩ (Dbl.fin t1)))
            ⟨Dbl.fin c1, Dbl.fin c2, Dbl.fin c3⟩)) := by
    rw [hsub, hnorm]
    unfold Earth.intersectRayD
    simp only []
    rw [hdiscD, hroot1, hroot2, Dbl.round_zero, if_neg hd0', if_pos hpos, if_neg hc, if_neg hnl]
  exact ⟨t1, _, _, hres, hconv t1 hnear⟩

/-- An instance of C2 (amended): the origin `(0, 0, -8)` at distance `8` from the centre of the
sphere of radius `3` about the origin. -/
theorem intersectRay_toward_centre_double_witness :
    ((8 : ℝ) = Real.sqrt ((0 - 0) * (0 - 0) + (0 - 0) * (0 - 0) + (-8 - 0) * (-8 - 0)) ∧
      (1 : ℝ) / 2 ^ 30 ≤ 3 ∧ (8 : ℝ) ≤ 2 ^ 100 ∧ (8 : ℝ) ≤ 2 ^ 20 * 3 ∧
      (8 : ℝ) * 8 / (2 ^ 46 * 3) ≤ 8 - 3) ∧
    ∃ (depth : ℝ) (hitPoint normal : Vec3D),
      Earth.intersectRayD (Dbl.fin 3) ⟨Dbl.fin 0, Dbl.fin 0, Dbl.fin 0⟩
          ⟨Dbl.fin 0, Dbl.fin 0, Dbl.fin (-8)⟩
          (Vec3D.normalize (Vec3D.sub ⟨Dbl.fin 0, Dbl.fin 0, Dbl.fin 0⟩
            ⟨Dbl.fin 0, Dbl.fin 0, Dbl.fin (-8)⟩))
        = some (Dbl.fin depth, hitPoint, normal) ∧
      |depth - (8 - 3)| ≤ 8 * 8 / (2 ^ 46 * 3) :=
  have h8 : (8 : ℝ)
      = Real.sqrt ((0 - 0) * (0 - 0) + (0 - 0) * (0 - 0) + (-8 - 0) * (-8 - 0)) := by
    rw [show ((0 : ℝ) - 0) * (0 - 0) + (0 - 0) * (0 - 0) + (-8 - 0) * (-8 - 0) = 8 * 8 by
      norm_num]
    exact (Real.sqrt_mul_self (by norm_num)).symm
  ⟨⟨h8, by norm_num, by norm_num, by norm_num, by norm_num⟩,
    intersectRay_toward_centre_double 3 0 0 0 0 0 (-8) 8 h8 (by norm_num) (by norm_num)
      (by norm_num) (by norm_num)⟩

lemma sqrt_1e18 : Real.sqrt 1000000000000000000 = 1000000000 := by
  rw [show (1000000000000000000 : ℝ) = 1000000000 * 1000000000 by norm_num]
  exact Real.sqrt_mul_self (by norm_num)

/-- The ray aimed at the centre of the unit sphere from `(1e9, 0, 0)`, in double precision: the
direction is `(-1, 0, 0)`, the radius is lost in `1e18 - 1`, the discriminant is `0` and both
roots are `1e9`. -/
lemma intersectRay_far_scene :
    Vec3D.normalize (Vec3D.sub ⟨Dbl.fin 0, Dbl.fin 0, Dbl.fin 0⟩
      ⟨Dbl.fin 1000000000, Dbl.fin 0, Dbl.fin 0⟩) = ⟨Dbl.fin (-1), Dbl.fin 0, Dbl.fin 0⟩ ∧
    Earth.intersectRayD (Dbl.fin 1) ⟨Dbl.fin 0, Dbl.fin 0, Dbl.fin 0⟩
        ⟨Dbl.fin 1000000000, Dbl.fin 0, Dbl.fin 0⟩ ⟨Dbl.fin (-1), Dbl.fin 0, Dbl.fin 0⟩
      = some (Dbl.fin 1000000000, ⟨Dbl.fin 0, Dbl.fin 0, Dbl.fin 0⟩,
          ⟨Dbl.fin 0, Dbl.fin 0, Dbl.fin 0⟩) := by
  have hsub : Vec3D.sub ⟨Dbl.fin 0, Dbl.fin 0, Dbl.fin 0⟩
      ⟨Dbl.fin 1000000000, Dbl.fin 0, Dbl.fin 0⟩
      = ⟨Dbl.fin (-1000000000), Dbl.fin 0, Dbl.fin 0⟩ := by
    norm_num [Vec3D.sub, Dbl.sub, Dbl.round_zero, Dbl.round_ofNat, Dbl.round_neg, Dbl.neg]
  have hl : Vec3D.length ⟨Dbl.fin (-1000000000), Dbl.fin 0, Dbl.fin 0⟩
      = Dbl.fin 1000000000 := by
    norm_num [Vec3D.length, Dbl.mul, Dbl.add, Dbl.sqrt, Dbl.round_zero, Dbl.round_ofNat,
      round_1e18, sqrt_1e18]
  have hg : ¬ Dbl.lt (Dbl.fin 1000000000) (Dbl.round 1e-10) := by
    rw [round_guard]
    show ¬ ((1000000000 : ℝ) < 7737125245533627 * 2 ^ (-86 : ℤ))
    norm_num
  have hn : Vec3D.normalize ⟨Dbl.fin (-1000000000), Dbl.fin 0, Dbl.fin 0⟩
      = ⟨Dbl.fin (-1), Dbl.fin 0, Dbl.fin 0⟩ := by
    unfold Vec3D.normalize
    simp only
    rw [hl, if_neg hg]
    norm_num [Dbl.div, Dbl.round_zero, Dbl.round_one, Dbl.round_neg, Dbl.neg]
  have hdisc : discriminantD (Dbl.fin 1) ⟨Dbl.fin 0, Dbl.fin 0, Dbl.fin 0⟩
      ⟨Dbl.fin 1000000000, Dbl.fin 0, Dbl.fin 0⟩ ⟨Dbl.fin (-1), Dbl.fin 0, Dbl.fin 0⟩
      = Dbl.fin 0 := by
    norm_num [discriminantD, Vec3D.sub, Vec3D.dot, Dbl.sub, Dbl.mul, Dbl.add, Dbl.round_zero,
      Dbl.round_one, Dbl.round_neg, Dbl.round_ofNat, Dbl.neg, round_1e18, round_1e18_sub,
      round_4e18]
  have h1 : rootOneD (Dbl.fin 1) ⟨Dbl.fin 0, Dbl.fin 0, Dbl.fin 0⟩
      ⟨Dbl.fin 1000000000, Dbl.fin 0, Dbl.fin 0⟩ ⟨Dbl.fin (-1), Dbl.fin 0, Dbl.fin 0⟩
      = Dbl.fin 1000000000 := by
    unfold rootOneD
    rw [hdisc]
    norm_num [Vec3D.sub, Vec3D.dot, Dbl.sub, Dbl.mul, Dbl.add, Dbl.div, Dbl.sqrt,
      Dbl.round_zero, Dbl.round_one, Dbl.round_neg, Dbl.round_ofNat, Dbl.neg]
  have h2 : rootTwoD (Dbl.fin 1) ⟨Dbl.fin 0, Dbl.fin 0, Dbl.fin 0⟩
      ⟨Dbl.fin 1000000000, Dbl.fin 0, Dbl.fin 0⟩ ⟨Dbl.fin (-1), Dbl.fin 0, Dbl.fin 0⟩
      = Dbl.fin 1000000000 := by
    unfold rootTwoD
    rw [hdisc]
    norm_num [Vec3D.sub, Vec3D.dot, Dbl.sub, Dbl.mul, Dbl.add, Dbl.div, Dbl.sqrt,
      Dbl.round_zero, Dbl.round_one, Dbl.round_neg, Dbl.round_ofNat, Dbl.neg]
  have hhit : Vec3D.add ⟨Dbl.fin 1000000000, Dbl.fin 0, Dbl.fin 0⟩
      (Vec3D.scale ⟨Dbl.fin (-1), Dbl.fin 0, Dbl.fin 0⟩ (Dbl.fin 1000000000))
      = ⟨Dbl.fin 0, Dbl.fin 0, Dbl.fin 0⟩ := by
    norm_num [Vec3D.add, Vec3D.scale, Dbl.mul, Dbl.add, Dbl.round_zero, Dbl.round_ofNat,
      Dbl.round_neg, Dbl.neg]
  have hoff : Vec3D.sub ⟨Dbl.fin 0, Dbl.fin 0, Dbl.fin 0⟩ ⟨Dbl.fin 0, Dbl.fin 0, Dbl.fin 0⟩
      = ⟨Dbl.fin 0, Dbl.fin 0, Dbl.fin 0⟩ := by
    norm_num [Vec3D.sub, Dbl.sub, Dbl.round_zero]
  have hzero : Vec3D.normalize ⟨Dbl.fin 0, Dbl.fin 0, Dbl.fin 0⟩
      = ⟨Dbl.fin 0, Dbl.fin 0, Dbl.fin 0⟩ := by
    have hg0 : Dbl.lt (Dbl.fin 0) (Dbl.round 1e-10) := by
      rw [round_guard]
      show (0 : ℝ) < 7737125245533627 * 2 ^ (-86 : ℤ)
      norm_num
    unfold Vec3D.normalize
    simp only
    rw [length_zero_vector, if_pos hg0]
  have hpos : Dbl.ge (Dbl.fin 1000000000) (Dbl.fin 0) := by
    show (1000000000 : ℝ) ≥ 0
    norm_num
  have hnl : ¬ Dbl.lt (Dbl.fin 1000000000) (Dbl.fin 0) := by
    show ¬ ((1000000000 : ℝ) < 0)
    norm_num
  have hself : ¬ Dbl.lt (Dbl.fin 1000000000) (Dbl.fin 1000000000) := by
    show ¬ ((1000000000 : ℝ) < 1000000000)
    norm_num
  have hd0 : ¬ Dbl.lt (Dbl.fin 0) (Dbl.fin 0) := by
    show ¬ ((0 : ℝ) < 0)
    norm_num
  have hc : ¬ (Dbl.ge (Dbl.fin 1000000000) (Dbl.fin 0) ∧
      (Dbl.lt (Dbl.fin 1000000000) (Dbl.fin 0) ∨
        Dbl.lt (Dbl.fin 1000000000) (Dbl.fin 1000000000))) := fun h => h.2.elim hnl hself
  refine ⟨by rw [hsub, hn], ?_⟩
  unfold Earth.intersectRayD
  simp only []
  rw [hdisc, h1, h2, Dbl.round_zero, if_neg hd0, if_pos hpos, if_neg hc, if_neg hnl, hhit,
    hoff, hzero]

/-- The square of the `double` nearest to `1e200` and of its double overflow. -/
lemma mul_1e200_overflow :
    Dbl.mul (Dbl.fin (5883593420661338 * 2 ^ (612 : ℤ)))
      (Dbl.fin (5883593420661338 * 2 ^ (612 : ℤ))) = Dbl.pinf ∧
    Dbl.mul (Dbl.fin (-(5883593420661338 * 2 ^ (613 : ℤ))))
      (Dbl.fin (-(5883593420661338 * 2 ^ (613 : ℤ)))) = Dbl.pinf := by
  have key : ∀ x : ℝ, (2 : ℝ) ^ (1024 : ℤ) + 1 / 2 ^ 1000 ≤ (1 - 1 / 2 ^ 53) * x →
      Dbl.round x = Dbl.pinf := by
    intro x hx
    have hpos : 0 < x := by
      have h1 : (0 : ℝ) < 2 ^ (1024 : ℤ) + 1 / 2 ^ 1000 := by positivity
      have h2 : (1 - 1 / 2 ^ 53 : ℝ) * x ≤ 1 * x ∨ x < 0 := by
        by_cases h : 0 ≤ x
        · exact Or.inl (mul_le_mul_of_nonneg_right (by norm_num) h)
        · exact Or.inr (not_le.mp h)
      rcases h2 with h2 | h2
      · linarith
      · have : (1 - 1 / 2 ^ 53 : ℝ) * x < 0 := mul_neg_of_pos_of_neg (by norm_num) h2
        linarith
    obtain ⟨h0, h1, _⟩ := rnd_bounds _ hpos.le
    have hη := eta_le
    have hge : (2 : ℝ) ^ (1024 : ℤ) ≤ |rnd x| := by
      rw [abs_of_nonneg h0]
      generalize rnd x = R at *
      generalize (1 - 1 / 2 ^ 53) * x = A at *
      generalize (2 : ℝ) ^ (-1075 : ℤ) = η at *
      generalize (2 : ℝ) ^ (1024 : ℤ) = B at *
      generalize (1 : ℝ) / 2 ^ 1000 = C at *
      linarith
    unfold Dbl.round
    rw [if_pos hge, if_pos hpos]
  constructor
  · simp only [Dbl.mul]
    exact key _ (by norm_num)
  · simp only [Dbl.mul]
    rw [neg_mul_neg]
    exact key _ (by norm_num)

/-- The ray from `(1e200, 0, 0)` along `(-1, 0, 0)` towards the unit sphere about the origin, in
double precision: `oc . oc` and `b * b` overflow, the discriminant is `inf - inf`, a NaN, and no
hit is reported. -/
lemma intersectRay_overflow_scene :
    Earth.intersectRayD (Dbl.fin 1) ⟨Dbl.fin 0, Dbl.fin 0, Dbl.fin 0⟩
        ⟨Dbl.round 1e200, Dbl.fin 0, Dbl.fin 0⟩ ⟨Dbl.fin (-1), Dbl.fin 0, Dbl.fin 0⟩ = none := by
  have hX : rnd ((5883593420661338 : ℝ) * 2 ^ (612 : ℤ)) = 5883593420661338 * 2 ^ (612 : ℤ) :=
    rnd_eq_of_pos' _ _ 664 5883593420661338 (by norm_num) (by norm_num) (by norm_num)
      (by norm_num) (by norm_num) (by norm_num)
  have hXr : Dbl.round ((5883593420661338 : ℝ) * 2 ^ (612 : ℤ))
      = Dbl.fin (5883593420661338 * 2 ^ (612 : ℤ)) :=
    Dbl.round_eq_fin _ _ hX (abs_lt_two_pow_1024 _ 665 (by norm_num) (by norm_num [abs_lt]))
  have h2X : Dbl.round (2 * ((5883593420661338 : ℝ) * 2 ^ (612 : ℤ)))
      = Dbl.fin (5883593420661338 * 2 ^ (613 : ℤ)) :=
    Dbl.round_eq_fin _ _
      (rnd_eq_of_pos' _ _ 665 5883593420661338 (by norm_num) (by norm_num) (by norm_num)
        (by norm_num) (by norm_num) (by norm_num))
      (abs_lt_two_pow_1024 _ 666 (by norm_num) (by norm_num [abs_lt]))
  have hoc : Vec3D.sub ⟨Dbl.fin (5883593420661338 * 2 ^ (612 : ℤ)), Dbl.fin 0, Dbl.fin 0⟩
      ⟨Dbl.fin 0, Dbl.fin 0, Dbl.fin 0⟩
      = ⟨Dbl.fin (5883593420661338 * 2 ^ (612 : ℤ)), Dbl.fin 0, Dbl.fin 0⟩ := by
    simp only [Vec3D.sub, Dbl.sub, sub_zero, Dbl.round_zero, hXr]
  have ha : Vec3D.dot ⟨Dbl.fin (-1), Dbl.fin 0, Dbl.fin 0⟩ ⟨Dbl.fin (-1), Dbl.fin 0, Dbl.fin 0⟩
      = Dbl.fin 1 := by
    norm_num [Vec3D.dot, Dbl.mul, Dbl.add, Dbl.round_zero, Dbl.round_one]
  have hp : Vec3D.dot ⟨Dbl.fin (5883593420661338 * 2 ^ (612 : ℤ)), Dbl.fin 0, Dbl.fin 0⟩
      ⟨Dbl.fin (-1), Dbl.fin 0, Dbl.fin 0⟩ = Dbl.fin (-(5883593420661338 * 2 ^ (612 : ℤ))) := by
    simp only [Vec3D.dot, Dbl.mul, mul_neg, mul_one, mul_zero, Dbl.round_zero, Dbl.round_neg,
      hXr, Dbl.neg, Dbl.add, add_zero]
  have hq : Vec3D.dot ⟨Dbl.fin (5883593420661338 * 2 ^ (612 : ℤ)), Dbl.fin 0, Dbl.fin 0⟩
      ⟨Dbl.fin (5883593420661338 * 2 ^ (612 : ℤ)), Dbl.fin 0, Dbl.fin 0⟩ = Dbl.pinf := by
    unfold Vec3D.dot
    simp only
    rw [mul_1e200_overflow.1]
    simp only [Dbl.mul, mul_zero, Dbl.round_zero, Dbl.add]
  have hb : Dbl.mul (Dbl.round 2) (Dbl.fin (-(5883593420661338 * 2 ^ (612 : ℤ))))
      = Dbl.fin (-(5883593420661338 * 2 ^ (613 : ℤ))) := by
    rw [Dbl.round_ofNat 2 (by norm_num)]
    simp only [Dbl.mul, mul_neg, Dbl.round_neg, h2X, Dbl.neg]
  have hdisc : discriminantD (Dbl.fin 1) ⟨Dbl.fin 0, Dbl.fin 0, Dbl.fin 0⟩
      ⟨Dbl.fin (5883593420661338 * 2 ^ (612 : ℤ)), Dbl.fin 0, Dbl.fin 0⟩
      ⟨Dbl.fin (-1), Dbl.fin 0, Dbl.fin 0⟩ = Dbl.nan := by
    unfold discriminantD
    simp only []
    rw [hoc, ha, hp, hq, hb, mul_1e200_overflow.2, Dbl.round_ofNat 4 (by norm_num)]
    norm_num [Dbl.mul, Dbl.sub, Dbl.round_one, Dbl.round_ofNat]
  have h1 : rootOneD (Dbl.fin 1) ⟨Dbl.fin 0, Dbl.fin 0, Dbl.fin 0⟩
      ⟨Dbl.fin (5883593420661338 * 2 ^ (612 : ℤ)), Dbl.fin 0, Dbl.fin 0⟩
      ⟨Dbl.fin (-1), Dbl.fin 0, Dbl.fin 0⟩ = Dbl.nan := by
    unfold rootOneD
    simp only []
    rw [hdisc, hoc, ha, hp, hb]
    simp only [Dbl.sqrt, Dbl.neg, Dbl.sub, Dbl.div]
  have h2 : rootTwoD (Dbl.fin 1) ⟨Dbl.fin 0, Dbl.fin 0, Dbl.fin 0⟩
      ⟨Dbl.fin (5883593420661338 * 2 ^ (612 : ℤ)), Dbl.fin 0, Dbl.fin 0⟩
      ⟨Dbl.fin (-1), Dbl.fin 0, Dbl.fin 0⟩ = Dbl.nan := by
    unfold rootTwoD
    simp only []
    rw [hdisc, hoc, ha, hp, hb]
    simp only [Dbl.sqrt, Dbl.neg, Dbl.add, Dbl.div]
  have hm1 : Dbl.lt (Dbl.neg (Dbl.round 1)) (Dbl.fin 0) := by
    rw [Dbl.round_one]
    show (-1 : ℝ) < 0
    norm_num
  have hnan : ¬ Dbl.ge Dbl.nan (Dbl.fin 0) := fun h => h
  have hnl : ¬ Dbl.lt Dbl.nan (Dbl.fin 0) := fun h => h
  have hc : ¬ (Dbl.ge Dbl.nan (Dbl.fin 0) ∧
      (Dbl.lt (Dbl.neg (Dbl.round 1)) (Dbl.fin 0) ∨
        Dbl.lt Dbl.nan (Dbl.neg (Dbl.round 1)))) := fun h => hnan h.1
  rw [round_1e200]
  unfold Earth.intersectRayD
  simp only []
  rw [hdisc, h1, h2, Dbl.round_zero, if_neg hnl, if_neg hnan, if_neg hc, if_pos hm1]

/-! ### An origin just outside the sphere

The evaluation, operation by operation, of `Earth::intersectRay` for the sphere of radius `3`
about the origin and the origin `O = (2.520826660937425, 1.5752228998389692,
-0.40509969307564564)`, whose exact distance from the centre exceeds `3` by less than `1e-15`. -/

lemma grazing_ev1 : Dbl.round (0 - (5676397005431699 * 2 ^ (-51 : ℤ))) = Dbl.fin (-(5676397005431699 * 2 ^ (-51 : ℤ))) :=
  Dbl.round_eq_fin _ _
    (rnd_eq_of_neg' _ _ 1 5676397005431699 (by norm_num) (by norm_num) (by norm_num) (by norm_num)
      (by norm_num) (by norm_num))
    (abs_lt_two_pow_1024 _ 2 (by norm_num) (by norm_num [abs_lt]))

lemma grazing_ev2 : Dbl.round (0 - (3547086632370127 * 2 ^ (-51 : ℤ))) = Dbl.fin (-(3547086632370127 * 2 ^ (-51 : ℤ))) :=
  Dbl.round_eq_fin _ _
    (rnd_eq_of_neg' _ _ 0 7094173264740254 (by norm_num) (by norm_num) (by norm_num) (by norm_num)
      (by norm_num) (by norm_num))
    (abs_lt_two_pow_1024 _ 1 (by norm_num) (by norm_num [abs_lt]))

lemma grazing_ev3 : Dbl.round (0 - (-(456101706695845 * 2 ^ (-50 : ℤ)))) = Dbl.fin (456101706695845 * 2 ^ (-50 : ℤ)) :=
  Dbl.round_eq_fin _ _
    (rnd_eq_of_pos' _ _ (-2) 7297627307133520 (by norm_num) (by norm_num) (by norm_num) (by norm_num)
      (by norm_num) (by norm_num))
    (abs_lt_two_pow_1024 _ (-1) (by norm_num) (by norm_num [abs_lt]))

lemma grazing_ev4 : Dbl.round ((-(5676397005431699 * 2 ^ (-51 : ℤ))) * (-(5676397005431699 * 2 ^ (-51 : ℤ)))) = Dbl.fin (7154606454678793 * 2 ^ (-50 : ℤ)) :=
  Dbl.round_eq_fin _ _
    (rnd_eq_of_pos' _ _ 2 7154606454678793 (by norm_num) (by norm_num) (by norm_num) (by norm_num)
      (by norm_num) (by norm_num))
    (abs_lt_two_pow_1024 _ 3 (by norm_num) (by norm_num [abs_lt]))

lemma grazing_ev5 : Dbl.round ((-(3547086632370127 * 2 ^ (-51 : ℤ))) * (-(3547086632370127 * 2 ^ (-51 : ℤ)))) = Dbl.fin (5587452091022115 * 2 ^ (-51 : ℤ)) :=
  Dbl.round_eq_fin _ _
    (rnd_eq_of_pos' _ _ 1 5587452091022115 (by norm_num) (by norm_num) (by norm_num) (by norm_num)
      (by norm_num) (by norm_num))
    (abs_lt_two_pow_1024 _ 2 (by norm_num) (by norm_num [abs_lt]))

lemma grazing_ev6 : Dbl.round ((456101706695845 * 2 ^ (-50 : ℤ)) * (456101706695845 * 2 ^ (-50 : ℤ))) = Dbl.fin (5912533164600479 * 2 ^ (-55 : ℤ)) :=
  Dbl.round_eq_fin _ _
    (rnd_eq_of_pos' _ _ (-3) 5912533164600479 (by norm_num) (by norm_num) (by norm_num) (by norm_num)
      (by norm_num) (by norm_num))
    (abs_lt_two_pow_1024 _ (-2) (by norm_num) (by norm_num [abs_lt]))

lemma grazing_ev7 : Dbl.round ((7154606454678793 * 2 ^ (-50 : ℤ)) + (5587452091022115 * 2 ^ (-51 : ℤ))) = Dbl.fin (4974166250094925 * 2 ^ (-49 : ℤ)) :=
  Dbl.round_eq_fin _ _
    (rnd_eq_of_pos' _ _ 3 4974166250094925 (by norm_num) (by norm_num) (by norm_num) (by norm_num)
      (by norm_num) (by norm_num))
    (abs_lt_two_pow_1024 _ 4 (by norm_num) (by norm_num [abs_lt]))

lemma grazing_ev8 : Dbl.round ((4974166250094925 * 2 ^ (-49 : ℤ)) + (5912533164600479 * 2 ^ (-55 : ℤ))) = Dbl.fin (5066549580791807 * 2 ^ (-49 : ℤ)) :=
  Dbl.round_eq_fin _ _
    (rnd_eq_of_pos' _ _ 3 5066549580791807 (by norm_num) (by norm_num) (by norm_num) (by norm_num)
      (by norm_num) (by norm_num))
    (abs_lt_two_pow_1024 _ 4 (by norm_num) (by norm_num [abs_lt]))

lemma grazing_ev9 : Dbl.round (Real.sqrt (5066549580791807 * 2 ^ (-49 : ℤ))) = Dbl.fin (6755399441055743 * 2 ^ (-51 : ℤ)) :=
  Dbl.round_eq_fin _ _
    (rnd_sqrt_eq _ _ 1 6755399441055743 (by norm_num) (by norm_num) (by norm_num) (by norm_num)
      (by norm_num) (by norm_num) (by norm_num))
    (abs_lt_two_pow_1024 _ 2 (by norm_num) (by norm_num [abs_lt]))

lemma grazing_ev10 : Dbl.round ((-(5676397005431699 * 2 ^ (-51 : ℤ))) / (6755399441055743 * 2 ^ (-51 : ℤ))) = Dbl.fin (-(473033083785975 * 2 ^ (-49 : ℤ))) :=
  Dbl.round_eq_fin _ _
    (rnd_eq_of_neg' _ _ (-1) 7568529340575600 (by norm_num) (by norm_num) (by norm_num) (by norm_num)
      (by norm_num) (by norm_num))
    (abs_lt_two_pow_1024 _ 0 (by norm_num) (by norm_num [abs_lt]))

lemma grazing_ev11 : Dbl.round ((-(3547086632370127 * 2 ^ (-51 : ℤ))) / (6755399441055743 * 2 ^ (-51 : ℤ))) = Dbl.fin (-(2364724421580085 * 2 ^ (-52 : ℤ))) :=
  Dbl.round_eq_fin _ _
    (rnd_eq_of_neg' _ _ (-1) 4729448843160170 (by norm_num) (by norm_num) (by norm_num) (by norm_num)
      (by norm_num) (by norm_num))
    (abs_lt_two_pow_1024 _ 0 (by norm_num) (by norm_num [abs_lt]))

lemma grazing_ev12 : Dbl.round ((456101706695845 * 2 ^ (-50 : ℤ)) / (6755399441055743 * 2 ^ (-51 : ℤ))) = Dbl.fin (4865084871422347 * 2 ^ (-55 : ℤ)) :=
  Dbl.round_eq_fin _ _
    (rnd_eq_of_pos' _ _ (-3) 4865084871422347 (by norm_num) (by norm_num) (by norm_num) (by norm_num)
      (by norm_num) (by norm_num))
    (abs_lt_two_pow_1024 _ (-2) (by norm_num) (by norm_num [abs_lt]))

lemma grazing_ev13 : Dbl.round ((5676397005431699 * 2 ^ (-51 : ℤ)) - 0) = Dbl.fin (5676397005431699 * 2 ^ (-51 : ℤ)) :=
  Dbl.round_eq_fin _ _
    (rnd_eq_of_pos' _ _ 1 5676397005431699 (by norm_num) (by norm_num) (by norm_num) (by norm_num)
      (by norm_num) (by norm_num))
    (abs_lt_two_pow_1024 _ 2 (by norm_num) (by norm_num [abs_lt]))

lemma grazing_ev14 : Dbl.round ((3547086632370127 * 2 ^ (-51 : ℤ)) - 0) = Dbl.fin (3547086632370127 * 2 ^ (-51 : ℤ)) :=
  Dbl.round_eq_fin _ _
    (rnd_eq_of_pos' _ _ 0 7094173264740254 (by norm_num) (by norm_num) (by norm_num) (by norm_num)
      (by norm_num) (by norm_num))
    (abs_lt_two_pow_1024 _ 1 (by norm_num) (by norm_num [abs_lt]))

lemma grazing_ev15 : Dbl.round ((-(456101706695845 * 2 ^ (-50 : ℤ))) - 0) = Dbl.fin (-(456101706695845 * 2 ^ (-50 : ℤ))) :=
  Dbl.round_eq_fin _ _
    (rnd_eq_of_neg' _ _ (-2) 7297627307133520 (by norm_num) (by norm_num) (by norm_num) (by norm_num)
      (by norm_num) (by norm_num))
    (abs_lt_two_pow_1024 _ (-1) (by norm_num) (by norm_num [abs_lt]))

lemma grazing_ev16 : Dbl.round ((-(473033083785975 * 2 ^ (-49 : ℤ))) * (-(473033083785975 * 2 ^ (-49 : ℤ)))) = Dbl.fin (1589912545484177 * 2 ^ (-51 : ℤ)) :=
  Dbl.round_eq_fin _ _
    (rnd_eq_of_pos' _ _ (-1) 6359650181936708 (by norm_num) (by norm_num) (by norm_num) (by norm_num)
      (by norm_num) (by norm_num))
    (abs_lt_two_pow_1024 _ 0 (by norm_num) (by norm_num [abs_lt]))

lemma grazing_ev17 : Dbl.round ((-(2364724421580085 * 2 ^ (-52 : ℤ))) * (-(2364724421580085 * 2 ^ (-52 : ℤ)))) = Dbl.fin (1241656020227137 * 2 ^ (-52 : ℤ)) :=
  Dbl.round_eq_fin _ _
    (rnd_eq_of_pos' _ _ (-2) 4966624080908548 (by norm_num) (by norm_num) (by norm_num) (by norm_num)
      (by norm_num) (by norm_num))
    (abs_lt_two_pow_1024 _ (-1) (by norm_num) (by norm_num [abs_lt]))

lemma grazing_ev18 : Dbl.round ((4865084871422347 * 2 ^ (-55 : ℤ)) * (4865084871422347 * 2 ^ (-55 : ℤ))) = Dbl.fin (2627792517600213 * 2 ^ (-57 : ℤ)) :=
  Dbl.round_eq_fin _ _
    (rnd_eq_of_pos' _ _ (-6) 5255585035200426 (by norm_num) (by norm_num) (by norm_num) (by norm_num)
      (by norm_num) (by norm_num))
    (abs_lt_two_pow_1024 _ (-5) (by norm_num) (by norm_num [abs_lt]))

lemma grazing_ev19 : Dbl.round ((1589912545484177 * 2 ^ (-51 : ℤ)) + (1241656020227137 * 2 ^ (-52 : ℤ))) = Dbl.fin (4421481111195491 * 2 ^ (-52 : ℤ)) :=
  Dbl.round_eq_fin _ _
    (rnd_eq_of_pos' _ _ (-1) 8842962222390982 (by norm_num) (by norm_num) (by norm_num) (by norm_num)
      (by norm_num) (by norm_num))
    (abs_lt_two_pow_1024 _ 0 (by norm_num) (by norm_num [abs_lt]))

lemma grazing_ev20 : Dbl.round ((4421481111195491 * 2 ^ (-52 : ℤ)) + (2627792517600213 * 2 ^ (-57 : ℤ))) = Dbl.fin (2251799813685249 * 2 ^ (-51 : ℤ)) :=
  Dbl.round_eq_fin _ _
    (rnd_eq_of_pos' _ _ 0 4503599627370498 (by norm_num) (by norm_num) (by norm_num) (by norm_num)
      (by norm_num) (by norm_num))
    (abs_lt_two_pow_1024 _ 1 (by norm_num) (by norm_num [abs_lt]))

lemma grazing_ev21 : Dbl.round ((5676397005431699 * 2 ^ (-51 : ℤ)) * (-(473033083785975 * 2 ^ (-49 : ℤ)))) = Dbl.fin (-(2384868818226265 * 2 ^ (-50 : ℤ))) :=
  Dbl.round_eq_fin _ _
    (rnd_eq_of_neg' _ _ 1 4769737636452530 (by norm_num) (by norm_num) (by norm_num) (by norm_num)
      (by norm_num) (by norm_num))
    (abs_lt_two_pow_1024 _ 2 (by norm_num) (by norm_num [abs_lt]))

lemma grazing_ev22 : Dbl.round ((3547086632370127 * 2 ^ (-51 : ℤ)) * (-(2364724421580085 * 2 ^ (-52 : ℤ)))) = Dbl.fin (-(7449936121362821 * 2 ^ (-53 : ℤ))) :=
  Dbl.round_eq_fin _ _
    (rnd_eq_of_neg' _ _ (-1) 7449936121362821 (by norm_num) (by norm_num) (by norm_num) (by norm_num)
      (by norm_num) (by norm_num))
    (abs_lt_two_pow_1024 _ 0 (by norm_num) (by norm_num [abs_lt]))

lemma grazing_ev23 : Dbl.round ((-(456101706695845 * 2 ^ (-50 : ℤ))) * (4865084871422347 * 2 ^ (-55 : ℤ))) = Dbl.fin (-(7883377552800639 * 2 ^ (-57 : ℤ))) :=
  Dbl.round_eq_fin _ _
    (rnd_eq_of_neg' _ _ (-5) 7883377552800639 (by norm_num) (by norm_num) (by norm_num) (by norm_num)
      (by norm_num) (by norm_num))
    (abs_lt_two_pow_1024 _ (-4) (by norm_num) (by norm_num [abs_lt]))

lemma grazing_ev24 : Dbl.round ((-(2384868818226265 * 2 ^ (-50 : ℤ))) + (-(7449936121362821 * 2 ^ (-53 : ℤ)))) = Dbl.fin (-(6632221666793235 * 2 ^ (-51 : ℤ))) :=
  Dbl.round_eq_fin _ _
    (rnd_eq_of_neg' _ _ 1 6632221666793235 (by norm_num) (by norm_num) (by norm_num) (by norm_num)
      (by norm_num) (by norm_num))
    (abs_lt_two_pow_1024 _ 2 (by norm_num) (by norm_num [abs_lt]))

lemma grazing_ev25 : Dbl.round ((-(6632221666793235 * 2 ^ (-51 : ℤ))) + (-(7883377552800639 * 2 ^ (-57 : ℤ)))) = Dbl.fin (-(6755399441055745 * 2 ^ (-51 : ℤ))) :=
  Dbl.round_eq_fin _ _
    (rnd_eq_of_neg' _ _ 1 6755399441055745 (by norm_num) (by norm_num) (by norm_num) (by norm_num)
      (by norm_num) (by norm_num))
    (abs_lt_two_pow_1024 _ 2 (by norm_num) (by norm_num [abs_lt]))

lemma grazing_ev26 : Dbl.round (2 * (-(6755399441055745 * 2 ^ (-51 : ℤ)))) = Dbl.fin (-(6755399441055745 * 2 ^ (-50 : ℤ))) :=
  Dbl.round_eq_fin _ _
    (rnd_eq_of_neg' _ _ 2 6755399441055745 (by norm_num) (by norm_num) (by norm_num) (by norm_num)
      (by norm_num) (by norm_num))
    (abs_lt_two_pow_1024 _ 3 (by norm_num) (by norm_num [abs_lt]))

lemma grazing_ev27 : Dbl.round ((5676397005431699 * 2 ^ (-51 : ℤ)) * (5676397005431699 * 2 ^ (-51 : ℤ))) = Dbl.fin (7154606454678793 * 2 ^ (-50 : ℤ)) :=
  Dbl.round_eq_fin _ _
    (rnd_eq_of_pos' _ _ 2 7154606454678793 (by norm_num) (by norm_num) (by norm_num) (by norm_num)
      (by norm_num) (by norm_num))
    (abs_lt_two_pow_1024 _ 3 (by norm_num) (by norm_num [abs_lt]))

lemma grazing_ev28 : Dbl.round ((3547086632370127 * 2 ^ (-51 : ℤ)) * (3547086632370127 * 2 ^ (-51 : ℤ))) = Dbl.fin (5587452091022115 * 2 ^ (-51 : ℤ)) :=
  Dbl.round_eq_fin _ _
    (rnd_eq_of_pos' _ _ 1 5587452091022115 (by norm_num) (by norm_num) (by norm_num) (by norm_num)
      (by norm_num) (by norm_num))
    (abs_lt_two_pow_1024 _ 2 (by norm_num) (by norm_num [abs_lt]))

lemma grazing_ev29 : Dbl.round ((-(456101706695845 * 2 ^ (-50 : ℤ))) * (-(456101706695845 * 2 ^ (-50 : ℤ)))) = Dbl.fin (5912533164600479 * 2 ^ (-55 : ℤ)) :=
  Dbl.round_eq_fin _ _
    (rnd_eq_of_pos' _ _ (-3) 5912533164600479 (by norm_num) (by norm_num) (by norm_num) (by norm_num)
      (by norm_num) (by norm_num))
    (abs_lt_two_pow_1024 _ (-2) (by norm_num) (by norm_num [abs_lt]))

lemma grazing_ev30 : Dbl.round (3 * 3) = Dbl.fin 9 :=
  Dbl.round_eq_fin _ _
    (rnd_eq_of_pos' _ _ 3 5066549580791808 (by norm_num) (by norm_num) (by norm_num) (by norm_num)
      (by norm_num) (by norm_num))
    (abs_lt_two_pow_1024 _ 4 (by norm_num) (by norm_num [abs_lt]))

lemma grazing_ev31 : Dbl.round ((5066549580791807 * 2 ^ (-49 : ℤ)) - 9) = Dbl.fin (-(1 * 2 ^ (-49 : ℤ))) :=
  Dbl.round_eq_fin _ _
    (rnd_eq_of_neg' _ _ (-49) 4503599627370496 (by norm_num) (by norm_num) (by norm_num) (by norm_num)
      (by norm_num) (by norm_num))
    (abs_lt_two_pow_1024 _ (-48) (by norm_num) (by norm_num [abs_lt]))

lemma grazing_ev32 : Dbl.round ((-(6755399441055745 * 2 ^ (-50 : ℤ))) * (-(6755399441055745 * 2 ^ (-50 : ℤ)))) = Dbl.fin (2533274790395905 * 2 ^ (-46 : ℤ)) :=
  Dbl.round_eq_fin _ _
    (rnd_eq_of_pos' _ _ 5 5066549580791810 (by norm_num) (by norm_num) (by norm_num) (by norm_num)
      (by norm_num) (by norm_num))
    (abs_lt_two_pow_1024 _ 6 (by norm_num) (by norm_num [abs_lt]))

lemma grazing_ev33 : Dbl.round (4 * (2251799813685249 * 2 ^ (-51 : ℤ))) = Dbl.fin (2251799813685249 * 2 ^ (-49 : ℤ)) :=
  Dbl.round_eq_fin _ _
    (rnd_eq_of_pos' _ _ 2 4503599627370498 (by norm_num) (by norm_num) (by norm_num) (by norm_num)
      (by norm_num) (by norm_num))
    (abs_lt_two_pow_1024 _ 3 (by norm_num) (by norm_num [abs_lt]))

lemma grazing_ev34 : Dbl.round ((2251799813685249 * 2 ^ (-49 : ℤ)) * (-(1 * 2 ^ (-49 : ℤ)))) = Dbl.fin (-(2251799813685249 * 2 ^ (-98 : ℤ))) :=
  Dbl.round_eq_fin _ _
    (rnd_eq_of_neg' _ _ (-47) 4503599627370498 (by norm_num) (by norm_num) (by norm_num) (by norm_num)
      (by norm_num) (by norm_num))
    (abs_lt_two_pow_1024 _ (-46) (by norm_num) (by norm_num [abs_lt]))

lemma grazing_ev35 : Dbl.round ((2533274790395905 * 2 ^ (-46 : ℤ)) - (-(2251799813685249 * 2 ^ (-98 : ℤ)))) = Dbl.fin (5066549580791811 * 2 ^ (-47 : ℤ)) :=
  Dbl.round_eq_fin _ _
    (rnd_eq_of_pos' _ _ 5 5066549580791811 (by norm_num) (by norm_num) (by norm_num) (by norm_num)
      (by norm_num) (by norm_num))
    (abs_lt_two_pow_1024 _ 6 (by norm_num) (by norm_num [abs_lt]))

lemma grazing_ev36 : Dbl.round (Real.sqrt (5066549580791811 * 2 ^ (-47 : ℤ))) = Dbl.fin (3377699720527873 * 2 ^ (-49 : ℤ)) :=
  Dbl.round_eq_fin _ _
    (rnd_sqrt_eq _ _ 2 6755399441055746 (by norm_num) (by norm_num) (by norm_num) (by norm_num)
      (by norm_num) (by norm_num) (by norm_num))
    (abs_lt_two_pow_1024 _ 3 (by norm_num) (by norm_num [abs_lt]))

lemma grazing_ev37 : Dbl.round ((6755399441055745 * 2 ^ (-50 : ℤ)) - (3377699720527873 * 2 ^ (-49 : ℤ))) = Dbl.fin (-(1 * 2 ^ (-50 : ℤ))) :=
  Dbl.round_eq_fin _ _
    (rnd_eq_of_neg' _ _ (-50) 4503599627370496 (by norm_num) (by norm_num) (by norm_num) (by norm_num)
      (by norm_num) (by norm_num))
    (abs_lt_two_pow_1024 _ (-49) (by norm_num) (by norm_num [abs_lt]))

lemma grazing_ev38 : Dbl.round (2 * (2251799813685249 * 2 ^ (-51 : ℤ))) = Dbl.fin (2251799813685249 * 2 ^ (-50 : ℤ)) :=
  Dbl.round_eq_fin _ _
    (rnd_eq_of_pos' _ _ 1 4503599627370498 (by norm_num) (by norm_num) (by norm_num) (by norm_num)
      (by norm_num) (by norm_num))
    (abs_lt_two_pow_1024 _ 2 (by norm_num) (by norm_num [abs_lt]))

lemma grazing_ev39 : Dbl.round ((-(1 * 2 ^ (-50 : ℤ))) / (2251799813685249 * 2 ^ (-50 : ℤ))) = Dbl.fin (-(2251799813685247 * 2 ^ (-102 : ℤ))) :=
  Dbl.round_eq_fin _ _
    (rnd_eq_of_neg' _ _ (-52) 9007199254740988 (by norm_num) (by norm_num) (by norm_num) (by norm_num)
      (by norm_num) (by norm_num))
    (abs_lt_two_pow_1024 _ (-51) (by norm_num) (by norm_num [abs_lt]))

/-- The origin just outside the sphere, in double precision: the direction `normalize(C - O)`,
the discriminant, and the two roots, of which the first is negative. -/
lemma grazing_scene :
    Vec3D.normalize (Vec3D.sub ⟨Dbl.fin 0, Dbl.fin 0, Dbl.fin 0⟩
        ⟨Dbl.fin (5676397005431699 * 2 ^ (-51 : ℤ)), Dbl.fin (3547086632370127 * 2 ^ (-51 : ℤ)), Dbl.fin (-(456101706695845 * 2 ^ (-50 : ℤ)))⟩)
      = ⟨Dbl.fin (-(473033083785975 * 2 ^ (-49 : ℤ))), Dbl.fin (-(2364724421580085 * 2 ^ (-52 : ℤ))), Dbl.fin (4865084871422347 * 2 ^ (-55 : ℤ))⟩ ∧
    discriminantD (Dbl.fin 3) ⟨Dbl.fin 0, Dbl.fin 0, Dbl.fin 0⟩
        ⟨Dbl.fin (5676397005431699 * 2 ^ (-51 : ℤ)), Dbl.fin (3547086632370127 * 2 ^ (-51 : ℤ)), Dbl.fin (-(456101706695845 * 2 ^ (-50 : ℤ)))⟩
        ⟨Dbl.fin (-(473033083785975 * 2 ^ (-49 : ℤ))), Dbl.fin (-(2364724421580085 * 2 ^ (-52 : ℤ))), Dbl.fin (4865084871422347 * 2 ^ (-55 : ℤ))⟩
      = Dbl.fin (5066549580791811 * 2 ^ (-47 : ℤ)) ∧
    rootOneD (Dbl.fin 3) ⟨Dbl.fin 0, Dbl.fin 0, Dbl.fin 0⟩
        ⟨Dbl.fin (5676397005431699 * 2 ^ (-51 : ℤ)), Dbl.fin (3547086632370127 * 2 ^ (-51 : ℤ)), Dbl.fin (-(456101706695845 * 2 ^ (-50 : ℤ)))⟩
        ⟨Dbl.fin (-(473033083785975 * 2 ^ (-49 : ℤ))), Dbl.fin (-(2364724421580085 * 2 ^ (-52 : ℤ))), Dbl.fin (4865084871422347 * 2 ^ (-55 : ℤ))⟩
      = Dbl.fin (-(2251799813685247 * 2 ^ (-102 : ℤ))) ∧
    rootTwoD (Dbl.fin 3) ⟨Dbl.fin 0, Dbl.fin 0, Dbl.fin 0⟩
        ⟨Dbl.fin (5676397005431699 * 2 ^ (-51 : ℤ)), Dbl.fin (3547086632370127 * 2 ^ (-51 : ℤ)), Dbl.fin (-(456101706695845 * 2 ^ (-50 : ℤ)))⟩
        ⟨Dbl.fin (-(473033083785975 * 2 ^ (-49 : ℤ))), Dbl.fin (-(2364724421580085 * 2 ^ (-52 : ℤ))), Dbl.fin (4865084871422347 * 2 ^ (-55 : ℤ))⟩
      = Dbl.fin (rnd (rnd (6755399441055745 * 2 ^ (-50 : ℤ) + 3377699720527873 * 2 ^ (-49 : ℤ)) / (2251799813685249 * 2 ^ (-50 : ℤ)))) := by
  have hsub : Vec3D.sub ⟨Dbl.fin 0, Dbl.fin 0, Dbl.fin 0⟩
      ⟨Dbl.fin (5676397005431699 * 2 ^ (-51 : ℤ)), Dbl.fin (3547086632370127 * 2 ^ (-51 : ℤ)), Dbl.fin (-(456101706695845 * 2 ^ (-50 : ℤ)))⟩
      = ⟨Dbl.fin (-(5676397005431699 * 2 ^ (-51 : ℤ))), Dbl.fin (-(3547086632370127 * 2 ^ (-51 : ℤ))), Dbl.fin (456101706695845 * 2 ^ (-50 : ℤ))⟩ := by
    simp only [Vec3D.sub, Dbl.sub,
      grazing_ev1, grazing_ev2, grazing_ev3, grazing_ev4, grazing_ev5, grazing_ev6,
      grazing_ev7, grazing_ev8, grazing_ev9, grazing_ev10, grazing_ev11, grazing_ev12,
      grazing_ev13, grazing_ev14, grazing_ev15, grazing_ev16, grazing_ev17, grazing_ev18,
      grazing_ev19, grazing_ev20, grazing_ev21, grazing_ev22, grazing_ev23, grazing_ev24,
      grazing_ev25, grazing_ev26, grazing_ev27, grazing_ev28, grazing_ev29, grazing_ev30,
      grazing_ev31, grazing_ev32, grazing_ev33, grazing_ev34, grazing_ev35, grazing_ev36,
      grazing_ev37, grazing_ev38, grazing_ev39]
  have hlen : Vec3D.length ⟨Dbl.fin (-(5676397005431699 * 2 ^ (-51 : ℤ))), Dbl.fin (-(3547086632370127 * 2 ^ (-51 : ℤ))), Dbl.fin (456101706695845 * 2 ^ (-50 : ℤ))⟩
      = Dbl.fin (6755399441055743 * 2 ^ (-51 : ℤ)) := by
    have hS : ¬ ((5066549580791807 * 2 ^ (-49 : ℤ) : ℝ) < 0) := by norm_num
    simp only [Vec3D.length, Dbl.mul, Dbl.add, Dbl.sqrt, hS, if_false,
      grazing_ev1, grazing_ev2, grazing_ev3, grazing_ev4, grazing_ev5, grazing_ev6,
      grazing_ev7, grazing_ev8, grazing_ev9, grazing_ev10, grazing_ev11, grazing_ev12,
      grazing_ev13, grazing_ev14, grazing_ev15, grazing_ev16, grazing_ev17, grazing_ev18,
      grazing_ev19, grazing_ev20, grazing_ev21, grazing_ev22, grazing_ev23, grazing_ev24,
      grazing_ev25, grazing_ev26, grazing_ev27, grazing_ev28, grazing_ev29, grazing_ev30,
      grazing_ev31, grazing_ev32, grazing_ev33, grazing_ev34, grazing_ev35, grazing_ev36,
      grazing_ev37, grazing_ev38, grazing_ev39]
  have hg : ¬ Dbl.lt (Dbl.fin (6755399441055743 * 2 ^ (-51 : ℤ))) (Dbl.round 1e-10) := by
    rw [round_guard]
    show ¬ ((6755399441055743 * 2 ^ (-51 : ℤ) : ℝ) < 7737125245533627 * 2 ^ (-86 : ℤ))
    norm_num
  have hL0 : ¬ ((6755399441055743 * 2 ^ (-51 : ℤ) : ℝ) = 0) := by norm_num
  have hnorm : Vec3D.normalize ⟨Dbl.fin (-(5676397005431699 * 2 ^ (-51 : ℤ))), Dbl.fin (-(3547086632370127 * 2 ^ (-51 : ℤ))), Dbl.fin (456101706695845 * 2 ^ (-50 : ℤ))⟩
      = ⟨Dbl.fin (-(473033083785975 * 2 ^ (-49 : ℤ))), Dbl.fin (-(2364724421580085 * 2 ^ (-52 : ℤ))), Dbl.fin (4865084871422347 * 2 ^ (-55 : ℤ))⟩ := by
    unfold Vec3D.normalize
    simp only
    rw [hlen, if_neg hg]
    simp only [Dbl.div, hL0, if_false,
      grazing_ev1, grazing_ev2, grazing_ev3, grazing_ev4, grazing_ev5, grazing_ev6,
      grazing_ev7, grazing_ev8, grazing_ev9, grazing_ev10, grazing_ev11, grazing_ev12,
      grazing_ev13, grazing_ev14, grazing_ev15, grazing_ev16, grazing_ev17, grazing_ev18,
      grazing_ev19, grazing_ev20, grazing_ev21, grazing_ev22, grazing_ev23, grazing_ev24,
      grazing_ev25, grazing_ev26, grazing_ev27, grazing_ev28, grazing_ev29, grazing_ev30,
      grazing_ev31, grazing_ev32, grazing_ev33, grazing_ev34, grazing_ev35, grazing_ev36,
      grazing_ev37, grazing_ev38, grazing_ev39]
  have hdisc : discriminantD (Dbl.fin 3) ⟨Dbl.fin 0, Dbl.fin 0, Dbl.fin 0⟩
      ⟨Dbl.fin (5676397005431699 * 2 ^ (-51 : ℤ)), Dbl.fin (3547086632370127 * 2 ^ (-51 : ℤ)), Dbl.fin (-(456101706695845 * 2 ^ (-50 : ℤ)))⟩
      ⟨Dbl.fin (-(473033083785975 * 2 ^ (-49 : ℤ))), Dbl.fin (-(2364724421580085 * 2 ^ (-52 : ℤ))), Dbl.fin (4865084871422347 * 2 ^ (-55 : ℤ))⟩
      = Dbl.fin (5066549580791811 * 2 ^ (-47 : ℤ)) := by
    simp only [discriminantD, Vec3D.sub, Vec3D.dot, Dbl.sub, Dbl.mul, Dbl.add,
      Dbl.round_ofNat 2 (by norm_num), Dbl.round_ofNat 4 (by norm_num),
      grazing_ev1, grazing_ev2, grazing_ev3, grazing_ev4, grazing_ev5, grazing_ev6,
      grazing_ev7, grazing_ev8, grazing_ev9, grazing_ev10, grazing_ev11, grazing_ev12,
      grazing_ev13, grazing_ev14, grazing_ev15, grazing_ev16, grazing_ev17, grazing_ev18,
      grazing_ev19, grazing_ev20, grazing_ev21, grazing_ev22, grazing_ev23, grazing_ev24,
      grazing_ev25, grazing_ev26, grazing_ev27, grazing_ev28, grazing_ev29, grazing_ev30,
      grazing_ev31, grazing_ev32, grazing_ev33, grazing_ev34, grazing_ev35, grazing_ev36,
      grazing_ev37, grazing_ev38, grazing_ev39]
  have hD0 : ¬ ((5066549580791811 * 2 ^ (-47 : ℤ) : ℝ) < 0) := by norm_num
  have hta0 : ¬ ((2251799813685249 * 2 ^ (-50 : ℤ) : ℝ) = 0) := by norm_num
  have hsq : Dbl.sqrt (Dbl.fin (5066549580791811 * 2 ^ (-47 : ℤ))) = Dbl.fin (3377699720527873 * 2 ^ (-49 : ℤ)) := by
    simp only [Dbl.sqrt, hD0, if_false,
      grazing_ev1, grazing_ev2, grazing_ev3, grazing_ev4, grazing_ev5, grazing_ev6,
      grazing_ev7, grazing_ev8, grazing_ev9, grazing_ev10, grazing_ev11, grazing_ev12,
      grazing_ev13, grazing_ev14, grazing_ev15, grazing_ev16, grazing_ev17, grazing_ev18,
      grazing_ev19, grazing_ev20, grazing_ev21, grazing_ev22, grazing_ev23, grazing_ev24,
      grazing_ev25, grazing_ev26, grazing_ev27, grazing_ev28, grazing_ev29, grazing_ev30,
      grazing_ev31, grazing_ev32, grazing_ev33, grazing_ev34, grazing_ev35, grazing_ev36,
      grazing_ev37, grazing_ev38, grazing_ev39]
  have hnb : Dbl.neg (Dbl.mul (Dbl.round 2)
      (Vec3D.dot (Vec3D.sub ⟨Dbl.fin (5676397005431699 * 2 ^ (-51 : ℤ)), Dbl.fin (3547086632370127 * 2 ^ (-51 : ℤ)), Dbl.fin (-(456101706695845 * 2 ^ (-50 : ℤ)))⟩
        ⟨Dbl.fin 0, Dbl.fin 0, Dbl.fin 0⟩)
        ⟨Dbl.fin (-(473033083785975 * 2 ^ (-49 : ℤ))), Dbl.fin (-(2364724421580085 * 2 ^ (-52 : ℤ))), Dbl.fin (4865084871422347 * 2 ^ (-55 : ℤ))⟩))
      = Dbl.fin (6755399441055745 * 2 ^ (-50 : ℤ)) := by
    simp only [Vec3D.sub, Vec3D.dot, Dbl.sub, Dbl.mul, Dbl.add, Dbl.neg, neg_neg,
      Dbl.round_ofNat 2 (by norm_num),
      grazing_ev1, grazing_ev2, grazing_ev3, grazing_ev4, grazing_ev5, grazing_ev6,
      grazing_ev7, grazing_ev8, grazing_ev9, grazing_ev10, grazing_ev11, grazing_ev12,
      grazing_ev13, grazing_ev14, grazing_ev15, grazing_ev16, grazing_ev17, grazing_ev18,
      grazing_ev19, grazing_ev20, grazing_ev21, grazing_ev22, grazing_ev23, grazing_ev24,
      grazing_ev25, grazing_ev26, grazing_ev27, grazing_ev28, grazing_ev29, grazing_ev30,
      grazing_ev31, grazing_ev32, grazing_ev33, grazing_ev34, grazing_ev35, grazing_ev36,
      grazing_ev37, grazing_ev38, grazing_ev39]
  have hta : Dbl.mul (Dbl.round 2) (Vec3D.dot ⟨Dbl.fin (-(473033083785975 * 2 ^ (-49 : ℤ))), Dbl.fin (-(2364724421580085 * 2 ^ (-52 : ℤ))), Dbl.fin (4865084871422347 * 2 ^ (-55 : ℤ))⟩
      ⟨Dbl.fin (-(473033083785975 * 2 ^ (-49 : ℤ))), Dbl.fin (-(2364724421580085 * 2 ^ (-52 : ℤ))), Dbl.fin (4865084871422347 * 2 ^ (-55 : ℤ))⟩) = Dbl.fin (2251799813685249 * 2 ^ (-50 : ℤ)) := by
    simp only [Vec3D.dot, Dbl.mul, Dbl.add, Dbl.round_ofNat 2 (by norm_num),
      grazing_ev1, grazing_ev2, grazing_ev3, grazing_ev4, grazing_ev5, grazing_ev6,
      grazing_ev7, grazing_ev8, grazing_ev9, grazing_ev10, grazing_ev11, grazing_ev12,
      grazing_ev13, grazing_ev14, grazing_ev15, grazing_ev16, grazing_ev17, grazing_ev18,
      grazing_ev19, grazing_ev20, grazing_ev21, grazing_ev22, grazing_ev23, grazing_ev24,
      grazing_ev25, grazing_ev26, grazing_ev27, grazing_ev28, grazing_ev29, grazing_ev30,
      grazing_ev31, grazing_ev32, grazing_ev33, grazing_ev34, grazing_ev35, grazing_ev36,
      grazing_ev37, grazing_ev38, grazing_ev39]
  refine ⟨by rw [hsub, hnorm], hdisc, ?_, ?_⟩
  · unfold rootOneD
    simp only []
    rw [hdisc, hsq, hnb, hta]
    simp only [Dbl.sub, Dbl.div, hta0, if_false,
      grazing_ev1, grazing_ev2, grazing_ev3, grazing_ev4, grazing_ev5, grazing_ev6,
      grazing_ev7, grazing_ev8, grazing_ev9, grazing_ev10, grazing_ev11, grazing_ev12,
      grazing_ev13, grazing_ev14, grazing_ev15, grazing_ev16, grazing_ev17, grazing_ev18,
      grazing_ev19, grazing_ev20, grazing_ev21, grazing_ev22, grazing_ev23, grazing_ev24,
      grazing_ev25, grazing_ev26, grazing_ev27, grazing_ev28, grazing_ev29, grazing_ev30,
      grazing_ev31, grazing_ev32, grazing_ev33, grazing_ev34, grazing_ev35, grazing_ev36,
      grazing_ev37, grazing_ev38, grazing_ev39]
  · unfold rootTwoD
    simp only []
    rw [hdisc, hsq, hnb, hta]
    simp only [Dbl.add, Dbl.div, hta0, if_false]
    rw [Dbl.round_of_abs_le _ (by norm_num [abs_le])]
    simp only [Dbl.div, hta0, if_false]
    have h1 := rnd_abs_le_add_one (6755399441055745 * 2 ^ (-50 : ℤ) + 3377699720527873 * 2 ^ (-49 : ℤ))
      (by norm_num [abs_le])
    have h2 : |(6755399441055745 * 2 ^ (-50 : ℤ) : ℝ) + 3377699720527873 * 2 ^ (-49 : ℤ)| ≤ 13 := by norm_num [abs_le]
    have h3 : |rnd (6755399441055745 * 2 ^ (-50 : ℤ) + 3377699720527873 * 2 ^ (-49 : ℤ)) / (2251799813685249 * 2 ^ (-50 : ℤ))| ≤ 2 ^ 32 := by
      rw [abs_div, div_le_iff₀ (by norm_num)]
      have h4 : (14 : ℝ) ≤ 2 ^ 32 * |(2251799813685249 * 2 ^ (-50 : ℤ) : ℝ)| := by
        rw [abs_of_nonneg (by norm_num)]
        norm_num
      linarith only [h1, h2, h4]
    rw [Dbl.round_of_abs_le _ h3]

/-- The origin just outside the sphere: the method returns the far intersection. The first root
is negative, so the second root, which is above `5`, is returned as the depth. -/
lemma grazing_hit :
    ∃ (depth : ℝ) (hitPoint normal : Vec3D),
      Earth.intersectRayD (Dbl.fin 3) ⟨Dbl.fin 0, Dbl.fin 0, Dbl.fin 0⟩
          ⟨Dbl.fin (5676397005431699 * 2 ^ (-51 : ℤ)), Dbl.fin (3547086632370127 * 2 ^ (-51 : ℤ)), Dbl.fin (-(456101706695845 * 2 ^ (-50 : ℤ)))⟩
          (Vec3D.normalize (Vec3D.sub ⟨Dbl.fin 0, Dbl.fin 0, Dbl.fin 0⟩
            ⟨Dbl.fin (5676397005431699 * 2 ^ (-51 : ℤ)), Dbl.fin (3547086632370127 * 2 ^ (-51 : ℤ)), Dbl.fin (-(456101706695845 * 2 ^ (-50 : ℤ)))⟩))
        = some (Dbl.fin depth, hitPoint, normal) ∧ 5 ≤ depth := by
  classical
  obtain ⟨hn, hdisc, h1, h2⟩ := grazing_scene
  obtain ⟨N, hN⟩ : ∃ N, N = rnd (6755399441055745 * 2 ^ (-50 : ℤ) + 3377699720527873 * 2 ^ (-49 : ℤ)) :=
    ⟨_, rfl⟩
  obtain ⟨T, hT⟩ : ∃ T, T = rnd (N / (2251799813685249 * 2 ^ (-50 : ℤ))) := ⟨_, rfl⟩
  rw [← hN, ← hT] at h2
  have hη := eta_le
  have hN11 : 11 ≤ N := by
    obtain ⟨_, b1, _⟩ := rnd_bounds (6755399441055745 * 2 ^ (-50 : ℤ) + 3377699720527873 * 2 ^ (-49 : ℤ))
      (by norm_num)
    rw [← hN] at b1
    have h3 : (11 : ℝ) + 1 / 2 ^ 1000
        ≤ (1 - 1 / 2 ^ 53) * (6755399441055745 * 2 ^ (-50 : ℤ) + 3377699720527873 * 2 ^ (-49 : ℤ)) := by
      norm_num
    linarith only [b1, h3, hη]
  have hq : 27 / 5 ≤ N / (2251799813685249 * 2 ^ (-50 : ℤ)) := by
    rw [le_div_iff₀ (by norm_num)]
    have h3 : (27 / 5 : ℝ) * (2251799813685249 * 2 ^ (-50 : ℤ)) ≤ 11 := by norm_num
    linarith only [h3, hN11]
  have hT5 : 5 ≤ T := by
    obtain ⟨_, b1, _⟩ := rnd_bounds (N / (2251799813685249 * 2 ^ (-50 : ℤ))) (by linarith only [hq])
    rw [← hT] at b1
    have h3 := mul_le_mul_of_nonneg_left hq (by norm_num : (0 : ℝ) ≤ 1 - 1 / 2 ^ 53)
    have h4 : (5 : ℝ) + 1 / 2 ^ 1000 ≤ (1 - 1 / 2 ^ 53) * (27 / 5) := by norm_num
    linarith only [b1, h3, h4, hη]
  have hd0 : ¬ Dbl.lt (Dbl.fin (5066549580791811 * 2 ^ (-47 : ℤ))) (Dbl.fin 0) := by
    show ¬ ((5066549580791811 * 2 ^ (-47 : ℤ) : ℝ) < 0)
    norm_num
  have hneg : ¬ Dbl.ge (Dbl.fin (-(2251799813685247 * 2 ^ (-102 : ℤ)))) (Dbl.fin 0) := by
    show ¬ ((-(2251799813685247 * 2 ^ (-102 : ℤ)) : ℝ) ≥ 0)
    norm_num
  have hm1 : Dbl.lt (Dbl.neg (Dbl.round 1)) (Dbl.fin 0) := by
    rw [Dbl.round_one]
    show (-1 : ℝ) < 0
    norm_num
  have hpos : Dbl.ge (Dbl.fin T) (Dbl.fin 0) := by
    show T ≥ 0
    linarith only [hT5]
  have hnl : ¬ Dbl.lt (Dbl.fin T) (Dbl.fin 0) := by
    show ¬ (T < 0)
    linarith only [hT5]
  have hc : Dbl.ge (Dbl.fin T) (Dbl.fin 0) ∧
      (Dbl.lt (Dbl.neg (Dbl.round 1)) (Dbl.fin 0) ∨ Dbl.lt (Dbl.fin T) (Dbl.neg (Dbl.round 1))) :=
    ⟨hpos, Or.inl hm1⟩
  rw [hn]
  unfold Earth.intersectRayD
  simp only []
  rw [hdisc, h1, h2, Dbl.round_zero, if_neg hd0, if_neg hneg, if_pos hc, if_neg hnl]
  exact ⟨T, _, _, rfl, hT5⟩

/-- C2 (counterexample). In double precision the depth returned for a ray aimed at the centre
from outside is not `|O - C| - r`, and a hit need not be reported. (1) For the unit sphere about
the origin and the origin `(1e9, 0, 0)` the direction `normalize(C - O)` is `(-1, 0, 0)` and the
returned depth is `1e9`, the distance to the centre, whereas `|O - C| - r = 999999999`. (2) For
the origin `(1e200, 0, 0)` and the unit direction `(-1, 0, 0)` no hit is reported. (3) For the
sphere of radius `3` about the origin and the origin `(2.520826660937425, 1.5752228998389692,
-0.40509969307564564)`, which is outside the sphere at a distance below `1e-15` from its
surface, the first root is computed negative and the returned depth is above `5`: the far
intersection. -/
theorem intersectRay_depth_counterexample :
    (Earth.intersectRayD (Dbl.fin 1) ⟨Dbl.fin 0, Dbl.fin 0, Dbl.fin 0⟩
        ⟨Dbl.fin 1000000000, Dbl.fin 0, Dbl.fin 0⟩
        (Vec3D.normalize (Vec3D.sub ⟨Dbl.fin 0, Dbl.fin 0, Dbl.fin 0⟩
          ⟨Dbl.fin 1000000000, Dbl.fin 0, Dbl.fin 0⟩))
      = some (Dbl.fin 1000000000, ⟨Dbl.fin 0, Dbl.fin 0, Dbl.fin 0⟩,
          ⟨Dbl.fin 0, Dbl.fin 0, Dbl.fin 0⟩) ∧
      Real.sqrt ((1000000000 - 0) * (1000000000 - 0) + (0 - 0) * (0 - 0) + (0 - 0) * (0 - 0)) - 1
        = 999999999 ∧
      (1000000000 : ℝ) ≠ 999999999) ∧
    Earth.intersectRayD (Dbl.fin 1) ⟨Dbl.fin 0, Dbl.fin 0, Dbl.fin 0⟩
        ⟨Dbl.round 1e200, Dbl.fin 0, Dbl.fin 0⟩ ⟨Dbl.fin (-1), Dbl.fin 0, Dbl.fin 0⟩ = none ∧
    ((3 : ℝ) < Real.sqrt ((5676397005431699 * 2 ^ (-51 : ℤ)) * (5676397005431699 * 2 ^ (-51 : ℤ)) + (3547086632370127 * 2 ^ (-51 : ℤ)) * (3547086632370127 * 2 ^ (-51 : ℤ))
        + (-(456101706695845 * 2 ^ (-50 : ℤ))) * (-(456101706695845 * 2 ^ (-50 : ℤ)))) ∧
      Real.sqrt ((5676397005431699 * 2 ^ (-51 : ℤ)) * (5676397005431699 * 2 ^ (-51 : ℤ)) + (3547086632370127 * 2 ^ (-51 : ℤ)) * (3547086632370127 * 2 ^ (-51 : ℤ))
        + (-(456101706695845 * 2 ^ (-50 : ℤ))) * (-(456101706695845 * 2 ^ (-50 : ℤ)))) - 3 < 1e-15 ∧
      ∃ (depth : ℝ) (hitPoint normal : Vec3D),
        Earth.intersectRayD (Dbl.fin 3) ⟨Dbl.fin 0, Dbl.fin 0, Dbl.fin 0⟩
            ⟨Dbl.fin (5676397005431699 * 2 ^ (-51 : ℤ)), Dbl.fin (3547086632370127 * 2 ^ (-51 : ℤ)), Dbl.fin (-(456101706695845 * 2 ^ (-50 : ℤ)))⟩
            (Vec3D.normalize (Vec3D.sub ⟨Dbl.fin 0, Dbl.fin 0, Dbl.fin 0⟩
              ⟨Dbl.fin (5676397005431699 * 2 ^ (-51 : ℤ)), Dbl.fin (3547086632370127 * 2 ^ (-51 : ℤ)), Dbl.fin (-(456101706695845 * 2 ^ (-50 : ℤ)))⟩))
          = some (Dbl.fin depth, hitPoint, normal) ∧ 5 ≤ depth) := by
  refine ⟨⟨?_, ?_, by norm_num⟩, intersectRay_overflow_scene, ?_, ?_, grazing_hit⟩
  · rw [intersectRay_far_scene.1]
    exact intersectRay_far_scene.2
  · rw [show ((1000000000 : ℝ) - 0) * (1000000000 - 0) + (0 - 0) * (0 - 0) + (0 - 0) * (0 - 0)
        = 1000000000000000000 by norm_num, sqrt_1e18]
    norm_num
  · rw [Real.lt_sqrt (by norm_num)]
    norm_num
  · rw [sub_lt_iff_lt_add, Real.sqrt_lt' (by norm_num)]
    norm_num


/-! ## The function `rotate` in double precision -/

/-- The error of one rounding of a number of magnitude at most `B`. -/
lemma rnd_err (t B : ℝ) (h : |t| ≤ B) : |rnd t - t| ≤ 1 / 2 ^ 53 * B + 1 / 2 ^ 1000 := by
  have h1 := rnd_abs_sub_le t
  have hu : (2 : ℝ) ^ (-53 : ℤ) = 1 / 2 ^ 53 := by norm_num
  have hη := eta_le
  rw [hu] at h1
  have h2 := mul_le_mul_of_nonneg_left h (by positivity : (0 : ℝ) ≤ 1 / 2 ^ 53)
  linarith only [h1, h2, hη]

/-- A number within `e` of a number of magnitude at most `B`. -/
lemma abs_le_of_near (x X e B : ℝ) (h : |x - X| ≤ e) (hX : |X| ≤ B) : |x| ≤ B + e := by
  have h1 : |x| ≤ |x - X| + |X| := by
    have := abs_add (x - X) X
    rwa [sub_add_cancel] at this
  linarith only [h, hX, h1]

/-- The rounded product `x * y` of a factor `x` known within `ex` of `X` against `X * y`. -/
lemma rnd_mul_err (x X y ex Bx By : ℝ) (hx : |x - X| ≤ ex) (hxB : |x| ≤ Bx) (hy : |y| ≤ By) :
    |rnd (x * y) - X * y| ≤ 1 / 2 ^ 53 * (Bx * By) + 1 / 2 ^ 1000 + ex * By := by
  have hBx : 0 ≤ Bx := le_trans (abs_nonneg _) hxB
  have hex : 0 ≤ ex := le_trans (abs_nonneg _) hx
  have h1 : |x * y| ≤ Bx * By := by
    rw [abs_mul]
    exact mul_le_mul hxB hy (abs_nonneg _) hBx
  have h2 := rnd_err (x * y) (Bx * By) h1
  have h3 : |x * y - X * y| ≤ ex * By := by
    rw [← sub_mul, abs_mul]
    exact mul_le_mul hx hy (abs_nonneg _) hex
  have h4 := abs_sub_le (rnd (x * y)) (x * y) (X * y)
  linarith only [h2, h3, h4]

/-- The rounded sum `x + y` of two terms known within `ex` and `ey` against the exact sum. -/
lemma rnd_add_err (x X y Y ex ey B : ℝ) (hx : |x - X| ≤ ex) (hy : |y - Y| ≤ ey)
    (hB : |x + y| ≤ B) :
    |rnd (x + y) - (X + Y)| ≤ 1 / 2 ^ 53 * B + 1 / 2 ^ 1000 + ex + ey := by
  have h2 := rnd_err (x + y) B hB
  have h3 : |x + y - (X + Y)| ≤ ex + ey := by
    have e : x + y - (X + Y) = (x - X) + (y - Y) := by ring
    rw [e]
    exact le_trans (abs_add _ _) (add_le_add hx hy)
  have h4 := abs_sub_le (rnd (x + y)) (x + y) (X + Y)
  linarith only [h2, h3, h4]

/-- The rounded difference `x - y` of two terms known within `ex` and `ey` against the exact
difference. -/
lemma rnd_sub_err (x X y Y ex ey B : ℝ) (hx : |x - X| ≤ ex) (hy : |y - Y| ≤ ey)
    (hB : |x - y| ≤ B) :
    |rnd (x - y) - (X - Y)| ≤ 1 / 2 ^ 53 * B + 1 / 2 ^ 1000 + ex + ey := by
  have h2 := rnd_err (x - y) B hB
  have h3 : |x - y - (X - Y)| ≤ ex + ey := by
    have e : x - y - (X - Y) = (x - X) + -(y - Y) := by ring
    rw [e]
    refine le_trans (abs_add _ _) (add_le_add hx ?_)
    rwa [abs_neg]
  have h4 := abs_sub_le (rnd (x - y)) (x - y) (X - Y)
  linarith only [h2, h3, h4]

/-- The product `k * a * b` of an entry of the rotation matrix in double precision: the factor
`k` is within `3 * 2^-53` of `K`, and `a`, `b` are components of the normalised axis. -/
lemma rot_product_err (k K a b : ℝ) (hk : |k - K| ≤ 3 / 2 ^ 53) (hK : |K| ≤ 3)
    (ha : |a| ≤ 2) (hb : |b| ≤ 2) :
    |rnd (rnd (k * a) * b) - K * a * b| ≤ 43 / 2 ^ 53 ∧ |rnd (rnd (k * a) * b)| ≤ 13 ∧
      |rnd (k * a)| ≤ 7 ∧ |k * a| ≤ 7 ∧ |rnd (k * a) * b| ≤ 14 := by
  have hk4 : |k| ≤ 7 / 2 := by
    have := abs_le_of_near k K _ 3 hk hK
    have e : (3 : ℝ) + 3 / 2 ^ 53 ≤ 7 / 2 := by norm_num
    linarith only [this, e]
  have hKa : |K * a| ≤ 6 := by
    rw [abs_mul]
    calc |K| * |a| ≤ 3 * 2 := mul_le_mul hK ha (abs_nonneg _) (by norm_num)
      _ = 6 := by norm_num
  have hka : |k * a| ≤ 7 := by
    rw [abs_mul]
    calc |k| * |a| ≤ 7 / 2 * 2 := mul_le_mul hk4 ha (abs_nonneg _) (by norm_num)
      _ = 7 := by norm_num
  have h1 := rnd_mul_err k K a _ (7 / 2) 2 hk hk4 ha
  have h1' : |rnd (k * a) - K * a| ≤ 14 / 2 ^ 53 := by
    have e : (1 : ℝ) / 2 ^ 53 * (7 / 2 * 2) + 1 / 2 ^ 1000 + 3 / 2 ^ 53 * 2 ≤ 14 / 2 ^ 53 := by
      norm_num
    linarith only [h1, e]
  have hp : |rnd (k * a)| ≤ 7 := by
    have := abs_le_of_near _ _ _ 6 h1' hKa
    have e : (6 : ℝ) + 14 / 2 ^ 53 ≤ 7 := by norm_num
    linarith only [this, e]
  have hpb : |rnd (k * a) * b| ≤ 14 := by
    rw [abs_mul]
    calc |rnd (k * a)| * |b| ≤ 7 * 2 := mul_le_mul hp hb (abs_nonneg _) (by norm_num)
      _ = 14 := by norm_num
  have hKab : |K * a * b| ≤ 12 := by
    rw [abs_mul]
    calc |K * a| * |b| ≤ 6 * 2 := mul_le_mul hKa hb (abs_nonneg _) (by norm_num)
      _ = 12 := by norm_num
  have h2 := rnd_mul_err (rnd (k * a)) (K * a) b _ 7 2 h1' hp hb
  have h2' : |rnd (rnd (k * a) * b) - K * a * b| ≤ 43 / 2 ^ 53 := by
    have e : (1 : ℝ) / 2 ^ 53 * (7 * 2) + 1 / 2 ^ 1000 + 14 / 2 ^ 53 * 2 ≤ 43 / 2 ^ 53 := by
      norm_num
    linarith only [h2, e]
  refine ⟨h2', ?_, hp, hka, hpb⟩
  have := abs_le_of_near _ _ _ 12 h2' hKab
  have e : (12 : ℝ) + 43 / 2 ^ 53 ≤ 13 := by norm_num
  linarith only [this, e]

/-- A diagonal entry `c + k * a * a` of the rotation matrix in double precision. -/
lemma rot_diag_err (c k K a b : ℝ) (hc : |c| ≤ 2) (hk : |k - K| ≤ 3 / 2 ^ 53) (hK : |K| ≤ 3)
    (ha : |a| ≤ 2) (hb : |b| ≤ 2) :
    |rnd (c + rnd (rnd (k * a) * b)) - (c + K * a * b)| ≤ 72 / 2 ^ 53 ∧
      |c + rnd (rnd (k * a) * b)| ≤ 15 := by
  obtain ⟨h1, h2, _⟩ := rot_product_err k K a b hk hK ha hb
  have hB : |c + rnd (rnd (k * a) * b)| ≤ 15 := by
    have := abs_add c (rnd (rnd (k * a) * b))
    linarith only [this, hc, h2]
  have h0 : |c - c| ≤ 0 := by rw [sub_self, abs_zero]
  have h3 := rnd_add_err c c _ _ 0 _ 15 h0 h1 hB
  refine ⟨?_, hB⟩
  have e : (1 : ℝ) / 2 ^ 53 * 15 + 1 / 2 ^ 1000 + 0 + 43 / 2 ^ 53 ≤ 72 / 2 ^ 53 := by norm_num
  linarith only [h3, e]

/-- The product `s * a` of an entry of the rotation matrix in double precision. -/
lemma rot_sine_err (s a : ℝ) (hs : |s| ≤ 2) (ha : |a| ≤ 2) :
    |rnd (s * a) - s * a| ≤ 5 / 2 ^ 53 ∧ |rnd (s * a)| ≤ 5 ∧ |s * a| ≤ 4 := by
  have h0 : |s - s| ≤ 0 := by rw [sub_self, abs_zero]
  have h1 := rnd_mul_err s s a 0 2 2 h0 hs ha
  have h1' : |rnd (s * a) - s * a| ≤ 5 / 2 ^ 53 := by
    have e : (1 : ℝ) / 2 ^ 53 * (2 * 2) + 1 / 2 ^ 1000 + 0 * 2 ≤ 5 / 2 ^ 53 := by norm_num
    linarith only [h1, e]
  have hsa : |s * a| ≤ 4 := by
    rw [abs_mul]
    calc |s| * |a| ≤ 2 * 2 := mul_le_mul hs ha (abs_nonneg _) (by norm_num)
      _ = 4 := by norm_num
  refine ⟨h1', ?_, hsa⟩
  have := abs_le_of_near _ _ _ 4 h1' hsa
  have e : (4 : ℝ) + 5 / 2 ^ 53 ≤ 5 := by norm_num
  linarith only [this, e]

/-- An entry `k * a * b + s * d` of the rotation matrix in double precision. -/
lemma rot_plus_err (s k K a b d : ℝ) (hs : |s| ≤ 2) (hk : |k - K| ≤ 3 / 2 ^ 53) (hK : |K| ≤ 3)
    (ha : |a| ≤ 2) (hb : |b| ≤ 2) (hd : |d| ≤ 2) :
    |rnd (rnd (rnd (k * a) * b) + rnd (s * d)) - (K * a * b + s * d)| ≤ 72 / 2 ^ 53 ∧
      |rnd (rnd (k * a) * b) + rnd (s * d)| ≤ 18 := by
  obtain ⟨h1, h2, _⟩ := rot_product_err k K a b hk hK ha hb
  obtain ⟨g1, g2, _⟩ := rot_sine_err s d hs hd
  have hB : |rnd (rnd (k * a) * b) + rnd (s * d)| ≤ 18 := by
    have := abs_add (rnd (rnd (k * a) * b)) (rnd (s * d))
    linarith only [this, g2, h2]
  have h3 := rnd_add_err _ _ _ _ _ _ 18 h1 g1 hB
  refine ⟨?_, hB⟩
  have e : (1 : ℝ) / 2 ^ 53 * 18 + 1 / 2 ^ 1000 + 43 / 2 ^ 53 + 5 / 2 ^ 53 ≤ 72 / 2 ^ 53 := by
    norm_num
  linarith only [h3, e]

/-- An entry `k * a * b - s * d` of the rotation matrix in double precision. -/
lemma rot_minus_err (s k K a b d : ℝ) (hs : |s| ≤ 2) (hk : |k - K| ≤ 3 / 2 ^ 53)
    (hK : |K| ≤ 3) (ha : |a| ≤ 2) (hb : |b| ≤ 2) (hd : |d| ≤ 2) :
    |rnd (rnd (rnd (k * a) * b) - rnd (s * d)) - (K * a * b - s * d)| ≤ 72 / 2 ^ 53 ∧
      |rnd (rnd (k * a) * b) - rnd (s * d)| ≤ 18 := by
  obtain ⟨h1, h2, _⟩ := rot_product_err k K a b hk hK ha hb
  obtain ⟨g1, g2, _⟩ := rot_sine_err s d hs hd
  have hB : |rnd (rnd (k * a) * b) - rnd (s * d)| ≤ 18 := by
    have := abs_sub (rnd (rnd (k * a) * b)) (rnd (s * d))
    linarith only [this, g2, h2]
  have h3 := rnd_sub_err _ _ _ _ _ _ 18 h1 g1 hB
  refine ⟨?_, hB⟩
  have e : (1 : ℝ) / 2 ^ 53 * 18 + 1 / 2 ^ 1000 + 43 / 2 ^ 53 + 5 / 2 ^ 53 ≤ 72 / 2 ^ 53 := by
    norm_num
  linarith only [h3, e]

/-- One product `v * m` of a component of the rotated vector in double precision, with the
entry `m` of the matrix within `72 * 2^-53` of the exact entry `M`. -/
lemma rot_term_err (v m M : ℝ) (h : |m - M| ≤ 72 / 2 ^ 53) (b : |m| ≤ 19) :
    |rnd (v * m) - v * M| ≤ 91 / 2 ^ 53 * |v| + 1 / 2 ^ 1000 ∧
      |rnd (v * m)| ≤ 20 * |v| + 1 / 2 ^ 1000 := by
  have h1 := rnd_mul_err m M v _ 19 |v| h b le_rfl
  rw [mul_comm m v, mul_comm M v] at h1
  have hv := abs_nonneg v
  have hvm : |v * m| ≤ 19 * |v| := by
    rw [abs_mul, mul_comm]
    exact mul_le_mul_of_nonneg_right b hv
  have h2 := rnd_err (v * m) _ hvm
  have h3 : |rnd (v * m)| ≤ |rnd (v * m) - v * m| + |v * m| := by
    have := abs_add (rnd (v * m) - v * m) (v * m)
    rwa [sub_add_cancel] at this
  have e : (1 : ℝ) / 2 ^ 53 * 19 ≤ 1 := by norm_num
  have e' := mul_le_mul_of_nonneg_right e hv
  constructor
  · linarith only [h1]
  · linarith only [h2, h3, hvm, e']

/-- One component of the rotated vector in double precision: the sum of the three products of
the components of `v` with a row of the matrix, against the exact sum. -/
lemma rot_row_err (v1 v2 v3 m0 m1 m2 M0 M1 M2 : ℝ)
    (h0 : |m0 - M0| ≤ 72 / 2 ^ 53) (h1 : |m1 - M1| ≤ 72 / 2 ^ 53)
    (h2 : |m2 - M2| ≤ 72 / 2 ^ 53) (b0 : |m0| ≤ 19) (b1 : |m1| ≤ 19) (b2 : |m2| ≤ 19) :
    |rnd (rnd (rnd (v1 * m0) + rnd (v2 * m1)) + rnd (v3 * m2)) - (v1 * M0 + v2 * M1 + v3 * M2)|
        ≤ 140 / 2 ^ 53 * (|v1| + |v2| + |v3|) + 1 / 2 ^ 990 ∧
      |rnd (rnd (rnd (v1 * m0) + rnd (v2 * m1)) + rnd (v3 * m2))|
        ≤ 22 * (|v1| + |v2| + |v3|) + 1 := by
  obtain ⟨p0, q0⟩ := rot_term_err v1 m0 M0 h0 b0
  obtain ⟨p1, q1⟩ := rot_term_err v2 m1 M1 h1 b1
  obtain ⟨p2, q2⟩ := rot_term_err v3 m2 M2 h2 b2
  have n1 := abs_nonneg v1
  have n2 := abs_nonneg v2
  have n3 := abs_nonneg v3
  have hη : (0 : ℝ) ≤ 1 / 2 ^ 1000 := by positivity
  have hη1 : (1 : ℝ) / 2 ^ 53 * (1 / 2 ^ 1000) ≤ 1 / 2 ^ 1000 / 8 := by norm_num
  have hη2 : (8 : ℝ) * (1 / 2 ^ 1000) ≤ 1 / 2 ^ 990 := by norm_num
  have hη3 : (1 : ℝ) / 2 ^ 990 ≤ 1 / 2 := by norm_num
  generalize rnd (v1 * m0) = x1 at *
  generalize rnd (v2 * m1) = x2 at *
  generalize rnd (v3 * m2) = x3 at *
  have hB1 : |x1 + x2| ≤ 20 * (|v1| + |v2|) + 2 * (1 / 2 ^ 1000) := by
    have := abs_add x1 x2
    linarith only [this, q0, q1]
  have s1 := rnd_add_err x1 (v1 * M0) x2 (v2 * M1) _ _ _ p0 p1 hB1
  have t1 := rnd_err (x1 + x2) _ hB1
  have hy : |rnd (x1 + x2)| ≤ 21 * (|v1| + |v2|) + 4 * (1 / 2 ^ 1000) := by
    have h3 : |rnd (x1 + x2)| ≤ |rnd (x1 + x2) - (x1 + x2)| + |x1 + x2| := by
      have := abs_add (rnd (x1 + x2) - (x1 + x2)) (x1 + x2)
      rwa [sub_add_cancel] at this
    have e : (1 : ℝ) / 2 ^ 53 * 20 ≤ 1 := by norm_num
    have e' := mul_le_mul_of_nonneg_right e (add_nonneg n1 n2)
    linarith only [h3, t1, hB1, e', hη1, hη]
  generalize rnd (x1 + x2) = y at *
  have hB2 : |y + x3| ≤ 21 * (|v1| + |v2| + |v3|) + 5 * (1 / 2 ^ 1000) := by
    have := abs_add y x3
    linarith only [this, hy, q2, n1, n2, n3]
  have s2 := rnd_add_err y (v1 * M0 + v2 * M1) x3 (v3 * M2) _ _ _ s1 p2 hB2
  have t2 := rnd_err (y + x3) _ hB2
  have h4 : |rnd (y + x3)| ≤ |rnd (y + x3) - (y + x3)| + |y + x3| := by
    have := abs_add (rnd (y + x3) - (y + x3)) (y + x3)
    rwa [sub_add_cancel] at this
  have e1 : (1 : ℝ) / 2 ^ 53 * 21 ≤ 1 := by norm_num
  have e1' := mul_le_mul_of_nonneg_right e1 (add_nonneg (add_nonneg n1 n2) n3)
  generalize |v1| = N1 at *
  generalize |v2| = N2 at *
  generalize |v3| = N3 at *
  generalize (1 : ℝ) / 2 ^ 1000 = η at *
  generalize (1 : ℝ) / 2 ^ 990 = η9 at *
  constructor
  · linarith only [s2, hη1, hη2, hη, n1, n2, n3]
  · linarith only [h4, t2, hB2, e1', hη1, hη2, hη3, hη, n1, n2, n3]

/-- The Euclidean length of a vector is at most the length of a second vector plus the sum of the
magnitudes of the differences of the components. -/
lemma sqrt_sumsq_le_add (x y z X Y Z : ℝ) :
    Real.sqrt (x * x + y * y + z * z)
      ≤ Real.sqrt (X * X + Y * Y + Z * Z) + (|x - X| + |y - Y| + |z - Z|) := by
  have hT : 0 ≤ X * X + Y * Y + Z * Z :=
    add_nonneg (add_nonneg (mul_self_nonneg _) (mul_self_nonneg _)) (mul_self_nonneg _)
  have hN := Real.sqrt_nonneg (X * X + Y * Y + Z * Z)
  have hNN := Real.mul_self_sqrt hT
  have bX : |X| ≤ Real.sqrt (X * X + Y * Y + Z * Z) :=
    Real.abs_le_sqrt (by nlinarith [mul_self_nonneg Y, mul_self_nonneg Z])
  have bY : |Y| ≤ Real.sqrt (X * X + Y * Y + Z * Z) :=
    Real.abs_le_sqrt (by nlinarith [mul_self_nonneg X, mul_self_nonneg Z])
  have bZ : |Z| ≤ Real.sqrt (X * X + Y * Y + Z * Z) :=
    Real.abs_le_sqrt (by nlinarith [mul_self_nonneg X, mul_self_nonneg Y])
  have d1 := abs_nonneg (x - X)
  have d2 := abs_nonneg (y - Y)
  have d3 := abs_nonneg (z - Z)
  have c1 : X * (x - X) ≤ |X| * |x - X| := by
    rw [← abs_mul]; exact le_abs_self _
  have c2 : Y * (y - Y) ≤ |Y| * |y - Y| := by
    rw [← abs_mul]; exact le_abs_self _
  have c3 : Z * (z - Z) ≤ |Z| * |z - Z| := by
    rw [← abs_mul]; exact le_abs_self _
  have e1 : (x - X) * (x - X) = |x - X| * |x - X| := (abs_mul_abs_self _).symm
  have e2 : (y - Y) * (y - Y) = |y - Y| * |y - Y| := (abs_mul_abs_self _).symm
  have e3 : (z - Z) * (z - Z) = |z - Z| * |z - Z| := (abs_mul_abs_self _).symm
  have f1 := mul_le_mul_of_nonneg_right bX d1
  have f2 := mul_le_mul_of_nonneg_right bY d2
  have f3 := mul_le_mul_of_nonneg_right bZ d3
  rw [Real.sqrt_le_left (by positivity)]
  generalize Real.sqrt (X * X + Y * Y + Z * Z) = N at *
  generalize |x - X| = D1 at *
  generalize |y - Y| = D2 at *
  generalize |z - Z| = D3 at *
  generalize |X| = AX at *
  generalize |Y| = AY at *
  generalize |Z| = AZ at *
  have g12 := mul_nonneg d1 d2
  have g13 := mul_nonneg d1 d3
  have g23 := mul_nonneg d2 d3
  have key : x * x + y * y + z * z
      = (X * X + Y * Y + Z * Z) + 2 * (X * (x - X) + Y * (y - Y) + Z * (z - Z))
        + ((x - X) * (x - X) + (y - Y) * (y - Y) + (z - Z) * (z - Z)) := by ring
  rw [key, e1, e2, e3, ← hNN]
  nlinarith only [c1, c2, c3, f1, f2, f3, g12, g13, g23]

/-- The Euclidean lengths of two vectors differ by at most the sum of the magnitudes of the
differences of their components. -/
lemma sqrt_sumsq_sub_le (x y z X Y Z : ℝ) :
    |Real.sqrt (x * x + y * y + z * z) - Real.sqrt (X * X + Y * Y + Z * Z)|
      ≤ |x - X| + |y - Y| + |z - Z| := by
  have h1 := sqrt_sumsq_le_add x y z X Y Z
  have h2 := sqrt_sumsq_le_add X Y Z x y z
  rw [abs_sub_comm X x, abs_sub_comm Y y, abs_sub_comm Z z] at h2
  rw [abs_le]
  constructor <;> linarith only [h1, h2]

/-- The sum of the magnitudes of the components is at most twice the Euclidean length. -/
lemma abs_sum_le_two_sqrt (x y z : ℝ) :
    |x| + |y| + |z| ≤ 2 * Real.sqrt (x * x + y * y + z * z) := by
  have hT : 0 ≤ x * x + y * y + z * z :=
    add_nonneg (add_nonneg (mul_self_nonneg _) (mul_self_nonneg _)) (mul_self_nonneg _)
  have hN := Real.sqrt_nonneg (x * x + y * y + z * z)
  have hNN := Real.mul_self_sqrt hT
  have e1 : x * x = |x| * |x| := (abs_mul_abs_self _).symm
  have e2 : y * y = |y| * |y| := (abs_mul_abs_self _).symm
  have e3 : z * z = |z| * |z| := (abs_mul_abs_self _).symm
  rw [e1, e2, e3] at hNN hN ⊢
  have d1 := abs_nonneg x
  have d2 := abs_nonneg y
  have d3 := abs_nonneg z
  generalize Real.sqrt (|x| * |x| + |y| * |y| + |z| * |z|) = N at *
  generalize |x| = a at *
  generalize |y| = b at *
  generalize |z| = c at *
  by_contra hc
  push_neg at hc
  have h4 := mul_self_lt_mul_self (by linarith only [hN] : (0 : ℝ) ≤ 2 * N) hc
  nlinarith only [h4, hNN, sq_nonneg (a - b), sq_nonneg (a - c), sq_nonneg (b - c),
    mul_self_nonneg N]

/-- The Rodrigues matrix of an axis `a` and of a pair `(c, s)` that need not be exactly
normalised: the squared length of the image of `v`. -/
lemma rodrigues_sumsq (c s a1 a2 a3 v1 v2 v3 : ℝ) :
    (v1 * (c + (1 - c) * a1 * a1) + v2 * ((1 - c) * a1 * a2 - s * a3)
        + v3 * ((1 - c) * a1 * a3 + s * a2))
      * (v1 * (c + (1 - c) * a1 * a1) + v2 * ((1 - c) * a1 * a2 - s * a3)
        + v3 * ((1 - c) * a1 * a3 + s * a2))
    + (v1 * ((1 - c) * a2 * a1 + s * a3) + v2 * (c + (1 - c) * a2 * a2)
        + v3 * ((1 - c) * a2 * a3 - s * a1))
      * (v1 * ((1 - c) * a2 * a1 + s * a3) + v2 * (c + (1 - c) * a2 * a2)
        + v3 * ((1 - c) * a2 * a3 - s * a1))
    + (v1 * ((1 - c) * a3 * a1 - s * a2) + v2 * ((1 - c) * a3 * a2 + s * a1)
        + v3 * (c + (1 - c) * a3 * a3))
      * (v1 * ((1 - c) * a3 * a1 - s * a2) + v2 * ((1 - c) * a3 * a2 + s * a1)
        + v3 * (c + (1 - c) * a3 * a3))
    = (v1 * v1 + v2 * v2 + v3 * v3)
      + ((c * c + s * s - 1) + s * s * (a1 * a1 + a2 * a2 + a3 * a3 - 1))
        * (v1 * v1 + v2 * v2 + v3 * v3)
      + (a1 * v1 + a2 * v2 + a3 * v3) * (a1 * v1 + a2 * v2 + a3 * v3)
        * ((1 - c * c - s * s) + (1 - c) * (1 - c) * (a1 * a1 + a2 * a2 + a3 * a3 - 1)) := by
  ring

/-- The pair `(c, s)` returned for the angle `θ` by a library that is accurate to `2^-50`:
sizes, and the defect of `c * c + s * s` from `1`. -/
lemma cos_sin_near (θ c s : ℝ) (hc : |c - Real.cos θ| ≤ 1 / 2 ^ 50)
    (hs : |s - Real.sin θ| ≤ 1 / 2 ^ 50) :
    |c| ≤ 1 + 1 / 2 ^ 50 ∧ |s| ≤ 1 + 1 / 2 ^ 50 ∧ |c * c + s * s - 1| ≤ 5 / 2 ^ 50 := by
  have hC := Real.abs_cos_le_one θ
  have hS := Real.abs_sin_le_one θ
  have hCS := Real.cos_sq_add_sin_sq θ
  generalize Real.cos θ = C at *
  generalize Real.sin θ = S at *
  have c1 := abs_le_of_near c C _ 1 hc hC
  have s1 := abs_le_of_near s S _ 1 hs hS
  refine ⟨c1, s1, ?_⟩
  have e : c * c + s * s - 1 = (c - C) * (c + C) + (s - S) * (s + S) := by
    linear_combination hCS
  have c2 : |c + C| ≤ 2 + 1 / 2 ^ 50 := by
    have := abs_add c C
    linarith only [this, c1, hC]
  have s2 : |s + S| ≤ 2 + 1 / 2 ^ 50 := by
    have := abs_add s S
    linarith only [this, s1, hS]
  have c3 : |(c - C) * (c + C)| ≤ 1 / 2 ^ 50 * (2 + 1 / 2 ^ 50) := by
    rw [abs_mul]
    exact mul_le_mul hc c2 (abs_nonneg _) (by positivity)
  have s3 : |(s - S) * (s + S)| ≤ 1 / 2 ^ 50 * (2 + 1 / 2 ^ 50) := by
    rw [abs_mul]
    exact mul_le_mul hs s2 (abs_nonneg _) (by positivity)
  rw [e]
  have h := abs_add ((c - C) * (c + C)) ((s - S) * (s + S))
  have e2 : (1 : ℝ) / 2 ^ 50 * (2 + 1 / 2 ^ 50) + 1 / 2 ^ 50 * (2 + 1 / 2 ^ 50) ≤ 5 / 2 ^ 50 := by
    norm_num
  linarith only [h, c3, s3, e2]

/-- The exact image of `v` under the matrix of `rotate` built from an axis `a` whose squared
length is within `2^-50` of `1` and from a pair `(c, s)` within `2^-50` of the cosine and the
sine of an angle: its Euclidean length is within the factor `1 ± 2^-46` of the length of `v`. -/
lemma rodrigues_norm_near (θ c s a1 a2 a3 v1 v2 v3 : ℝ)
    (hc : |c - Real.cos θ| ≤ 1 / 2 ^ 50) (hs : |s - Real.sin θ| ≤ 1 / 2 ^ 50)
    (hn : |a1 * a1 + a2 * a2 + a3 * a3 - 1| ≤ 1 / 2 ^ 50) :
    |Real.sqrt (
        (v1 * (c + (1 - c) * a1 * a1) + v2 * ((1 - c) * a1 * a2 - s * a3)
            + v3 * ((1 - c) * a1 * a3 + s * a2))
          * (v1 * (c + (1 - c) * a1 * a1) + v2 * ((1 - c) * a1 * a2 - s * a3)
            + v3 * ((1 - c) * a1 * a3 + s * a2))
        + (v1 * ((1 - c) * a2 * a1 + s * a3) + v2 * (c + (1 - c) * a2 * a2)
            + v3 * ((1 - c) * a2 * a3 - s * a1))
          * (v1 * ((1 - c) * a2 * a1 + s * a3) + v2 * (c + (1 - c) * a2 * a2)
            + v3 * ((1 - c) * a2 * a3 - s * a1))
        + (v1 * ((1 - c) * a3 * a1 - s * a2) + v2 * ((1 - c) * a3 * a2 + s * a1)
            + v3 * (c + (1 - c) * a3 * a3))
          * (v1 * ((1 - c) * a3 * a1 - s * a2) + v2 * ((1 - c) * a3 * a2 + s * a1)
            + v3 * (c + (1 - c) * a3 * a3)))
      - Real.sqrt (v1 * v1 + v2 * v2 + v3 * v3)|
      ≤ 1 / 2 ^ 46 * Real.sqrt (v1 * v1 + v2 * v2 + v3 * v3) := by
  obtain ⟨c1, s1, ecs⟩ := cos_sin_near θ c s hc hs
  rw [rodrigues_sumsq]
  have hT : 0 ≤ v1 * v1 + v2 * v2 + v3 * v3 :=
    add_nonneg (add_nonneg (mul_self_nonneg _) (mul_self_nonneg _)) (mul_self_nonneg _)
  have hN := Real.sqrt_nonneg (v1 * v1 + v2 * v2 + v3 * v3)
  have hNN := Real.mul_self_sqrt hT
  -- the square of the dot product
  have hdd0 : 0 ≤ (a1 * v1 + a2 * v2 + a3 * v3) * (a1 * v1 + a2 * v2 + a3 * v3) :=
    mul_self_nonneg _
  have hcs : (a1 * v1 + a2 * v2 + a3 * v3) * (a1 * v1 + a2 * v2 + a3 * v3)
      ≤ (a1 * a1 + a2 * a2 + a3 * a3) * (v1 * v1 + v2 * v2 + v3 * v3) := by
    nlinarith only [sq_nonneg (a1 * v2 - a2 * v1), sq_nonneg (a1 * v3 - a3 * v1),
      sq_nonneg (a2 * v3 - a3 * v2)]
  have hn' := abs_le.mp hn
  have hdd : (a1 * v1 + a2 * v2 + a3 * v3) * (a1 * v1 + a2 * v2 + a3 * v3)
      ≤ 101 / 100 * (v1 * v1 + v2 * v2 + v3 * v3) := by
    have h1 : a1 * a1 + a2 * a2 + a3 * a3 ≤ 101 / 100 := by
      have e : (1 : ℝ) / 2 ^ 50 ≤ 1 / 100 := by norm_num
      linarith only [hn'.2, e]
    exact le_trans hcs (mul_le_mul_of_nonneg_right h1 hT)
  -- the two defects
  have hss : |s * s| ≤ 101 / 100 := by
    rw [abs_mul]
    calc |s| * |s| ≤ (1 + 1 / 2 ^ 50) * (1 + 1 / 2 ^ 50) :=
          mul_le_mul s1 s1 (abs_nonneg _) (by positivity)
      _ ≤ 101 / 100 := by norm_num
  have hkk : |(1 - c) * (1 - c)| ≤ 401 / 100 := by
    have h1 : |1 - c| ≤ 2 + 1 / 2 ^ 50 := by
      have := abs_sub 1 c
      rw [abs_one] at this
      linarith only [this, c1]
    rw [abs_mul]
    calc |1 - c| * |1 - c| ≤ (2 + 1 / 2 ^ 50) * (2 + 1 / 2 ^ 50) :=
          mul_le_mul h1 h1 (abs_nonneg _) (by positivity)
      _ ≤ 401 / 100 := by norm_num
  have hE1 : |(c * c + s * s - 1) + s * s * (a1 * a1 + a2 * a2 + a3 * a3 - 1)|
      ≤ 61 / (10 * 2 ^ 50) := by
    have h1 : |s * s * (a1 * a1 + a2 * a2 + a3 * a3 - 1)| ≤ 101 / 100 * (1 / 2 ^ 50) := by
      rw [abs_mul]
      exact mul_le_mul hss hn (abs_nonneg _) (by norm_num)
    have h2 := abs_add (c * c + s * s - 1) (s * s * (a1 * a1 + a2 * a2 + a3 * a3 - 1))
    have e : (5 : ℝ) / 2 ^ 50 + 101 / 100 * (1 / 2 ^ 50) ≤ 61 / (10 * 2 ^ 50) := by norm_num
    linarith only [h1, h2, ecs, e]
  have hE2 : |(1 - c * c - s * s) + (1 - c) * (1 - c) * (a1 * a1 + a2 * a2 + a3 * a3 - 1)|
      ≤ 91 / (10 * 2 ^ 50) := by
    have h1 : |(1 - c) * (1 - c) * (a1 * a1 + a2 * a2 + a3 * a3 - 1)|
        ≤ 401 / 100 * (1 / 2 ^ 50) := by
      rw [abs_mul]
      exact mul_le_mul hkk hn (abs_nonneg _) (by norm_num)
    have h0 : |1 - c * c - s * s| ≤ 5 / 2 ^ 50 := by
      have e : 1 - c * c - s * s = -(c * c + s * s - 1) := by ring
      rw [e, abs_neg]
      exact ecs
    have h2 := abs_add (1 - c * c - s * s)
      ((1 - c) * (1 - c) * (a1 * a1 + a2 * a2 + a3 * a3 - 1))
    have e : (5 : ℝ) / 2 ^ 50 + 401 / 100 * (1 / 2 ^ 50) ≤ 91 / (10 * 2 ^ 50) := by norm_num
    linarith only [h1, h2, h0, e]
  generalize (c * c + s * s - 1) + s * s * (a1 * a1 + a2 * a2 + a3 * a3 - 1) = E1 at *
  generalize (1 - c * c - s * s) + (1 - c) * (1 - c) * (a1 * a1 + a2 * a2 + a3 * a3 - 1)
    = E2 at *
  generalize (a1 * v1 + a2 * v2 + a3 * v3) * (a1 * v1 + a2 * v2 + a3 * v3) = dd at *
  generalize v1 * v1 + v2 * v2 + v3 * v3 = T at *
  have b1 : |E1 * T| ≤ 61 / (10 * 2 ^ 50) * T := by
    rw [abs_mul, abs_of_nonneg hT]
    exact mul_le_mul_of_nonneg_right hE1 hT
  have b2 : |dd * E2| ≤ 101 / 100 * T * (91 / (10 * 2 ^ 50)) := by
    rw [abs_mul, abs_of_nonneg hdd0]
    exact mul_le_mul hdd hE2 (abs_nonneg _) (by positivity)
  have b1' := abs_le.mp b1
  have b2' := abs_le.mp b2
  generalize Real.sqrt T = N at *
  have hup : T + E1 * T + dd * E2 ≤ (1 + 1 / 2 ^ 46) * T := by
    have e : (61 : ℝ) / (10 * 2 ^ 50) + 101 / 100 * (91 / (10 * 2 ^ 50)) ≤ 1 / 2 ^ 46 := by
      norm_num
    have := mul_le_mul_of_nonneg_right e hT
    linarith only [b1'.2, b2'.2, this]
  have hlo : (1 - 1 / 2 ^ 46) * T ≤ T + E1 * T + dd * E2 := by
    have e : (61 : ℝ) / (10 * 2 ^ 50) + 101 / 100 * (91 / (10 * 2 ^ 50)) ≤ 1 / 2 ^ 46 := by
      norm_num
    have := mul_le_mul_of_nonneg_right e hT
    linarith only [b1'.1, b2'.1, this]
  have hY0 : 0 ≤ T + E1 * T + dd * E2 :=
    le_trans (mul_nonneg (by norm_num) hT) hlo
  rw [abs_le]
  constructor
  · have h1 : (1 - 1 / 2 ^ 46) * N ≤ Real.sqrt (T + E1 * T + dd * E2) := by
      apply Real.le_sqrt_of_sq_le
      have e : ((1 - 1 / 2 ^ 46) * N) ^ 2 = (1 - 1 / 2 ^ 46) * (1 - 1 / 2 ^ 46) * T := by
        rw [← hNN]; ring
      rw [e]
      have e2 : ((1 : ℝ) - 1 / 2 ^ 46) * (1 - 1 / 2 ^ 46) ≤ 1 - 1 / 2 ^ 46 := by norm_num
      exact le_trans (mul_le_mul_of_nonneg_right e2 hT) hlo
    linarith only [h1]
  · have h1 : Real.sqrt (T + E1 * T + dd * E2) ≤ (1 + 1 / 2 ^ 46) * N := by
      rw [Real.sqrt_le_left (by positivity)]
      have e : ((1 + 1 / 2 ^ 46) * N) ^ 2 = (1 + 1 / 2 ^ 46) * (1 + 1 / 2 ^ 46) * T := by
        rw [← hNN]; ring
      rw [e]
      have e2 : (1 : ℝ) + 1 / 2 ^ 46 ≤ (1 + 1 / 2 ^ 46) * (1 + 1 / 2 ^ 46) := by norm_num
      exact le_trans hup (mul_le_mul_of_nonneg_right e2 hT)
    linarith only [h1]

/-- The length computed in double precision against the exact Euclidean length, for every finite
vector: a relative error of at most `4 * 2^-53` and an absolute error of at most `2^-490`, which
covers the squares that fall into the subnormal range. -/
lemma length_abs_bounds (x y z : ℝ) :
    |rnd (Real.sqrt (rnd (rnd (rnd (x * x) + rnd (y * y)) + rnd (z * z))))
        - Real.sqrt (x * x + y * y + z * z)|
      ≤ 4 / 2 ^ 53 * Real.sqrt (x * x + y * y + z * z) + 1 / 2 ^ 490 := by
  obtain ⟨S0, Slo, Shi⟩ := sumsq_rnd_bounds x y z
  have hT : 0 ≤ x * x + y * y + z * z :=
    add_nonneg (add_nonneg (mul_self_nonneg _) (mul_self_nonneg _)) (mul_self_nonneg _)
  have hN := Real.sqrt_nonneg (x * x + y * y + z * z)
  have hNN := Real.mul_self_sqrt hT
  have hη := eta_le
  have hη0 : (0 : ℝ) ≤ 2 ^ (-1075 : ℤ) := by positivity
  have f2 : (6 : ℝ) * (1 / 2 ^ 1000) ≤ 1 / 2 ^ 498 * (1 / 2 ^ 498) := by norm_num
  generalize (2 : ℝ) ^ (-1075 : ℤ) = η at *
  generalize rnd (rnd (rnd (x * x) + rnd (y * y)) + rnd (z * z)) = S at *
  generalize x * x + y * y + z * z = T at *
  generalize Real.sqrt T = N at *
  -- the square root, from above
  have hup : Real.sqrt S ≤ (1 + 2 / 2 ^ 53) * N + 1 / 2 ^ 498 := by
    rw [Real.sqrt_le_left (by positivity)]
    have e0 : ((1 + 2 / 2 ^ 53) * N + 1 / 2 ^ 498) ^ 2
        = (1 + 2 / 2 ^ 53) * (1 + 2 / 2 ^ 53) * T + 2 * ((1 + 2 / 2 ^ 53) * N * (1 / 2 ^ 498))
          + 1 / 2 ^ 498 * (1 / 2 ^ 498) := by
      rw [← hNN]; ring
    have f1 : (1 : ℝ) + 301 / (100 * 2 ^ 53) ≤ (1 + 2 / 2 ^ 53) * (1 + 2 / 2 ^ 53) := by
      norm_num
    have f1T := mul_le_mul_of_nonneg_right f1 hT
    have f3 : 0 ≤ (1 + 2 / 2 ^ 53) * N * (1 / 2 ^ 498) := by positivity
    rw [e0]
    linarith only [Shi, f1T, f2, f3, hη]
  -- the square root, from below
  have hlo : (1 - 2 / 2 ^ 53) * N - 1 / 2 ^ 498 ≤ Real.sqrt S := by
    by_cases hcase : (1 - 2 / 2 ^ 53) * N - 1 / 2 ^ 498 ≤ 0
    · exact le_trans hcase (Real.sqrt_nonneg S)
    · push_neg at hcase
      apply Real.le_sqrt_of_sq_le
      have e0 : ((1 - 2 / 2 ^ 53) * N - 1 / 2 ^ 498) ^ 2
          = (1 - 2 / 2 ^ 53) * (1 - 2 / 2 ^ 53) * T
            - 2 * ((1 - 2 / 2 ^ 53) * N * (1 / 2 ^ 498))
            + 1 / 2 ^ 498 * (1 / 2 ^ 498) := by
        rw [← hNN]; ring
      have f1 : ((1 : ℝ) - 2 / 2 ^ 53) * (1 - 2 / 2 ^ 53) ≤ 1 - 301 / (100 * 2 ^ 53) := by
        norm_num
      have f1T := mul_le_mul_of_nonneg_right f1 hT
      have f3 : 1 / 2 ^ 498 * (1 / 2 ^ 498) ≤ (1 - 2 / 2 ^ 53) * N * (1 / 2 ^ 498) :=
        mul_le_mul_of_nonneg_right (by linarith only [hcase]) (by positivity)
      rw [e0]
      linarith only [Slo, f1T, f2, f3, hη]
  -- the last rounding
  have hr := rnd_err (Real.sqrt S) ((1 + 2 / 2 ^ 53) * N + 1 / 2 ^ 498)
    (by rw [abs_of_nonneg (Real.sqrt_nonneg S)]; exact hup)
  have hr' := abs_le.mp hr
  have g1 : (1 : ℝ) / 2 ^ 53 * (1 + 2 / 2 ^ 53) ≤ 2 / 2 ^ 53 := by norm_num
  have g1N := mul_le_mul_of_nonneg_right g1 hN
  have g2 : (1 : ℝ) / 2 ^ 53 * (1 / 2 ^ 498) + 1 / 2 ^ 1000 + 1 / 2 ^ 498 ≤ 1 / 2 ^ 490 := by
    norm_num
  generalize rnd (Real.sqrt S) = l at *
  generalize Real.sqrt S = r at *
  rw [abs_le]
  constructor
  · linarith only [hr'.1, hlo, hup, g1N, g2]
  · linarith only [hr'.2, hlo, hup, g1N, g2]

/-- The normalised axis in double precision: when the computed length of the axis is finite and
passes the guard of `normalize`, the components of the normalised axis are finite, at most `2`
in magnitude, and the exact sum of their squares is within `2^-50` of `1`. -/
lemma normalize_fin_of_guard (axis : Vec3D) (L : ℝ) (hlen : axis.length = Dbl.fin L)
    (hguard : ¬ Dbl.lt (Dbl.fin L) (Dbl.round 1e-10)) :
    ∃ a1 a2 a3 : ℝ, axis.normalize = ⟨Dbl.fin a1, Dbl.fin a2, Dbl.fin a3⟩ ∧
      |a1| ≤ 2 ∧ |a2| ≤ 2 ∧ |a3| ≤ 2 ∧ |a1 * a1 + a2 * a2 + a3 * a3 - 1| ≤ 1 / 2 ^ 50 := by
  obtain ⟨x, y, z, rfl, hS0, hLeq⟩ := length_fin_inv axis L hlen
  have hg : (7737125245533627 : ℝ) * 2 ^ (-86 : ℤ) ≤ L := by
    rw [round_guard] at hguard
    exact not_lt.mp hguard
  have hL34 : 1 / 2 ^ 34 ≤ L := le_trans (by norm_num) hg
  have hLpos : 0 < L := lt_of_lt_of_le (by norm_num) hL34
  have hT := sumsq_lower_of_length x y z (by rw [← hLeq]; exact hL34)
  obtain ⟨_, hlo, hhi⟩ := length_sq_bounds x y z hT
  rw [← hLeq] at hlo hhi
  obtain ⟨⟨ax, ay, az⟩, tlo, thi⟩ := normalized_sumsq_bounds x y z L hLpos hlo hhi
  have hX := mul_self_nonneg x
  have hY := mul_self_nonneg y
  have hZ := mul_self_nonneg z
  have qx := abs_div_le_two x L hLpos (by nlinarith)
  have qy := abs_div_le_two y L hLpos (by nlinarith)
  have qz := abs_div_le_two z L hLpos (by nlinarith)
  have hnorm : (Vec3D.mk (Dbl.fin x) (Dbl.fin y) (Dbl.fin z)).normalize
      = ⟨Dbl.fin (rnd (x / L)), Dbl.fin (rnd (y / L)), Dbl.fin (rnd (z / L))⟩ := by
    unfold Vec3D.normalize
    simp only
    rw [hlen, if_neg hguard]
    simp only [Dbl.div, if_neg (ne_of_gt hLpos)]
    rw [Dbl.round_of_abs_le _ (by linarith [(by norm_num : (2 : ℝ) ≤ 2 ^ 32)]),
      Dbl.round_of_abs_le (y / L) (by linarith [(by norm_num : (2 : ℝ) ≤ 2 ^ 32)]),
      Dbl.round_of_abs_le (z / L) (by linarith [(by norm_num : (2 : ℝ) ≤ 2 ^ 32)])]
  refine ⟨_, _, _, hnorm, ax, ay, az, ?_⟩
  rw [abs_le]
  have e : (72 : ℝ) / (10 * 2 ^ 53) ≤ 1 / 2 ^ 50 := by norm_num
  constructor
  · linarith only [tlo, e]
  · linarith only [thi, e]

/-- A diagonal entry of the rotation matrix in double precision is finite. -/
lemma rot_diag_fin (c k K a b : ℝ) (hc : |c| ≤ 2) (hk : |k - K| ≤ 3 / 2 ^ 53) (hK : |K| ≤ 3)
    (ha : |a| ≤ 2) (hb : |b| ≤ 2) :
    Dbl.add (Dbl.fin c) (Dbl.mul (Dbl.mul (Dbl.fin k) (Dbl.fin a)) (Dbl.fin b))
      = Dbl.fin (rnd (c + rnd (rnd (k * a) * b))) := by
  obtain ⟨_, _, _, h3, h4⟩ := rot_product_err k K a b hk hK ha hb
  obtain ⟨_, h5⟩ := rot_diag_err c k K a b hc hk hK ha hb
  simp only [Dbl.mul]
  rw [Dbl.round_of_abs_le _ (le_trans h3 (by norm_num))]
  simp only [Dbl.mul]
  rw [Dbl.round_of_abs_le _ (le_trans h4 (by norm_num))]
  simp only [Dbl.add]
  rw [Dbl.round_of_abs_le _ (le_trans h5 (by norm_num))]

/-- An entry `k * a * b + s * d` of the rotation matrix in double precision is finite. -/
lemma rot_plus_fin (s k K a b d : ℝ) (hs : |s| ≤ 2) (hk : |k - K| ≤ 3 / 2 ^ 53) (hK : |K| ≤ 3)
    (ha : |a| ≤ 2) (hb : |b| ≤ 2) (hd : |d| ≤ 2) :
    Dbl.add (Dbl.mul (Dbl.mul (Dbl.fin k) (Dbl.fin a)) (Dbl.fin b))
        (Dbl.mul (Dbl.fin s) (Dbl.fin d))
      = Dbl.fin (rnd (rnd (rnd (k * a) * b) + rnd (s * d))) := by
  obtain ⟨_, _, _, h3, h4⟩ := rot_product_err k K a b hk hK ha hb
  obtain ⟨_, _, g3⟩ := rot_sine_err s d hs hd
  obtain ⟨_, h5⟩ := rot_plus_err s k K a b d hs hk hK ha hb hd
  simp only [Dbl.mul]
  rw [Dbl.round_of_abs_le _ (le_trans h3 (by norm_num)),
    Dbl.round_of_abs_le _ (le_trans g3 (by norm_num))]
  simp only [Dbl.mul]
  rw [Dbl.round_of_abs_le _ (le_trans h4 (by norm_num))]
  simp only [Dbl.add]
  rw [Dbl.round_of_abs_le _ (le_trans h5 (by norm_num))]

/-- An entry `k * a * b - s * d` of the rotation matrix in double precision is finite. -/
lemma rot_minus_fin (s k K a b d : ℝ) (hs : |s| ≤ 2) (hk : |k - K| ≤ 3 / 2 ^ 53)
    (hK : |K| ≤ 3) (ha : |a| ≤ 2) (hb : |b| ≤ 2) (hd : |d| ≤ 2) :
    Dbl.sub (Dbl.mul (Dbl.mul (Dbl.fin k) (Dbl.fin a)) (Dbl.fin b))
        (Dbl.mul (Dbl.fin s) (Dbl.fin d))
      = Dbl.fin (rnd (rnd (rnd (k * a) * b) - rnd (s * d))) := by
  obtain ⟨_, _, _, h3, h4⟩ := rot_product_err k K a b hk hK ha hb
  obtain ⟨_, _, g3⟩ := rot_sine_err s d hs hd
  obtain ⟨_, h5⟩ := rot_minus_err s k K a b d hs hk hK ha hb hd
  simp only [Dbl.mul]
  rw [Dbl.round_of_abs_le _ (le_trans h3 (by norm_num)),
    Dbl.round_of_abs_le _ (le_trans g3 (by norm_num))]
  simp only [Dbl.mul]
  rw [Dbl.round_of_abs_le _ (le_trans h4 (by norm_num))]
  simp only [Dbl.sub]
  rw [Dbl.round_of_abs_le _ (le_trans h5 (by norm_num))]

/-- An entry of the rotation matrix within `72 * 2^-53` of an exact entry of magnitude at most
`18` is at most `19` in magnitude. -/
lemma rot_entry_le (t : ℝ) (h : |t| ≤ 18) : |rnd t| ≤ 19 ∧ |rnd t| ≤ 2 ^ 110 := by
  have h1 := rnd_abs_le_add_one t (le_trans h (by norm_num))
  constructor
  · linarith only [h, h1]
  · have e : (19 : ℝ) ≤ 2 ^ 110 := by norm_num
    linarith only [h, h1, e]

/-- A diagonal entry of the rotation matrix in double precision: finite, within `72 * 2^-53` of
the exact entry, and at most `19` in magnitude. -/
lemma rot_diag_entry (c k K a b : ℝ) (hc : |c| ≤ 2) (hk : |k - K| ≤ 3 / 2 ^ 53) (hK : |K| ≤ 3)
    (ha : |a| ≤ 2) (hb : |b| ≤ 2) :
    ∃ m : ℝ, Dbl.add (Dbl.fin c) (Dbl.mul (Dbl.mul (Dbl.fin k) (Dbl.fin a)) (Dbl.fin b))
        = Dbl.fin m ∧ |m - (c + K * a * b)| ≤ 72 / 2 ^ 53 ∧ |m| ≤ 19 :=
  ⟨_, rot_diag_fin c k K a b hc hk hK ha hb, (rot_diag_err c k K a b hc hk hK ha hb).1,
    (rot_entry_le _ (le_trans (rot_diag_err c k K a b hc hk hK ha hb).2 (by norm_num))).1⟩

/-- An entry `k * a * b + s * d` of the rotation matrix in double precision: finite, within
`72 * 2^-53` of the exact entry, and at most `19` in magnitude. -/
lemma rot_plus_entry (s k K a b d : ℝ) (hs : |s| ≤ 2) (hk : |k - K| ≤ 3 / 2 ^ 53)
    (hK : |K| ≤ 3) (ha : |a| ≤ 2) (hb : |b| ≤ 2) (hd : |d| ≤ 2) :
    ∃ m : ℝ, Dbl.add (Dbl.mul (Dbl.mul (Dbl.fin k) (Dbl.fin a)) (Dbl.fin b))
        (Dbl.mul (Dbl.fin s) (Dbl.fin d)) = Dbl.fin m ∧
      |m - (K * a * b + s * d)| ≤ 72 / 2 ^ 53 ∧ |m| ≤ 19 :=
  ⟨_, rot_plus_fin s k K a b d hs hk hK ha hb hd,
    (rot_plus_err s k K a b d hs hk hK ha hb hd).1,
    (rot_entry_le _ (rot_plus_err s k K a b d hs hk hK ha hb hd).2).1⟩

/-- An entry `k * a * b - s * d` of the rotation matrix in double precision: finite, within
`72 * 2^-53` of the exact entry, and at most `19` in magnitude. -/
lemma rot_minus_entry (s k K a b d : ℝ) (hs : |s| ≤ 2) (hk : |k - K| ≤ 3 / 2 ^ 53)
    (hK : |K| ≤ 3) (ha : |a| ≤ 2) (hb : |b| ≤ 2) (hd : |d| ≤ 2) :
    ∃ m : ℝ, Dbl.sub (Dbl.mul (Dbl.mul (Dbl.fin k) (Dbl.fin a)) (Dbl.fin b))
        (Dbl.mul (Dbl.fin s) (Dbl.fin d)) = Dbl.fin m ∧
      |m - (K * a * b - s * d)| ≤ 72 / 2 ^ 53 ∧ |m| ≤ 19 :=
  ⟨_, rot_minus_fin s k K a b d hs hk hK ha hb hd,
    (rot_minus_err s k K a b d hs hk hK ha hb hd).1,
    (rot_entry_le _ (rot_minus_err s k K a b d hs hk hK ha hb hd).2).1⟩

/-- One component of the rotated vector in double precision, for a vector whose components are
at most `2^100` in magnitude: finite, close to the exact sum, and at most `2^110` in
magnitude. -/
lemma rot_row_entry (v1 v2 v3 m0 m1 m2 M0 M1 M2 : ℝ)
    (hv1 : |v1| ≤ 2 ^ 100) (hv2 : |v2| ≤ 2 ^ 100) (hv3 : |v3| ≤ 2 ^ 100)
    (h0 : |m0 - M0| ≤ 72 / 2 ^ 53) (h1 : |m1 - M1| ≤ 72 / 2 ^ 53)
    (h2 : |m2 - M2| ≤ 72 / 2 ^ 53) (b0 : |m0| ≤ 19) (b1 : |m1| ≤ 19) (b2 : |m2| ≤ 19) :
    ∃ r : ℝ, Dbl.add (Dbl.add (Dbl.mul (Dbl.fin v1) (Dbl.fin m0))
          (Dbl.mul (Dbl.fin v2) (Dbl.fin m1))) (Dbl.mul (Dbl.fin v3) (Dbl.fin m2)) = Dbl.fin r ∧
      |r - (v1 * M0 + v2 * M1 + v3 * M2)|
        ≤ 140 / 2 ^ 53 * (|v1| + |v2| + |v3|) + 1 / 2 ^ 990 ∧ |r| ≤ 2 ^ 110 := by
  have e : (2 : ℝ) ^ 100 ≤ 2 ^ 110 := by norm_num
  have e19 : (19 : ℝ) ≤ 2 ^ 110 := by norm_num
  obtain ⟨h3, h4⟩ := rot_row_err v1 v2 v3 m0 m1 m2 M0 M1 M2 h0 h1 h2 b0 b1 b2
  refine ⟨_, dot_fin v1 v2 v3 m0 m1 m2 (le_trans hv1 e) (le_trans hv2 e) (le_trans hv3 e)
    (le_trans b0 e19) (le_trans b1 e19) (le_trans b2 e19), h3, ?_⟩
  have e2 : (22 : ℝ) * (2 ^ 100 + 2 ^ 100 + 2 ^ 100) + 1 ≤ 2 ^ 110 := by norm_num
  linarith only [h4, hv1, hv2, hv3, e2]

/-- The components of the rotated vector in double precision: when the normalised axis is the
finite vector `a`, with components of magnitude at most `2`, the values `c` and `s` are at most
`3/2` and `2` in magnitude and the components of `v` at most `2^100`, the function returns a
finite vector whose components are close to those of the exact product of `v` with the matrix
built from `a`, `c` and `s`. -/
lemma rotateD_components (v1 v2 v3 : ℝ) (axis : Vec3D) (a1 a2 a3 c s : ℝ)
    (hv1 : |v1| ≤ 2 ^ 100) (hv2 : |v2| ≤ 2 ^ 100) (hv3 : |v3| ≤ 2 ^ 100)
    (hnorm : axis.normalize = ⟨Dbl.fin a1, Dbl.fin a2, Dbl.fin a3⟩)
    (ha1 : |a1| ≤ 2) (ha2 : |a2| ≤ 2) (ha3 : |a3| ≤ 2) (hc : |c| ≤ 3 / 2) (hs2 : |s| ≤ 2) :
    ∃ r1 r2 r3 : ℝ,
      rotateD ⟨Dbl.fin v1, Dbl.fin v2, Dbl.fin v3⟩ axis (Dbl.fin c) (Dbl.fin s)
        = ⟨Dbl.fin r1, Dbl.fin r2, Dbl.fin r3⟩ ∧
      (|r1| ≤ 2 ^ 110 ∧ |r2| ≤ 2 ^ 110 ∧ |r3| ≤ 2 ^ 110) ∧
      |r1 - (v1 * (c + (1 - c) * a1 * a1) + v2 * ((1 - c) * a1 * a2 - s * a3)
          + v3 * ((1 - c) * a1 * a3 + s * a2))|
        ≤ 140 / 2 ^ 53 * (|v1| + |v2| + |v3|) + 1 / 2 ^ 990 ∧
      |r2 - (v1 * ((1 - c) * a2 * a1 + s * a3) + v2 * (c + (1 - c) * a2 * a2)
          + v3 * ((1 - c) * a2 * a3 - s * a1))|
        ≤ 140 / 2 ^ 53 * (|v1| + |v2| + |v3|) + 1 / 2 ^ 990 ∧
      |r3 - (v1 * ((1 - c) * a3 * a1 - s * a2) + v2 * ((1 - c) * a3 * a2 + s * a1)
          + v3 * (c + (1 - c) * a3 * a3))|
        ≤ 140 / 2 ^ 53 * (|v1| + |v2| + |v3|) + 1 / 2 ^ 990 := by
  have hc2 : |c| ≤ 2 := by linarith only [hc]
  -- the factor `k = 1.0 - c`
  have hK' : |1 - c| ≤ 5 / 2 := by
    have := abs_sub 1 c
    rw [abs_one] at this
    linarith only [this, hc]
  have hK : |1 - c| ≤ 3 := by linarith only [hK']
  have hk : |rnd (1 - c) - (1 - c)| ≤ 3 / 2 ^ 53 := by
    have := rnd_err (1 - c) _ hK'
    have e : (1 : ℝ) / 2 ^ 53 * (5 / 2) + 1 / 2 ^ 1000 ≤ 3 / 2 ^ 53 := by norm_num
    linarith only [this, e]
  have hkfin : Dbl.sub (Dbl.round 1) (Dbl.fin c) = Dbl.fin (rnd (1 - c)) := by
    rw [Dbl.round_one]
    simp only [Dbl.sub]
    rw [Dbl.round_of_abs_le _ (le_trans hK (by norm_num))]
  generalize rnd (1 - c) = k at hk hkfin
  -- the entries of the matrix
  obtain ⟨m00, f00, e00, g00⟩ := rot_diag_entry c k (1 - c) a1 a1 hc2 hk hK ha1 ha1
  obtain ⟨m01, f01, e01, g01⟩ := rot_minus_entry s k (1 - c) a1 a2 a3 hs2 hk hK ha1 ha2 ha3
  obtain ⟨m02, f02, e02, g02⟩ := rot_plus_entry s k (1 - c) a1 a3 a2 hs2 hk hK ha1 ha3 ha2
  obtain ⟨m10, f10, e10, g10⟩ := rot_plus_entry s k (1 - c) a2 a1 a3 hs2 hk hK ha2 ha1 ha3
  obtain ⟨m11, f11, e11, g11⟩ := rot_diag_entry c k (1 - c) a2 a2 hc2 hk hK ha2 ha2
  obtain ⟨m12, f12, e12, g12⟩ := rot_minus_entry s k (1 - c) a2 a3 a1 hs2 hk hK ha2 ha3 ha1
  obtain ⟨m20, f20, e20, g20⟩ := rot_minus_entry s k (1 - c) a3 a1 a2 hs2 hk hK ha3 ha1 ha2
  obtain ⟨m21, f21, e21, g21⟩ := rot_plus_entry s k (1 - c) a3 a2 a1 hs2 hk hK ha3 ha2 ha1
  obtain ⟨m22, f22, e22, g22⟩ := rot_diag_entry c k (1 - c) a3 a3 hc2 hk hK ha3 ha3
  -- the components of the rotated vector
  obtain ⟨r1, q1, d1, b1⟩ := rot_row_entry v1 v2 v3 m00 m01 m02 _ _ _ hv1 hv2 hv3
    e00 e01 e02 g00 g01 g02
  obtain ⟨r2, q2, d2, b2⟩ := rot_row_entry v1 v2 v3 m10 m11 m12 _ _ _ hv1 hv2 hv3
    e10 e11 e12 g10 g11 g12
  obtain ⟨r3, q3, d3, b3⟩ := rot_row_entry v1 v2 v3 m20 m21 m22 _ _ _ hv1 hv2 hv3
    e20 e21 e22 g20 g21 g22
  refine ⟨r1, r2, r3, ?_, ⟨b1, b2, b3⟩, d1, d2, d3⟩
  unfold rotateD
  simp only []
  rw [hnorm]
  simp only []
  rw [hkfin, f00, f01, f02, f10, f11, f12, f20, f21, f22, q1, q2, q3]

/-- C9 (amended). The function `rotate` preserves the length within a tolerance, in double
precision. For a vector `v` whose components are at most `2^100` in magnitude, an axis whose
computed length is finite and passes the guard of `normalize` (it is not below the `double`
nearest to `1e-10`), and values `c`, `s` of `std::cos(angle)`, `std::sin(angle)` that are within
`2^-50` of the cosine and the sine of an angle `θ`, the lengths of `rotate(v, axis, angle)` and
of `v` computed in double precision are finite and differ by at most `length(v) / 2^42`, plus
`2^-480` for the vectors whose squares fall into the subnormal range. -/
theorem rotate_preserves_length_double (v1 v2 v3 : ℝ) (axis : Vec3D) (L θ c s : ℝ)
    (hv1 : |v1| ≤ 2 ^ 100) (hv2 : |v2| ≤ 2 ^ 100) (hv3 : |v3| ≤ 2 ^ 100)
    (hlen : axis.length = Dbl.fin L) (hguard : ¬ Dbl.lt (Dbl.fin L) (Dbl.round 1e-10))
    (hc : |c - Real.cos θ| ≤ 1 / 2 ^ 50) (hs : |s - Real.sin θ| ≤ 1 / 2 ^ 50) :
    ∃ l l' : ℝ,
      (rotateD ⟨Dbl.fin v1, Dbl.fin v2, Dbl.fin v3⟩ axis (Dbl.fin c) (Dbl.fin s)).length
        = Dbl.fin l ∧
      Vec3D.length ⟨Dbl.fin v1, Dbl.fin v2, Dbl.fin v3⟩ = Dbl.fin l' ∧
      |l - l'| ≤ l' / 2 ^ 42 + 1 / 2 ^ 480 := by
  obtain ⟨a1, a2, a3, hnorm, ha1, ha2, ha3, hn⟩ := normalize_fin_of_guard axis L hlen hguard
  obtain ⟨c1, s1, _⟩ := cos_sin_near θ c s hc hs
  have e50 : (1 : ℝ) + 1 / 2 ^ 50 ≤ 3 / 2 := by norm_num
  obtain ⟨r1, r2, r3, hrot, ⟨b1, b2, b3⟩, d1, d2, d3⟩ :=
    rotateD_components v1 v2 v3 axis a1 a2 a3 c s hv1 hv2 hv3 hnorm ha1 ha2 ha3
      (by linarith only [c1, e50]) (by linarith only [s1, e50])
  -- the two lengths
  have e110 : (2 : ℝ) ^ 100 ≤ 2 ^ 110 := by norm_num
  have hl := length_fin r1 r2 r3 b1 b2 b3
  have hl' := length_fin v1 v2 v3 (le_trans hv1 e110) (le_trans hv2 e110) (le_trans hv3 e110)
  refine ⟨_, _, by rw [hrot]; exact hl, hl', ?_⟩
  have A1 := abs_le.mp (length_abs_bounds r1 r2 r3)
  have A2 := abs_le.mp (length_abs_bounds v1 v2 v3)
  have A3 := abs_le.mp (le_trans (sqrt_sumsq_sub_le r1 r2 r3 _ _ _) (add_le_add
    (add_le_add d1 d2) d3))
  have A4 := abs_le.mp (rodrigues_norm_near θ c s a1 a2 a3 v1 v2 v3 hc hs hn)
  have A5 := abs_sum_le_two_sqrt v1 v2 v3
  have hN := Real.sqrt_nonneg (v1 * v1 + v2 * v2 + v3 * v3)
  have hη : (4 : ℝ) * (1 / 2 ^ 990) + 4 * (1 / 2 ^ 490) ≤ 1 / 2 ^ 480 := by norm_num
  have hη0 : (0 : ℝ) ≤ 1 / 2 ^ 990 := by positivity
  have hη1 : (0 : ℝ) ≤ 1 / 2 ^ 490 := by positivity
  generalize rnd (Real.sqrt (rnd (rnd (rnd (r1 * r1) + rnd (r2 * r2)) + rnd (r3 * r3)))) = l
    at *
  generalize rnd (Real.sqrt (rnd (rnd (rnd (v1 * v1) + rnd (v2 * v2)) + rnd (v3 * v3)))) = l'
    at *
  generalize Real.sqrt (r1 * r1 + r2 * r2 + r3 * r3) = Nr at *
  generalize Real.sqrt (v1 * v1 + v2 * v2 + v3 * v3) = N at *
  generalize |v1| + |v2| + |v3| = S at *
  generalize Real.sqrt _ = NR at A3 A4
  generalize (1 : ℝ) / 2 ^ 990 = η9 at *
  generalize (1 : ℝ) / 2 ^ 490 = η4 at *
  generalize (1 : ℝ) / 2 ^ 480 = η8 at *
  rw [abs_le]
  constructor
  · linarith only [A1.1, A1.2, A2.1, A2.2, A3.1, A3.2, A4.1, A4.2, A5, hN, hη, hη0, hη1]
  · linarith only [A1.1, A1.2, A2.1, A2.2, A3.1, A3.2, A4.1, A4.2, A5, hN, hη, hη0, hη1]

lemma rnd_one : rnd 1 = 1 := (Dbl.round_fin_inv 1 1 Dbl.round_one).1.symm

/-- The length of the unit vector `(1, 0, 0)` in double precision. -/
lemma length_unit_x : Vec3D.length ⟨Dbl.fin 1, Dbl.fin 0, Dbl.fin 0⟩ = Dbl.fin 1 := by
  rw [length_fin_of_small 1 0 0 (by norm_num) (by norm_num) (by norm_num)]
  simp only [mul_zero, mul_one, rnd_zero, rnd_one, add_zero, Real.sqrt_one]

/-- The length of the unit vector `(0, 1, 0)` in double precision. -/
lemma length_unit_y : Vec3D.length ⟨Dbl.fin 0, Dbl.fin 1, Dbl.fin 0⟩ = Dbl.fin 1 := by
  rw [length_fin_of_small 0 1 0 (by norm_num) (by norm_num) (by norm_num)]
  simp only [mul_zero, mul_one, rnd_zero, rnd_one, add_zero, zero_add, Real.sqrt_one]

/-- The zero vector is normalised to itself: its length `0` is below the guard. -/
lemma normalize_zero_vector :
    (Vec3D.mk (Dbl.fin 0) (Dbl.fin 0) (Dbl.fin 0)).normalize
      = ⟨Dbl.fin 0, Dbl.fin 0, Dbl.fin 0⟩ := by
  have hg : Dbl.lt (Dbl.fin 0) (Dbl.round 1e-10) := by
    rw [round_guard]
    show (0 : ℝ) < 7737125245533627 * 2 ^ (-86 : ℤ)
    positivity
  unfold Vec3D.normalize
  simp only
  rw [length_zero_vector, if_pos hg]

/-- The function `rotate` with an axis that `normalize` sends to the zero vector: the matrix is
`c` times the identity up to rounding, so that the image of the unit vector `(1, 0, 0)` has a
length of at most `3/4` when `c` is at most `7/10` in magnitude. -/
lemma rotateD_degenerate_axis (axis : Vec3D)
    (hax : axis.normalize = ⟨Dbl.fin 0, Dbl.fin 0, Dbl.fin 0⟩) (c s : ℝ)
    (hc : |c| ≤ 7 / 10) (hs : |s| ≤ 2) :
    ∃ l : ℝ, (rotateD ⟨Dbl.fin 1, Dbl.fin 0, Dbl.fin 0⟩ axis (Dbl.fin c) (Dbl.fin s)).length
        = Dbl.fin l ∧ l ≤ 3 / 4 := by
  obtain ⟨r1, r2, r3, hrot, ⟨b1, b2, b3⟩, d1, d2, d3⟩ :=
    rotateD_components 1 0 0 axis 0 0 0 c s (by norm_num) (by norm_num) (by norm_num) hax
      (by norm_num) (by norm_num) (by norm_num) (by linarith only [hc]) hs
  have e1 : (1 : ℝ) * (c + (1 - c) * 0 * 0) + 0 * ((1 - c) * 0 * 0 - s * 0)
      + 0 * ((1 - c) * 0 * 0 + s * 0) = c := by ring
  have e2 : (1 : ℝ) * ((1 - c) * 0 * 0 + s * 0) + 0 * (c + (1 - c) * 0 * 0)
      + 0 * ((1 - c) * 0 * 0 - s * 0) = 0 := by ring
  have e3 : (1 : ℝ) * ((1 - c) * 0 * 0 - s * 0) + 0 * ((1 - c) * 0 * 0 + s * 0)
      + 0 * (c + (1 - c) * 0 * 0) = 0 := by ring
  have e4 : |(1 : ℝ)| + |(0 : ℝ)| + |(0 : ℝ)| = 1 := by norm_num
  rw [e1, e4] at d1
  rw [e2, e4, sub_zero] at d2
  rw [e3, e4, sub_zero] at d3
  have h1 := abs_le_of_near r1 c _ _ d1 hc
  have hl := length_fin r1 r2 r3 b1 b2 b3
  refine ⟨_, by rw [hrot]; exact hl, ?_⟩
  have A1 := abs_le.mp (length_abs_bounds r1 r2 r3)
  have A2 := sqrt_sumsq_le_add r1 r2 r3 0 0 0
  simp only [mul_zero, add_zero, Real.sqrt_zero, sub_zero, zero_add] at A2
  have hη : (140 : ℝ) / 2 ^ 53 * 1 + 1 / 2 ^ 990 ≤ 1 / 1000 := by norm_num
  have hη4 : (1 : ℝ) / 2 ^ 490 ≤ 1 / 1000 := by norm_num
  have hu : (4 : ℝ) / 2 ^ 53 ≤ 1 / 1000 := by norm_num
  have hNr := Real.sqrt_nonneg (r1 * r1 + r2 * r2 + r3 * r3)
  have hu' := mul_le_mul_of_nonneg_right hu hNr
  generalize rnd (Real.sqrt (rnd (rnd (rnd (r1 * r1) + rnd (r2 * r2)) + rnd (r3 * r3)))) = l
    at *
  generalize Real.sqrt (r1 * r1 + r2 * r2 + r3 * r3) = Nr at *
  generalize (140 : ℝ) / 2 ^ 53 * 1 + 1 / 2 ^ 990 = δ at *
  generalize (1 : ℝ) / 2 ^ 490 = η4 at *
  generalize (4 : ℝ) / 2 ^ 53 * Nr = w at *
  linarith only [A1.2, A2, h1, d2, d3, hη, hη4, hu']

/-! ### A quarter turn in double precision

The evaluation, operation by operation, of `rotate` for the vector `(1, 0, 1)`, the axis
`(0, 1, 0)` and the values `c = 6.123233995736766e-17`, `s = 1`, which are the `double`s nearest
to the cosine and the sine of the `double` nearest to `π / 2`. -/

lemma quarter_ev1 : Dbl.round (1 - (4967757600021511 * 2 ^ (-106 : ℤ))) = Dbl.fin (9007199254740991 * 2 ^ (-53 : ℤ)) :=
  Dbl.round_eq_fin _ _
    (rnd_eq_of_pos' _ _ (-1) 9007199254740991 (by norm_num) (by norm_num) (by norm_num) (by norm_num)
      (by norm_num) (by norm_num))
    (abs_lt_two_pow_1024 _ 1 (by norm_num) (by norm_num [abs_lt]))

lemma quarter_ev2 : Dbl.round ((9007199254740991 * 2 ^ (-53 : ℤ)) * 0) = Dbl.fin 0 := by
  rw [show ((9007199254740991 * 2 ^ (-53 : ℤ)) * 0 : ℝ) = 0 by norm_num]
  exact Dbl.round_zero

lemma quarter_ev3 : Dbl.round (0 * 0) = Dbl.fin 0 := by
  rw [show (0 * 0 : ℝ) = 0 by norm_num]
  exact Dbl.round_zero

lemma quarter_ev4 : Dbl.round ((4967757600021511 * 2 ^ (-106 : ℤ)) + 0) = Dbl.fin (4967757600021511 * 2 ^ (-106 : ℤ)) :=
  Dbl.round_eq_fin _ _
    (rnd_eq_of_pos' _ _ (-54) 4967757600021511 (by norm_num) (by norm_num) (by norm_num) (by norm_num)
      (by norm_num) (by norm_num))
    (abs_lt_two_pow_1024 _ (-52) (by norm_num) (by norm_num [abs_lt]))

lemma quarter_ev5 : Dbl.round (0 * 1) = Dbl.fin 0 := by
  rw [show (0 * 1 : ℝ) = 0 by norm_num]
  exact Dbl.round_zero

lemma quarter_ev6 : Dbl.round (1 * 0) = Dbl.fin 0 := by
  rw [show (1 * 0 : ℝ) = 0 by norm_num]
  exact Dbl.round_zero

lemma quarter_ev7 : Dbl.round (0 - 0) = Dbl.fin 0 := by
  rw [show (0 - 0 : ℝ) = 0 by norm_num]
  exact Dbl.round_zero

lemma quarter_ev8 : Dbl.round (1 * 1) = Dbl.fin 1 :=
  Dbl.round_eq_fin _ _
    (rnd_eq_of_pos' _ _ 0 4503599627370496 (by norm_num) (by norm_num) (by norm_num) (by norm_num)
      (by norm_num) (by norm_num))
    (abs_lt_two_pow_1024 _ 2 (by norm_num) (by norm_num [abs_lt]))

lemma quarter_ev9 : Dbl.round (0 + 1) = Dbl.fin 1 :=
  Dbl.round_eq_fin _ _
    (rnd_eq_of_pos' _ _ 0 4503599627370496 (by norm_num) (by norm_num) (by norm_num) (by norm_num)
      (by norm_num) (by norm_num))
    (abs_lt_two_pow_1024 _ 2 (by norm_num) (by norm_num [abs_lt]))

lemma quarter_ev10 : Dbl.round ((9007199254740991 * 2 ^ (-53 : ℤ)) * 1) = Dbl.fin (9007199254740991 * 2 ^ (-53 : ℤ)) :=
  Dbl.round_eq_fin _ _
    (rnd_eq_of_pos' _ _ (-1) 9007199254740991 (by norm_num) (by norm_num) (by norm_num) (by norm_num)
      (by norm_num) (by norm_num))
    (abs_lt_two_pow_1024 _ 1 (by norm_num) (by norm_num [abs_lt]))

lemma quarter_ev11 : Dbl.round (0 + 0) = Dbl.fin 0 := by
  rw [show (0 + 0 : ℝ) = 0 by norm_num]
  exact Dbl.round_zero

lemma quarter_ev12 : Dbl.round ((4967757600021511 * 2 ^ (-106 : ℤ)) + (9007199254740991 * 2 ^ (-53 : ℤ))) = Dbl.fin 1 :=
  Dbl.round_eq_fin _ _
    (rnd_eq_of_pos' _ _ (-1) 9007199254740992 (by norm_num) (by norm_num) (by norm_num) (by norm_num)
      (by norm_num) (by norm_num))
    (abs_lt_two_pow_1024 _ 1 (by norm_num) (by norm_num [abs_lt]))

lemma quarter_ev13 : Dbl.round (0 - 1) = Dbl.fin (-1) :=
  Dbl.round_eq_fin _ _
    (rnd_eq_of_neg' _ _ 0 4503599627370496 (by norm_num) (by norm_num) (by norm_num) (by norm_num)
      (by norm_num) (by norm_num))
    (abs_lt_two_pow_1024 _ 2 (by norm_num) (by norm_num [abs_lt]))

lemma quarter_ev14 : Dbl.round (1 * (4967757600021511 * 2 ^ (-106 : ℤ))) = Dbl.fin (4967757600021511 * 2 ^ (-106 : ℤ)) :=
  Dbl.round_eq_fin _ _
    (rnd_eq_of_pos' _ _ (-54) 4967757600021511 (by norm_num) (by norm_num) (by norm_num) (by norm_num)
      (by norm_num) (by norm_num))
    (abs_lt_two_pow_1024 _ (-52) (by norm_num) (by norm_num [abs_lt]))

lemma quarter_ev15 : Dbl.round ((4967757600021511 * 2 ^ (-106 : ℤ)) + 1) = Dbl.fin 1 :=
  Dbl.round_eq_fin _ _
    (rnd_eq_of_pos' _ _ 0 4503599627370496 (by norm_num) (by norm_num) (by norm_num) (by norm_num)
      (by norm_num) (by norm_num))
    (abs_lt_two_pow_1024 _ 2 (by norm_num) (by norm_num [abs_lt]))

lemma quarter_ev16 : Dbl.round (1 * (-1)) = Dbl.fin (-1) :=
  Dbl.round_eq_fin _ _
    (rnd_eq_of_neg' _ _ 0 4503599627370496 (by norm_num) (by norm_num) (by norm_num) (by norm_num)
      (by norm_num) (by norm_num))
    (abs_lt_two_pow_1024 _ 2 (by norm_num) (by norm_num [abs_lt]))

lemma quarter_ev17 : Dbl.round ((-1) + 0) = Dbl.fin (-1) :=
  Dbl.round_eq_fin _ _
    (rnd_eq_of_neg' _ _ 0 4503599627370496 (by norm_num) (by norm_num) (by norm_num) (by norm_num)
      (by norm_num) (by norm_num))
    (abs_lt_two_pow_1024 _ 2 (by norm_num) (by norm_num [abs_lt]))

lemma quarter_ev18 : Dbl.round ((-1) + (4967757600021511 * 2 ^ (-106 : ℤ))) = Dbl.fin (-(9007199254740991 * 2 ^ (-53 : ℤ))) :=
  Dbl.round_eq_fin _ _
    (rnd_eq_of_neg' _ _ (-1) 9007199254740991 (by norm_num) (by norm_num) (by norm_num) (by norm_num)
      (by norm_num) (by norm_num))
    (abs_lt_two_pow_1024 _ 1 (by norm_num) (by norm_num [abs_lt]))

lemma quarter_ev19 : Dbl.round ((-(9007199254740991 * 2 ^ (-53 : ℤ))) * (-(9007199254740991 * 2 ^ (-53 : ℤ)))) = Dbl.fin (4503599627370495 * 2 ^ (-52 : ℤ)) :=
  Dbl.round_eq_fin _ _
    (rnd_eq_of_pos' _ _ (-1) 9007199254740990 (by norm_num) (by norm_num) (by norm_num) (by norm_num)
      (by norm_num) (by norm_num))
    (abs_lt_two_pow_1024 _ 1 (by norm_num) (by norm_num [abs_lt]))

lemma quarter_ev20 : Dbl.round (1 + 0) = Dbl.fin 1 :=
  Dbl.round_eq_fin _ _
    (rnd_eq_of_pos' _ _ 0 4503599627370496 (by norm_num) (by norm_num) (by norm_num) (by norm_num)
      (by norm_num) (by norm_num))
    (abs_lt_two_pow_1024 _ 2 (by norm_num) (by norm_num [abs_lt]))

lemma quarter_ev21 : Dbl.round (1 + (4503599627370495 * 2 ^ (-52 : ℤ))) = Dbl.fin (9007199254740991 * 2 ^ (-52 : ℤ)) :=
  Dbl.round_eq_fin _ _
    (rnd_eq_of_pos' _ _ 0 9007199254740991 (by norm_num) (by norm_num) (by norm_num) (by norm_num)
      (by norm_num) (by norm_num))
    (abs_lt_two_pow_1024 _ 2 (by norm_num) (by norm_num [abs_lt]))

lemma quarter_ev22 : Dbl.round (Real.sqrt (9007199254740991 * 2 ^ (-52 : ℤ))) = Dbl.fin (1592262918131443 * 2 ^ (-50 : ℤ)) :=
  Dbl.round_eq_fin _ _
    (rnd_sqrt_eq _ _ 0 6369051672525772 (by norm_num) (by norm_num) (by norm_num) (by norm_num)
      (by norm_num) (by norm_num) (by norm_num))
    (abs_lt_two_pow_1024 _ 1 (by norm_num) (by norm_num [abs_lt]))

lemma quarter_ev23 : Dbl.round (1 + 1) = Dbl.fin 2 :=
  Dbl.round_eq_fin _ _
    (rnd_eq_of_pos' _ _ 1 4503599627370496 (by norm_num) (by norm_num) (by norm_num) (by norm_num)
      (by norm_num) (by norm_num))
    (abs_lt_two_pow_1024 _ 3 (by norm_num) (by norm_num [abs_lt]))

lemma quarter_ev24 : Dbl.round (Real.sqrt 2) = Dbl.fin (6369051672525773 * 2 ^ (-52 : ℤ)) :=
  Dbl.round_eq_fin _ _
    (rnd_sqrt_eq _ _ 0 6369051672525773 (by norm_num) (by norm_num) (by norm_num) (by norm_num)
      (by norm_num) (by norm_num) (by norm_num))
    (abs_lt_two_pow_1024 _ 1 (by norm_num) (by norm_num [abs_lt]))

/-- The axis `(0, 1, 0)` is normalised to itself in double precision. -/
lemma normalize_unit_y :
    (Vec3D.mk (Dbl.fin 0) (Dbl.fin 1) (Dbl.fin 0)).normalize
      = ⟨Dbl.fin 0, Dbl.fin 1, Dbl.fin 0⟩ := by
  have hg : ¬ Dbl.lt (Dbl.fin 1) (Dbl.round 1e-10) := by
    rw [round_guard]
    show ¬ ((1 : ℝ) < 7737125245533627 * 2 ^ (-86 : ℤ))
    norm_num
  unfold Vec3D.normalize
  simp only
  rw [length_unit_y, if_neg hg]
  simp only [Dbl.div, one_ne_zero, if_false, zero_div, div_one, Dbl.round_zero, Dbl.round_one]

/-- The quarter turn of `(1, 0, 1)` about `(0, 1, 0)` in double precision, and the two
lengths. -/
lemma quarter_scene :
    rotateD ⟨Dbl.fin 1, Dbl.fin 0, Dbl.fin 1⟩ ⟨Dbl.fin 0, Dbl.fin 1, Dbl.fin 0⟩
        (Dbl.fin (4967757600021511 * 2 ^ (-106 : ℤ))) (Dbl.fin 1)
      = ⟨Dbl.fin 1, Dbl.fin 0, Dbl.fin (-(9007199254740991 * 2 ^ (-53 : ℤ)))⟩ ∧
    Vec3D.length ⟨Dbl.fin 1, Dbl.fin 0, Dbl.fin (-(9007199254740991 * 2 ^ (-53 : ℤ)))⟩
      = Dbl.fin (1592262918131443 * 2 ^ (-50 : ℤ)) ∧
    Vec3D.length ⟨Dbl.fin 1, Dbl.fin 0, Dbl.fin 1⟩ = Dbl.fin (6369051672525773 * 2 ^ (-52 : ℤ)) := by
  refine ⟨?_, ?_, ?_⟩
  · unfold rotateD
    simp only []
    rw [normalize_unit_y]
    simp only [Dbl.round_one, Dbl.sub, Dbl.mul, Dbl.add,
      quarter_ev1, quarter_ev2, quarter_ev3, quarter_ev4, quarter_ev5, quarter_ev6,
      quarter_ev7, quarter_ev8, quarter_ev9, quarter_ev10, quarter_ev11, quarter_ev12,
      quarter_ev13, quarter_ev14, quarter_ev15, quarter_ev16, quarter_ev17, quarter_ev18,
      quarter_ev19, quarter_ev20, quarter_ev21, quarter_ev22, quarter_ev23, quarter_ev24]
  · have hS : ¬ ((9007199254740991 * 2 ^ (-52 : ℤ) : ℝ) < 0) := by norm_num
    simp only [Vec3D.length, Dbl.mul, Dbl.add, Dbl.sqrt, hS, if_false,
      quarter_ev1, quarter_ev2, quarter_ev3, quarter_ev4, quarter_ev5, quarter_ev6,
      quarter_ev7, quarter_ev8, quarter_ev9, quarter_ev10, quarter_ev11, quarter_ev12,
      quarter_ev13, quarter_ev14, quarter_ev15, quarter_ev16, quarter_ev17, quarter_ev18,
      quarter_ev19, quarter_ev20, quarter_ev21, quarter_ev22, quarter_ev23, quarter_ev24]
  · have hS : ¬ ((2 : ℝ) < 0) := by norm_num
    simp only [Vec3D.length, Dbl.mul, Dbl.add, Dbl.sqrt, hS, if_false,
      quarter_ev1, quarter_ev2, quarter_ev3, quarter_ev4, quarter_ev5, quarter_ev6,
      quarter_ev7, quarter_ev8, quarter_ev9, quarter_ev10, quarter_ev11, quarter_ev12,
      quarter_ev13, quarter_ev14, quarter_ev15, quarter_ev16, quarter_ev17, quarter_ev18,
      quarter_ev19, quarter_ev20, quarter_ev21, quarter_ev22, quarter_ev23, quarter_ev24]
/-- C9 as stated fails. In double precision the function `rotate` does not preserve the length.
(1) For an axis that `normalize` sends to the zero vector, the zero axis, whose length is below
the guard, and the axis `(1e200, 0, 0)`, whose squared length overflows, the length shrinks: for
the unit vector `(1, 0, 0)`, of computed length `1`, the angle `1` and every pair of values
`c`, `s` within `2^-50` of the cosine and the sine of `1`, the computed length of the rotated
vector is at most `3/4`. (2) For an ordinary axis the two lengths differ by rounding: for the
vector `(1, 0, 1)`, the axis `(0, 1, 0)` and the values `c = 6.123233995736766e-17` and `s = 1`,
which are within `2^-50` of the cosine and the sine of `π / 2`, the rotated vector has the
computed length `1.414213562373095` and the vector itself `1.4142135623730951`. -/
theorem rotate_length_double_counterexample :
    (Vec3D.length ⟨Dbl.fin 1, Dbl.fin 0, Dbl.fin 0⟩ = Dbl.fin 1 ∧
      (∀ c s : ℝ, |c - Real.cos 1| ≤ 1 / 2 ^ 50 → |s - Real.sin 1| ≤ 1 / 2 ^ 50 →
        ∃ l : ℝ, (rotateD ⟨Dbl.fin 1, Dbl.fin 0, Dbl.fin 0⟩ ⟨Dbl.fin 0, Dbl.fin 0, Dbl.fin 0⟩
            (Dbl.fin c) (Dbl.fin s)).length = Dbl.fin l ∧ l ≤ 3 / 4) ∧
      (∀ c s : ℝ, |c - Real.cos 1| ≤ 1 / 2 ^ 50 → |s - Real.sin 1| ≤ 1 / 2 ^ 50 →
        ∃ l : ℝ, (rotateD ⟨Dbl.fin 1, Dbl.fin 0, Dbl.fin 0⟩
            ⟨Dbl.round 1e200, Dbl.fin 0, Dbl.fin 0⟩ (Dbl.fin c) (Dbl.fin s)).length
          = Dbl.fin l ∧ l ≤ 3 / 4)) ∧
    (|(4967757600021511 * 2 ^ (-106 : ℤ) : ℝ) - Real.cos (Real.pi / 2)| ≤ 1 / 2 ^ 50 ∧
      |(1 : ℝ) - Real.sin (Real.pi / 2)| ≤ 1 / 2 ^ 50 ∧
      Vec3D.length ⟨Dbl.fin 0, Dbl.fin 1, Dbl.fin 0⟩ = Dbl.fin 1 ∧
      ¬ Dbl.lt (Dbl.fin 1) (Dbl.round 1e-10) ∧
      (rotateD ⟨Dbl.fin 1, Dbl.fin 0, Dbl.fin 1⟩ ⟨Dbl.fin 0, Dbl.fin 1, Dbl.fin 0⟩
          (Dbl.fin (4967757600021511 * 2 ^ (-106 : ℤ))) (Dbl.fin 1)).length
        = Dbl.fin (1592262918131443 * 2 ^ (-50 : ℤ)) ∧
      Vec3D.length ⟨Dbl.fin 1, Dbl.fin 0, Dbl.fin 1⟩
        = Dbl.fin (6369051672525773 * 2 ^ (-52 : ℤ)) ∧
      (1592262918131443 * 2 ^ (-50 : ℤ) : ℝ) ≠ 6369051672525773 * 2 ^ (-52 : ℤ)) := by
  have key : ∀ c s : ℝ, |c - Real.cos 1| ≤ 1 / 2 ^ 50 → |s - Real.sin 1| ≤ 1 / 2 ^ 50 →
      |c| ≤ 7 / 10 ∧ |s| ≤ 2 := by
    intro c s hc hs
    obtain ⟨_, s1, _⟩ := cos_sin_near 1 c s hc hs
    have h1 := Real.cos_one_le
    have h2 := Real.cos_one_pos
    have h3 : |Real.cos 1| ≤ 2 / 3 := by
      rw [abs_of_pos h2]; exact h1
    have h4 := abs_le_of_near c _ _ _ hc h3
    have e : (2 : ℝ) / 3 + 1 / 2 ^ 50 ≤ 7 / 10 := by norm_num
    have e' : (1 : ℝ) + 1 / 2 ^ 50 ≤ 2 := by norm_num
    exact ⟨by linarith only [h4, e], by linarith only [s1, e']⟩
  have hg : ¬ Dbl.lt (Dbl.fin 1) (Dbl.round 1e-10) := by
    rw [round_guard]
    show ¬ ((1 : ℝ) < 7737125245533627 * 2 ^ (-86 : ℤ))
    norm_num
  refine ⟨⟨length_unit_x, ?_, ?_⟩, ?_, ?_, length_unit_y, hg, ?_, quarter_scene.2.2, ?_⟩
  · intro c s hc hs
    exact rotateD_degenerate_axis _ normalize_zero_vector c s (key c s hc hs).1 (key c s hc hs).2
  · intro c s hc hs
    exact rotateD_degenerate_axis _ normalize_overflow c s (key c s hc hs).1 (key c s hc hs).2
  · rw [Real.cos_pi_div_two, sub_zero, abs_of_nonneg (by positivity)]
    norm_num
  · rw [Real.sin_pi_div_two]
    norm_num
  · rw [quarter_scene.1]
    exact quarter_scene.2.1
  · norm_num

/-- An instance of C9 (amended): the quarter turn of the vector `(1, 2, 2)` about the axis
`(0, 1, 0)`, with `c = 0` and `s = 1`, the cosine and the sine of `π / 2`. -/
theorem rotate_preserves_length_double_witness :
    (|(1 : ℝ)| ≤ 2 ^ 100 ∧ |(2 : ℝ)| ≤ 2 ^ 100 ∧ |(2 : ℝ)| ≤ 2 ^ 100 ∧
      Vec3D.length ⟨Dbl.fin 0, Dbl.fin 1, Dbl.fin 0⟩ = Dbl.fin 1 ∧
      ¬ Dbl.lt (Dbl.fin 1) (Dbl.round 1e-10) ∧
      |(0 : ℝ) - Real.cos (Real.pi / 2)| ≤ 1 / 2 ^ 50 ∧
      |(1 : ℝ) - Real.sin (Real.pi / 2)| ≤ 1 / 2 ^ 50) ∧
    ∃ l l' : ℝ,
      (rotateD ⟨Dbl.fin 1, Dbl.fin 2, Dbl.fin 2⟩ ⟨Dbl.fin 0, Dbl.fin 1, Dbl.fin 0⟩
          (Dbl.fin 0) (Dbl.fin 1)).length = Dbl.fin l ∧
      Vec3D.length ⟨Dbl.fin 1, Dbl.fin 2, Dbl.fin 2⟩ = Dbl.fin l' ∧
      |l - l'| ≤ l' / 2 ^ 42 + 1 / 2 ^ 480 := by
  have hg : ¬ Dbl.lt (Dbl.fin 1) (Dbl.round 1e-10) := by
    rw [round_guard]
    show ¬ ((1 : ℝ) < 7737125245533627 * 2 ^ (-86 : ℤ))
    norm_num
  have hc : |(0 : ℝ) - Real.cos (Real.pi / 2)| ≤ 1 / 2 ^ 50 := by
    rw [Real.cos_pi_div_two]; norm_num
  have hs : |(1 : ℝ) - Real.sin (Real.pi / 2)| ≤ 1 / 2 ^ 50 := by
    rw [Real.sin_pi_div_two]; norm_num
  have h1 : |(1 : ℝ)| ≤ 2 ^ 100 := by norm_num
  have h2 : |(2 : ℝ)| ≤ 2 ^ 100 := by norm_num
  exact ⟨⟨h1, h2, h2, length_unit_y, hg, hc, hs⟩,
    rotate_preserves_length_double 1 2 2 _ 1 (Real.pi / 2) 0 1 h1 h2 h2 length_unit_y hg hc hs⟩


/-! ## The un-rotation of `Earth::getTextureChar` in double precision -/

/-- The sum `C + x` followed by the difference `- C` in double precision, as computed for a hit
point `C + x` by `hitPoint - position`: the result is `x` up to the rounding of the two
operations. -/
lemma translate_err (C x : ℝ) :
    |rnd (rnd (C + x) - C) - x| ≤ 2 / 2 ^ 53 * |C| + 3 / 2 ^ 53 * |x| + 3 / 2 ^ 1000 ∧
      |rnd (C + x)| ≤ 2 * (|C| + |x|) + 1 ∧ |rnd (C + x) - C| ≤ 2 * (|C| + |x|) + 1 := by
  have hB1 : |C + x| ≤ |C| + |x| := abs_add C x
  have h1 := rnd_err (C + x) _ hB1
  have hB2 : |rnd (C + x) - C| ≤ 1 / 2 ^ 53 * (|C| + |x|) + 1 / 2 ^ 1000 + |x| := by
    have e : rnd (C + x) - C = (rnd (C + x) - (C + x)) + x := by ring
    rw [e]
    exact le_trans (abs_add _ _) (add_le_add h1 le_rfl)
  have h0 : |C - C| ≤ 0 := by rw [sub_self, abs_zero]
  have h2 := rnd_sub_err (rnd (C + x)) (C + x) C C _ 0 _ h1 h0 hB2
  have e2 : C + x - C = x := by ring
  rw [e2] at h2
  have h3 : |rnd (C + x)| ≤ |rnd (C + x) - (C + x)| + |C + x| := by
    have := abs_add (rnd (C + x) - (C + x)) (C + x)
    rwa [sub_add_cancel] at this
  have nC := abs_nonneg C
  have nx := abs_nonneg x
  have hu : (1 : ℝ) / 2 ^ 53 * (1 / 2 ^ 1000) ≤ 1 / 2 ^ 1000 := by norm_num
  have hη : (3 : ℝ) / 2 ^ 1000 ≤ 1 := by norm_num
  have hη3 : (3 : ℝ) / 2 ^ 1000 = 3 * (1 / 2 ^ 1000) := by ring
  rw [hη3] at hη ⊢
  generalize (1 : ℝ) / 2 ^ 1000 = η at *
  have hη0 : 0 ≤ η := by
    have := abs_nonneg (rnd (C + x) - (C + x))
    by_contra hc
    push_neg at hc
    linarith only [hu, hc]
  generalize |rnd (rnd (C + x) - C) - x| = d at *
  generalize |rnd (C + x) - C| = b at *
  generalize |rnd (C + x) - (C + x)| = a at *
  generalize |rnd (C + x)| = g at *
  generalize |C + x| = f at *
  generalize |C| = AC at *
  generalize |x| = AX at *
  refine ⟨?_, ?_, ?_⟩
  · linarith only [h2, hu, nC, nx, hη0]
  · linarith only [h3, h1, hB1, nC, nx, hη, hη0]
  · linarith only [hB2, nC, nx, hη, hη0]

/-- The rotation about the axis `(0, 1, 0)` in double precision: the components of the result
against the exact products `c * v1 + s * v3`, `v2` and `-(s * v1) + c * v3`. -/
lemma rotateD_yaw (v1 v2 v3 c s : ℝ)
    (hv1 : |v1| ≤ 2 ^ 100) (hv2 : |v2| ≤ 2 ^ 100) (hv3 : |v3| ≤ 2 ^ 100)
    (hc : |c| ≤ 3 / 2) (hs : |s| ≤ 2) :
    ∃ r1 r2 r3 : ℝ,
      rotateD ⟨Dbl.fin v1, Dbl.fin v2, Dbl.fin v3⟩ ⟨Dbl.fin 0, Dbl.fin 1, Dbl.fin 0⟩
          (Dbl.fin c) (Dbl.fin s) = ⟨Dbl.fin r1, Dbl.fin r2, Dbl.fin r3⟩ ∧
      |r1 - (c * v1 + s * v3)| ≤ 140 / 2 ^ 53 * (|v1| + |v2| + |v3|) + 1 / 2 ^ 990 ∧
      |r2 - v2| ≤ 140 / 2 ^ 53 * (|v1| + |v2| + |v3|) + 1 / 2 ^ 990 ∧
      |r3 - (-(s * v1) + c * v3)| ≤ 140 / 2 ^ 53 * (|v1| + |v2| + |v3|) + 1 / 2 ^ 990 := by
  obtain ⟨r1, r2, r3, hrot, _, d1, d2, d3⟩ :=
    rotateD_components v1 v2 v3 _ 0 1 0 c s hv1 hv2 hv3 normalize_unit_y
      (by norm_num) (by norm_num) (by norm_num) hc hs
  have e1 : v1 * (c + (1 - c) * 0 * 0) + v2 * ((1 - c) * 0 * 1 - s * 0)
      + v3 * ((1 - c) * 0 * 0 + s * 1) = c * v1 + s * v3 := by ring
  have e2 : v1 * ((1 - c) * 1 * 0 + s * 0) + v2 * (c + (1 - c) * 1 * 1)
      + v3 * ((1 - c) * 1 * 0 - s * 0) = v2 := by ring
  have e3 : v1 * ((1 - c) * 0 * 0 - s * 1) + v2 * ((1 - c) * 0 * 1 + s * 0)
      + v3 * (c + (1 - c) * 0 * 0) = -(s * v1) + c * v3 := by ring
  rw [e1] at d1
  rw [e2] at d2
  rw [e3] at d3
  exact ⟨r1, r2, r3, hrot, d1, d2, d3⟩

/-- The linear form `c * x1 + s * x3` at two points whose coordinates differ by at most `e`. -/
lemma yaw_lin_err (c s x1 x3 y1 y3 e : ℝ) (hc : |c| ≤ 2) (hs : |s| ≤ 2)
    (h1 : |x1 - y1| ≤ e) (h3 : |x3 - y3| ≤ e) :
    |(c * x1 + s * x3) - (c * y1 + s * y3)| ≤ 4 * e := by
  have he : 0 ≤ e := le_trans (abs_nonneg _) h1
  have e1 : (c * x1 + s * x3) - (c * y1 + s * y3) = c * (x1 - y1) + s * (x3 - y3) := by ring
  rw [e1]
  have a1 : |c * (x1 - y1)| ≤ 2 * e := by
    rw [abs_mul]
    exact mul_le_mul hc h1 (abs_nonneg _) (by norm_num)
  have a3 : |s * (x3 - y3)| ≤ 2 * e := by
    rw [abs_mul]
    exact mul_le_mul hs h3 (abs_nonneg _) (by norm_num)
  have := abs_add (c * (x1 - y1)) (s * (x3 - y3))
  linarith only [this, a1, a3, he]

/-- The hit point `C + x` in double precision and the difference `hitPoint - position` of
`Earth::getTextureChar`, for components of at most `2^98` in magnitude: finite, with the error
of the two roundings. -/
lemma translate_fin (C x : ℝ) (hC : |C| ≤ 2 ^ 98) (hx : |x| ≤ 2 ^ 98) :
    ∃ w : ℝ, Dbl.sub (Dbl.add (Dbl.fin C) (Dbl.fin x)) (Dbl.fin C) = Dbl.fin w ∧
      |w - x| ≤ 2 / 2 ^ 53 * |C| + 3 / 2 ^ 53 * |x| + 3 / 2 ^ 1000 ∧ |w| ≤ 2 ^ 100 := by
  obtain ⟨h1, h2, h3⟩ := translate_err C x
  have hB1 : |C + x| ≤ 2 ^ 250 := by
    have := abs_add C x
    have e : (2 : ℝ) ^ 98 + 2 ^ 98 ≤ 2 ^ 250 := by norm_num
    linarith only [this, hC, hx, e]
  have hB2 : |rnd (C + x) - C| ≤ 2 ^ 250 := by
    have e : (2 : ℝ) * (2 ^ 98 + 2 ^ 98) + 1 ≤ 2 ^ 250 := by norm_num
    linarith only [h3, hC, hx, e]
  refine ⟨rnd (rnd (C + x) - C), ?_, h1, ?_⟩
  · simp only [Dbl.add]
    rw [Dbl.round_of_abs_le_big _ hB1]
    simp only [Dbl.sub]
    rw [Dbl.round_of_abs_le_big _ hB2]
  · have h4 := abs_le_of_near _ _ _ _ h1 hx
    have e : (2 : ℝ) ^ 98 + (2 / 2 ^ 53 * 2 ^ 98 + 3 / 2 ^ 53 * 2 ^ 98 + 3 / 2 ^ 1000)
        ≤ 2 ^ 100 := by norm_num
    have e1 := mul_le_mul_of_nonneg_left hC (by norm_num : (0 : ℝ) ≤ 2 / 2 ^ 53)
    have e2 := mul_le_mul_of_nonneg_left hx (by norm_num : (0 : ℝ) ≤ 3 / 2 ^ 53)
    linarith only [h4, e, e1, e2]

/-- The point that `Earth::getTextureChar` un-rotates for the hit point `C + x`, in double
precision: `rotate((C + x) - C, (0, 1, 0), angle)` against the exact rotation of `x` about the
axis `(0, 1, 0)` with the values `c`, `s`. -/
lemma lookup_err (C1 C2 C3 x1 x2 x3 c s : ℝ)
    (hC1 : |C1| ≤ 2 ^ 98) (hC2 : |C2| ≤ 2 ^ 98) (hC3 : |C3| ≤ 2 ^ 98)
    (hx1 : |x1| ≤ 2 ^ 98) (hx2 : |x2| ≤ 2 ^ 98) (hx3 : |x3| ≤ 2 ^ 98)
    (hc : |c| ≤ 3 / 2) (hs : |s| ≤ 2) :
    ∃ q1 q2 q3 : ℝ,
      rotatedPointD ⟨Dbl.fin C1, Dbl.fin C2, Dbl.fin C3⟩
          (Vec3D.add ⟨Dbl.fin C1, Dbl.fin C2, Dbl.fin C3⟩ ⟨Dbl.fin x1, Dbl.fin x2, Dbl.fin x3⟩)
          (Dbl.fin c) (Dbl.fin s) = ⟨Dbl.fin q1, Dbl.fin q2, Dbl.fin q3⟩ ∧
      |q1 - (c * x1 + s * x3)| ≤ 160 / 2 ^ 53 * (|x1| + |x2| + |x3|)
        + 9 / 2 ^ 53 * (|C1| + |C2| + |C3|) + 1 / 2 ^ 980 ∧
      |q2 - x2| ≤ 160 / 2 ^ 53 * (|x1| + |x2| + |x3|)
        + 9 / 2 ^ 53 * (|C1| + |C2| + |C3|) + 1 / 2 ^ 980 ∧
      |q3 - (-(s * x1) + c * x3)| ≤ 160 / 2 ^ 53 * (|x1| + |x2| + |x3|)
        + 9 / 2 ^ 53 * (|C1| + |C2| + |C3|) + 1 / 2 ^ 980 := by
  obtain ⟨w1, hw1, ew1, bw1⟩ := translate_fin C1 x1 hC1 hx1
  obtain ⟨w2, hw2, ew2, bw2⟩ := translate_fin C2 x2 hC2 hx2
  obtain ⟨w3, hw3, ew3, bw3⟩ := translate_fin C3 x3 hC3 hx3
  obtain ⟨q1, q2, q3, hrot, d1, d2, d3⟩ := rotateD_yaw w1 w2 w3 c s bw1 bw2 bw3 hc hs
  refine ⟨q1, q2, q3, ?_, ?_, ?_, ?_⟩
  · unfold rotatedPointD Vec3D.add Vec3D.sub
    simp only []
    rw [hw1, hw2, hw3]
    exact hrot
  all_goals
    have nC1 := abs_nonneg C1
    have nC2 := abs_nonneg C2
    have nC3 := abs_nonneg C3
    have nx1 := abs_nonneg x1
    have nx2 := abs_nonneg x2
    have nx3 := abs_nonneg x3
    have hc2 : |c| ≤ 2 := by linarith only [hc]
    have hs2 : |-s| ≤ 2 := by rwa [abs_neg]
    have a1 : |w1| ≤ |w1 - x1| + |x1| := by
      have := abs_add (w1 - x1) x1
      rwa [sub_add_cancel] at this
    have a2 : |w2| ≤ |w2 - x2| + |x2| := by
      have := abs_add (w2 - x2) x2
      rwa [sub_add_cancel] at this
    have a3 : |w3| ≤ |w3 - x3| + |x3| := by
      have := abs_add (w3 - x3) x3
      rwa [sub_add_cancel] at this
    have he1 : |w1 - x1| ≤ 2 / 2 ^ 53 * (|C1| + |C2| + |C3|) + 3 / 2 ^ 53 * (|x1| + |x2| + |x3|)
        + 3 / 2 ^ 1000 := by linarith only [ew1, nC2, nC3, nx2, nx3]
    have he2 : |w2 - x2| ≤ 2 / 2 ^ 53 * (|C1| + |C2| + |C3|) + 3 / 2 ^ 53 * (|x1| + |x2| + |x3|)
        + 3 / 2 ^ 1000 := by linarith only [ew2, nC1, nC3, nx1, nx3]
    have he3 : |w3 - x3| ≤ 2 / 2 ^ 53 * (|C1| + |C2| + |C3|) + 3 / 2 ^ 53 * (|x1| + |x2| + |x3|)
        + 3 / 2 ^ 1000 := by linarith only [ew3, nC1, nC2, nx1, nx2]
    have y1 := yaw_lin_err c s w1 w3 x1 x3 _ hc2 hs he1 he3
    have y3 := yaw_lin_err (-s) c w1 w3 x1 x3 _ hs2 hc2 he1 he3
    rw [neg_mul, neg_mul] at y3
    have t1 := abs_sub_le q1 (c * w1 + s * w3) (c * x1 + s * x3)
    have t2 := abs_sub_le q2 w2 x2
    have t3 := abs_sub_le q3 (-(s * w1) + c * w3) (-(s * x1) + c * x3)
    have hη : (140 : ℝ) / 2 ^ 53 * (3 * (3 / 2 ^ 1000)) + 1 / 2 ^ 990 + 4 * (3 / 2 ^ 1000)
        ≤ 1 / 2 ^ 980 := by norm_num
    have hη0 : (0 : ℝ) ≤ 3 / 2 ^ 1000 := by positivity
    generalize |q1 - (c * w1 + s * w3)| = g1 at *
    generalize |q2 - w2| = g2 at *
    generalize |q3 - (-(s * w1) + c * w3)| = g3 at *
    generalize |c * w1 + s * w3 - (c * x1 + s * x3)| = k1 at *
    generalize |-(s * w1) + c * w3 - (-(s * x1) + c * x3)| = k3 at *
    generalize |w1 - x1| = f1 at *
    generalize |w2 - x2| = f2 at *
    generalize |w3 - x3| = f3 at *
    generalize |w1| = W1 at *
    generalize |w2| = W2 at *
    generalize |w3| = W3 at *
    generalize |x1| = X1 at *
    generalize |x2| = X2 at *
    generalize |x3| = X3 at *
    generalize |C1| = A1 at *
    generalize |C2| = A2 at *
    generalize |C3| = A3 at *
    generalize (1 : ℝ) / 2 ^ 980 = η8 at *
    generalize (1 : ℝ) / 2 ^ 990 = η9 at *
    generalize (3 : ℝ) / 2 ^ 1000 = η3 at *
    first
      | linarith only [t1, d1, y1, a1, a2, a3, ew1, ew2, ew3, he1, he2, he3, hη, hη0, nC1, nC2,
          nC3, nx1, nx2, nx3]
      | linarith only [t2, d2, a1, a2, a3, ew1, ew2, ew3, he1, he2, he3, hη, hη0, nC1, nC2,
          nC3, nx1, nx2, nx3]
      | linarith only [t3, d3, y3, a1, a2, a3, ew1, ew2, ew3, he1, he2, he3, hη, hη0, nC1, nC2,
          nC3, nx1, nx2, nx3]

lemma abs_mul_le_of (x y a b : ℝ) (hx : |x| ≤ a) (hy : |y| ≤ b) : |x * y| ≤ a * b := by
  rw [abs_mul]
  exact mul_le_mul hx hy (abs_nonneg _) (le_trans (abs_nonneg _) hx)

/-- The exact rotation about `(0, 1, 0)` with the values `c`, `s` followed by the one with the
values `c'`, `s'`, when the first pair is within `2^-50` of the cosine and the sine of `φ` and
the second pair within `2^-50` of those of `-φ`: the first and the third coordinate of the
result are within `5 * 2^-50 * (|p1| + |p3|)` of those of `p`. -/
lemma yaw_round_trip (φ c s c' s' p1 p3 : ℝ)
    (hc : |c - Real.cos φ| ≤ 1 / 2 ^ 50) (hs : |s - Real.sin φ| ≤ 1 / 2 ^ 50)
    (hc' : |c' - Real.cos (-φ)| ≤ 1 / 2 ^ 50) (hs' : |s' - Real.sin (-φ)| ≤ 1 / 2 ^ 50) :
    |c' * (c * p1 + s * p3) + s' * (-(s * p1) + c * p3) - p1|
        ≤ 5 / 2 ^ 50 * (|p1| + |p3|) ∧
      |-(s' * (c * p1 + s * p3)) + c' * (-(s * p1) + c * p3) - p3|
        ≤ 5 / 2 ^ 50 * (|p1| + |p3|) := by
  rw [Real.cos_neg] at hc'
  rw [Real.sin_neg] at hs'
  have hA := Real.abs_cos_le_one φ
  have hB := Real.abs_sin_le_one φ
  have hAB := Real.cos_sq_add_sin_sq φ
  generalize Real.cos φ = A at *
  generalize Real.sin φ = B at *
  have hs'' : |s' + B| ≤ 1 / 2 ^ 50 := by
    rwa [sub_neg_eq_add] at hs'
  -- the two coefficients
  have e13 : |(c' - A) + (c - A)| ≤ 1 / 2 ^ 50 + 1 / 2 ^ 50 :=
    le_trans (abs_add _ _) (add_le_add hc' hc)
  have e42 : |(s - B) - (s' + B)| ≤ 1 / 2 ^ 50 + 1 / 2 ^ 50 :=
    le_trans (abs_sub _ _) (add_le_add hs hs'')
  have e42' : |(s - B) + (s' + B)| ≤ 1 / 2 ^ 50 + 1 / 2 ^ 50 :=
    le_trans (abs_add _ _) (add_le_add hs hs'')
  have e13' : |(c' - A) - (c - A)| ≤ 1 / 2 ^ 50 + 1 / 2 ^ 50 :=
    le_trans (abs_sub _ _) (add_le_add hc' hc)
  have hα : |c' * c - s' * s - 1| ≤ 5 / 2 ^ 50 := by
    have e : c' * c - s' * s - 1
        = A * ((c' - A) + (c - A)) + B * ((s - B) - (s' + B)) + (c' - A) * (c - A)
          - (s' + B) * (s - B) := by
      linear_combination hAB
    rw [e]
    have t1 := abs_mul_le_of _ _ _ _ hA e13
    have t2 := abs_mul_le_of _ _ _ _ hB e42
    have t3 := abs_mul_le_of _ _ _ _ hc' hc
    have t4 := abs_mul_le_of _ _ _ _ hs'' hs
    have u1 := abs_sub (A * ((c' - A) + (c - A)) + B * ((s - B) - (s' + B))
      + (c' - A) * (c - A)) ((s' + B) * (s - B))
    have u2 := abs_add (A * ((c' - A) + (c - A)) + B * ((s - B) - (s' + B)))
      ((c' - A) * (c - A))
    have u3 := abs_add (A * ((c' - A) + (c - A))) (B * ((s - B) - (s' + B)))
    have en : (1 : ℝ) * (1 / 2 ^ 50 + 1 / 2 ^ 50) + 1 * (1 / 2 ^ 50 + 1 / 2 ^ 50)
        + 1 / 2 ^ 50 * (1 / 2 ^ 50) + 1 / 2 ^ 50 * (1 / 2 ^ 50) ≤ 5 / 2 ^ 50 := by norm_num
    linarith only [t1, t2, t3, t4, u1, u2, u3, en]
  have hβ : |c' * s + s' * c| ≤ 5 / 2 ^ 50 := by
    have e : c' * s + s' * c
        = A * ((s - B) + (s' + B)) + B * ((c' - A) - (c - A)) + (c' - A) * (s - B)
          + (s' + B) * (c - A) := by
      ring
    rw [e]
    have t1 := abs_mul_le_of _ _ _ _ hA e42'
    have t2 := abs_mul_le_of _ _ _ _ hB e13'
    have t3 := abs_mul_le_of _ _ _ _ hc' hs
    have t4 := abs_mul_le_of _ _ _ _ hs'' hc
    have u1 := abs_add (A * ((s - B) + (s' + B)) + B * ((c' - A) - (c - A))
      + (c' - A) * (s - B)) ((s' + B) * (c - A))
    have u2 := abs_add (A * ((s - B) + (s' + B)) + B * ((c' - A) - (c - A)))
      ((c' - A) * (s - B))
    have u3 := abs_add (A * ((s - B) + (s' + B))) (B * ((c' - A) - (c - A)))
    have en : (1 : ℝ) * (1 / 2 ^ 50 + 1 / 2 ^ 50) + 1 * (1 / 2 ^ 50 + 1 / 2 ^ 50)
        + 1 / 2 ^ 50 * (1 / 2 ^ 50) + 1 / 2 ^ 50 * (1 / 2 ^ 50) ≤ 5 / 2 ^ 50 := by norm_num
    linarith only [t1, t2, t3, t4, u1, u2, u3, en]
  have hβ' : |-(c' * s + s' * c)| ≤ 5 / 2 ^ 50 := by rwa [abs_neg]
  constructor
  · have e : c' * (c * p1 + s * p3) + s' * (-(s * p1) + c * p3) - p1
        = (c' * c - s' * s - 1) * p1 + (c' * s + s' * c) * p3 := by ring
    rw [e]
    have t1 := abs_mul_le_of _ _ _ _ hα (le_refl |p1|)
    have t2 := abs_mul_le_of _ _ _ _ hβ (le_refl |p3|)
    have u := abs_add ((c' * c - s' * s - 1) * p1) ((c' * s + s' * c) * p3)
    linarith only [t1, t2, u]
  · have e : -(s' * (c * p1 + s * p3)) + c' * (-(s * p1) + c * p3) - p3
        = -(c' * s + s' * c) * p1 + (c' * c - s' * s - 1) * p3 := by ring
    rw [e]
    have t1 := abs_mul_le_of _ _ _ _ hβ' (le_refl |p1|)
    have t2 := abs_mul_le_of _ _ _ _ hα (le_refl |p3|)
    have u := abs_add (-(c' * s + s' * c) * p1) ((c' * c - s' * s - 1) * p3)
    linarith only [t1, t2, u]

/-- The chain of the round trip: a point `r` within `E` of the exact rotation of `p` with the
values `c`, `s`, and a point `t` within `G` of the exact rotation of `r` with the values `c'`,
`s'`, give a point `t` close to `p`. -/
lemma yaw_chain (φ c s c' s' p1 p2 p3 r1 r2 r3 t1 t2 t3 E G : ℝ)
    (hc : |c - Real.cos φ| ≤ 1 / 2 ^ 50) (hs : |s - Real.sin φ| ≤ 1 / 2 ^ 50)
    (hc' : |c' - Real.cos (-φ)| ≤ 1 / 2 ^ 50) (hs' : |s' - Real.sin (-φ)| ≤ 1 / 2 ^ 50)
    (hr1 : |r1 - (c * p1 + s * p3)| ≤ E) (hr2 : |r2 - p2| ≤ E)
    (hr3 : |r3 - (-(s * p1) + c * p3)| ≤ E)
    (ht1 : |t1 - (c' * r1 + s' * r3)| ≤ G) (ht2 : |t2 - r2| ≤ G)
    (ht3 : |t3 - (-(s' * r1) + c' * r3)| ≤ G) :
    |t1 - p1| ≤ G + 4 * E + 5 / 2 ^ 50 * (|p1| + |p3|) ∧ |t2 - p2| ≤ G + E ∧
      |t3 - p3| ≤ G + 4 * E + 5 / 2 ^ 50 * (|p1| + |p3|) := by
  obtain ⟨k1, k3⟩ := yaw_round_trip φ c s c' s' p1 p3 hc hs hc' hs'
  obtain ⟨c1', s1', _⟩ := cos_sin_near (-φ) c' s' hc' hs'
  have e50 : (1 : ℝ) + 1 / 2 ^ 50 ≤ 2 := by norm_num
  have hc2 : |c'| ≤ 2 := by linarith only [c1', e50]
  have hs2 : |s'| ≤ 2 := by linarith only [s1', e50]
  have hs2' : |-s'| ≤ 2 := by rwa [abs_neg]
  have y1 := yaw_lin_err c' s' r1 r3 _ _ E hc2 hs2 hr1 hr3
  have y3 := yaw_lin_err (-s') c' r1 r3 _ _ E hs2' hc2 hr1 hr3
  rw [neg_mul, neg_mul] at y3
  have a1 := abs_sub_le t1 (c' * r1 + s' * r3)
    (c' * (c * p1 + s * p3) + s' * (-(s * p1) + c * p3))
  have b1 := abs_sub_le t1 (c' * (c * p1 + s * p3) + s' * (-(s * p1) + c * p3)) p1
  have a2 := abs_sub_le t2 r2 p2
  have a3 := abs_sub_le t3 (-(s' * r1) + c' * r3)
    (-(s' * (c * p1 + s * p3)) + c' * (-(s * p1) + c * p3))
  have b3 := abs_sub_le t3 (-(s' * (c * p1 + s * p3)) + c' * (-(s * p1) + c * p3)) p3
  refine ⟨?_, ?_, ?_⟩
  · linarith only [a1, b1, y1, k1, ht1]
  · linarith only [a2, ht2, hr2]
  · linarith only [a3, b3, y3, k3, ht3]

/-- The size of a point `r` within `E` of the exact rotation of `p` about `(0, 1, 0)` with
values `c`, `s` of magnitude at most `3/2`. -/
lemma yaw_size (c s p1 p2 p3 r1 r2 r3 E : ℝ) (hc : |c| ≤ 3 / 2) (hs : |s| ≤ 3 / 2)
    (hr1 : |r1 - (c * p1 + s * p3)| ≤ E) (hr2 : |r2 - p2| ≤ E)
    (hr3 : |r3 - (-(s * p1) + c * p3)| ≤ E) :
    |r1| ≤ 3 / 2 * (|p1| + |p2| + |p3|) + E ∧ |r2| ≤ 3 / 2 * (|p1| + |p2| + |p3|) + E ∧
      |r3| ≤ 3 / 2 * (|p1| + |p2| + |p3|) + E := by
  have n1 := abs_nonneg p1
  have n2 := abs_nonneg p2
  have n3 := abs_nonneg p3
  have m1 := abs_mul_le_of c p1 _ _ hc (le_refl |p1|)
  have m2 := abs_mul_le_of s p3 _ _ hs (le_refl |p3|)
  have m3 := abs_mul_le_of s p1 _ _ hs (le_refl |p1|)
  have m4 := abs_mul_le_of c p3 _ _ hc (le_refl |p3|)
  have u1 := abs_add (c * p1) (s * p3)
  have u3 := abs_add (-(s * p1)) (c * p3)
  rw [abs_neg] at u3
  have a1 := abs_le_of_near r1 _ E _ hr1 le_rfl
  have a2 := abs_le_of_near r2 _ E _ hr2 le_rfl
  have a3 := abs_le_of_near r3 _ E _ hr3 le_rfl
  refine ⟨?_, ?_, ?_⟩
  · linarith only [a1, u1, m1, m2, n1, n2, n3]
  · linarith only [a2, n1, n2, n3]
  · linarith only [a3, u3, m3, m4, n1, n2, n3]

/-- C10 (amended). The texture is fixed to the rotating body up to rounding, in double
precision. For a planet centre `C` and a body-frame offset `p` whose components are at most
`2^90` in magnitude, a phase `φ`, and library values `c`, `s` for the angle `φ`, `c'`, `s'` for
the angle `-φ` and `c0`, `s0` for the angle `0` that are within `2^-50` of the exact cosines
and sines: (1) `rotate(rotate(p, (0,1,0), φ), (0,1,0), -φ)` is finite and each of its
components is within `(|p1| + |p2| + |p3|) / 2^40 + 2^-900` of the component of `p`; (2) the
point that `Earth::getTextureChar` un-rotates at phase `φ` for the hit point
`C + rotate(p, (0,1,0), φ)`, and (3) the point that it un-rotates at phase `0` for the hit
point `C + p`, are finite and within
`(|p1| + |p2| + |p3|) / 2^40 + (|C1| + |C2| + |C3|) / 2^49 + 2^-900` of `p` in each
component. -/
theorem texture_fixed_to_body_double (C1 C2 C3 p1 p2 p3 φ c s c' s' c0 s0 : ℝ)
    (hC1 : |C1| ≤ 2 ^ 90) (hC2 : |C2| ≤ 2 ^ 90) (hC3 : |C3| ≤ 2 ^ 90)
    (hp1 : |p1| ≤ 2 ^ 90) (hp2 : |p2| ≤ 2 ^ 90) (hp3 : |p3| ≤ 2 ^ 90)
    (hc : |c - Real.cos φ| ≤ 1 / 2 ^ 50) (hs : |s - Real.sin φ| ≤ 1 / 2 ^ 50)
    (hc' : |c' - Real.cos (-φ)| ≤ 1 / 2 ^ 50) (hs' : |s' - Real.sin (-φ)| ≤ 1 / 2 ^ 50)
    (hc0 : |c0 - Real.cos 0| ≤ 1 / 2 ^ 50) (hs0 : |s0 - Real.sin 0| ≤ 1 / 2 ^ 50) :
    (∃ t1 t2 t3 : ℝ,
      rotateD (rotateD ⟨Dbl.fin p1, Dbl.fin p2, Dbl.fin p3⟩ ⟨Dbl.fin 0, Dbl.fin 1, Dbl.fin 0⟩
          (Dbl.fin c) (Dbl.fin s)) ⟨Dbl.fin 0, Dbl.fin 1, Dbl.fin 0⟩ (Dbl.fin c') (Dbl.fin s')
        = ⟨Dbl.fin t1, Dbl.fin t2, Dbl.fin t3⟩ ∧
      |t1 - p1| ≤ (|p1| + |p2| + |p3|) / 2 ^ 40 + 1 / 2 ^ 900 ∧
      |t2 - p2| ≤ (|p1| + |p2| + |p3|) / 2 ^ 40 + 1 / 2 ^ 900 ∧
      |t3 - p3| ≤ (|p1| + |p2| + |p3|) / 2 ^ 40 + 1 / 2 ^ 900) ∧
    (∃ q1 q2 q3 : ℝ,
      rotatedPointD ⟨Dbl.fin C1, Dbl.fin C2, Dbl.fin C3⟩
          (Vec3D.add ⟨Dbl.fin C1, Dbl.fin C2, Dbl.fin C3⟩
            (rotateD ⟨Dbl.fin p1, Dbl.fin p2, Dbl.fin p3⟩ ⟨Dbl.fin 0, Dbl.fin 1, Dbl.fin 0⟩
              (Dbl.fin c) (Dbl.fin s)))
          (Dbl.fin c') (Dbl.fin s') = ⟨Dbl.fin q1, Dbl.fin q2, Dbl.fin q3⟩ ∧
      |q1 - p1| ≤ (|p1| + |p2| + |p3|) / 2 ^ 40 + (|C1| + |C2| + |C3|) / 2 ^ 49
        + 1 / 2 ^ 900 ∧
      |q2 - p2| ≤ (|p1| + |p2| + |p3|) / 2 ^ 40 + (|C1| + |C2| + |C3|) / 2 ^ 49
        + 1 / 2 ^ 900 ∧
      |q3 - p3| ≤ (|p1| + |p2| + |p3|) / 2 ^ 40 + (|C1| + |C2| + |C3|) / 2 ^ 49
        + 1 / 2 ^ 900) ∧
    (∃ q1 q2 q3 : ℝ,
      rotatedPointD ⟨Dbl.fin C1, Dbl.fin C2, Dbl.fin C3⟩
          (Vec3D.add ⟨Dbl.fin C1, Dbl.fin C2, Dbl.fin C3⟩
            ⟨Dbl.fin p1, Dbl.fin p2, Dbl.fin p3⟩)
          (Dbl.fin c0) (Dbl.fin s0) = ⟨Dbl.fin q1, Dbl.fin q2, Dbl.fin q3⟩ ∧
      |q1 - p1| ≤ (|p1| + |p2| + |p3|) / 2 ^ 40 + (|C1| + |C2| + |C3|) / 2 ^ 49
        + 1 / 2 ^ 900 ∧
      |q2 - p2| ≤ (|p1| + |p2| + |p3|) / 2 ^ 40 + (|C1| + |C2| + |C3|) / 2 ^ 49
        + 1 / 2 ^ 900 ∧
      |q3 - p3| ≤ (|p1| + |p2| + |p3|) / 2 ^ 40 + (|C1| + |C2| + |C3|) / 2 ^ 49
        + 1 / 2 ^ 900) := by
  obtain ⟨c1, s1, _⟩ := cos_sin_near φ c s hc hs
  obtain ⟨c1', s1', _⟩ := cos_sin_near (-φ) c' s' hc' hs'
  obtain ⟨c10, s10, _⟩ := cos_sin_near 0 c0 s0 hc0 hs0
  have e50 : (1 : ℝ) + 1 / 2 ^ 50 ≤ 3 / 2 := by norm_num
  have hcB : |c| ≤ 3 / 2 := by linarith only [c1, e50]
  have hsB : |s| ≤ 3 / 2 := by linarith only [s1, e50]
  have hcB' : |c'| ≤ 3 / 2 := by linarith only [c1', e50]
  have hsB' : |s'| ≤ 3 / 2 := by linarith only [s1', e50]
  have hcB0 : |c0| ≤ 3 / 2 := by linarith only [c10, e50]
  have hsB0 : |s0| ≤ 3 / 2 := by linarith only [s10, e50]
  have e100 : (2 : ℝ) ^ 90 ≤ 2 ^ 100 := by norm_num
  have e98 : (2 : ℝ) ^ 90 ≤ 2 ^ 98 := by norm_num
  have n1 := abs_nonneg p1
  have n2 := abs_nonneg p2
  have n3 := abs_nonneg p3
  have nC1 := abs_nonneg C1
  have nC2 := abs_nonneg C2
  have nC3 := abs_nonneg C3
  -- the rotation by `φ`
  obtain ⟨r1, r2, r3, hr, d1, d2, d3⟩ := rotateD_yaw p1 p2 p3 c s (le_trans hp1 e100)
    (le_trans hp2 e100) (le_trans hp3 e100) hcB (by linarith only [hsB])
  obtain ⟨z1, z2, z3⟩ := yaw_size c s p1 p2 p3 r1 r2 r3 _ hcB hsB d1 d2 d3
  have eE : (3 : ℝ) / 2 * (2 ^ 90 + 2 ^ 90 + 2 ^ 90)
      + (140 / 2 ^ 53 * (2 ^ 90 + 2 ^ 90 + 2 ^ 90) + 1 / 2 ^ 990) ≤ 2 ^ 98 := by norm_num
  have hr1 : |r1| ≤ 2 ^ 98 := by linarith only [z1, hp1, hp2, hp3, eE]
  have hr2 : |r2| ≤ 2 ^ 98 := by linarith only [z2, hp1, hp2, hp3, eE]
  have hr3 : |r3| ≤ 2 ^ 98 := by linarith only [z3, hp1, hp2, hp3, eE]
  have e98' : (2 : ℝ) ^ 98 ≤ 2 ^ 100 := by norm_num
  have hη : (2000 : ℝ) * (1 / 2 ^ 990) + 1 / 2 ^ 980 ≤ 1 / 2 ^ 900 := by norm_num
  have hη9 : (0 : ℝ) ≤ 1 / 2 ^ 990 := by positivity
  have hη8 : (0 : ℝ) ≤ 1 / 2 ^ 980 := by positivity
  refine ⟨?_, ?_, ?_⟩
  · -- the round trip
    obtain ⟨t1, t2, t3, ht, g1, g2, g3⟩ := rotateD_yaw r1 r2 r3 c' s' (le_trans hr1 e98')
      (le_trans hr2 e98') (le_trans hr3 e98') hcB' (by linarith only [hsB'])
    obtain ⟨k1, k2, k3⟩ := yaw_chain φ c s c' s' p1 p2 p3 r1 r2 r3 t1 t2 t3 _ _ hc hs hc' hs'
      d1 d2 d3 g1 g2 g3
    refine ⟨t1, t2, t3, by rw [hr]; exact ht, ?_, ?_, ?_⟩
    all_goals
      generalize |r1| = R1 at *
      generalize |r2| = R2 at *
      generalize |r3| = R3 at *
      generalize |p1| = P1 at *
      generalize |p2| = P2 at *
      generalize |p3| = P3 at *
      generalize (1 : ℝ) / 2 ^ 990 = η9 at *
      generalize (1 : ℝ) / 2 ^ 980 = η8 at *
      generalize (1 : ℝ) / 2 ^ 900 = η0 at *
      first
        | linarith only [k1, z1, z2, z3, hη, hη9, hη8, n1, n2, n3]
        | linarith only [k2, z1, z2, z3, hη, hη9, hη8, n1, n2, n3]
        | linarith only [k3, z1, z2, z3, hη, hη9, hη8, n1, n2, n3]
  · -- the point un-rotated at phase `φ`
    obtain ⟨q1, q2, q3, hq, g1, g2, g3⟩ := lookup_err C1 C2 C3 r1 r2 r3 c' s'
      (le_trans hC1 e98) (le_trans hC2 e98) (le_trans hC3 e98) hr1 hr2 hr3 hcB'
      (by linarith only [hsB'])
    obtain ⟨k1, k2, k3⟩ := yaw_chain φ c s c' s' p1 p2 p3 r1 r2 r3 q1 q2 q3 _ _ hc hs hc' hs'
      d1 d2 d3 g1 g2 g3
    refine ⟨q1, q2, q3, by rw [hr]; exact hq, ?_, ?_, ?_⟩
    all_goals
      generalize |r1| = R1 at *
      generalize |r2| = R2 at *
      generalize |r3| = R3 at *
      generalize |p1| = P1 at *
      generalize |p2| = P2 at *
      generalize |p3| = P3 at *
      generalize |C1| = A1 at *
      generalize |C2| = A2 at *
      generalize |C3| = A3 at *
      generalize (1 : ℝ) / 2 ^ 990 = η9 at *
      generalize (1 : ℝ) / 2 ^ 980 = η8 at *
      generalize (1 : ℝ) / 2 ^ 900 = η0 at *
      first
        | linarith only [k1, z1, z2, z3, hη, hη9, hη8, n1, n2, n3, nC1, nC2, nC3]
        | linarith only [k2, z1, z2, z3, hη, hη9, hη8, n1, n2, n3, nC1, nC2, nC3]
        | linarith only [k3, z1, z2, z3, hη, hη9, hη8, n1, n2, n3, nC1, nC2, nC3]
  · -- the point un-rotated at phase `0`
    obtain ⟨q1, q2, q3, hq, g1, g2, g3⟩ := lookup_err C1 C2 C3 p1 p2 p3 c0 s0
      (le_trans hC1 e98) (le_trans hC2 e98) (le_trans hC3 e98) (le_trans hp1 e98)
      (le_trans hp2 e98) (le_trans hp3 e98) hcB0 (by linarith only [hsB0])
    rw [Real.cos_zero] at hc0
    rw [Real.sin_zero, sub_zero] at hs0
    have m1 := abs_mul_le_of (c0 - 1) p1 _ _ hc0 (le_refl |p1|)
    have m2 := abs_mul_le_of s0 p3 _ _ hs0 (le_refl |p3|)
    have m3 := abs_mul_le_of s0 p1 _ _ hs0 (le_refl |p1|)
    have m4 := abs_mul_le_of (c0 - 1) p3 _ _ hc0 (le_refl |p3|)
    have u1 : |c0 * p1 + s0 * p3 - p1| ≤ 1 / 2 ^ 50 * |p1| + 1 / 2 ^ 50 * |p3| := by
      have e : c0 * p1 + s0 * p3 - p1 = (c0 - 1) * p1 + s0 * p3 := by ring
      rw [e]
      exact le_trans (abs_add _ _) (add_le_add m1 m2)
    have u3 : |-(s0 * p1) + c0 * p3 - p3| ≤ 1 / 2 ^ 50 * |p1| + 1 / 2 ^ 50 * |p3| := by
      have e : -(s0 * p1) + c0 * p3 - p3 = -(s0 * p1) + (c0 - 1) * p3 := by ring
      rw [e]
      refine le_trans (abs_add _ _) (add_le_add ?_ m4)
      rwa [abs_neg]
    have a1 := abs_sub_le q1 (c0 * p1 + s0 * p3) p1
    have a3 := abs_sub_le q3 (-(s0 * p1) + c0 * p3) p3
    refine ⟨q1, q2, q3, hq, ?_, ?_, ?_⟩
    all_goals
      generalize |p1| = P1 at *
      generalize |p2| = P2 at *
      generalize |p3| = P3 at *
      generalize |C1| = A1 at *
      generalize |C2| = A2 at *
      generalize |C3| = A3 at *
      generalize (1 : ℝ) / 2 ^ 990 = η9 at *
      generalize (1 : ℝ) / 2 ^ 980 = η8 at *
      generalize (1 : ℝ) / 2 ^ 900 = η0 at *
      first
        | linarith only [a1, g1, u1, hη, hη9, hη8, n1, n2, n3, nC1, nC2, nC3]
        | linarith only [g2, hη, hη9, hη8, n1, n2, n3, nC1, nC2, nC3]
        | linarith only [a3, g3, u3, hη, hη9, hη8, n1, n2, n3, nC1, nC2, nC3]

/-! ### A quarter turn and back in double precision

The evaluation, operation by operation, of `rotate(rotate(p, (0,1,0), φ), (0,1,0), -φ)` for
`p = (1, 0, 1)` with the values `c = 6.123233995736766e-17`, `s = 1` for the first call and
`c' = 6.123233995736766e-17`, `s' = -1` for the second, which are the `double`s nearest to the
cosine and the sine of the `double` nearest to `π / 2` and of its negative. -/

lemma turnback_ev1 : Dbl.round (1 - (4967757600021511 * 2 ^ (-106 : ℤ))) = Dbl.fin (9007199254740991 * 2 ^ (-53 : ℤ)) :=
  Dbl.round_eq_fin _ _
    (rnd_eq_of_pos' _ _ (-1) 9007199254740991 (by norm_num) (by norm_num) (by norm_num) (by norm_num)
      (by norm_num) (by norm_num))
    (abs_lt_two_pow_1024 _ 1 (by norm_num) (by norm_num [abs_lt]))

lemma turnback_ev2 : Dbl.round ((9007199254740991 * 2 ^ (-53 : ℤ)) * 0) = Dbl.fin 0 := by
  rw [show ((9007199254740991 * 2 ^ (-53 : ℤ)) * 0 : ℝ) = 0 by norm_num]
  exact Dbl.round_zero

lemma turnback_ev3 : Dbl.round (0 * 0) = Dbl.fin 0 := by
  rw [show (0 * 0 : ℝ) = 0 by norm_num]
  exact Dbl.round_zero

lemma turnback_ev4 : Dbl.round ((4967757600021511 * 2 ^ (-106 : ℤ)) + 0) = Dbl.fin (4967757600021511 * 2 ^ (-106 : ℤ)) :=
  Dbl.round_eq_fin _ _
    (rnd_eq_of_pos' _ _ (-54) 4967757600021511 (by norm_num) (by norm_num) (by norm_num) (by norm_num)
      (by norm_num) (by norm_num))
    (abs_lt_two_pow_1024 _ (-52) (by norm_num) (by norm_num [abs_lt]))

lemma turnback_ev5 : Dbl.round (0 * 1) = Dbl.fin 0 := by
  rw [show (0 * 1 : ℝ) = 0 by norm_num]
  exact Dbl.round_zero

lemma turnback_ev6 : Dbl.round (1 * 0) = Dbl.fin 0 := by
  rw [show (1 * 0 : ℝ) = 0 by norm_num]
  exact Dbl.round_zero

lemma turnback_ev7 : Dbl.round (0 - 0) = Dbl.fin 0 := by
  rw [show (0 - 0 : ℝ) = 0 by norm_num]
  exact Dbl.round_zero

lemma turnback_ev8 : Dbl.round (1 * 1) = Dbl.fin 1 :=
  Dbl.round_eq_fin _ _
    (rnd_eq_of_pos' _ _ 0 4503599627370496 (by norm_num) (by norm_num) (by norm_num) (by norm_num)
      (by norm_num) (by norm_num))
    (abs_lt_two_pow_1024 _ 2 (by norm_num) (by norm_num [abs_lt]))

lemma turnback_ev9 : Dbl.round (0 + 1) = Dbl.fin 1 :=
  Dbl.round_eq_fin _ _
    (rnd_eq_of_pos' _ _ 0 4503599627370496 (by norm_num) (by norm_num) (by norm_num) (by norm_num)
      (by norm_num) (by norm_num))
    (abs_lt_two_pow_1024 _ 2 (by norm_num) (by norm_num [abs_lt]))

lemma turnback_ev10 : Dbl.round ((9007199254740991 * 2 ^ (-53 : ℤ)) * 1) = Dbl.fin (9007199254740991 * 2 ^ (-53 : ℤ)) :=
  Dbl.round_eq_fin _ _
    (rnd_eq_of_pos' _ _ (-1) 9007199254740991 (by norm_num) (by norm_num) (by norm_num) (by norm_num)
      (by norm_num) (by norm_num))
    (abs_lt_two_pow_1024 _ 1 (by norm_num) (by norm_num [abs_lt]))

lemma turnback_ev11 : Dbl.round (0 + 0) = Dbl.fin 0 := by
  rw [show (0 + 0 : ℝ) = 0 by norm_num]
  exact Dbl.round_zero

lemma turnback_ev12 : Dbl.round ((4967757600021511 * 2 ^ (-106 : ℤ)) + (9007199254740991 * 2 ^ (-53 : ℤ))) = Dbl.fin 1 :=
  Dbl.round_eq_fin _ _
    (rnd_eq_of_pos' _ _ (-1) 9007199254740992 (by norm_num) (by norm_num) (by norm_num) (by norm_num)
      (by norm_num) (by norm_num))
    (abs_lt_two_pow_1024 _ 1 (by norm_num) (by norm_num [abs_lt]))

lemma turnback_ev13 : Dbl.round (0 - 1) = Dbl.fin (-1) :=
  Dbl.round_eq_fin _ _
    (rnd_eq_of_neg' _ _ 0 4503599627370496 (by norm_num) (by norm_num) (by norm_num) (by norm_num)
      (by norm_num) (by norm_num))
    (abs_lt_two_pow_1024 _ 2 (by norm_num) (by norm_num [abs_lt]))

lemma turnback_ev14 : Dbl.round (1 * (4967757600021511 * 2 ^ (-106 : ℤ))) = Dbl.fin (4967757600021511 * 2 ^ (-106 : ℤ)) :=
  Dbl.round_eq_fin _ _
    (rnd_eq_of_pos' _ _ (-54) 4967757600021511 (by norm_num) (by norm_num) (by norm_num) (by norm_num)
      (by norm_num) (by norm_num))
    (abs_lt_two_pow_1024 _ (-52) (by norm_num) (by norm_num [abs_lt]))

lemma turnback_ev15 : Dbl.round ((4967757600021511 * 2 ^ (-106 : ℤ)) + 1) = Dbl.fin 1 :=
  Dbl.round_eq_fin _ _
    (rnd_eq_of_pos' _ _ 0 4503599627370496 (by norm_num) (by norm_num) (by norm_num) (by norm_num)
      (by norm_num) (by norm_num))
    (abs_lt_two_pow_1024 _ 2 (by norm_num) (by norm_num [abs_lt]))

lemma turnback_ev16 : Dbl.round (1 * (-1)) = Dbl.fin (-1) :=
  Dbl.round_eq_fin _ _
    (rnd_eq_of_neg' _ _ 0 4503599627370496 (by norm_num) (by norm_num) (by norm_num) (by norm_num)
      (by norm_num) (by norm_num))
    (abs_lt_two_pow_1024 _ 2 (by norm_num) (by norm_num [abs_lt]))

lemma turnback_ev17 : Dbl.round ((-1) + 0) = Dbl.fin (-1) :=
  Dbl.round_eq_fin _ _
    (rnd_eq_of_neg' _ _ 0 4503599627370496 (by norm_num) (by norm_num) (by norm_num) (by norm_num)
      (by norm_num) (by norm_num))
    (abs_lt_two_pow_1024 _ 2 (by norm_num) (by norm_num [abs_lt]))

lemma turnback_ev18 : Dbl.round ((-1) + (4967757600021511 * 2 ^ (-106 : ℤ))) = Dbl.fin (-(9007199254740991 * 2 ^ (-53 : ℤ))) :=
  Dbl.round_eq_fin _ _
    (rnd_eq_of_neg' _ _ (-1) 9007199254740991 (by norm_num) (by norm_num) (by norm_num) (by norm_num)
      (by norm_num) (by norm_num))
    (abs_lt_two_pow_1024 _ 1 (by norm_num) (by norm_num [abs_lt]))

lemma turnback_ev19 : Dbl.round ((-1) * 0) = Dbl.fin 0 := by
  rw [show ((-1) * 0 : ℝ) = 0 by norm_num]
  exact Dbl.round_zero

lemma turnback_ev20 : Dbl.round ((-1) * 1) = Dbl.fin (-1) :=
  Dbl.round_eq_fin _ _
    (rnd_eq_of_neg' _ _ 0 4503599627370496 (by norm_num) (by norm_num) (by norm_num) (by norm_num)
      (by norm_num) (by norm_num))
    (abs_lt_two_pow_1024 _ 2 (by norm_num) (by norm_num [abs_lt]))

lemma turnback_ev21 : Dbl.round (0 + (-1)) = Dbl.fin (-1) :=
  Dbl.round_eq_fin _ _
    (rnd_eq_of_neg' _ _ 0 4503599627370496 (by norm_num) (by norm_num) (by norm_num) (by norm_num)
      (by norm_num) (by norm_num))
    (abs_lt_two_pow_1024 _ 2 (by norm_num) (by norm_num [abs_lt]))

lemma turnback_ev22 : Dbl.round (0 - (-1)) = Dbl.fin 1 :=
  Dbl.round_eq_fin _ _
    (rnd_eq_of_pos' _ _ 0 4503599627370496 (by norm_num) (by norm_num) (by norm_num) (by norm_num)
      (by norm_num) (by norm_num))
    (abs_lt_two_pow_1024 _ 2 (by norm_num) (by norm_num [abs_lt]))

lemma turnback_ev23 : Dbl.round ((-(9007199254740991 * 2 ^ (-53 : ℤ))) * (-1)) = Dbl.fin (9007199254740991 * 2 ^ (-53 : ℤ)) :=
  Dbl.round_eq_fin _ _
    (rnd_eq_of_pos' _ _ (-1) 9007199254740991 (by norm_num) (by norm_num) (by norm_num) (by norm_num)
      (by norm_num) (by norm_num))
    (abs_lt_two_pow_1024 _ 1 (by norm_num) (by norm_num [abs_lt]))

lemma turnback_ev24 : Dbl.round ((-(9007199254740991 * 2 ^ (-53 : ℤ))) * 0) = Dbl.fin 0 := by
  rw [show ((-(9007199254740991 * 2 ^ (-53 : ℤ))) * 0 : ℝ) = 0 by norm_num]
  exact Dbl.round_zero

lemma turnback_ev25 : Dbl.round (1 + 0) = Dbl.fin 1 :=
  Dbl.round_eq_fin _ _
    (rnd_eq_of_pos' _ _ 0 4503599627370496 (by norm_num) (by norm_num) (by norm_num) (by norm_num)
      (by norm_num) (by norm_num))
    (abs_lt_two_pow_1024 _ 2 (by norm_num) (by norm_num [abs_lt]))

lemma turnback_ev26 : Dbl.round ((-(9007199254740991 * 2 ^ (-53 : ℤ))) * (4967757600021511 * 2 ^ (-106 : ℤ))) = Dbl.fin (-(2483878800010755 * 2 ^ (-105 : ℤ))) :=
  Dbl.round_eq_fin _ _
    (rnd_eq_of_neg' _ _ (-54) 4967757600021510 (by norm_num) (by norm_num) (by norm_num) (by norm_num)
      (by norm_num) (by norm_num))
    (abs_lt_two_pow_1024 _ (-52) (by norm_num) (by norm_num [abs_lt]))

lemma turnback_ev27 : Dbl.round (1 + (-(2483878800010755 * 2 ^ (-105 : ℤ)))) = Dbl.fin (9007199254740991 * 2 ^ (-53 : ℤ)) :=
  Dbl.round_eq_fin _ _
    (rnd_eq_of_pos' _ _ (-1) 9007199254740991 (by norm_num) (by norm_num) (by norm_num) (by norm_num)
      (by norm_num) (by norm_num))
    (abs_lt_two_pow_1024 _ 1 (by norm_num) (by norm_num [abs_lt]))

/-- The quarter turn of `(1, 0, 1)` about `(0, 1, 0)` and back, in double precision. -/
lemma turnback_scene :
    rotateD (rotateD ⟨Dbl.fin 1, Dbl.fin 0, Dbl.fin 1⟩ ⟨Dbl.fin 0, Dbl.fin 1, Dbl.fin 0⟩
        (Dbl.fin (4967757600021511 * 2 ^ (-106 : ℤ))) (Dbl.fin 1)) ⟨Dbl.fin 0, Dbl.fin 1, Dbl.fin 0⟩
        (Dbl.fin (4967757600021511 * 2 ^ (-106 : ℤ))) (Dbl.fin (-1))
      = ⟨Dbl.fin 1, Dbl.fin 0, Dbl.fin (9007199254740991 * 2 ^ (-53 : ℤ))⟩ := by
  have h1 : rotateD ⟨Dbl.fin 1, Dbl.fin 0, Dbl.fin 1⟩ ⟨Dbl.fin 0, Dbl.fin 1, Dbl.fin 0⟩
      (Dbl.fin (4967757600021511 * 2 ^ (-106 : ℤ))) (Dbl.fin 1)
      = ⟨Dbl.fin 1, Dbl.fin 0, Dbl.fin (-(9007199254740991 * 2 ^ (-53 : ℤ)))⟩ := by
    unfold rotateD
    simp only []
    rw [normalize_unit_y]
    simp only [Dbl.round_one, Dbl.sub, Dbl.mul, Dbl.add,
      turnback_ev1, turnback_ev2, turnback_ev3, turnback_ev4, turnback_ev5, turnback_ev6,
      turnback_ev7, turnback_ev8, turnback_ev9, turnback_ev10, turnback_ev11, turnback_ev12,
      turnback_ev13, turnback_ev14, turnback_ev15, turnback_ev16, turnback_ev17, turnback_ev18,
      turnback_ev19, turnback_ev20, turnback_ev21, turnback_ev22, turnback_ev23, turnback_ev24,
      turnback_ev25, turnback_ev26, turnback_ev27]
  rw [h1]
  unfold rotateD
  simp only []
  rw [normalize_unit_y]
  simp only [Dbl.round_one, Dbl.sub, Dbl.mul, Dbl.add,
      turnback_ev1, turnback_ev2, turnback_ev3, turnback_ev4, turnback_ev5, turnback_ev6,
      turnback_ev7, turnback_ev8, turnback_ev9, turnback_ev10, turnback_ev11, turnback_ev12,
      turnback_ev13, turnback_ev14, turnback_ev15, turnback_ev16, turnback_ev17, turnback_ev18,
      turnback_ev19, turnback_ev20, turnback_ev21, turnback_ev22, turnback_ev23, turnback_ev24,
      turnback_ev25, turnback_ev26, turnback_ev27]

/-- C10 as stated fails. In double precision the round trip
`rotate(rotate(p, (0,1,0), φ), (0,1,0), -φ)` does not give back `p`: for `p = (1, 0, 1)` and the
values `c = 6.123233995736766e-17`, `s = 1`, which are within `2^-50` of the cosine and the sine
of `π / 2`, and `c' = 6.123233995736766e-17`, `s' = -1`, which are within `2^-50` of those of
`-π / 2`, the result is `(1, 0, 1 - 2^-53)`. -/
theorem texture_round_trip_counterexample :
    (|(4967757600021511 * 2 ^ (-106 : ℤ) : ℝ) - Real.cos (Real.pi / 2)| ≤ 1 / 2 ^ 50 ∧
      |(1 : ℝ) - Real.sin (Real.pi / 2)| ≤ 1 / 2 ^ 50 ∧
      |(4967757600021511 * 2 ^ (-106 : ℤ) : ℝ) - Real.cos (-(Real.pi / 2))| ≤ 1 / 2 ^ 50 ∧
      |(-1 : ℝ) - Real.sin (-(Real.pi / 2))| ≤ 1 / 2 ^ 50) ∧
    rotateD (rotateD ⟨Dbl.fin 1, Dbl.fin 0, Dbl.fin 1⟩ ⟨Dbl.fin 0, Dbl.fin 1, Dbl.fin 0⟩
        (Dbl.fin (4967757600021511 * 2 ^ (-106 : ℤ))) (Dbl.fin 1))
        ⟨Dbl.fin 0, Dbl.fin 1, Dbl.fin 0⟩
        (Dbl.fin (4967757600021511 * 2 ^ (-106 : ℤ))) (Dbl.fin (-1))
      = ⟨Dbl.fin 1, Dbl.fin 0, Dbl.fin (9007199254740991 * 2 ^ (-53 : ℤ))⟩ ∧
    (9007199254740991 * 2 ^ (-53 : ℤ) : ℝ) ≠ 1 := by
  refine ⟨⟨?_, ?_, ?_, ?_⟩, turnback_scene, by norm_num⟩
  · rw [Real.cos_pi_div_two, sub_zero, abs_of_nonneg (by positivity)]
    norm_num
  · rw [Real.sin_pi_div_two]
    norm_num
  · rw [Real.cos_neg, Real.cos_pi_div_two, sub_zero, abs_of_nonneg (by positivity)]
    norm_num
  · rw [Real.sin_neg, Real.sin_pi_div_two]
    norm_num

/-- An instance of C10 (amended): the planet centre `(0, 0, 5)`, the offset `(1, 2, 2)` and the
phase `π / 2`, with `c = 0`, `s = 1` for the angle `π / 2`, `c' = 0`, `s' = -1` for the angle
`-π / 2` and `c0 = 1`, `s0 = 0` for the angle `0`. -/
theorem texture_fixed_to_body_double_witness :
    (|(0 : ℝ)| ≤ 2 ^ 90 ∧ |(5 : ℝ)| ≤ 2 ^ 90 ∧ |(1 : ℝ)| ≤ 2 ^ 90 ∧ |(2 : ℝ)| ≤ 2 ^ 90 ∧
      |(0 : ℝ) - Real.cos (Real.pi / 2)| ≤ 1 / 2 ^ 50 ∧
      |(1 : ℝ) - Real.sin (Real.pi / 2)| ≤ 1 / 2 ^ 50 ∧
      |(0 : ℝ) - Real.cos (-(Real.pi / 2))| ≤ 1 / 2 ^ 50 ∧
      |(-1 : ℝ) - Real.sin (-(Real.pi / 2))| ≤ 1 / 2 ^ 50 ∧
      |(1 : ℝ) - Real.cos 0| ≤ 1 / 2 ^ 50 ∧ |(0 : ℝ) - Real.sin 0| ≤ 1 / 2 ^ 50) ∧
    ((∃ t1 t2 t3 : ℝ,
      rotateD (rotateD ⟨Dbl.fin 1, Dbl.fin 2, Dbl.fin 2⟩ ⟨Dbl.fin 0, Dbl.fin 1, Dbl.fin 0⟩
          (Dbl.fin 0) (Dbl.fin 1)) ⟨Dbl.fin 0, Dbl.fin 1, Dbl.fin 0⟩ (Dbl.fin 0) (Dbl.fin (-1))
        = ⟨Dbl.fin t1, Dbl.fin t2, Dbl.fin t3⟩ ∧
      |t1 - 1| ≤ (|(1 : ℝ)| + |(2 : ℝ)| + |(2 : ℝ)|) / 2 ^ 40 + 1 / 2 ^ 900 ∧
      |t2 - 2| ≤ (|(1 : ℝ)| + |(2 : ℝ)| + |(2 : ℝ)|) / 2 ^ 40 + 1 / 2 ^ 900 ∧
      |t3 - 2| ≤ (|(1 : ℝ)| + |(2 : ℝ)| + |(2 : ℝ)|) / 2 ^ 40 + 1 / 2 ^ 900) ∧
    (∃ q1 q2 q3 : ℝ,
      rotatedPointD ⟨Dbl.fin 0, Dbl.fin 0, Dbl.fin 5⟩
          (Vec3D.add ⟨Dbl.fin 0, Dbl.fin 0, Dbl.fin 5⟩
            (rotateD ⟨Dbl.fin 1, Dbl.fin 2, Dbl.fin 2⟩ ⟨Dbl.fin 0, Dbl.fin 1, Dbl.fin 0⟩
              (Dbl.fin 0) (Dbl.fin 1)))
          (Dbl.fin 0) (Dbl.fin (-1)) = ⟨Dbl.fin q1, Dbl.fin q2, Dbl.fin q3⟩ ∧
      |q1 - 1| ≤ (|(1 : ℝ)| + |(2 : ℝ)| + |(2 : ℝ)|) / 2 ^ 40
        + (|(0 : ℝ)| + |(0 : ℝ)| + |(5 : ℝ)|) / 2 ^ 49 + 1 / 2 ^ 900 ∧
      |q2 - 2| ≤ (|(1 : ℝ)| + |(2 : ℝ)| + |(2 : ℝ)|) / 2 ^ 40
        + (|(0 : ℝ)| + |(0 : ℝ)| + |(5 : ℝ)|) / 2 ^ 49 + 1 / 2 ^ 900 ∧
      |q3 - 2| ≤ (|(1 : ℝ)| + |(2 : ℝ)| + |(2 : ℝ)|) / 2 ^ 40
        + (|(0 : ℝ)| + |(0 : ℝ)| + |(5 : ℝ)|) / 2 ^ 49 + 1 / 2 ^ 900) ∧
    (∃ q1 q2 q3 : ℝ,
      rotatedPointD ⟨Dbl.fin 0, Dbl.fin 0, Dbl.fin 5⟩
          (Vec3D.add ⟨Dbl.fin 0, Dbl.fin 0, Dbl.fin 5⟩
            ⟨Dbl.fin 1, Dbl.fin 2, Dbl.fin 2⟩)
          (Dbl.fin 1) (Dbl.fin 0) = ⟨Dbl.fin q1, Dbl.fin q2, Dbl.fin q3⟩ ∧
      |q1 - 1| ≤ (|(1 : ℝ)| + |(2 : ℝ)| + |(2 : ℝ)|) / 2 ^ 40
        + (|(0 : ℝ)| + |(0 : ℝ)| + |(5 : ℝ)|) / 2 ^ 49 + 1 / 2 ^ 900 ∧
      |q2 - 2| ≤ (|(1 : ℝ)| + |(2 : ℝ)| + |(2 : ℝ)|) / 2 ^ 40
        + (|(0 : ℝ)| + |(0 : ℝ)| + |(5 : ℝ)|) / 2 ^ 49 + 1 / 2 ^ 900 ∧
      |q3 - 2| ≤ (|(1 : ℝ)| + |(2 : ℝ)| + |(2 : ℝ)|) / 2 ^ 40
        + (|(0 : ℝ)| + |(0 : ℝ)| + |(5 : ℝ)|) / 2 ^ 49 + 1 / 2 ^ 900)) := by
  have h0 : |(0 : ℝ)| ≤ 2 ^ 90 := by norm_num
  have h5 : |(5 : ℝ)| ≤ 2 ^ 90 := by norm_num
  have h1 : |(1 : ℝ)| ≤ 2 ^ 90 := by norm_num
  have h2 : |(2 : ℝ)| ≤ 2 ^ 90 := by norm_num
  have hc : |(0 : ℝ) - Real.cos (Real.pi / 2)| ≤ 1 / 2 ^ 50 := by
    rw [Real.cos_pi_div_two]; norm_num
  have hs : |(1 : ℝ) - Real.sin (Real.pi / 2)| ≤ 1 / 2 ^ 50 := by
    rw [Real.sin_pi_div_two]; norm_num
  have hc' : |(0 : ℝ) - Real.cos (-(Real.pi / 2))| ≤ 1 / 2 ^ 50 := by
    rw [Real.cos_neg, Real.cos_pi_div_two]; norm_num
  have hs' : |(-1 : ℝ) - Real.sin (-(Real.pi / 2))| ≤ 1 / 2 ^ 50 := by
    rw [Real.sin_neg, Real.sin_pi_div_two]; norm_num
  have hc0 : |(1 : ℝ) - Real.cos 0| ≤ 1 / 2 ^ 50 := by
    rw [Real.cos_zero]; norm_num
  have hs0 : |(0 : ℝ) - Real.sin 0| ≤ 1 / 2 ^ 50 := by
    rw [Real.sin_zero]; norm_num
  exact ⟨⟨h0, h5, h1, h2, hc, hs, hc', hs', hc0, hs0⟩,
    texture_fixed_to_body_double 0 0 5 1 2 2 (Real.pi / 2) 0 1 0 (-1) 1 0 h0 h0 h5 h1 h2 h2
      hc hs hc' hs' hc0 hs0⟩
